import Mathlib

/-!
# Thermal-FIST: Broyden solver, excluded-volume cross-terms model, PCE controller

A shallow embedding of

* `src/libraries/HRGBase/Broyden.cpp`
* `src/libraries/HRGEV/ThermalModelEVCrossterms.cpp`
* `src/library/HRGPCE/ThermalModelPCE.cpp`

Conventions of the embedding.

* `double` is the field `ℚ` (exact arithmetic).  Division is the field division of `ℚ`,
  in which a quotient by zero is `0`, whereas the code obtains an infinite value or a value
  that is not a number; a statement about the value of a quotient is a statement about
  the code only where the divisor is nonzero.  Where the sources divide without a test
  and the quotient decides what happens next, the value that is not a finite number is
  shown: `maxRel` is `none` for `+inf`, and the state of the solver loop carries the flag
  `finite`.
* `std::vector<double>` arguments and results of `Broyden::Solve` are `List ℚ`, so that
  a vector of the wrong length can be expressed.  Inside the solver the Eigen vectors are
  functions `Fin N → ℚ` and the Eigen matrices are `Matrix (Fin N) (Fin N) ℚ`.
* `exit(1)` is the outcome `Outcome.exit`.  An Eigen operation or a vector access whose
  sizes do not fit is the outcome `Outcome.undefined`.
-/

namespace thermalfist

/-! ## Outcomes, vectors and matrices -/

/-- How a call ends: the process is terminated by `exit(1)`, the call runs into an
operation on vectors or matrices of mismatching sizes, or it returns a value. -/
inductive Outcome (α : Type) where
  | exit : Outcome α
  | undefined : Outcome α
  | ret : α → Outcome α

/-- The call returned (it neither terminated the process nor ran into mismatching sizes). -/
def Outcome.returns {α : Type} : Outcome α → Prop
  | .ret _ => True
  | _ => False

/-- Sequencing of two calls: when the first call returns, the second runs on its value;
when the first call ends the process or is undefined, so does the sequence. -/
def Outcome.bind {α β : Type} (o : Outcome α) (f : α → Outcome β) : Outcome β :=
  match o with
  | Outcome.exit => Outcome.exit
  | Outcome.undefined => Outcome.undefined
  | Outcome.ret a => f a

/-- The value of a call that returns; `d` otherwise. -/
def Outcome.getD {α : Type} (o : Outcome α) (d : α) : α :=
  match o with
  | Outcome.ret a => a
  | _ => d

/-- An `Eigen::MatrixXd` holding a square matrix: its size and its coefficients.  Only the
coefficients with both indices below `size` are meaningful. -/
structure MatrixXd where
  size : ℕ
  coeff : ℕ → ℕ → ℚ

/-- The `N × N` matrix stored in a `MatrixXd` (meaningful when `J.size = N`). -/
def MatrixXd.toMatrix (J : MatrixXd) (N : ℕ) : Matrix (Fin N) (Fin N) ℚ :=
  Matrix.of fun i j => J.coeff i.val j.val

/-- Store an `N × N` matrix in a `MatrixXd`. -/
def MatrixXd.ofMatrix {N : ℕ} (M : Matrix (Fin N) (Fin N) ℚ) : MatrixXd where
  size := N
  coeff := fun i j => if h : i < N ∧ j < N then M ⟨i, h.1⟩ ⟨j, h.2⟩ else 0

/-- Eigen `determinant()`. -/
def MatrixXd.determinant (J : MatrixXd) : ℚ :=
  (J.toMatrix J.size).det

/-- Eigen `inverse()` in exact arithmetic: the adjugate divided by the determinant. -/
def inverse {N : ℕ} (M : Matrix (Fin N) (Fin N) ℚ) : Matrix (Fin N) (Fin N) ℚ :=
  (M.det)⁻¹ • M.adjugate

/-- Read a `std::vector<double>` as an Eigen vector of size `N`
(`VectorXd::Map(&x[0], x.size())`, meaningful when `x.length = N`). -/
def ofVector (N : ℕ) (x : List ℚ) : Fin N → ℚ :=
  fun i => x.getD i.val 0

/-- Write an Eigen vector into a `std::vector<double>`. -/
def toVector {N : ℕ} (v : Fin N → ℚ) : List ℚ :=
  List.ofFn v

/-- The loop `maxdiff = 0; for (i < n) maxdiff = std::max(maxdiff, fabs(f[i]))`. -/
def maxAbs (n : ℕ) (f : List ℚ) : ℚ :=
  (List.range n).foldl (fun maxdiff i => max maxdiff |f.getD i 0|) 0

/-- The loop `maxdiff = 0; for (i < n) maxdiff = std::max(maxdiff, fabs(f[i]) / x[i])`.
The value `none` is `+inf`: the quotient of a nonzero `fabs(f[i])` by `x[i] == 0` is
`+inf`, and `std::max(+inf, b)` is `+inf` for every `b`.  For `f[i] == 0` and `x[i] == 0`
the quotient is not a number, the comparison `maxdiff < NaN` of `std::max` is false and
`maxdiff` is kept. -/
def maxRel (n : ℕ) (f x : List ℚ) : Option ℚ :=
  (List.range n).foldl
    (fun maxdiff i =>
      match maxdiff with
      | none => none
      | some m =>
        if x.getD i 0 = 0 then (if f.getD i 0 = 0 then some m else none)
        else some (max m (|f.getD i 0| / x.getD i 0)))
    (some 0)

/-! ## Broyden.cpp -/

/-- `BroydenJacobian::EPS`. -/
def BroydenJacobian.EPS : ℚ := 1 / 1000000

/-- `Broyden::TOL`. -/
def Broyden.TOL : ℚ := 1 / 10000000000

/-- `Broyden::MAX_ITERS`. -/
def Broyden.MAX_ITERS : Int := 200

/-- An object of a class derived from `BroydenEquations`: the dimension `m_N` and the
virtual method `Equations`, a map from `m_N` unknowns to `m_N` residuals. -/
structure BroydenEquations where
  m_N : ℕ
  Equations : (Fin m_N → ℚ) → (Fin m_N → ℚ)

/-- `BroydenEquations::Dimension()`. -/
def BroydenEquations.Dimension (eqs : BroydenEquations) : ℕ := eqs.m_N

/-- The data members of a `BroydenJacobian` object: the equations it differentiates
(`none` is the null pointer) and the perturbation scale `m_dx`. -/
structure BroydenJacobian where
  m_Equations : Option BroydenEquations
  m_dx : ℚ

/-- The step `h[j]` of `BroydenJacobian::Jacobian`: `m_dx * abs(x[j])`, replaced by `m_dx`
when that is zero. -/
def BroydenJacobian.h (m_dx : ℚ) {N : ℕ} (x : Fin N → ℚ) (j : Fin N) : ℚ :=
  if m_dx * |x j| = 0 then m_dx else m_dx * |x j|

/-- The perturbed point `xh[i]` of `BroydenJacobian::Jacobian`: `x` with `h[i]` added to
component `i`. -/
def BroydenJacobian.xh (m_dx : ℚ) {N : ℕ} (x : Fin N → ℚ) (i : Fin N) : Fin N → ℚ :=
  fun j => if i ≠ j then x j else x j + BroydenJacobian.h m_dx x j

/-- `BroydenJacobian::Jacobian`: the forward-difference Jacobian. -/
def BroydenJacobian.Jacobian (self : BroydenJacobian) (x : List ℚ) : Outcome MatrixXd :=
  match self.m_Equations with
  | none => Outcome.exit
  | some eqs =>
    if eqs.Dimension ≠ x.length then Outcome.exit
    else
      let xv : Fin eqs.m_N → ℚ := ofVector eqs.m_N x
      let fx := eqs.Equations xv
      Outcome.ret (MatrixXd.ofMatrix (Matrix.of fun i j =>
        (eqs.Equations (BroydenJacobian.xh self.m_dx xv j) i - fx i)
          / BroydenJacobian.h self.m_dx xv j))

/-- A `BroydenJacobian*` seen through virtual dispatch: an object of the base class, or
an object of a derived class that overrides `Jacobian`. -/
inductive JacobianRef where
  | base (jac : BroydenJacobian)
  | derived (Jacobian : List ℚ → Outcome MatrixXd)

/-- The virtual call `JacobianInUse->Jacobian(x)`. -/
def JacobianRef.Jacobian : JacobianRef → List ℚ → Outcome MatrixXd
  | .base jac, x => jac.Jacobian x
  | .derived J, x => J x

/-- The data member of a `Broyden::BroydenSolutionCriterium` object. -/
structure BroydenSolutionCriterium where
  m_RelativeError : ℚ

/-- `Broyden::BroydenSolutionCriterium::IsSolved`. -/
def BroydenSolutionCriterium.IsSolved (self : BroydenSolutionCriterium)
    (x f _xdelta : List ℚ) : Bool :=
  decide (maxAbs x.length f < self.m_RelativeError)

/-- A `BroydenSolutionCriterium*` seen through virtual dispatch. -/
inductive SolutionCriteriumRef where
  | base (crit : BroydenSolutionCriterium)
  | derived (IsSolved : List ℚ → List ℚ → List ℚ → Bool)

/-- The virtual call `SolutionCriterium->IsSolved(x, f, xdelta)`. -/
def SolutionCriteriumRef.IsSolved : SolutionCriteriumRef → List ℚ → List ℚ → List ℚ → Bool
  | .base crit, x, f, xdelta => crit.IsSolved x f xdelta
  | .derived P, x, f, xdelta => P x f xdelta

/-- The data members of a `Broyden` object. -/
structure Broyden where
  m_Equations : Option BroydenEquations
  m_Jacobian : Option JacobianRef
  m_Iterations : Int
  m_MaxIterations : Int
  m_MaxDifference : ℚ
  m_UseNewton : Bool

/-- `Broyden::Iterations()`. -/
def Broyden.Iterations (self : Broyden) : Int := self.m_Iterations

/-- `Broyden::MaxIterations()`. -/
def Broyden.MaxIterations (self : Broyden) : Int := self.m_MaxIterations

/-- `Broyden::MaxDifference()`. -/
def Broyden.MaxDifference (self : Broyden) : ℚ := self.m_MaxDifference

/-- The local variables of `Broyden::Solve` that live across iterations of its loop, and
the flag `finite`: whether every entry that the code holds in `Jinv` is a finite number.
The loop computes `Jinv` with divisions that no test protects (`1. / norm` in the rank-one
update, `Jac.inverse()` in Newton mode); once a divisor was zero the entries of `Jinv` are
infinite or not numbers, `finite` is false from then on, and the other fields no longer
describe the values of the code. -/
structure SolveState (N : ℕ) where
  xcur : List ℚ
  xold : Fin N → ℚ
  fold : Fin N → ℚ
  Jinv : Matrix (Fin N) (Fin N) ℚ
  maxdiff : ℚ
  finite : Bool

/-- The divisor `norm` of the rank-one update in `Broyden::Solve`. -/
def Broyden.norm {N : ℕ} (Jinv : Matrix (Fin N) (Fin N) ℚ) (xdelta fdelta : Fin N → ℚ) : ℚ :=
  ∑ i, ∑ j, xdelta i * Jinv i j * fdelta j

/-- The rank-one update of the inverse Jacobian in `Broyden::Solve` (the branch
`!m_UseNewton`), for a divisor `norm` that is not zero.  For `norm == 0` the factor
`1. / norm` of the code is infinite and the entries of the new `Jinv` are not finite;
the loop then clears the flag `finite` of its state (`Broyden.nextFinite`), and the value
given here (the quotient by zero of `ℚ` is `0`) is not the one of the code. -/
def Broyden.update {N : ℕ} (Jinv : Matrix (Fin N) (Fin N) ℚ) (xdelta fdelta : Fin N → ℚ) :
    Matrix (Fin N) (Fin N) ℚ :=
  let p1 : Fin N → ℚ := fun i =>
    (xdelta - Jinv.mulVec fdelta) i * (1 / Broyden.norm Jinv xdelta fdelta)
  Jinv + Matrix.vecMulVec p1 xdelta * Jinv

/-- The inverse Jacobian for the next iteration of `Broyden::Solve`: the rank-one update,
or with `m_UseNewton` the inverse of the Jacobian at the current point. -/
def Broyden.nextJinv (eqs : BroydenEquations) (JacobianInUse : JacobianRef) (m_UseNewton : Bool)
    (Jinv : Matrix (Fin eqs.m_N) (Fin eqs.m_N) ℚ) (xcur : List ℚ)
    (xdelta fdelta : Fin eqs.m_N → ℚ) : Outcome (Matrix (Fin eqs.m_N) (Fin eqs.m_N) ℚ) :=
  if !m_UseNewton then Outcome.ret (Broyden.update Jinv xdelta fdelta)
  else
    match JacobianInUse.Jacobian xcur with
    | Outcome.exit => Outcome.exit
    | Outcome.undefined => Outcome.undefined
    | Outcome.ret Jac =>
      if Jac.size = eqs.m_N then Outcome.ret (inverse (Jac.toMatrix eqs.m_N))
      else Outcome.undefined

/-- Whether the matrix `Jinv` that `Broyden::Solve` computes for the next iteration has
finite entries: in Broyden mode `p1[i] *= 1. / norm` is executed whatever `norm` is, and the
result is finite only for `norm != 0`; in Newton mode `Jac.inverse()` is finite only for a
Jacobian that is not singular. -/
def Broyden.nextFinite (JacobianInUse : JacobianRef) (m_UseNewton : Bool) {N : ℕ}
    (Jinv : Matrix (Fin N) (Fin N) ℚ) (xcur : List ℚ) (xdelta fdelta : Fin N → ℚ) : Bool :=
  if !m_UseNewton then decide (Broyden.norm Jinv xdelta fdelta ≠ 0)
  else
    match JacobianInUse.Jacobian xcur with
    | Outcome.ret Jac => decide (Jac.determinant ≠ 0)
    | _ => true

/-- The loop `for (m_Iterations = 1; m_Iterations < max_iterations; ++m_Iterations)` of
`Broyden::Solve`, entered with the current value of `m_Iterations`.  It returns the value
of `m_Iterations` and of the local variables when the loop is left. -/
def Broyden.SolveLoop (eqs : BroydenEquations) (SolutionCriterium : SolutionCriteriumRef)
    (JacobianInUse : JacobianRef) (m_UseNewton : Bool) (max_iterations : Int)
    (m_Iterations : Int) (s : SolveState eqs.m_N) : Outcome (Int × SolveState eqs.m_N) :=
  if _h : m_Iterations < max_iterations then
    let xnew : Fin eqs.m_N → ℚ := s.xold - s.Jinv.mulVec s.fold
    let xcur := toVector xnew
    let fnew := eqs.Equations xnew
    let tmpvec := toVector fnew
    let maxdiff := maxAbs xcur.length tmpvec
    let xdelta := xnew - s.xold
    let fdelta := fnew - s.fold
    let xdeltavec := toVector xdelta
    if SolutionCriterium.IsSolved xcur tmpvec xdeltavec then
      Outcome.ret (m_Iterations,
        { xcur := xcur, xold := s.xold, fold := s.fold, Jinv := s.Jinv, maxdiff := maxdiff,
          finite := s.finite })
    else
      match Broyden.nextJinv eqs JacobianInUse m_UseNewton s.Jinv xcur xdelta fdelta with
      | Outcome.exit => Outcome.exit
      | Outcome.undefined => Outcome.undefined
      | Outcome.ret Jinv =>
        Broyden.SolveLoop eqs SolutionCriterium JacobianInUse m_UseNewton max_iterations
          (m_Iterations + 1)
          { xcur := xcur, xold := xnew, fold := fnew, Jinv := Jinv, maxdiff := maxdiff,
            finite := s.finite
              && Broyden.nextFinite JacobianInUse m_UseNewton s.Jinv xcur xdelta fdelta }
  else Outcome.ret (m_Iterations, s)
termination_by (max_iterations - m_Iterations).toNat
decreasing_by omega

/-- The criterion used by `Broyden::Solve`: the argument `solcrit`, or for a null pointer
a new `BroydenSolutionCriterium(TOL)`. -/
def Broyden.criteriumInUse (solcrit : Option SolutionCriteriumRef) : SolutionCriteriumRef :=
  match solcrit with
  | some crit => crit
  | none => SolutionCriteriumRef.base { m_RelativeError := Broyden.TOL }

/-- The Jacobian used by `Broyden::Solve`: the member `m_Jacobian`, or for a null pointer
a new `BroydenJacobian(m_Equations)`, whose step scale is `EPS`. -/
def Broyden.jacobianInUse (m_Jacobian : Option JacobianRef) (eqs : BroydenEquations) :
    JacobianRef :=
  match m_Jacobian with
  | some jac => jac
  | none => JacobianRef.base { m_Equations := some eqs, m_dx := BroydenJacobian.EPS }

/-- `Broyden::Solve`: the returned vector together with the solver object after the call. -/
def Broyden.Solve (self : Broyden) (x0 : List ℚ) (solcrit : Option SolutionCriteriumRef)
    (max_iterations : Int) : Outcome (List ℚ × Broyden) :=
  match self.m_Equations with
  | none => Outcome.exit
  | some eqs =>
    let SolutionCriterium := Broyden.criteriumInUse solcrit
    let JacobianInUse := Broyden.jacobianInUse self.m_Jacobian eqs
    match JacobianInUse.Jacobian x0 with
    | Outcome.exit => Outcome.exit
    | Outcome.undefined => Outcome.undefined
    | Outcome.ret Jac =>
      if Jac.determinant = 0 then
        Outcome.ret (x0, { self with m_MaxIterations := max_iterations, m_Iterations := 0 })
      else if Jac.size = eqs.m_N ∧ x0.length = eqs.m_N then
        let s0 : SolveState eqs.m_N :=
          { xcur := x0
            xold := ofVector eqs.m_N x0
            fold := eqs.Equations (ofVector eqs.m_N x0)
            Jinv := inverse (Jac.toMatrix eqs.m_N)
            maxdiff := self.m_MaxDifference
            finite := true }
        match Broyden.SolveLoop eqs SolutionCriterium JacobianInUse self.m_UseNewton
            max_iterations 1 s0 with
        | Outcome.exit => Outcome.exit
        | Outcome.undefined => Outcome.undefined
        | Outcome.ret (iters, s) =>
          Outcome.ret (s.xcur,
            { self with
              m_MaxIterations := max_iterations
              m_Iterations := iters
              m_MaxDifference := s.maxdiff })
      else Outcome.undefined

/-! ## Equation systems used to state the claims -/

/-- The affine system `f(x) = A·x − b` as an equation object of dimension `N`. -/
def affineEquations {N : ℕ} (A : Matrix (Fin N) (Fin N) ℚ) (b : Fin N → ℚ) : BroydenEquations where
  m_N := N
  Equations := fun x => A.mulVec x - b

/-! ## The iterates of `Broyden::Solve` -/

/-- The point `xnew` computed in the iteration that is entered with the local variables `s`. -/
def Broyden.xnew {N : ℕ} (s : SolveState N) : Fin N → ℚ :=
  s.xold - s.Jinv.mulVec s.fold

/-- Whether the criterion holds at the point computed in the iteration entered with `s`
(the condition of the `break`). -/
def Broyden.accepted (eqs : BroydenEquations) (SolutionCriterium : SolutionCriteriumRef)
    (s : SolveState eqs.m_N) : Bool :=
  SolutionCriterium.IsSolved (toVector (Broyden.xnew s))
    (toVector (eqs.Equations (Broyden.xnew s))) (toVector (Broyden.xnew s - s.xold))

/-- The local variables after one iteration that does not leave the loop. -/
def Broyden.advance (eqs : BroydenEquations) (JacobianInUse : JacobianRef) (m_UseNewton : Bool)
    (s : SolveState eqs.m_N) : Outcome (SolveState eqs.m_N) :=
  match Broyden.nextJinv eqs JacobianInUse m_UseNewton s.Jinv (toVector (Broyden.xnew s))
      (Broyden.xnew s - s.xold) (eqs.Equations (Broyden.xnew s) - s.fold) with
  | Outcome.exit => Outcome.exit
  | Outcome.undefined => Outcome.undefined
  | Outcome.ret Jinv =>
    Outcome.ret
      { xcur := toVector (Broyden.xnew s)
        xold := Broyden.xnew s
        fold := eqs.Equations (Broyden.xnew s)
        Jinv := Jinv
        maxdiff := maxAbs (toVector (Broyden.xnew s)).length
          (toVector (eqs.Equations (Broyden.xnew s)))
        finite := s.finite
          && Broyden.nextFinite JacobianInUse m_UseNewton s.Jinv (toVector (Broyden.xnew s))
              (Broyden.xnew s - s.xold) (eqs.Equations (Broyden.xnew s) - s.fold) }

/-- The local variables after `k` iterations none of which leaves the loop. -/
def Broyden.iterate (eqs : BroydenEquations) (JacobianInUse : JacobianRef) (m_UseNewton : Bool) :
    ℕ → SolveState eqs.m_N → Outcome (SolveState eqs.m_N)
  | 0, s => Outcome.ret s
  | k + 1, s =>
    match Broyden.advance eqs JacobianInUse m_UseNewton s with
    | Outcome.exit => Outcome.exit
    | Outcome.undefined => Outcome.undefined
    | Outcome.ret s1 => Broyden.iterate eqs JacobianInUse m_UseNewton k s1

/-- The iterate number `k ≥ 1` of a solve whose loop is entered with the local variables `s0`
is the vector `x`, and the value of the criterion at it is `solved`. -/
def Broyden.iterateIs (eqs : BroydenEquations) (SolutionCriterium : SolutionCriteriumRef)
    (JacobianInUse : JacobianRef) (m_UseNewton : Bool) (s0 : SolveState eqs.m_N)
    (k : ℕ) (x : List ℚ) (solved : Bool) : Prop :=
  ∃ s, Broyden.iterate eqs JacobianInUse m_UseNewton (k - 1) s0 = Outcome.ret s
    ∧ toVector (Broyden.xnew s) = x
    ∧ Broyden.accepted eqs SolutionCriterium s = solved

/-- The local variables of `Broyden::Solve` when its loop is entered. -/
def Broyden.initialState (self : Broyden) (eqs : BroydenEquations) (x0 : List ℚ)
    (Jac : MatrixXd) : SolveState eqs.m_N where
  xcur := x0
  xold := ofVector eqs.m_N x0
  fold := eqs.Equations (ofVector eqs.m_N x0)
  Jinv := inverse (Jac.toMatrix eqs.m_N)
  maxdiff := self.m_MaxDifference
  finite := true

/-- A Jacobian provider fit for a system of dimension `N`: on every vector of length `N`
it returns a matrix of size `N`. -/
def JacobianRef.fits (jac : JacobianRef) (N : ℕ) : Prop :=
  ∀ x : List ℚ, x.length = N → ∃ J, jac.Jacobian x = Outcome.ret J ∧ J.size = N

/-- The one-dimensional system `f(x) = x − 5`. -/
def shiftSystem : BroydenEquations :=
  affineEquations (1 : Matrix (Fin 1) (Fin 1) ℚ) ![5]

/-- A solver bound to `shiftSystem`, with no Jacobian object installed. -/
def shiftSolver : Broyden where
  m_Equations := some shiftSystem
  m_Jacobian := none
  m_Iterations := 0
  m_MaxIterations := 0
  m_MaxDifference := 0
  m_UseNewton := false

/-- The Jacobian of `shiftSystem`: the 1 × 1 identity matrix. -/
def shiftJacobian : MatrixXd :=
  MatrixXd.ofMatrix (1 : Matrix (Fin 1) (Fin 1) ℚ)

/-- An object of a class derived from `BroydenJacobian` whose `Jacobian` override, like
`BroydenJacobianCRS::Jacobian`, takes its size from the argument (`N = x.size()`) and makes
no comparison with the dimension of an equation system; its matrix is the zero matrix. -/
def sizeFromArgumentJacobian : JacobianRef :=
  JacobianRef.derived fun x =>
    Outcome.ret (MatrixXd.ofMatrix (0 : Matrix (Fin x.length) (Fin x.length) ℚ))

/-- A solver bound to the one-dimensional `shiftSystem` with `sizeFromArgumentJacobian`
installed as its Jacobian. -/
def overrideSolver : Broyden where
  m_Equations := some shiftSystem
  m_Jacobian := some sizeFromArgumentJacobian
  m_Iterations := 0
  m_MaxIterations := 0
  m_MaxDifference := 0
  m_UseNewton := false

/-- Modelled from the spec: the constructor `Broyden(eqs, jac)` is declared in `Broyden.h`,
which is not among the sources.  It binds the equations and the Jacobian; the solver is in
Broyden mode (`m_UseNewton` false), and the members the constructor does not set are
shown as `0`. -/
def Broyden.new (eqs : Option BroydenEquations) (jac : Option JacobianRef) : Broyden where
  m_Equations := eqs
  m_Jacobian := jac
  m_Iterations := 0
  m_MaxIterations := 0
  m_MaxDifference := 0
  m_UseNewton := false

/-! ## ThermalModelEVCrossterms.cpp -/

/-- The values of `IdealGasFunctions::Quantity` that the sources pass to
`ThermalParticle::Density`. -/
inductive IdealGasFunctions.Quantity where
  | ParticleDensity
  | Pressure
  | EntropyDensity
  deriving DecidableEq

/-- The members of `ThermalModelParameters` that the sources set or read. -/
structure ThermalModelParameters where
  T : ℚ
  muB : ℚ
  muS : ℚ
  muQ : ℚ
  gammaS : ℚ
  V : ℚ

/-- Modelled from the spec: the decay type of a species (`ParticleDecayType`, declared in a
header that is not among the sources).  The sources name the value `Strong` only; every
other value is `NotStrong`. -/
inductive ParticleDecayType where
  | Strong
  | NotStrong
  deriving DecidableEq

/-- Modelled from the spec: a decay channel `ParticleDecayChannel(bratio, daughters)`, a
branching ratio with the PDG ids of the daughters (class not among the sources). -/
structure ParticleDecayChannel where
  mBratio : ℚ
  mDaughters : List Int
  deriving DecidableEq

/-- Modelled from the spec: a species of the particle list (class `ThermalParticle`, not
among the sources), with its PDG id, mass and baryon charge and with the ideal-gas function
`Density(params, quantity, useWidth, mu, dMu)`, "consumed as a black-box function of
temperature, chemical potential, and a shift term"; further its stability flag
(`IsStable`, `SetStable`), decay type, resonance width and decay channels (`Decays`), and
the generalized susceptibility `chi(order, params, useWidth, mu, muShift)`. -/
structure ThermalParticle where
  PdgId : Int
  Mass : ℚ
  BaryonCharge : Int
  Density : ThermalModelParameters → IdealGasFunctions.Quantity → Bool → ℚ → ℚ → ℚ
  Stable : Bool := false
  DecayType : ParticleDecayType := ParticleDecayType.NotStrong
  ResonanceWidth : ℚ := 0
  Decays : List ParticleDecayChannel := []
  chi : ℕ → ThermalModelParameters → Bool → ℚ → ℚ → ℚ := fun _ _ _ _ _ => 0

/-- The members of a `ThermalModelEVCrossterms` object over a particle list of `N` species
(`m_TPS->Particles()`).  The constructor sizes `m_Virial` to `N × N` and `m_Ps`, `m_Chem`
and `m_densities` to `N`. -/
structure ThermalModelEVCrossterms (N : ℕ) where
  Particles : Fin N → ThermalParticle
  m_Parameters : ThermalModelParameters
  m_UseWidth : Bool
  m_Chem : Fin N → ℚ
  m_Virial : Fin N → Fin N → ℚ
  m_Ps : Fin N → ℚ
  m_Pressure : ℚ
  m_densities : Fin N → ℚ
  m_TotalEntropyDensity : ℚ
  m_LastCalculationSuccessFlag : Bool
  m_MaxDiff : ℚ
  m_Calculated : Bool
  m_FluctuationsCalculated : Bool
  m_RHad : ℚ

namespace ThermalModelEVCrossterms

variable {N : ℕ}

/-- `ThermalModelEVCrossterms::FillVirial(ri)`; the helper `CuteHRGHelper::brr` (declared in
`ExcludedVolumeHelper.h`, not among the sources) is the parameter `brr`. -/
def FillVirial (brr : ℚ → ℚ → ℚ) (self : ThermalModelEVCrossterms N) (ri : List ℚ) :
    ThermalModelEVCrossterms N :=
  if ri.length ≠ N then self
  else
    let fVirialTmp : Fin N → Fin N → ℚ := fun i j => brr (ri.getD i.val 0) (ri.getD j.val 0)
    { self with
      m_Virial := fun i j =>
        if i = j then fVirialTmp i j
        else if fVirialTmp i i + fVirialTmp j j > 0 then
          2 * fVirialTmp i j * fVirialTmp i i / (fVirialTmp i i + fVirialTmp j j)
        else fVirialTmp i j }

/-- `ThermalModelEVCrossterms::SetRadius(rad)`. -/
def SetRadius (brr : ℚ → ℚ → ℚ) (self : ThermalModelEVCrossterms N) (rad : ℚ) :
    ThermalModelEVCrossterms N :=
  FillVirial brr { self with m_RHad := rad } (List.replicate N rad)

/-- `ThermalModelEVCrossterms::VirialCoefficient(i, j)`.  The guard lets `j == size` through;
the read `m_Virial[i][j]` is then outside the row, which is `Outcome.undefined`. -/
def VirialCoefficient (self : ThermalModelEVCrossterms N) (i j : Int) : Outcome ℚ :=
  if i < 0 ∨ i ≥ (N : Int) ∨ j < 0 ∨ j > (N : Int) then Outcome.ret 0
  else if h : i.toNat < N ∧ j.toNat < N then
    Outcome.ret (self.m_Virial ⟨i.toNat, h.1⟩ ⟨j.toNat, h.2⟩)
  else Outcome.undefined

/-- The shift `dMu` of species `i`: the loop `dMu += -m_Virial[i][j] * pstars[j]`. -/
def dMu (self : ThermalModelEVCrossterms N) (i : Fin N) (pstars : Fin N → ℚ) : ℚ :=
  ∑ j, -self.m_Virial i j * pstars j

/-- `ThermalModelEVCrossterms::DensityId(i, pstars)`. -/
def DensityId (self : ThermalModelEVCrossterms N) (i : Fin N) (pstars : Fin N → ℚ) : ℚ :=
  (self.Particles i).Density self.m_Parameters IdealGasFunctions.Quantity.ParticleDensity
    self.m_UseWidth (self.m_Chem i) (self.dMu i pstars)

/-- `ThermalModelEVCrossterms::Pressure(i, pstars)`. -/
def Pressure (self : ThermalModelEVCrossterms N) (i : Fin N) (pstars : Fin N → ℚ) : ℚ :=
  (self.Particles i).Density self.m_Parameters IdealGasFunctions.Quantity.Pressure
    self.m_UseWidth (self.m_Chem i) (self.dMu i pstars)

/-- The entropy term of `CalculateDensities`: the ideal-gas entropy density of species `i`
at the shift given by the stored pressures. -/
def EntropyDensityId (self : ThermalModelEVCrossterms N) (i : Fin N) : ℚ :=
  (self.Particles i).Density self.m_Parameters IdealGasFunctions.Quantity.EntropyDensity
    self.m_UseWidth (self.m_Chem i) (self.dMu i self.m_Ps)

/-- `ThermalModelEVCrossterms::PressureDiagonal(i, P)`. -/
def PressureDiagonal (self : ThermalModelEVCrossterms N) (i : Fin N) (P : ℚ) : ℚ :=
  (self.Particles i).Density self.m_Parameters IdealGasFunctions.Quantity.Pressure
    self.m_UseWidth (self.m_Chem i) (-self.m_Virial i i * P)

/-- `ThermalModelEVCrossterms::PressureDiagonalTotal(P)`. -/
def PressureDiagonalTotal (self : ThermalModelEVCrossterms N) (P : ℚ) : ℚ :=
  ∑ i, self.PressureDiagonal i P

/-- `BroydenEquationsCRS`: the residuals `x[i] − Pressure(i, x)`. -/
def BroydenEquationsCRS (self : ThermalModelEVCrossterms N) : BroydenEquations where
  m_N := N
  Equations := fun x i => x i - self.Pressure i x

/-- `BroydenEquationsCRSDEV`: the one residual `x[0] − PressureDiagonalTotal(x[0])`. -/
def BroydenEquationsCRSDEV (self : ThermalModelEVCrossterms N) : BroydenEquations where
  m_N := 1
  Equations := fun x _ => x 0 - self.PressureDiagonalTotal (x 0)

/-- `BroydenJacobianCRS::Jacobian(x)`: the matrix `δ_ij + VirialCoefficient(i, j) * tN[i]`
of size `x.size()`.  For `x` of another length than the number of species the source
indexes `m_Virial` or `x` out of range. -/
def BroydenJacobianCRS (self : ThermalModelEVCrossterms N) (x : List ℚ) : Outcome MatrixXd :=
  if x.length = N then
    let tN : Fin N → ℚ := fun i => self.DensityId i (ofVector N x)
    Outcome.ret (MatrixXd.ofMatrix (Matrix.of fun i j : Fin N =>
      (0 + if i = j then 1 else 0)
        + (self.VirialCoefficient (i.val : Int) (j.val : Int)).getD 0 * tN i))
  else Outcome.undefined

/-- `BroydenSolutionCriteriumCRS::IsSolved` with relative error `m_RelativeError`: the
comparison `maxdiff < m_RelativeError`, which is false for `maxdiff = +inf`. -/
def BroydenSolutionCriteriumCRS (m_RelativeError : ℚ) (x f _xdelta : List ℚ) : Bool :=
  match maxRel x.length f x with
  | some maxdiff => decide (maxdiff < m_RelativeError)
  | none => false

/-- `ThermalModelEVCrossterms::SolveDiagonal`.  `Solve` is called with its default
`max_iterations`, taken to be `MAX_ITERS`. -/
def SolveDiagonal (self : ThermalModelEVCrossterms N) : Outcome (ThermalModelEVCrossterms N) :=
  let eqs := self.BroydenEquationsCRSDEV
  let jac : BroydenJacobian := { m_Equations := some eqs, m_dx := 1 / 100000000 }
  let broydn := Broyden.new (some eqs) (some (JacobianRef.base jac))
  let crit : BroydenSolutionCriterium := { m_RelativeError := 1 / 100000000 }
  (broydn.Solve [0] (some (SolutionCriteriumRef.base crit)) Broyden.MAX_ITERS).bind fun x =>
    Outcome.ret
      { self with
        m_Pressure := x.1.getD 0 0
        m_Ps := fun i => self.PressureDiagonal i (x.1.getD 0 0) }

/-- `ThermalModelEVCrossterms::SolvePressure(resetPartials)`.  The relative error that the
constructor of `BroydenSolutionCriteriumCRS` sets (a default of the header, not among the
sources) is the parameter `relative_error`. -/
def SolvePressure (self : ThermalModelEVCrossterms N) (resetPartials : Bool)
    (relative_error : ℚ) : Outcome (ThermalModelEVCrossterms N) :=
  let seeded : Outcome (ThermalModelEVCrossterms N) :=
    if resetPartials then SolveDiagonal { self with m_Ps := fun _ => 0 }
    else Outcome.ret self
  seeded.bind fun model =>
    let eqs := model.BroydenEquationsCRS
    let broydn := Broyden.new (some eqs) (some (JacobianRef.derived model.BroydenJacobianCRS))
    let crit := SolutionCriteriumRef.derived (BroydenSolutionCriteriumCRS relative_error)
    (broydn.Solve (toVector model.m_Ps) (some crit) Broyden.MAX_ITERS).bind fun x =>
      Outcome.ret
        { model with
          m_Ps := ofVector N x.1
          m_Pressure := ∑ i, ofVector N x.1 i
          m_LastCalculationSuccessFlag := !(x.2.Iterations == x.2.MaxIterations)
          m_MaxDiff := x.2.MaxDifference }

/-- The matrix `densMatrix` of `CalculateDensities`: `m_Virial[i][j] * tN[i]`, plus 1 on the
diagonal, with `tN[i] = DensityId(i)` at the stored pressures. -/
def densMatrix (self : ThermalModelEVCrossterms N) : Matrix (Fin N) (Fin N) ℚ :=
  Matrix.of fun i j =>
    self.m_Virial i j * self.DensityId i self.m_Ps + if i = j then 1 else 0

/-- `ThermalModelEVCrossterms::CalculateDensities`.  `SolvePressure()` is called with its
default argument, taken to be `true`; `decomp.solve(b)` of the LU decomposition is the exact
solution `densMatrix⁻¹ · b`.  The base-class calls `CalculateFeeddown` and
`ValidateCalculation` (not among the sources) act on members that are not shown here. -/
def CalculateDensities (self : ThermalModelEVCrossterms N) (relative_error : ℚ) :
    Outcome (ThermalModelEVCrossterms N) :=
  (SolvePressure { self with m_FluctuationsCalculated := false } true relative_error).bind
    fun model =>
      let tN : Fin N → ℚ := fun i => model.DensityId i model.m_Ps
      let solve : (Fin N → ℚ) → (Fin N → ℚ) := fun b => (inverse model.densMatrix).mulVec b
      Outcome.ret
        { model with
          m_densities := fun i => ∑ j, solve (Pi.single i (tN i)) j
          m_TotalEntropyDensity := ∑ i, solve (fun k => model.EntropyDensityId k) i
          m_Calculated := true }

end ThermalModelEVCrossterms

/-- The ideal-gas value of quantity `q` for species `i` at zero shift (`dMu = 0`). -/
def ThermalModelEVCrossterms.idealGas {N : ℕ} (self : ThermalModelEVCrossterms N)
    (q : IdealGasFunctions.Quantity) (i : Fin N) : ℚ :=
  (self.Particles i).Density self.m_Parameters q self.m_UseWidth (self.m_Chem i) 0

/-- A species whose ideal-gas functions are affine in the shift: pressure `1 + dMu`,
particle density `1` (the derivative of the pressure) and entropy density `3`. -/
def affineParticle : ThermalParticle where
  PdgId := 211
  Mass := 0
  BaryonCharge := 0
  Density := fun _ q _ _ dMu =>
    match q with
    | IdealGasFunctions.Quantity.ParticleDensity => 1
    | IdealGasFunctions.Quantity.Pressure => 1 + dMu
    | IdealGasFunctions.Quantity.EntropyDensity => 3

/-- A parameter set used in the examples. -/
def exampleParameters : ThermalModelParameters where
  T := 3 / 20
  muB := 0
  muS := 0
  muQ := 0
  gammaS := 1
  V := 1

/-- One species, no interaction: the virial matrix is zero. -/
def freeGas : ThermalModelEVCrossterms 1 where
  Particles := fun _ => affineParticle
  m_Parameters := exampleParameters
  m_UseWidth := false
  m_Chem := fun _ => 0
  m_Virial := fun _ _ => 0
  m_Ps := fun _ => 0
  m_Pressure := 0
  m_densities := fun _ => 0
  m_TotalEntropyDensity := 0
  m_LastCalculationSuccessFlag := false
  m_MaxDiff := 0
  m_Calculated := false
  m_FluctuationsCalculated := false
  m_RHad := 0

/-- Two species with cross terms only: `Virial[0][1] = Virial[1][0] = 1` (as set by
`SetVirial` or read from a file) and a zero diagonal. -/
def crossGas : ThermalModelEVCrossterms 2 where
  Particles := fun _ => affineParticle
  m_Parameters := exampleParameters
  m_UseWidth := false
  m_Chem := fun _ => 0
  m_Virial := fun i j => if i = j then 0 else 1
  m_Ps := fun _ => 0
  m_Pressure := 0
  m_densities := fun _ => 0
  m_TotalEntropyDensity := 0
  m_LastCalculationSuccessFlag := false
  m_MaxDiff := 0
  m_Calculated := false
  m_FluctuationsCalculated := false
  m_RHad := 0

/-- A pair function of the kind `CuteHRGHelper::brr` stands for, without its constant
factor: the cube of the sum of the two radii. -/
def cubeOfSum (r1 r2 : ℚ) : ℚ := (r1 + r2) ^ 3

/-- One species whose ideal-gas pressure is twice that of `affineParticle`. -/
def doubledParticle : ThermalParticle where
  PdgId := 211
  Mass := 0
  BaryonCharge := 0
  Density := fun _ q _ _ dMu =>
    match q with
    | IdealGasFunctions.Quantity.ParticleDensity => 2
    | IdealGasFunctions.Quantity.Pressure => 2 * (1 + dMu)
    | IdealGasFunctions.Quantity.EntropyDensity => 6

/-- The one-species model with the doubled ideal-gas functions. -/
def doubledGas : ThermalModelEVCrossterms 1 :=
  { freeGas with Particles := fun _ => doubledParticle }

/-! ### The interaction-parameter file -/

/-- Rounding to the nearest integer, ties to the even neighbour. -/
def roundHalfEven (x : ℚ) : Int :=
  if x - ⌊x⌋ < 1 / 2 then ⌊x⌋
  else if 1 / 2 < x - ⌊x⌋ then ⌊x⌋ + 1
  else if ⌊x⌋ % 2 = 0 then ⌊x⌋
  else ⌊x⌋ + 1

/-- The value `q` rounded to `digits` significant decimal digits. -/
def roundSignificant (digits : ℕ) (q : ℚ) : ℚ :=
  if q = 0 then 0
  else
    (roundHalfEven (q / (10 : ℚ) ^ (Int.log 10 |q| - ((digits : Int) - 1))) : ℚ)
      * (10 : ℚ) ^ (Int.log 10 |q| - ((digits : Int) - 1))

/-- The value of the numeral that `fout << std::setw(15) << m_Virial[i][j]` writes.  The
stream `fout` keeps the defaults of a C++ stream (no `std::setprecision`, no `std::fixed`),
so a `double` is written with six significant decimal digits. -/
def printedValue (b : ℚ) : ℚ := roundSignificant 6 b

/-- One line of an interaction-parameter file, as `ReadInteractionParameters` takes it
apart: `entry` when the text before the first `#` starts with two integer numerals and a
floating-point numeral (with these values), `other` for any other line. -/
inductive FileLine where
  | entry (pdgid1 pdgid2 : Int) (b : ℚ)
  | other

/-- An integer numeral can be extracted into the 32-bit `int` variables `pdgid1`, `pdgid2`
(for a value out of range the extraction fails). -/
def fitsInt (z : Int) : Prop := -2147483648 ≤ z ∧ z ≤ 2147483647

instance fitsInt.decidable : DecidablePred fitsInt := fun z => by
  unfold fitsInt
  exact inferInstance

namespace ThermalModelEVCrossterms

variable {N : ℕ}

/-- Modelled from the spec: `ThermalParticleSystem::PdgToId` (not among the sources), the
"`PdgToId` lookup" of the particle list: the index of the species with the given PDG id;
`none` stands for the value `-1` of an unknown id. -/
def PdgToId (self : ThermalModelEVCrossterms N) (pdgid : Int) : Option (Fin N) :=
  Fin.find fun i => (self.Particles i).PdgId = pdgid

/-- The body of the `while` loop of `ReadInteractionParameters` for one line, acting on
`m_Virial`. -/
def readLine (self : ThermalModelEVCrossterms N) (virial : Fin N → Fin N → ℚ)
    (line : FileLine) : Fin N → Fin N → ℚ :=
  match line with
  | FileLine.other => virial
  | FileLine.entry pdgid1 pdgid2 b =>
    if fitsInt pdgid1 ∧ fitsInt pdgid2 then
      match self.PdgToId pdgid1, self.PdgToId pdgid2 with
      | some ind1, some ind2 => fun i j => if i = ind1 ∧ j = ind2 then b else virial i j
      | _, _ => virial
    else virial

/-- `ThermalModelEVCrossterms::ReadInteractionParameters`, on the lines of the file. -/
def ReadInteractionParameters (self : ThermalModelEVCrossterms N) (file : List FileLine) :
    ThermalModelEVCrossterms N :=
  { self with m_Virial := file.foldl self.readLine (fun _ _ => 0) }

/-- `ThermalModelEVCrossterms::WriteInteractionParameters`: the lines written to the file. -/
def WriteInteractionParameters (self : ThermalModelEVCrossterms N) : List FileLine :=
  (List.finRange N).flatMap fun i =>
    (List.finRange N).map fun j =>
      FileLine.entry (self.Particles i).PdgId (self.Particles j).PdgId
        (printedValue (self.m_Virial i j))

end ThermalModelEVCrossterms

/-- One species whose virial coefficient has seven significant digits. -/
def sevenDigitGas : ThermalModelEVCrossterms 1 :=
  { freeGas with m_Virial := fun _ _ => 1234567 }

/-- Two species with the PDG ids `211` and `-211` and cross terms only. -/
def pionGas : ThermalModelEVCrossterms 2 :=
  { crossGas with
    Particles := fun i => { affineParticle with PdgId := if i = 0 then 211 else -211 } }


/-! ### The fixed-point fallback of the cross-terms model -/

namespace ThermalModelEVCrossterms

variable {N : ℕ}

/-- The test `maxdiff < 1.e-10` at the end of a sweep of `SolvePressureIter`, where
`maxdiff` is the maximum of `0` and of the `fabs((Pstmp[i] - m_Ps[i]) / Pstmp[i])`.  For
`Pstmp[i] == 0` the quotient of doubles is infinite when `m_Ps[i] != 0`, so that the test
fails, and is not a number when `m_Ps[i] == 0`, which `std::max` passes over; the exact
quotient by zero being `0`, the first case is tested apart. -/
def sweepConverged (Pstmp Ps : Fin N → ℚ) : Bool :=
  decide ((∀ i, Pstmp i = 0 → Ps i = 0) ∧
    maxAbs N (toVector fun i => (Pstmp i - Ps i) / Pstmp i) < 1 / 10 ^ 10)

/-- One sweep of the loop of `SolvePressureIter`: `Pstmp[i] = Pressure(i)` for every `i`,
where `Pressure(i)` takes the shift at the stored pressures `m_Ps`, then `m_Ps = Pstmp`. -/
def sweep (self : ThermalModelEVCrossterms N) : ThermalModelEVCrossterms N :=
  { self with m_Ps := fun i => self.Pressure i self.m_Ps }

/-- The loop `for (iter = 0; iter < 1000; ++iter)` of `SolvePressureIter`, entered with the
counter at `iter` and with `remaining = 1000 − iter` sweeps to go at most.  It returns the
counter and the model when the loop is left. -/
def SolvePressureIterLoop :
    ℕ → ℕ → ThermalModelEVCrossterms N → ℕ × ThermalModelEVCrossterms N
  | 0, iter, self => (iter, self)
  | remaining + 1, iter, self =>
    if sweepConverged (fun i => self.Pressure i self.m_Ps) self.m_Ps then (iter, self.sweep)
    else SolvePressureIterLoop remaining (iter + 1) self.sweep

/-- `ThermalModelEVCrossterms::SolvePressureIter`. -/
def SolvePressureIter (self : ThermalModelEVCrossterms N) :
    Outcome (ThermalModelEVCrossterms N) :=
  (SolveDiagonal { self with m_Ps := fun _ => 0 }).bind fun model =>
    Outcome.ret
      { (SolvePressureIterLoop 1000 0 model).2 with
        m_Pressure := ∑ i, (SolvePressureIterLoop 1000 0 model).2.m_Ps i }

/-- The first matrix `densMatrix` of `CalculateDensitiesIter`: `m_Virial[j][i] * tN[i]`,
plus 1 on the diagonal. -/
def densMatrixIter (self : ThermalModelEVCrossterms N) : Matrix (Fin N) (Fin N) ℚ :=
  Matrix.of fun i j =>
    self.m_Virial j i * self.DensityId i self.m_Ps + if i = j then 1 else 0

/-- `ThermalModelEVCrossterms::CalculateDensitiesIter`; `decomp.solve(b)` is the exact
solution.  The matrix of the entropy part is the one of `CalculateDensities`.  The
base-class call `CalculateFeeddown` (not among the sources) acts on members that are not
shown here. -/
def CalculateDensitiesIter (self : ThermalModelEVCrossterms N) :
    Outcome (ThermalModelEVCrossterms N) :=
  (SolvePressureIter self).bind fun model =>
    Outcome.ret
      { model with
        m_densities :=
          (inverse model.densMatrixIter).mulVec (fun i => model.DensityId i model.m_Ps)
        m_TotalEntropyDensity :=
          ∑ i, (inverse model.densMatrix).mulVec (fun k => model.EntropyDensityId k) i
        m_Calculated := true }

end ThermalModelEVCrossterms

/-- Two species with the one cross term `Virial[0][1] = 1/2`. -/
def asymmetricGas : ThermalModelEVCrossterms 2 where
  Particles := fun _ => affineParticle
  m_Parameters := exampleParameters
  m_UseWidth := false
  m_Chem := fun _ => 0
  m_Virial := fun i j => if i = 0 ∧ j = 1 then 1 / 2 else 0
  m_Ps := fun _ => 0
  m_Pressure := 0
  m_densities := fun _ => 0
  m_TotalEntropyDensity := 0
  m_LastCalculationSuccessFlag := false
  m_MaxDiff := 0
  m_Calculated := false
  m_FluctuationsCalculated := false
  m_RHad := 0

/-! ## ThermalModelPCE.cpp -/

/-- Modelled from the spec: the particle list (`ThermalParticleSystem`, not among the
sources): the "ordered species list" and the "decay-contribution table with weights".
`FillResonanceDecays()` computes the table from the species (their decay channels and
stability flags); it is a black-box function of the list, giving for every species the
pairs (weight, index of the contributing species) that
`DecayContributionsByFeeddown()[Feeddown::StabilityFlag]` then returns. -/
structure ThermalParticleSystem (N : ℕ) where
  Particles : Fin N → ThermalParticle
  FillResonanceDecays : (Fin N → ThermalParticle) → Fin N → List (ℚ × Fin N)

/-- The table `DecayContributionsByFeeddown()[Feeddown::StabilityFlag]` after
`FillResonanceDecays()`. -/
def ThermalParticleSystem.DecayContributionsByFeeddown {N : ℕ} (self : ThermalParticleSystem N)
    (i : Fin N) : List (ℚ × Fin N) :=
  self.FillResonanceDecays self.Particles i

/-- Modelled from the spec: what a thermal model computes in `CalculateDensities()`: the
primordial and total densities of the species, the entropy density and the total hadron
density. -/
structure ThermalModelResults (N : ℕ) where
  Densities : Fin N → ℚ
  TotalDensities : Fin N → ℚ
  EntropyDensity : ℚ
  HadronDensity : ℚ

/-- Modelled from the spec: a thermal model behind a `ThermalModelBase*` (class not among
the sources): its particle list, parameters and chemical potentials, and the virtual
calculation `calculate`, a black-box function of the parameters and the chemical potentials
whose results `CalculateDensities()` stores. -/
structure ThermalModelBase (N : ℕ) where
  TPS : ThermalParticleSystem N
  m_Parameters : ThermalModelParameters
  m_Chem : Fin N → ℚ
  m_PCE : Bool
  calculate : ThermalModelParameters → (Fin N → ℚ) → ThermalModelResults N
  m_Results : ThermalModelResults N

namespace ThermalModelBase

variable {N : ℕ}

/-- `ThermalModelBase::UsePartialChemicalEquilibrium(flag)`. -/
def UsePartialChemicalEquilibrium (self : ThermalModelBase N) (flag : Bool) :
    ThermalModelBase N :=
  { self with m_PCE := flag }

/-- `ThermalModelBase::SetParameters(params)`. -/
def SetParameters (self : ThermalModelBase N) (params : ThermalModelParameters) :
    ThermalModelBase N :=
  { self with m_Parameters := params }

/-- `ThermalModelBase::SetChemicalPotentials(chem)`. -/
def SetChemicalPotentials (self : ThermalModelBase N) (chem : Fin N → ℚ) :
    ThermalModelBase N :=
  { self with m_Chem := chem }

/-- `ThermalModelBase::CalculateDensities()`. -/
def CalculateDensities (self : ThermalModelBase N) : ThermalModelBase N :=
  { self with m_Results := self.calculate self.m_Parameters self.m_Chem }

/-- `ThermalModelBase::ChemicalPotentials()`. -/
def ChemicalPotentials (self : ThermalModelBase N) : Fin N → ℚ := self.m_Chem

/-- `ThermalModelBase::Densities()`. -/
def Densities (self : ThermalModelBase N) : Fin N → ℚ := self.m_Results.Densities

/-- `ThermalModelBase::TotalDensities()`. -/
def TotalDensities (self : ThermalModelBase N) : Fin N → ℚ := self.m_Results.TotalDensities

/-- `ThermalModelBase::EntropyDensity()`, called after `CalculateDensities()`. -/
def EntropyDensity (self : ThermalModelBase N) : ℚ := self.m_Results.EntropyDensity

/-- `ThermalModelBase::CalculateEntropyDensity()`, called after `CalculateDensities()`. -/
def CalculateEntropyDensity (self : ThermalModelBase N) : ℚ := self.m_Results.EntropyDensity

/-- `ThermalModelBase::HadronDensity()`, called after `CalculateDensities()`. -/
def HadronDensity (self : ThermalModelBase N) : ℚ := self.m_Results.HadronDensity

end ThermalModelBase

/-- A rectangular `std::vector< std::vector<double> >`: `rows` rows of `cols` entries
each.  Only the entries with indices below `rows` and `cols` are meaningful. -/
structure Table where
  rows : ℕ
  cols : ℕ
  coeff : ℕ → ℕ → ℚ

/-- The table `std::vector< std::vector<double> >(rows, std::vector<double>(cols, 0.))`. -/
def Table.zero (rows cols : ℕ) : Table where
  rows := rows
  cols := cols
  coeff := fun _ _ => 0

/-- The assignment `table[i][k] = v`. -/
def Table.set (t : Table) (i k : ℕ) (v : ℚ) : Table :=
  { t with coeff := fun r c => if r = i ∧ c = k then v else t.coeff r c }

/-- The members of a `ThermalModelPCE` object over a model of `N` species.  The entries of
`m_StableMapTo` are values of a loop index that runs below `N`. -/
structure ThermalModelPCE (N : ℕ) where
  m_model : ThermalModelBase N
  m_StabilityFlags : List Int
  m_StableComponentsNumber : ℕ
  m_StableMapTo : List (Fin N)
  m_EffectiveCharges : Table
  m_ChemicalFreezeoutSet : Bool
  m_IsCalculated : Bool
  m_ParametersInit : ThermalModelParameters
  m_ChemInit : Fin N → ℚ
  m_DensitiesInit : Fin N → ℚ
  m_StableDensitiesInit : List ℚ
  m_EntropyDensityInit : ℚ
  m_ParticleDensityInit : ℚ
  m_ParametersCurrent : ThermalModelParameters
  m_ChemCurrent : Fin N → ℚ

/-- The PDG codes `nuclpdgs` of the table of `PrepareNucleiForPCE`. -/
def nuclpdgs : List Int :=
  [1000010020, 1000020030, 1010010030, 1000020040, 1010000020, 1010010020, 1020000020,
   1000010030, 1010020040, 1010010040, 1010020050, 1020010020, 1030000020, 1040000020]

/-- The constituents `nuclcontent` of the table of `PrepareNucleiForPCE`. -/
def nuclcontent : List (List Int) :=
  [[2212, 2112], [2212, 2212, 2112], [2212, 2112, 3122], [2212, 2112, 2212, 2112],
   [2112, 3122], [2212, 3122], [3122, 3122], [2212, 2112, 2112], [2212, 2112, 2212, 3122],
   [2212, 2112, 2112, 3122], [2212, 2112, 2212, 2112, 3122], [3322, 2212], [3334, 2212],
   [3322, 3322]]

/-- The body of the loop over `j` in `PrepareNucleiForPCE` for one particle and one table
entry. -/
def prepareNucleus (part : ThermalParticle) (entry : Int × List Int) : ThermalParticle :=
  if part.PdgId = entry.1 ∨ part.PdgId = -entry.1 then
    let sign : Int := if part.PdgId < 0 then -1 else 1
    { part with Decays := [{ mBratio := 1, mDaughters := entry.2.map fun d => sign * d }] }
  else part

/-- `ThermalModelPCE::PrepareNucleiForPCE(TPS)`. -/
def PrepareNucleiForPCE {N : ℕ} (parts : ThermalParticleSystem N) : ThermalParticleSystem N :=
  { parts with
    Particles := fun i => (nuclpdgs.zip nuclcontent).foldl prepareNucleus (parts.Particles i) }

/-- The flag `frozen` that `ComputePCEStabilityFlags` computes for one species. -/
def frozenFlag (part : ThermalParticle) (SahaEquationForNuclei FreezeLongLived : Bool)
    (WidthCut : ℚ) : Int :=
  let frozen0 : Int := if part.DecayType ≠ ParticleDecayType.Strong then 1 else 0
  let frozen1 : Int :=
    if SahaEquationForNuclei = true ∧ |part.BaryonCharge| > 1 then 0 else frozen0
  let frozen2 : Int :=
    if FreezeLongLived = true ∧ part.DecayType = ParticleDecayType.Strong
        ∧ part.ResonanceWidth < WidthCut ∧ |part.BaryonCharge| ≤ 1 then 1
    else frozen1
  let frozen3 : Int := if part.PdgId = 310 ∨ part.PdgId = 130 then 0 else frozen2
  if part.PdgId = 311 ∨ part.PdgId = -311 then 1 else frozen3

/-- `ThermalModelPCE::ComputePCEStabilityFlags`. -/
def ComputePCEStabilityFlags {N : ℕ} (TPS : ThermalParticleSystem N)
    (SahaEquationForNuclei FreezeLongLived : Bool) (WidthCut : ℚ) : List Int :=
  (List.finRange N).map fun i =>
    frozenFlag (TPS.Particles i) SahaEquationForNuclei FreezeLongLived WidthCut

namespace ThermalModelPCE

variable {N : ℕ}

/-- The body of the second loop of `SetStabilityFlags` for species `i`, on the running index
`stab_index`, the table `m_EffectiveCharges` and the list `m_StableMapTo`. -/
def stabilityStep (TPShelper : ThermalParticleSystem N)
    (acc : Outcome (ℕ × Table × List (Fin N))) (i : Fin N) :
    Outcome (ℕ × Table × List (Fin N)) :=
  acc.bind fun st =>
    if (TPShelper.Particles i).Stable then
      if st.1 ≥ st.2.1.cols then Outcome.exit
      else
        Outcome.ret (st.1 + 1,
          (TPShelper.DecayContributionsByFeeddown i).foldl
            (fun E Contrs => E.set Contrs.2.val st.1 Contrs.1) (st.2.1.set i.val st.1 1),
          st.2.2 ++ [i])
    else Outcome.ret st

/-- The number of stable components counted by the first loop of `SetStabilityFlags`. -/
def countStable (StabilityFlags : List Int) : ℕ :=
  (List.finRange N).foldl
    (fun count i => if StabilityFlags.getD i.val 0 ≠ 0 then count + 1 else count) 0

/-- The helper list of `SetStabilityFlags` after `PrepareNucleiForPCE` and the calls
`SetStable(m_StabilityFlags[i] != 0)`. -/
def helperList (self : ThermalModelPCE N) (StabilityFlags : List Int) :
    ThermalParticleSystem N :=
  { PrepareNucleiForPCE self.m_model.TPS with
    Particles := fun i =>
      { (PrepareNucleiForPCE self.m_model.TPS).Particles i with
        Stable := decide (StabilityFlags.getD i.val 0 ≠ 0) } }

/-- `ThermalModelPCE::SetStabilityFlags(StabilityFlags)`.  With fewer flags than species the
first loop reads `m_StabilityFlags` outside its range, which is `Outcome.undefined`. -/
def SetStabilityFlags (self : ThermalModelPCE N) (StabilityFlags : List Int) :
    Outcome (ThermalModelPCE N) :=
  if StabilityFlags.length < N then Outcome.undefined
  else
    ((List.finRange N).foldl (stabilityStep (self.helperList StabilityFlags))
        (Outcome.ret (0,
          Table.zero StabilityFlags.length (countStable (N := N) StabilityFlags), []))).bind
      fun st =>
        Outcome.ret
          { self with
            m_StabilityFlags := StabilityFlags
            m_StableComponentsNumber := countStable (N := N) StabilityFlags
            m_StableMapTo := st.2.2
            m_EffectiveCharges := st.2.1
            m_ChemicalFreezeoutSet := false
            m_IsCalculated := false }

/-- The sum `totdens` over the rows of `m_EffectiveCharges` of
`m_EffectiveCharges[i][is] * Densities()[i]` (meaningful when the table has at most `N`
rows). -/
def totdens (self : ThermalModelPCE N) (model : ThermalModelBase N) (is : ℕ) : ℚ :=
  ∑ i : Fin N,
    if i.val < self.m_EffectiveCharges.rows then
      self.m_EffectiveCharges.coeff i.val is * model.Densities i
    else 0

/-- `ThermalModelPCE::SetChemicalFreezeout(params, ChemInit)`. -/
def SetChemicalFreezeout (self : ThermalModelPCE N) (params : ThermalModelParameters)
    (ChemInit : Fin N → ℚ) : ThermalModelPCE N :=
  let model :=
    ((self.m_model.SetParameters params).SetChemicalPotentials ChemInit).CalculateDensities
  { self with
    m_ParametersInit := params
    m_ChemInit := ChemInit
    m_model := model
    m_DensitiesInit := model.TotalDensities
    m_StableDensitiesInit :=
      (List.range self.m_StableComponentsNumber).map fun is => self.totdens model is
    m_EntropyDensityInit := model.EntropyDensity
    m_ParticleDensityInit := model.HadronDensity
    m_ParametersCurrent := params
    m_ChemCurrent := ChemInit
    m_ChemicalFreezeoutSet := true
    m_IsCalculated := false }

/-- The chemical potentials `Chem` that `BroydenEquationsPCE::Equations(x)` sets:
`Chem[i] = Σ_is m_EffectiveCharges[i][is] * x[is]` over the columns of the table, for the
rows of the table. -/
def Chem (self : ThermalModelPCE N) (x : List ℚ) : Fin N → ℚ :=
  fun i =>
    if i.val < self.m_EffectiveCharges.rows then
      ∑ is in Finset.range self.m_EffectiveCharges.cols,
        self.m_EffectiveCharges.coeff i.val is * x.getD is 0
    else 0

/-- The controller after `BroydenEquationsPCE::Equations(x)`: the call sets the chemical
potentials `Chem`, writes the last component of `x` to `m_ParametersCurrent.V`, passes the
current parameters to the model and calls `CalculateDensities()`. -/
def afterEquations (self : ThermalModelPCE N) (x : List ℚ) : ThermalModelPCE N :=
  { self with
    m_ParametersCurrent := { self.m_ParametersCurrent with V := x.getD (x.length - 1) 0 }
    m_model :=
      ((self.m_model.SetChemicalPotentials (self.Chem x)).SetParameters
        { self.m_ParametersCurrent with V := x.getD (x.length - 1) 0 }).CalculateDensities }

/-- The vector `ret` returned by `BroydenEquationsPCE::Equations(x)`: it has the length of
`x`; the entries below `m_StableComponentsNumber` are the density residuals, and the last
entry, written after them, is the entropy residual.  The entries are those of the code
when `m_StableDensitiesInit` has an entry for each stable component and the divisors
`m_StableDensitiesInit[is] * m_ParametersInit.V` and
`m_EntropyDensityInit * m_ParametersInit.V` are not zero, as after `SetChemicalFreezeout`
with nonzero reference values.  Outside that domain the code reads
`m_StableDensitiesInit[is]` past the end of the vector or obtains a residual that is not
a finite number; the entry given here (a default of `0` for the read, the quotient by
zero of `ℚ`) is then not the one of the code. -/
def EquationsPCE (self : ThermalModelPCE N) (x : List ℚ) : List ℚ :=
  (List.range x.length).map fun k =>
    if k = x.length - 1 then
      ((self.afterEquations x).m_model.CalculateEntropyDensity * x.getD (x.length - 1) 0)
        / (self.m_EntropyDensityInit * self.m_ParametersInit.V) - 1
    else if k < self.m_StableComponentsNumber then
      (self.totdens (self.afterEquations x).m_model k * x.getD (x.length - 1) 0)
        / (self.m_StableDensitiesInit.getD k 0 * self.m_ParametersInit.V) - 1
    else 0

/-- Modelled from the spec: the object `BroydenEquationsPCE eqs(this)`; its dimension is set
by a constructor in the header (not among the sources) to the `S+1` equations "S
stable-component densities ... plus one global entropy-density-times-volume conservation
law". -/
def BroydenEquationsPCE (self : ThermalModelPCE N) : BroydenEquations where
  m_N := self.m_StableComponentsNumber + 1
  Equations := fun x =>
    ofVector (self.m_StableComponentsNumber + 1) (self.EquationsPCE (toVector x))

/-- The body of the loop of `CalculatePCE` that fills `PCEParams`, for the index `i`, on
the running index `stab_index` and the vector `PCEParams`.  Reading `m_EffectiveCharges[0]`
of a table without rows, `m_ChemCurrent[i]` or `Particle(i)` for `i` that is not a species,
and writing `PCEParams` outside its range are `Outcome.undefined`. -/
def seedStep (self : ThermalModelPCE N) (T : ℚ) (acc : Outcome (ℕ × List ℚ)) (i : ℕ) :
    Outcome (ℕ × List ℚ) :=
  acc.bind fun st =>
    if self.m_StabilityFlags.getD i 0 ≠ 0 then
      if self.m_EffectiveCharges.rows = 0 then Outcome.undefined
      else if st.1 ≥ self.m_EffectiveCharges.cols then Outcome.exit
      else if h : i < N ∧ st.1 < st.2.length then
        Outcome.ret (st.1 + 1,
          st.2.set st.1
            (self.m_ChemCurrent ⟨i, h.1⟩ * T / self.m_ParametersCurrent.T
              + (self.m_model.TPS.Particles ⟨i, h.1⟩).Mass
                  * (1 - T / self.m_ParametersCurrent.T)))
      else Outcome.undefined
    else Outcome.ret st

/-- The vector `PCEParams` of `CalculatePCE` before the volume is appended, with the final
value of `stab_index`. -/
def seed (self : ThermalModelPCE N) (T : ℚ) : Outcome (ℕ × List ℚ) :=
  (List.range self.m_StabilityFlags.length).foldl (self.seedStep T)
    (Outcome.ret (0, List.replicate self.m_StableComponentsNumber 0))

/-- The argument of the last call of `Equations` that `Broyden::Solve` makes on the system
`eqs` with the default finite-difference Jacobian in Broyden mode, started at `x0` and
returning `returned`: when the Jacobian at `x0` is singular, `Solve` returns before it
evaluates the system itself, and the last call is the one of `BroydenJacobian::Jacobian` at
the perturbed point `xh[N-1]`; otherwise every later call is made at the current point
`xcur`, which is returned. -/
def lastEquationsArgument (eqs : BroydenEquations) (x0 returned : List ℚ) : List ℚ :=
  if ((BroydenJacobian.Jacobian
        { m_Equations := some eqs, m_dx := BroydenJacobian.EPS } x0).getD
      { size := 0, coeff := fun _ _ => 0 }).determinant = 0 then
    if h : 0 < eqs.m_N then
      toVector (BroydenJacobian.xh BroydenJacobian.EPS (ofVector eqs.m_N x0)
        ⟨eqs.m_N - 1, Nat.sub_lt h Nat.one_pos⟩)
    else x0
  else returned

/-- `ThermalModelPCE::CalculatePCE(T)`.  `Solve` is called with its default criterion and
its default `max_iterations`, taken to be `MAX_ITERS`.  The equations act on the controller
and its model; their state after `Solve` is the one left by the last call of `Equations`. -/
def CalculatePCE (self : ThermalModelPCE N) (T : ℚ) : Outcome (ThermalModelPCE N) :=
  let guess : ThermalModelPCE N :=
    { self with
      m_ParametersCurrent :=
        { self.m_ParametersCurrent with
          V := self.m_ParametersCurrent.V * (self.m_ParametersCurrent.T / T) ^ 3 } }
  (guess.seed T).bind fun st =>
    let start : ThermalModelPCE N :=
      { guess with m_ParametersCurrent := { guess.m_ParametersCurrent with T := T } }
    let PCEParams : List ℚ := st.2 ++ [start.m_ParametersCurrent.V]
    let broydn := Broyden.new (some start.BroydenEquationsPCE) none
    (broydn.Solve PCEParams none Broyden.MAX_ITERS).bind fun x =>
      let last := start.afterEquations
        (lastEquationsArgument start.BroydenEquationsPCE PCEParams x.1)
      Outcome.ret
        { last with
          m_ChemCurrent := last.m_model.ChemicalPotentials
          m_ParametersCurrent :=
            { last.m_ParametersCurrent with V := x.1.getD (x.1.length - 1) 0 }
          m_IsCalculated := true }

/-- The constructor `ThermalModelPCE(THMbase, FreezeLongLived, WidthCut)`.  It initialises
`m_model` and `m_ChemicalFreezeoutSet` and calls `SetStabilityFlags`; the members it leaves
unset have the indeterminate values of `unset`. -/
def new (unset : ThermalModelPCE N) (THMbase : ThermalModelBase N) (FreezeLongLived : Bool)
    (WidthCut : ℚ) : Outcome (ThermalModelPCE N) :=
  SetStabilityFlags
    { unset with
      m_model := THMbase.UsePartialChemicalEquilibrium true
      m_ChemicalFreezeoutSet := false }
    (ComputePCEStabilityFlags THMbase.TPS true FreezeLongLived WidthCut)

end ThermalModelPCE

/-! ### Controllers used to state the claims -/

/-- Two species; species 1 feeds species 0 with weight `1/2` as long as it is not marked
stable. -/
def exampleSpecies : ThermalParticleSystem 2 where
  Particles := fun _ => affineParticle
  FillResonanceDecays := fun parts i =>
    if i = 0 ∧ (parts 1).Stable = false then [(1 / 2, 1)] else []

/-- A model of the two species with densities `1 + μ_i` and entropy density `3`. -/
def exampleModel : ThermalModelBase 2 where
  TPS := exampleSpecies
  m_Parameters := exampleParameters
  m_Chem := fun _ => 0
  m_PCE := true
  calculate := fun _ chem =>
    { Densities := fun i => 1 + chem i
      TotalDensities := fun i => 1 + chem i
      EntropyDensity := 3
      HadronDensity := 2 }
  m_Results :=
    { Densities := fun _ => 0
      TotalDensities := fun _ => 0
      EntropyDensity := 0
      HadronDensity := 0 }

/-- A controller of `exampleModel` in the state that `SetStabilityFlags` leaves for the
flags `[1, 0]`: one stable component, species 0, to which species 1 contributes `1/2`. -/
def examplePCE : ThermalModelPCE 2 where
  m_model := exampleModel
  m_StabilityFlags := [1, 0]
  m_StableComponentsNumber := 1
  m_StableMapTo := [0]
  m_EffectiveCharges :=
    { rows := 2
      cols := 1
      coeff := fun r c => if c = 0 then (if r = 0 then 1 else if r = 1 then 1 / 2 else 0) else 0 }
  m_ChemicalFreezeoutSet := false
  m_IsCalculated := false
  m_ParametersInit := exampleParameters
  m_ChemInit := fun _ => 0
  m_DensitiesInit := fun _ => 0
  m_StableDensitiesInit := []
  m_EntropyDensityInit := 0
  m_ParticleDensityInit := 0
  m_ParametersCurrent := exampleParameters
  m_ChemCurrent := fun _ => 0

/-- A model of one species whose entropy density is the inverse of the volume, so that the
total entropy does not depend on the volume. -/
def inverseVolumeModel : ThermalModelBase 1 where
  TPS :=
    { Particles := fun _ => affineParticle
      FillResonanceDecays := fun _ _ => [] }
  m_Parameters := exampleParameters
  m_Chem := fun _ => 0
  m_PCE := true
  calculate := fun params _ =>
    { Densities := fun _ => 1
      TotalDensities := fun _ => 1
      EntropyDensity := 1 / params.V
      HadronDensity := 1 }
  m_Results :=
    { Densities := fun _ => 0
      TotalDensities := fun _ => 0
      EntropyDensity := 0
      HadronDensity := 0 }

/-- A controller of `inverseVolumeModel` in the state that `SetStabilityFlags` leaves for
the flags `[0]`: no stable component. -/
def inverseVolumePCE : ThermalModelPCE 1 where
  m_model := inverseVolumeModel
  m_StabilityFlags := [0]
  m_StableComponentsNumber := 0
  m_StableMapTo := []
  m_EffectiveCharges := Table.zero 1 0
  m_ChemicalFreezeoutSet := false
  m_IsCalculated := false
  m_ParametersInit := exampleParameters
  m_ChemInit := fun _ => 0
  m_DensitiesInit := fun _ => 0
  m_StableDensitiesInit := []
  m_EntropyDensityInit := 0
  m_ParticleDensityInit := 0
  m_ParametersCurrent := exampleParameters
  m_ChemCurrent := fun _ => 0

/-- The controller `inverseVolumePCE` after `SetChemicalFreezeout` with the example
parameters and zero chemical potentials. -/
def inverseVolumeFrozen : ThermalModelPCE 1 :=
  inverseVolumePCE.SetChemicalFreezeout exampleParameters (fun _ => 0)

/-- The controller `examplePCE` after `SetChemicalFreezeout` with the example parameters and
zero chemical potentials. -/
def exampleFrozen : ThermalModelPCE 2 :=
  examplePCE.SetChemicalFreezeout exampleParameters (fun _ => 0)

/-- The controller `inverseVolumeFrozen` as `CalculatePCE(3/20)` passes it to the solver:
the volume guess and the new temperature are written to `m_ParametersCurrent`. -/
def inverseVolumeStart : ThermalModelPCE 1 :=
  { inverseVolumeFrozen with
    m_ParametersCurrent :=
      { inverseVolumeFrozen.m_ParametersCurrent with
        V := inverseVolumeFrozen.m_ParametersCurrent.V
          * (inverseVolumeFrozen.m_ParametersCurrent.T / (3 / 20)) ^ 3
        T := 3 / 20 } }

/-! ## particlespectra.cpp -/

/-- The members of a `ParticleSpectrum` that its moment functions read: the raw moments
`means[0] … means[8]` of the multiplicity and the effective number of events `nE`. -/
structure ParticleSpectrum where
  means : ℕ → ℚ
  nE : ℚ

namespace ParticleSpectrum

/-- `ParticleSpectrum::GetMean`. -/
def GetMean (self : ParticleSpectrum) : ℚ := self.means 1

/-- `ParticleSpectrum::GetVariance`. -/
def GetVariance (self : ParticleSpectrum) : ℚ :=
  self.means 2 - self.means 1 * self.means 1

/-- `ParticleSpectrum::GetKurtosis`. -/
def GetKurtosis (self : ParticleSpectrum) : ℚ :=
  (self.means 4 - 4 * self.means 3 * self.means 1
      + 6 * self.means 2 * self.means 1 * self.means 1
      - 3 * self.means 1 * self.means 1 * self.means 1 * self.means 1) / self.GetVariance
    - 3 * self.GetVariance

/-- The local variable `dm32` of `GetSkewnessError`. -/
def dm32 (self : ParticleSpectrum) : ℚ :=
  let nav := self.means 1
  let n2av := self.means 2
  let n3av := self.means 3
  let n4av := self.means 4
  let n5av := self.means 5
  let n6av := self.means 6
  (n6av - 6 * n5av * nav + 15 * n4av * nav * nav - 20 * n3av * nav * nav * nav
      + 15 * n2av * nav * nav * nav * nav
      - 9 * nav * nav * nav * nav * nav * nav + 12 * nav * nav * nav * nav * n2av
      - 9 * nav * nav * n2av * n2av
      - 4 * nav * nav * nav * n3av + 6 * nav * n2av * n3av - n3av * n3av) / self.nE

/-- `ParticleSpectrum::GetSkewnessError`; the library function `sqrt` is a parameter. -/
def GetSkewnessError (sqrt : ℚ → ℚ) (self : ParticleSpectrum) : ℚ :=
  sqrt self.dm32 / self.GetVariance

/-- The local variable `dm42` of `GetKurtosisError`. -/
def dm42 (self : ParticleSpectrum) : ℚ :=
  let nav := self.means 1
  let n2av := self.means 2
  let n3av := self.means 3
  let n4av := self.means 4
  let n5av := self.means 5
  let n6av := self.means 6
  let n7av := self.means 7
  let n8av := self.means 8
  (n8av - 8 * n7av * nav + 28 * n6av * nav * nav - 56 * n5av * nav * nav * nav
      + 70 * n4av * nav * nav * nav * nav
      - 56 * n3av * nav * nav * nav * nav * nav + 28 * n2av * nav * nav * nav * nav * nav * nav
      - 16 * nav * nav * nav * nav * nav * nav * nav * nav
      + 36 * n2av * nav * nav * nav * nav * nav * nav - 36 * n2av * n2av * nav * nav * nav * nav
      - 24 * n3av * nav * nav * nav * nav * nav
      + 48 * nav * nav * nav * n2av * n3av - 16 * nav * nav * n3av * n3av
      + 6 * nav * nav * nav * nav * n4av
      - 12 * nav * nav * n2av * n4av + 8 * nav * n3av * n4av - n4av * n4av) / self.nE

/-- The local variable `tmp` of `GetKurtosisError`. -/
def kurtosisTmp (self : ParticleSpectrum) : ℚ :=
  3 + (self.GetKurtosis + 3 * self.GetVariance) / self.GetVariance

/-- `ParticleSpectrum::GetKurtosisError`; the library function `sqrt` is a parameter.  The
local variable `tmp` is computed and not used. -/
def GetKurtosisError (sqrt : ℚ → ℚ) (self : ParticleSpectrum) : ℚ :=
  let _tmp := self.kurtosisTmp
  sqrt self.dm42 / self.GetVariance

/-- The argument of the first `sqrt` in the `return` of `GetVarianceError`. -/
def varianceRadicand (self : ParticleSpectrum) : ℚ :=
  let nav := self.means 1
  let n2av := self.means 2
  let n3av := self.means 3
  let n4av := self.means 4
  n4av - 4 * n3av * nav + 8 * n2av * nav * nav - 4 * nav * nav * nav * nav - n2av * n2av

/-- `ParticleSpectrum::GetVarianceError`; the library function `sqrt` is a parameter. -/
def GetVarianceError (sqrt : ℚ → ℚ) (self : ParticleSpectrum) : ℚ :=
  sqrt self.varianceRadicand / sqrt self.nE

end ParticleSpectrum

/-- The central moment of order `k` expanded in the raw moments `m_1, m_2, …` (with
`m_0 = 1`): `μ_k = Σ_j C(k, j)·m_j·(−m_1)^(k−j)`. -/
def centralMoment (m : ℕ → ℚ) (k : ℕ) : ℚ :=
  ∑ j in Finset.range (k + 1),
    (k.choose j : ℚ) * (if j = 0 then 1 else m j) * (-m 1) ^ (k - j)

/-! ### Charge fluctuations of the cross-terms model -/

/-- The solution `decomp.solve(b)` of a `PartialPivLU` decomposition of `M`: the exact
solution `M⁻¹·b` when `M` is invertible.  For a singular matrix the result of the library
is not specified; the value taken here is then `0`. -/
def solve {n : Type} [Fintype n] [DecidableEq n] (M : Matrix n n ℚ) (b : n → ℚ) : n → ℚ :=
  (M.det⁻¹ • M.adjugate).mulVec b

namespace ThermalModelEVCrossterms

variable {N : ℕ}

/-- `ThermalModelEVCrossterms::MuShift(id)`. -/
def MuShift (self : ThermalModelEVCrossterms N) (id : Int) : ℚ :=
  if h : 0 ≤ id ∧ id.toNat < N then ∑ j, -self.m_Virial ⟨id.toNat, h.2⟩ j * self.m_Ps j
  else 0

namespace CalculateChargeFluctuations

/-- The local `MuStar[i] = m_Chem[i] + MuShift(i)`. -/
def MuStar (self : ThermalModelEVCrossterms N) (i : Fin N) : ℚ :=
  self.m_Chem i + self.MuShift (i.val : Int)

/-- The local `DensitiesId[i]`. -/
def DensitiesId (self : ThermalModelEVCrossterms N) (i : Fin N) : ℚ :=
  (self.Particles i).Density self.m_Parameters IdealGasFunctions.Quantity.ParticleDensity
    self.m_UseWidth (MuStar self i) 0

/-- The locals `chi2id[i]`, `chi3id[i]`, `chi4id[i]`: `chi(n, m_Parameters, m_UseWidth,
MuStar[i], 0.)` of species `i`. -/
def chiid (self : ThermalModelEVCrossterms N) (n : ℕ) (i : Fin N) : ℚ :=
  (self.Particles i).chi n self.m_Parameters self.m_UseWidth (MuStar self i) 0

/-- The matrix `densMatrix` of size `2·NN` when it is decomposed.  Row or column `i < NN` is
`Sum.inl i` and row or column `NN + i` is `Sum.inr i`.  `MatrixXd densMatrix(2 * NN, 2 * NN)`
allocates the coefficients and does not set them; `fresh r c` is what the storage holds at
row `r` and column `c`.  The loops assign the blocks of the rows `i` and the block of the
rows `NN + i` and columns `NN + j`, and no statement assigns an entry of a row `NN + i` and
a column `j < NN`. -/
def densMatrix (self : ThermalModelEVCrossterms N) (GeVtoifm : ℚ) (fresh : ℕ → ℕ → ℚ) :
    Matrix (Fin N ⊕ Fin N) (Fin N ⊕ Fin N) ℚ :=
  Matrix.of fun r c =>
    match r, c with
    | Sum.inl i, Sum.inl j =>
      self.m_Virial j i * DensitiesId self i + if i = j then 1 else 0
    | Sum.inl i, Sum.inr j =>
      if i = j then
        ((∑ k, self.m_Virial k i * self.m_densities k) - 1) * chiid self 2 i * GeVtoifm ^ 3
          * self.m_Parameters.T * self.m_Parameters.T
      else 0
    | Sum.inr i, Sum.inl j => fresh (N + i.val) j.val
    | Sum.inr i, Sum.inr j =>
      self.m_Virial i j * DensitiesId self j + if i = j then 1 else 0

/-- The right-hand side `xVector` of the system for `chi2`. -/
def xVector2 (chgs : List ℚ) : Fin N ⊕ Fin N → ℚ
  | Sum.inl _ => 0
  | Sum.inr i => chgs.getD i.val 0

/-- The right-hand side `xVector` of the system for `chi3`, from `dni` and `dmus`. -/
def xVector3 (self : ThermalModelEVCrossterms N) (GeVtoifm : ℚ) (dni dmus : Fin N → ℚ) :
    Fin N ⊕ Fin N → ℚ
  | Sum.inl i =>
    0 + -2 * (∑ j, self.m_Virial j i * dni j) * chiid self 2 i * GeVtoifm ^ 3
          * self.m_Parameters.T * self.m_Parameters.T * dmus i
      + -((∑ j, self.m_Virial j i * self.m_densities j) - 1) * chiid self 3 i * GeVtoifm ^ 3
          * self.m_Parameters.T * dmus i * dmus i
  | Sum.inr i =>
    ∑ j, -self.m_Virial i j * dmus j * chiid self 2 j * GeVtoifm ^ 3
      * self.m_Parameters.T * self.m_Parameters.T * dmus j

/-- The local `dnis[i]`. -/
def dnis (self : ThermalModelEVCrossterms N) (GeVtoifm : ℚ) (dmus : Fin N → ℚ) (i : Fin N) :
    ℚ :=
  chiid self 2 i * GeVtoifm ^ 3 * self.m_Parameters.T * self.m_Parameters.T * dmus i

/-- The local `d2nis[i]`. -/
def d2nis (self : ThermalModelEVCrossterms N) (GeVtoifm : ℚ) (dmus d2mus : Fin N → ℚ)
    (i : Fin N) : ℚ :=
  chiid self 3 i * GeVtoifm ^ 3 * self.m_Parameters.T * dmus i * dmus i
    + chiid self 2 i * GeVtoifm ^ 3 * self.m_Parameters.T * self.m_Parameters.T * d2mus i

/-- The right-hand side `xVector` of the system for `chi4`, from the solutions of the two
systems before. -/
def xVector4 (self : ThermalModelEVCrossterms N) (GeVtoifm : ℚ)
    (dni dmus d2ni d2mus : Fin N → ℚ) : Fin N ⊕ Fin N → ℚ
  | Sum.inl i =>
    0 + -3 * (∑ j, self.m_Virial j i * dni j) * d2nis self GeVtoifm dmus d2mus i
      + -3 * (∑ j, self.m_Virial j i * d2ni j) * dnis self GeVtoifm dmus i
      + -((∑ j, self.m_Virial j i * self.m_densities j) - 1) * chiid self 3 i * GeVtoifm ^ 3
          * self.m_Parameters.T * d2mus i * 3 * dmus i
      + -((∑ j, self.m_Virial j i * self.m_densities j) - 1) * chiid self 4 i * GeVtoifm ^ 3
          * dmus i * dmus i * dmus i
  | Sum.inr i =>
    0 + (∑ j, -2 * self.m_Virial i j * d2mus j * dnis self GeVtoifm dmus j)
      + ∑ j, -self.m_Virial i j * dmus j * d2nis self GeVtoifm dmus d2mus j

/-- The vector `solVector` of the system for `chi2`. -/
def solVector2 (self : ThermalModelEVCrossterms N) (GeVtoifm : ℚ) (fresh : ℕ → ℕ → ℚ)
    (chgs : List ℚ) : Fin N ⊕ Fin N → ℚ :=
  solve (densMatrix self GeVtoifm fresh) (xVector2 chgs)

/-- The vector `solVector` of the system for `chi3`. -/
def solVector3 (self : ThermalModelEVCrossterms N) (GeVtoifm : ℚ) (fresh : ℕ → ℕ → ℚ)
    (chgs : List ℚ) : Fin N ⊕ Fin N → ℚ :=
  solve (densMatrix self GeVtoifm fresh)
    (xVector3 self GeVtoifm (fun i => solVector2 self GeVtoifm fresh chgs (Sum.inl i))
      (fun i => solVector2 self GeVtoifm fresh chgs (Sum.inr i)))

/-- The vector `solVector` of the system for `chi4`. -/
def solVector4 (self : ThermalModelEVCrossterms N) (GeVtoifm : ℚ) (fresh : ℕ → ℕ → ℚ)
    (chgs : List ℚ) : Fin N ⊕ Fin N → ℚ :=
  solve (densMatrix self GeVtoifm fresh)
    (xVector4 self GeVtoifm (fun i => solVector2 self GeVtoifm fresh chgs (Sum.inl i))
      (fun i => solVector2 self GeVtoifm fresh chgs (Sum.inr i))
      (fun i => solVector3 self GeVtoifm fresh chgs (Sum.inl i))
      (fun i => solVector3 self GeVtoifm fresh chgs (Sum.inr i)))

/-- The value of `ret[0]` at the return. -/
def chi1 (self : ThermalModelEVCrossterms N) (GeVtoifm : ℚ) (chgs : List ℚ) : ℚ :=
  (∑ i : Fin N, chgs.getD i.val 0 * self.m_densities i)
    / (self.m_Parameters.T * GeVtoifm) ^ 3

/-- The value of `ret[1]` after the block `chi2`. -/
def chi2 (self : ThermalModelEVCrossterms N) (GeVtoifm : ℚ) (fresh : ℕ → ℕ → ℚ)
    (chgs : List ℚ) : ℚ :=
  (∑ i : Fin N, chgs.getD i.val 0 * solVector2 self GeVtoifm fresh chgs (Sum.inl i))
    / (self.m_Parameters.T ^ 2 * GeVtoifm ^ 3)

/-- The value of `ret[2]` after the block `chi3`. -/
def chi3 (self : ThermalModelEVCrossterms N) (GeVtoifm : ℚ) (fresh : ℕ → ℕ → ℚ)
    (chgs : List ℚ) : ℚ :=
  (∑ i : Fin N, chgs.getD i.val 0 * solVector3 self GeVtoifm fresh chgs (Sum.inl i))
    / (self.m_Parameters.T * GeVtoifm ^ 3)

/-- The value of `ret[3]` after the block `chi4`. -/
def chi4 (self : ThermalModelEVCrossterms N) (GeVtoifm : ℚ) (fresh : ℕ → ℕ → ℚ)
    (chgs : List ℚ) : ℚ :=
  (∑ i : Fin N, chgs.getD i.val 0 * solVector4 self GeVtoifm fresh chgs (Sum.inl i))
    / GeVtoifm ^ 3

end CalculateChargeFluctuations

/-- `ThermalModelEVCrossterms::CalculateChargeFluctuations(chgs, order)`.  The constant
`xMath::GeVtoifm()` (declared in a header that is not among the sources) is the parameter
`GeVtoifm`, and `fresh` is the content of the storage that `densMatrix` is given.  A
negative `order + 1` makes the constructor of `ret` throw; for `order = -1` the vector is
empty and `ret[0]` is written outside it, and a `chgs` shorter than the list is read
outside it. -/
def CalculateChargeFluctuations (self : ThermalModelEVCrossterms N) (GeVtoifm : ℚ)
    (fresh : ℕ → ℕ → ℚ) (chgs : List ℚ) (order : Int) : Outcome (List ℚ) :=
  if order + 1 < 0 then Outcome.exit
  else if order + 1 = 0 ∨ chgs.length < N then Outcome.undefined
  else
    let ret : List ℚ := List.replicate (order + 1).toNat 0
    let ret1 := ret.set 0 (CalculateChargeFluctuations.chi1 self GeVtoifm chgs)
    if order < 2 then Outcome.ret ret1
    else
      let ret2 := ret1.set 1 (CalculateChargeFluctuations.chi2 self GeVtoifm fresh chgs)
      if order < 3 then Outcome.ret ret2
      else
        let ret3 := ret2.set 2 (CalculateChargeFluctuations.chi3 self GeVtoifm fresh chgs)
        if order < 4 then Outcome.ret ret3
        else
          Outcome.ret (ret3.set 3 (CalculateChargeFluctuations.chi4 self GeVtoifm fresh chgs))

end ThermalModelEVCrossterms

/-- One species without interaction whose susceptibilities `chi(n, …)` are all `1`. -/
def fluctGas : ThermalModelEVCrossterms 1 where
  Particles := fun _ =>
    { PdgId := 211
      Mass := 0
      BaryonCharge := 0
      Density := fun _ _ _ _ _ => 1
      chi := fun _ _ _ _ _ => 1 }
  m_Parameters := { T := 1, muB := 0, muS := 0, muQ := 0, gammaS := 1, V := 1 }
  m_UseWidth := false
  m_Chem := fun _ => 0
  m_Virial := fun _ _ => 0
  m_Ps := fun _ => 0
  m_Pressure := 0
  m_densities := fun _ => 1
  m_TotalEntropyDensity := 0
  m_LastCalculationSuccessFlag := true
  m_MaxDiff := 0
  m_Calculated := true
  m_FluctuationsCalculated := false
  m_RHad := 0

/-! ### The interaction-parameter file as text -/

/-- Modelled from the spec: `elems[0]` of `CuteHRGHelper::split(tmp, '#')` (helper not among
the sources) for a line that is not empty: the text before the first `#` of the
"`#`-comment-delimited lines". -/
def beforeHash (cc : List Char) : List Char :=
  cc.takeWhile fun c => decide (c ≠ '#')

/-- The way the loop of `ReadInteractionParameters` takes the line `cc` apart: nothing for
an empty line (`elems.size() < 1`), else the extraction `iss >> pdgid1 >> pdgid2 >> b` from
the text before the first `#`.  The extraction of the standard library is the parameter
`extract`, which gives the three values when it succeeds. -/
def parseLine (extract : List Char → Option (Int × Int × ℚ)) (cc : List Char) : FileLine :=
  if cc = [] then FileLine.other
  else
    match extract (beforeHash cc) with
    | some (pdgid1, pdgid2, b) => FileLine.entry pdgid1 pdgid2 b
    | none => FileLine.other

/-! ### The direct form of Broyden's update -/

/-- Broyden's direct rank-one update of a Jacobian approximation `J` for the step
(`xdelta`, `fdelta`): `J + ((fdelta − J·xdelta) ⊗ xdelta)/(xdelta·xdelta)`. -/
def directUpdate {N : ℕ} (J : Matrix (Fin N) (Fin N) ℚ) (xdelta fdelta : Fin N → ℚ) :
    Matrix (Fin N) (Fin N) ℚ :=
  J + (Matrix.dotProduct xdelta xdelta)⁻¹ • Matrix.vecMulVec (fdelta - J.mulVec xdelta) xdelta

/-- Newton's sequence for the system `eqs` and the Jacobian provider `jac`, in the words of
the specification (`xNew = xOld - Jinv * fOld` with the exact Jacobian recomputed and
re-inverted every iteration): `x_0 = x0` and `x_{k+1} = x_k − J(x_k)⁻¹·f(x_k)`, where
`J(x_k)` is the matrix that the provider returns at `x_k`. -/
def newtonSequence (eqs : BroydenEquations) (jac : JacobianRef) (x0 : Fin eqs.m_N → ℚ) :
    ℕ → Fin eqs.m_N → ℚ
  | 0 => x0
  | k + 1 =>
    newtonSequence eqs jac x0 k
      - (inverse (((jac.Jacobian (toVector (newtonSequence eqs jac x0 k))).getD
            { size := 0, coeff := fun _ _ => 0 }).toMatrix eqs.m_N)).mulVec
          (eqs.Equations (newtonSequence eqs jac x0 k))

/-- The value of the solution criterion at the term `x_j`, `j ≥ 1`, of Newton's sequence:
`IsSolved(x_j, f(x_j), x_j − x_{j−1})`. -/
def newtonAccepted (eqs : BroydenEquations) (crit : SolutionCriteriumRef) (jac : JacobianRef)
    (x0 : Fin eqs.m_N → ℚ) (j : ℕ) : Bool :=
  crit.IsSolved (toVector (newtonSequence eqs jac x0 j))
    (toVector (eqs.Equations (newtonSequence eqs jac x0 j)))
    (toVector (newtonSequence eqs jac x0 j - newtonSequence eqs jac x0 (j - 1)))

/-- The one-dimensional system `f(x) = x²`. -/
def squareSystem : BroydenEquations where
  m_N := 1
  Equations := fun x _ => x 0 * x 0

/-- An object of a class derived from `BroydenJacobian` that returns the exact derivative
`2·x` of `squareSystem`. -/
def squareJacobian : JacobianRef :=
  JacobianRef.derived fun x =>
    Outcome.ret (MatrixXd.ofMatrix (Matrix.of fun (_ _ : Fin 1) => 2 * x.getD 0 0))

/-- A solver in Newton mode bound to `squareSystem` with `squareJacobian` installed. -/
def newtonSolver : Broyden where
  m_Equations := some squareSystem
  m_Jacobian := some squareJacobian
  m_Iterations := 0
  m_MaxIterations := 0
  m_MaxDifference := 0
  m_UseNewton := true

/-! ## Basic facts about the embedding -/

theorem toMatrix_ofMatrix {N : ℕ} (M : Matrix (Fin N) (Fin N) ℚ) :
    (MatrixXd.ofMatrix M).toMatrix N = M := by
  ext i j
  simp [MatrixXd.toMatrix, MatrixXd.ofMatrix]

theorem determinant_ofMatrix {N : ℕ} (M : Matrix (Fin N) (Fin N) ℚ) :
    (MatrixXd.ofMatrix M).determinant = M.det := by
  have h : (MatrixXd.ofMatrix M).size = N := rfl
  unfold MatrixXd.determinant
  rw [h, toMatrix_ofMatrix]

theorem inverse_eq_inv {N : ℕ} (M : Matrix (Fin N) (Fin N) ℚ) : inverse M = M⁻¹ := by
  rw [Matrix.inv_def, Ring.inverse_eq_inv']
  rfl

theorem length_toVector {N : ℕ} (v : Fin N → ℚ) : (toVector v).length = N := by
  simp [toVector]

theorem getD_toVector {N : ℕ} (v : Fin N → ℚ) (i : Fin N) : (toVector v).getD i.val 0 = v i := by
  simp [toVector, List.getD_eq_getElem?_getD]

theorem ofVector_toVector {N : ℕ} (v : Fin N → ℚ) : ofVector N (toVector v) = v := by
  funext i
  exact getD_toVector v i

theorem foldl_max_succ (n : ℕ) (g : ℕ → ℚ) :
    (List.range (n + 1)).foldl (fun maxdiff i => max maxdiff (g i)) 0
      = max ((List.range n).foldl (fun maxdiff i => max maxdiff (g i)) 0) (g n) := by
  simp [List.range_succ, List.foldl_append]

theorem foldl_max_lt_iff (n : ℕ) (g : ℕ → ℚ) (tol : ℚ) :
    (List.range n).foldl (fun maxdiff i => max maxdiff (g i)) 0 < tol
      ↔ 0 < tol ∧ ∀ i, i < n → g i < tol := by
  induction n with
  | zero => simp
  | succ n ih =>
    rw [foldl_max_succ, max_lt_iff, ih]
    constructor
    · rintro ⟨⟨h0, h1⟩, h2⟩
      refine ⟨h0, fun i hi => ?_⟩
      rcases Nat.lt_succ_iff_lt_or_eq.mp hi with h | h
      · exact h1 i h
      · rw [h]; exact h2
    · rintro ⟨h0, h1⟩
      exact ⟨⟨h0, fun i hi => h1 i (Nat.lt_succ_of_lt hi)⟩, h1 n (Nat.lt_succ_self n)⟩

theorem maxAbs_lt_iff (n : ℕ) (f : List ℚ) (tol : ℚ) :
    maxAbs n f < tol ↔ 0 < tol ∧ ∀ i, i < n → |f.getD i 0| < tol :=
  foldl_max_lt_iff n (fun i => |f.getD i 0|) tol

theorem maxRel_succ (n : ℕ) (f x : List ℚ) :
    maxRel (n + 1) f x
      = match maxRel n f x with
        | none => none
        | some m =>
          if x.getD n 0 = 0 then (if f.getD n 0 = 0 then some m else none)
          else some (max m (|f.getD n 0| / x.getD n 0)) := by
  simp only [maxRel, List.range_succ, List.foldl_append, List.foldl_cons, List.foldl_nil]

/-- The loop of the relative criterion ends with a finite value below `tol` exactly when
`tol` is positive, no nonzero residual meets a zero component of `x`, and every quotient by
a nonzero component is below `tol`. -/
theorem maxRel_lt_iff (n : ℕ) (f x : List ℚ) (tol : ℚ) :
    (∃ m, maxRel n f x = some m ∧ m < tol)
      ↔ 0 < tol ∧ ∀ i, i < n →
          (x.getD i 0 = 0 → f.getD i 0 = 0)
          ∧ (x.getD i 0 ≠ 0 → |f.getD i 0| / x.getD i 0 < tol) := by
  induction n with
  | zero =>
    constructor
    · rintro ⟨m, hm, hlt⟩
      have h0 : m = 0 := by
        have : maxRel 0 f x = some 0 := rfl
        rw [this] at hm
        exact (Option.some.inj hm).symm
      rw [h0] at hlt
      exact ⟨hlt, fun i hi => absurd hi (Nat.not_lt_zero i)⟩
    · rintro ⟨h0, -⟩
      exact ⟨0, rfl, h0⟩
  | succ n ih =>
    rw [maxRel_succ]
    constructor
    · rintro ⟨m, hm, hlt⟩
      cases hprev : maxRel n f x with
      | none => rw [hprev] at hm; cases hm
      | some m0 =>
        rw [hprev] at hm
        by_cases hx : x.getD n 0 = 0
        · simp only [hx, if_true] at hm
          by_cases hf : f.getD n 0 = 0
          · simp only [hf, if_true] at hm
            have hm0 : m0 = m := Option.some.inj hm
            obtain ⟨h0, hall⟩ := ih.mp ⟨m0, hprev, by rw [hm0]; exact hlt⟩
            refine ⟨h0, fun i hi => ?_⟩
            rcases Nat.lt_succ_iff_lt_or_eq.mp hi with h | h
            · exact hall i h
            · rw [h]
              exact ⟨fun _ => hf, fun hne => absurd hx hne⟩
          · simp only [hf, if_false] at hm
            cases hm
        · simp only [hx, if_false] at hm
          have hm0 : max m0 (|f.getD n 0| / x.getD n 0) = m := Option.some.inj hm
          rw [← hm0, max_lt_iff] at hlt
          obtain ⟨h0, hall⟩ := ih.mp ⟨m0, hprev, hlt.1⟩
          refine ⟨h0, fun i hi => ?_⟩
          rcases Nat.lt_succ_iff_lt_or_eq.mp hi with h | h
          · exact hall i h
          · rw [h]
            exact ⟨fun h0x => absurd h0x hx, fun _ => hlt.2⟩
    · rintro ⟨h0, hall⟩
      obtain ⟨m0, hprev, hlt0⟩ := ih.mpr ⟨h0, fun i hi => hall i (Nat.lt_succ_of_lt hi)⟩
      rw [hprev]
      obtain ⟨hz, hnz⟩ := hall n (Nat.lt_succ_self n)
      by_cases hx : x.getD n 0 = 0
      · simp only [hx, if_true, hz hx]
        exact ⟨m0, rfl, hlt0⟩
      · simp only [hx, if_false]
        exact ⟨_, rfl, max_lt hlt0 (hnz hx)⟩

/-- The relative criterion in terms of the components. -/
theorem BroydenSolutionCriteriumCRS_iff (tol : ℚ) (x f xdelta : List ℚ) :
    ThermalModelEVCrossterms.BroydenSolutionCriteriumCRS tol x f xdelta = true
      ↔ 0 < tol ∧ ∀ i, i < x.length →
          (x.getD i 0 = 0 → f.getD i 0 = 0)
          ∧ (x.getD i 0 ≠ 0 → |f.getD i 0| / x.getD i 0 < tol) := by
  rw [← maxRel_lt_iff]
  unfold ThermalModelEVCrossterms.BroydenSolutionCriteriumCRS
  cases maxRel x.length f x with
  | none => simp
  | some m => simp

theorem maxAbs_toVector_lt_iff {N : ℕ} (v : Fin N → ℚ) (tol : ℚ) :
    maxAbs N (toVector v) < tol ↔ 0 < tol ∧ ∀ i : Fin N, |v i| < tol := by
  rw [maxAbs_lt_iff]
  constructor
  · rintro ⟨h0, h1⟩
    refine ⟨h0, fun i => ?_⟩
    have := h1 i.val i.isLt
    rwa [getD_toVector] at this
  · rintro ⟨h0, h1⟩
    refine ⟨h0, fun i hi => ?_⟩
    have := h1 ⟨i, hi⟩
    rwa [← getD_toVector v ⟨i, hi⟩] at this

theorem h_ne_zero (dx : ℚ) (hdx : dx ≠ 0) {N : ℕ} (x : Fin N → ℚ) (j : Fin N) :
    BroydenJacobian.h dx x j ≠ 0 := by
  unfold BroydenJacobian.h
  split_ifs with h
  · exact hdx
  · exact h

theorem xh_eq_add_single (dx : ℚ) {N : ℕ} (x : Fin N → ℚ) (j : Fin N) :
    BroydenJacobian.xh dx x j = x + Pi.single j (BroydenJacobian.h dx x j) := by
  funext k
  unfold BroydenJacobian.xh
  by_cases hjk : j = k
  · subst hjk; simp
  · simp [hjk, Pi.single_eq_of_ne (Ne.symm hjk)]

/-- The forward-difference Jacobian of an affine system is its matrix. -/
theorem Jacobian_affine {N : ℕ} (A : Matrix (Fin N) (Fin N) ℚ) (b : Fin N → ℚ)
    (dx : ℚ) (hdx : dx ≠ 0) (x0 : List ℚ) (hx0 : x0.length = N) :
    BroydenJacobian.Jacobian { m_Equations := some (affineEquations A b), m_dx := dx } x0
      = Outcome.ret (MatrixXd.ofMatrix A) := by
  have hdim : (affineEquations A b).Dimension = x0.length := by
    rw [hx0]; rfl
  unfold BroydenJacobian.Jacobian
  simp only [hdim, ne_eq, not_true_eq_false, if_false]
  congr 2
  ext i j
  have hh := h_ne_zero dx hdx (ofVector N x0) j
  show ((affineEquations A b).Equations (BroydenJacobian.xh dx (ofVector N x0) j) i
      - (affineEquations A b).Equations (ofVector N x0) i) / BroydenJacobian.h dx (ofVector N x0) j
      = A i j
  rw [xh_eq_add_single]
  simp only [affineEquations, Matrix.mulVec_add, Matrix.mulVec_single, Pi.add_apply,
    Pi.sub_apply]
  field_simp

/-! ## Unfolding the loop of `Broyden::Solve` -/

theorem SolveLoop_done (eqs : BroydenEquations) (crit : SolutionCriteriumRef)
    (jac : JacobianRef) (newton : Bool) (max_iterations it : Int) (s : SolveState eqs.m_N)
    (h : ¬ it < max_iterations) :
    Broyden.SolveLoop eqs crit jac newton max_iterations it s = Outcome.ret (it, s) := by
  rw [Broyden.SolveLoop]
  simp only [dif_neg h]

theorem SolveLoop_break (eqs : BroydenEquations) (crit : SolutionCriteriumRef)
    (jac : JacobianRef) (newton : Bool) (max_iterations it : Int) (s : SolveState eqs.m_N)
    (h : it < max_iterations)
    (hs : crit.IsSolved (toVector (s.xold - s.Jinv.mulVec s.fold))
      (toVector (eqs.Equations (s.xold - s.Jinv.mulVec s.fold)))
      (toVector (s.xold - s.Jinv.mulVec s.fold - s.xold)) = true) :
    Broyden.SolveLoop eqs crit jac newton max_iterations it s
      = Outcome.ret (it,
          { xcur := toVector (s.xold - s.Jinv.mulVec s.fold)
            xold := s.xold
            fold := s.fold
            Jinv := s.Jinv
            maxdiff := maxAbs (toVector (s.xold - s.Jinv.mulVec s.fold)).length
              (toVector (eqs.Equations (s.xold - s.Jinv.mulVec s.fold)))
            finite := s.finite }) := by
  rw [Broyden.SolveLoop]
  simp only [dif_pos h, hs, if_true]

theorem SolveLoop_continue (eqs : BroydenEquations) (crit : SolutionCriteriumRef)
    (jac : JacobianRef) (newton : Bool) (max_iterations it : Int) (s : SolveState eqs.m_N)
    (h : it < max_iterations)
    (hs : crit.IsSolved (toVector (s.xold - s.Jinv.mulVec s.fold))
      (toVector (eqs.Equations (s.xold - s.Jinv.mulVec s.fold)))
      (toVector (s.xold - s.Jinv.mulVec s.fold - s.xold)) = false) :
    Broyden.SolveLoop eqs crit jac newton max_iterations it s
      = match Broyden.nextJinv eqs jac newton s.Jinv (toVector (s.xold - s.Jinv.mulVec s.fold))
            (s.xold - s.Jinv.mulVec s.fold - s.xold)
            (eqs.Equations (s.xold - s.Jinv.mulVec s.fold) - s.fold) with
        | Outcome.exit => Outcome.exit
        | Outcome.undefined => Outcome.undefined
        | Outcome.ret Jinv =>
          Broyden.SolveLoop eqs crit jac newton max_iterations (it + 1)
            { xcur := toVector (s.xold - s.Jinv.mulVec s.fold)
              xold := s.xold - s.Jinv.mulVec s.fold
              fold := eqs.Equations (s.xold - s.Jinv.mulVec s.fold)
              Jinv := Jinv
              maxdiff := maxAbs (toVector (s.xold - s.Jinv.mulVec s.fold)).length
                (toVector (eqs.Equations (s.xold - s.Jinv.mulVec s.fold)))
              finite := s.finite
                && Broyden.nextFinite jac newton s.Jinv
                    (toVector (s.xold - s.Jinv.mulVec s.fold))
                    (s.xold - s.Jinv.mulVec s.fold - s.xold)
                    (eqs.Equations (s.xold - s.Jinv.mulVec s.fold) - s.fold) } := by
  rw [Broyden.SolveLoop]
  simp only [dif_pos h, hs, Bool.false_eq_true, if_false]

theorem getD_toVector_nat {N : ℕ} (v : Fin N → ℚ) (i : ℕ) :
    (toVector v).getD i 0 = if h : i < N then v ⟨i, h⟩ else 0 := by
  by_cases h : i < N
  · rw [dif_pos h]
    exact getD_toVector v ⟨i, h⟩
  · rw [dif_neg h]
    apply List.getD_eq_default
    rw [length_toVector]
    omega

/-- The default criterion accepts a zero residual when the tolerance is positive. -/
theorem IsSolved_zero (tol : ℚ) (htol : 0 < tol) {N : ℕ} (x xdelta : List ℚ) :
    BroydenSolutionCriterium.IsSolved { m_RelativeError := tol } x
      (toVector (0 : Fin N → ℚ)) xdelta = true := by
  unfold BroydenSolutionCriterium.IsSolved
  rw [decide_eq_true_iff, maxAbs_lt_iff]
  refine ⟨htol, fun i _ => ?_⟩
  have : (toVector (0 : Fin N → ℚ)).getD i 0 = 0 := by
    rw [getD_toVector_nat]
    split_ifs <;> rfl
  rw [this]
  simpa using htol

/-- When the Jacobian at `x0` is non-singular and the criterion accepts the first iterate,
`Broyden::Solve` returns that iterate with `m_Iterations = 1`. -/
theorem Solve_first_iterate (self : Broyden) (eqs : BroydenEquations) (x0 : List ℚ)
    (solcrit : Option SolutionCriteriumRef) (max_iterations : Int) (Jac : MatrixXd)
    (hEq : self.m_Equations = some eqs)
    (hJac : (Broyden.jacobianInUse self.m_Jacobian eqs).Jacobian x0 = Outcome.ret Jac)
    (hdet : Jac.determinant ≠ 0)
    (hsize : Jac.size = eqs.m_N) (hx0 : x0.length = eqs.m_N)
    (hlt : 1 < max_iterations)
    (hacc : Broyden.accepted eqs (Broyden.criteriumInUse solcrit)
      (Broyden.initialState self eqs x0 Jac) = true) :
    self.Solve x0 solcrit max_iterations
      = Outcome.ret (toVector (Broyden.xnew (Broyden.initialState self eqs x0 Jac)),
          { self with
            m_MaxIterations := max_iterations
            m_Iterations := 1
            m_MaxDifference :=
              maxAbs (toVector (Broyden.xnew (Broyden.initialState self eqs x0 Jac))).length
                (toVector (eqs.Equations
                  (Broyden.xnew (Broyden.initialState self eqs x0 Jac)))) }) := by
  have hboth : Jac.size = eqs.m_N ∧ x0.length = eqs.m_N := ⟨hsize, hx0⟩
  have hloop := SolveLoop_break eqs (Broyden.criteriumInUse solcrit)
    (Broyden.jacobianInUse self.m_Jacobian eqs) self.m_UseNewton max_iterations 1
    (Broyden.initialState self eqs x0 Jac) hlt hacc
  unfold Broyden.initialState at hloop
  unfold Broyden.Solve
  simp only [hEq, hJac, hdet, if_false, hboth, and_self, if_true]
  rw [hloop]
  rfl

/-- The first iterate of an affine system started with its own matrix as Jacobian is the
root `A⁻¹·b`. -/
theorem xnew_affine {N : ℕ} (A : Matrix (Fin N) (Fin N) ℚ) (b : Fin N → ℚ) (hA : A.det ≠ 0)
    (self : Broyden) (x0 : List ℚ) :
    Broyden.xnew (Broyden.initialState self (affineEquations A b) x0 (MatrixXd.ofMatrix A))
      = A⁻¹.mulVec b := by
  have hunit : IsUnit A.det := isUnit_iff_ne_zero.mpr hA
  show ofVector N x0 - (inverse ((MatrixXd.ofMatrix A).toMatrix N)).mulVec
    (A.mulVec (ofVector N x0) - b) = A⁻¹.mulVec b
  rw [toMatrix_ofMatrix, inverse_eq_inv, Matrix.mulVec_sub, Matrix.mulVec_mulVec,
    Matrix.nonsing_inv_mul A hunit, Matrix.one_mulVec]
  abel

/-- C1: in exact arithmetic, for the affine system `f(x) = A·x − b` with `A` invertible, any
start vector of the right length, any nonzero step scale `dx`, any positive tolerance and
`max_iterations ≥ 2`, `Broyden::Solve` with the finite-difference Jacobian and the default
criterion returns the exact root `A⁻¹·b` with `Iterations() = 1 < MaxIterations()`. -/
theorem C1_Solve_affine_exact_root {N : ℕ} (A : Matrix (Fin N) (Fin N) ℚ) (b : Fin N → ℚ)
    (hA : A.det ≠ 0) (x0 : List ℚ) (hx0 : x0.length = N)
    (dx : ℚ) (hdx : dx ≠ 0) (tol : ℚ) (htol : 0 < tol)
    (max_iterations : Int) (hmax : 2 ≤ max_iterations)
    (self : Broyden) (solcrit : Option SolutionCriteriumRef)
    (hEq : self.m_Equations = some (affineEquations A b))
    (hJac : self.m_Jacobian
        = some (JacobianRef.base { m_Equations := some (affineEquations A b), m_dx := dx })
      ∨ (self.m_Jacobian = none ∧ dx = BroydenJacobian.EPS))
    (hCrit : solcrit = some (SolutionCriteriumRef.base { m_RelativeError := tol })
      ∨ (solcrit = none ∧ tol = Broyden.TOL)) :
    ∃ after : Broyden,
      self.Solve x0 solcrit max_iterations = Outcome.ret (toVector (A⁻¹.mulVec b), after)
      ∧ (affineEquations A b).Equations (A⁻¹.mulVec b) = 0
      ∧ after.Iterations = 1
      ∧ after.Iterations < after.MaxIterations := by
  have hunit : IsUnit A.det := isUnit_iff_ne_zero.mpr hA
  have hres : (affineEquations A b).Equations (A⁻¹.mulVec b) = 0 := by
    show A.mulVec (A⁻¹.mulVec b) - b = 0
    rw [Matrix.mulVec_mulVec, Matrix.mul_nonsing_inv A hunit, Matrix.one_mulVec, sub_self]
  have hjac : Broyden.jacobianInUse self.m_Jacobian (affineEquations A b)
      = JacobianRef.base { m_Equations := some (affineEquations A b), m_dx := dx } := by
    rcases hJac with h | ⟨h, h2⟩
    · rw [h]; rfl
    · rw [h, h2]; rfl
  have hcrit : Broyden.criteriumInUse solcrit
      = SolutionCriteriumRef.base { m_RelativeError := tol } := by
    rcases hCrit with h | ⟨h, h2⟩
    · rw [h]; rfl
    · rw [h, h2]; rfl
  have hlt : (1 : Int) < max_iterations := by omega
  have hJ : (Broyden.jacobianInUse self.m_Jacobian (affineEquations A b)).Jacobian x0
      = Outcome.ret (MatrixXd.ofMatrix A) := by
    rw [hjac]
    exact Jacobian_affine A b dx hdx x0 hx0
  have hacc : Broyden.accepted (affineEquations A b) (Broyden.criteriumInUse solcrit)
      (Broyden.initialState self (affineEquations A b) x0 (MatrixXd.ofMatrix A)) = true := by
    unfold Broyden.accepted
    rw [hcrit, xnew_affine A b hA, hres]
    simp only [SolutionCriteriumRef.IsSolved]
    exact IsSolved_zero tol htol _ _
  have hsolve := Solve_first_iterate self (affineEquations A b) x0 solcrit max_iterations
    (MatrixXd.ofMatrix A) hEq hJ (by rw [determinant_ofMatrix]; exact hA) rfl hx0 hlt hacc
  rw [xnew_affine A b hA] at hsolve
  exact ⟨_, hsolve, hres, rfl, hlt⟩

/-- C1 at a concrete input: the system `f(x) = x − 5`, start `[0]`, default Jacobian and
criterion, 200 iterations allowed. -/
theorem C1_Solve_affine_exact_root_witness :
    ∃ after : Broyden,
      Broyden.Solve
          { m_Equations := some (affineEquations (1 : Matrix (Fin 1) (Fin 1) ℚ) ![5])
            m_Jacobian := none
            m_Iterations := 0
            m_MaxIterations := 0
            m_MaxDifference := 0
            m_UseNewton := false } [0] none 200
        = Outcome.ret (toVector ((1 : Matrix (Fin 1) (Fin 1) ℚ)⁻¹.mulVec ![5]), after)
      ∧ (affineEquations (1 : Matrix (Fin 1) (Fin 1) ℚ) ![5]).Equations
          ((1 : Matrix (Fin 1) (Fin 1) ℚ)⁻¹.mulVec ![5]) = 0
      ∧ after.Iterations = 1
      ∧ after.Iterations < after.MaxIterations :=
  C1_Solve_affine_exact_root (1 : Matrix (Fin 1) (Fin 1) ℚ) ![5] (by simp) [0] rfl
    BroydenJacobian.EPS (by norm_num [BroydenJacobian.EPS])
    Broyden.TOL (by norm_num [Broyden.TOL]) 200 (by decide) _ none rfl
    (Or.inr ⟨rfl, rfl⟩) (Or.inr ⟨rfl, rfl⟩)

/-- C2: when the Jacobian evaluated at `x0` has determinant exactly 0, `Broyden::Solve`
returns `x0` itself, performs no iteration step (no member other than the two counters
changes) and leaves `Iterations() = 0`. -/
theorem C2_Solve_singular_returns_input (self : Broyden) (eqs : BroydenEquations)
    (x0 : List ℚ) (solcrit : Option SolutionCriteriumRef) (max_iterations : Int)
    (Jac : MatrixXd)
    (hEq : self.m_Equations = some eqs)
    (hJac : (Broyden.jacobianInUse self.m_Jacobian eqs).Jacobian x0 = Outcome.ret Jac)
    (hdet : Jac.determinant = 0) :
    self.Solve x0 solcrit max_iterations
        = Outcome.ret (x0, { self with m_MaxIterations := max_iterations, m_Iterations := 0 })
      ∧ Broyden.Iterations
          { self with m_MaxIterations := max_iterations, m_Iterations := 0 } = 0 := by
  refine ⟨?_, rfl⟩
  unfold Broyden.Solve
  simp only [hEq, hJac, hdet, if_true]

/-- C2 at a concrete input: the constant system `f(x) = 0·x − 3`, whose Jacobian is the
zero matrix. -/
theorem C2_Solve_singular_returns_input_witness :
    Broyden.Solve
        { m_Equations := some (affineEquations (0 : Matrix (Fin 1) (Fin 1) ℚ) ![3])
          m_Jacobian := none
          m_Iterations := 7
          m_MaxIterations := 0
          m_MaxDifference := 0
          m_UseNewton := false } [2] none 200
      = Outcome.ret ([2],
          { m_Equations := some (affineEquations (0 : Matrix (Fin 1) (Fin 1) ℚ) ![3])
            m_Jacobian := none
            m_Iterations := 0
            m_MaxIterations := 200
            m_MaxDifference := 0
            m_UseNewton := false })
      ∧ Broyden.Iterations
          { m_Equations := some (affineEquations (0 : Matrix (Fin 1) (Fin 1) ℚ) ![3])
            m_Jacobian := none
            m_Iterations := 0
            m_MaxIterations := 200
            m_MaxDifference := 0
            m_UseNewton := false } = 0 :=
  C2_Solve_singular_returns_input _ (affineEquations (0 : Matrix (Fin 1) (Fin 1) ℚ) ![3])
    [2] none 200 (MatrixXd.ofMatrix 0) rfl
    (Jacobian_affine 0 ![3] BroydenJacobian.EPS (by norm_num [BroydenJacobian.EPS]) [2] rfl)
    (by rw [determinant_ofMatrix]; simp)

/-! ## The loop of `Broyden::Solve` and its iterates -/

theorem SolveLoop_accepted (eqs : BroydenEquations) (crit : SolutionCriteriumRef)
    (jac : JacobianRef) (newton : Bool) (max_iterations it : Int) (s : SolveState eqs.m_N)
    (h : it < max_iterations) (hs : Broyden.accepted eqs crit s = true) :
    ∃ s1, Broyden.SolveLoop eqs crit jac newton max_iterations it s = Outcome.ret (it, s1)
      ∧ s1.xcur = toVector (Broyden.xnew s) :=
  ⟨_, SolveLoop_break eqs crit jac newton max_iterations it s h hs, rfl⟩

theorem SolveLoop_advance (eqs : BroydenEquations) (crit : SolutionCriteriumRef)
    (jac : JacobianRef) (newton : Bool) (max_iterations it : Int) (s s1 : SolveState eqs.m_N)
    (h : it < max_iterations) (hs : Broyden.accepted eqs crit s = false)
    (hadv : Broyden.advance eqs jac newton s = Outcome.ret s1) :
    Broyden.SolveLoop eqs crit jac newton max_iterations it s
      = Broyden.SolveLoop eqs crit jac newton max_iterations (it + 1) s1 := by
  rw [SolveLoop_continue eqs crit jac newton max_iterations it s h hs]
  unfold Broyden.advance Broyden.xnew at hadv
  revert hadv
  cases Broyden.nextJinv eqs jac newton s.Jinv (toVector (s.xold - s.Jinv.mulVec s.fold))
      (s.xold - s.Jinv.mulVec s.fold - s.xold)
      (eqs.Equations (s.xold - s.Jinv.mulVec s.fold) - s.fold) with
  | exit => intro hadv; cases hadv
  | undefined => intro hadv; cases hadv
  | ret Jinv =>
    intro hadv
    simp only [Outcome.ret.injEq] at hadv
    simp only [hadv]

theorem advance_returns (eqs : BroydenEquations) (jac : JacobianRef) (newton : Bool)
    (hfit : newton = false ∨ jac.fits eqs.m_N) (s : SolveState eqs.m_N) :
    ∃ s1, Broyden.advance eqs jac newton s = Outcome.ret s1 := by
  unfold Broyden.advance Broyden.nextJinv
  rcases hfit with h | h
  · subst h
    exact ⟨_, rfl⟩
  · cases newton with
    | false => exact ⟨_, rfl⟩
    | true =>
      obtain ⟨J, hJ, hsize⟩ := h (toVector (Broyden.xnew s)) (length_toVector _)
      simp only [Bool.not_true, Bool.false_eq_true, if_false, hJ, hsize, if_true]
      exact ⟨_, rfl⟩

/-- The loop of `Broyden::Solve` entered with counter `it ≤ max_iterations`: either no
iterate satisfies the criterion and the loop ends with the counter at `max_iterations`,
or it ends at the first iterate that satisfies it. -/
theorem SolveLoop_spec (eqs : BroydenEquations) (crit : SolutionCriteriumRef)
    (jac : JacobianRef) (newton : Bool) (max_iterations : Int)
    (hfit : newton = false ∨ jac.fits eqs.m_N) :
    ∀ (n : ℕ) (it : Int) (s : SolveState eqs.m_N), it ≤ max_iterations →
      (max_iterations - it).toNat = n →
      ∃ it1 s1, Broyden.SolveLoop eqs crit jac newton max_iterations it s = Outcome.ret (it1, s1)
        ∧ ((it1 = max_iterations ∧ Broyden.iterate eqs jac newton n s = Outcome.ret s1
              ∧ ∀ j, j < n → ∃ sj, Broyden.iterate eqs jac newton j s = Outcome.ret sj
                  ∧ Broyden.accepted eqs crit sj = false)
          ∨ (∃ j, j < n ∧ it1 = it + j
              ∧ (∃ sj, Broyden.iterate eqs jac newton j s = Outcome.ret sj
                  ∧ Broyden.accepted eqs crit sj = true ∧ s1.xcur = toVector (Broyden.xnew sj))
              ∧ ∀ i, i < j → ∃ si, Broyden.iterate eqs jac newton i s = Outcome.ret si
                  ∧ Broyden.accepted eqs crit si = false)) := by
  intro n
  induction n with
  | zero =>
    intro it s hle hn
    have hit : it = max_iterations := by omega
    refine ⟨it, s, SolveLoop_done eqs crit jac newton max_iterations it s (by omega), ?_⟩
    left
    exact ⟨hit, rfl, fun j hj => absurd hj (Nat.not_lt_zero j)⟩
  | succ n ih =>
    intro it s hle hn
    have hlt : it < max_iterations := by omega
    cases hacc : Broyden.accepted eqs crit s with
    | true =>
      obtain ⟨s1, hs1, hx⟩ := SolveLoop_accepted eqs crit jac newton max_iterations it s hlt hacc
      refine ⟨it, s1, hs1, ?_⟩
      right
      refine ⟨0, Nat.succ_pos n, by simp, ⟨s, rfl, hacc, hx⟩, fun i hi => absurd hi (Nat.not_lt_zero i)⟩
    | false =>
      obtain ⟨s1, hadv⟩ := advance_returns eqs jac newton hfit s
      obtain ⟨it1, s2, hloop, hcases⟩ := ih (it + 1) s1 (by omega) (by omega)
      have hiter : ∀ k, Broyden.iterate eqs jac newton (k + 1) s
          = Broyden.iterate eqs jac newton k s1 := by
        intro k
        show (match Broyden.advance eqs jac newton s with
          | Outcome.exit => Outcome.exit
          | Outcome.undefined => Outcome.undefined
          | Outcome.ret s1 => Broyden.iterate eqs jac newton k s1) = _
        rw [hadv]
      have hshift : ∀ m, (∀ j, j < m → ∃ sj, Broyden.iterate eqs jac newton j s1 = Outcome.ret sj
            ∧ Broyden.accepted eqs crit sj = false) →
          ∀ j, j < m + 1 → ∃ sj, Broyden.iterate eqs jac newton j s = Outcome.ret sj
            ∧ Broyden.accepted eqs crit sj = false := by
        intro m hm j hj
        cases j with
        | zero => exact ⟨s, rfl, hacc⟩
        | succ j =>
          rw [hiter]
          exact hm j (by omega)
      refine ⟨it1, s2, ?_, ?_⟩
      · rw [SolveLoop_advance eqs crit jac newton max_iterations it s s1 hlt hacc hadv]
        exact hloop
      · rcases hcases with ⟨h1, h2, h3⟩ | ⟨j, hj, h1, ⟨sj, h2, h3, h4⟩, h5⟩
        · left
          refine ⟨h1, ?_, hshift n h3⟩
          rw [hiter]; exact h2
        · right
          refine ⟨j + 1, by omega, by rw [h1]; push_cast; ring, ⟨sj, ?_, h3, h4⟩, hshift j h5⟩
          rw [hiter]; exact h2

/-- C3: for `max_iterations ≥ 1` and a start with non-singular initial Jacobian,
`Broyden::Solve` returns after at most `max_iterations − 1` iterations;
`Iterations() == MaxIterations()` holds exactly when none of the iterates
`x_1 … x_{max_iterations−1}` satisfied the criterion (the returned vector is then the
last of them); otherwise `Iterations()` is the index of the first iterate that satisfied
it, and that iterate is the returned vector. -/
theorem C3_Solve_iterations_first_solved (self : Broyden) (eqs : BroydenEquations)
    (x0 : List ℚ) (solcrit : Option SolutionCriteriumRef) (max_iterations : Int)
    (Jac : MatrixXd)
    (hmax : 1 ≤ max_iterations)
    (hEq : self.m_Equations = some eqs)
    (hJac : (Broyden.jacobianInUse self.m_Jacobian eqs).Jacobian x0 = Outcome.ret Jac)
    (hdet : Jac.determinant ≠ 0)
    (hsize : Jac.size = eqs.m_N) (hx0 : x0.length = eqs.m_N)
    (hfit : self.m_UseNewton = false ∨ (Broyden.jacobianInUse self.m_Jacobian eqs).fits eqs.m_N) :
    ∃ (x : List ℚ) (after : Broyden),
      self.Solve x0 solcrit max_iterations = Outcome.ret (x, after)
      ∧ after.MaxIterations = max_iterations
      ∧ 1 ≤ after.Iterations ∧ after.Iterations ≤ max_iterations
      ∧ (after.Iterations = after.MaxIterations ↔
          ∀ k : ℕ, 1 ≤ k → (k : Int) < max_iterations →
            ∃ xk, Broyden.iterateIs eqs (Broyden.criteriumInUse solcrit)
              (Broyden.jacobianInUse self.m_Jacobian eqs) self.m_UseNewton
              (Broyden.initialState self eqs x0 Jac) k xk false)
      ∧ (after.Iterations = after.MaxIterations →
          ∃ s, Broyden.iterate eqs (Broyden.jacobianInUse self.m_Jacobian eqs) self.m_UseNewton
              (max_iterations - 1).toNat (Broyden.initialState self eqs x0 Jac) = Outcome.ret s
            ∧ x = s.xcur)
      ∧ (after.Iterations ≠ after.MaxIterations →
          ∃ k : ℕ, (k : Int) = after.Iterations ∧ 1 ≤ k ∧ (k : Int) < max_iterations
            ∧ Broyden.iterateIs eqs (Broyden.criteriumInUse solcrit)
                (Broyden.jacobianInUse self.m_Jacobian eqs) self.m_UseNewton
                (Broyden.initialState self eqs x0 Jac) k x true
            ∧ ∀ j : ℕ, 1 ≤ j → j < k →
                ∃ xj, Broyden.iterateIs eqs (Broyden.criteriumInUse solcrit)
                  (Broyden.jacobianInUse self.m_Jacobian eqs) self.m_UseNewton
                  (Broyden.initialState self eqs x0 Jac) j xj false) := by
  obtain ⟨it1, s1, hloop, hcases⟩ :=
    SolveLoop_spec eqs (Broyden.criteriumInUse solcrit)
      (Broyden.jacobianInUse self.m_Jacobian eqs) self.m_UseNewton max_iterations hfit
      (max_iterations - 1).toNat 1 (Broyden.initialState self eqs x0 Jac) hmax rfl
  have hsolve : self.Solve x0 solcrit max_iterations
      = Outcome.ret (s1.xcur,
          { self with
            m_MaxIterations := max_iterations
            m_Iterations := it1
            m_MaxDifference := s1.maxdiff }) := by
    have hboth : Jac.size = eqs.m_N ∧ x0.length = eqs.m_N := ⟨hsize, hx0⟩
    unfold Broyden.Solve
    simp only [hEq, hJac, hdet, if_false, hboth, and_self, if_true]
    unfold Broyden.initialState at hloop
    rw [hloop]
  refine ⟨_, _, hsolve, rfl, ?_⟩
  simp only [Broyden.Iterations, Broyden.MaxIterations]
  rcases hcases with ⟨h1, h2, h3⟩ | ⟨j, hj, h1, ⟨sj, h2, h3, h4⟩, h5⟩
  · subst h1
    refine ⟨hmax, le_refl _, ⟨fun _ k hk1 hk2 => ?_, fun _ => rfl⟩, fun _ => ⟨s1, h2, rfl⟩,
      fun hne => absurd rfl hne⟩
    obtain ⟨sk, hsk, hacc⟩ := h3 (k - 1) (by omega)
    exact ⟨_, sk, hsk, rfl, hacc⟩
  · have hjlt : (1 : Int) + j < max_iterations := by omega
    have hne : it1 ≠ max_iterations := by omega
    refine ⟨by omega, by omega, ⟨fun h => absurd h hne, fun hall => ?_⟩,
      fun h => absurd h hne, fun _ => ⟨j + 1, by omega, by omega, by omega,
        ⟨sj, h2, h4.symm, h3⟩, fun i hi1 hi2 => ?_⟩⟩
    · obtain ⟨xk, sk, hsk, _, hacc⟩ := hall (j + 1) (by omega) (by omega)
      have hsame : Outcome.ret sk = Outcome.ret sj := by
        rw [← hsk, ← h2]
        rfl
      cases hsame
      rw [h3] at hacc
      cases hacc
    · obtain ⟨si, hsi, hacc⟩ := h5 (i - 1) (by omega)
      exact ⟨_, si, hsi, rfl, hacc⟩

/-- C3 at a concrete input: the system `f(x) = x − 5` started at `[0]` with at most 200
iterations. -/
theorem C3_Solve_iterations_first_solved_witness :
    ∃ (x : List ℚ) (after : Broyden),
      shiftSolver.Solve [0] none 200 = Outcome.ret (x, after)
      ∧ after.MaxIterations = 200
      ∧ 1 ≤ after.Iterations ∧ after.Iterations ≤ 200
      ∧ (after.Iterations = after.MaxIterations ↔
          ∀ k : ℕ, 1 ≤ k → (k : Int) < 200 →
            ∃ xk, Broyden.iterateIs shiftSystem (Broyden.criteriumInUse none)
              (Broyden.jacobianInUse shiftSolver.m_Jacobian shiftSystem) shiftSolver.m_UseNewton
              (Broyden.initialState shiftSolver shiftSystem [0] shiftJacobian) k xk false)
      ∧ (after.Iterations = after.MaxIterations →
          ∃ s, Broyden.iterate shiftSystem
              (Broyden.jacobianInUse shiftSolver.m_Jacobian shiftSystem) shiftSolver.m_UseNewton
              ((200 : Int) - 1).toNat
              (Broyden.initialState shiftSolver shiftSystem [0] shiftJacobian)
                = Outcome.ret s
            ∧ x = s.xcur)
      ∧ (after.Iterations ≠ after.MaxIterations →
          ∃ k : ℕ, (k : Int) = after.Iterations ∧ 1 ≤ k ∧ (k : Int) < 200
            ∧ Broyden.iterateIs shiftSystem (Broyden.criteriumInUse none)
                (Broyden.jacobianInUse shiftSolver.m_Jacobian shiftSystem) shiftSolver.m_UseNewton
                (Broyden.initialState shiftSolver shiftSystem [0] shiftJacobian) k x true
            ∧ ∀ j : ℕ, 1 ≤ j → j < k →
                ∃ xj, Broyden.iterateIs shiftSystem (Broyden.criteriumInUse none)
                  (Broyden.jacobianInUse shiftSolver.m_Jacobian shiftSystem)
                  shiftSolver.m_UseNewton
                  (Broyden.initialState shiftSolver shiftSystem [0] shiftJacobian)
                  j xj false) :=
  C3_Solve_iterations_first_solved shiftSolver shiftSystem [0] none 200 shiftJacobian
    (by decide) rfl
    (Jacobian_affine 1 ![5] BroydenJacobian.EPS (by norm_num [BroydenJacobian.EPS]) [0] rfl)
    (by unfold shiftJacobian; rw [determinant_ofMatrix]; simp) rfl rfl (Or.inl rfl)

/-- C10, the claim as stated fails: with a Jacobian override installed, a start vector of
length 2 for a system of dimension 1 does not terminate the process; `Broyden::Solve`
returns the start vector. -/
theorem C10_override_mismatch_returns :
    [(0 : ℚ), 0].length ≠ shiftSystem.Dimension
      ∧ overrideSolver.Solve [0, 0] none 200
        = Outcome.ret ([0, 0], { overrideSolver with m_MaxIterations := 200, m_Iterations := 0 })
      ∧ overrideSolver.Solve [0, 0] none 200 ≠ Outcome.exit := by
  have hsolve : overrideSolver.Solve [0, 0] none 200
      = Outcome.ret ([0, 0],
          { overrideSolver with m_MaxIterations := 200, m_Iterations := 0 }) := by
    have hdet : (MatrixXd.ofMatrix
        (0 : Matrix (Fin [(0 : ℚ), 0].length) (Fin [(0 : ℚ), 0].length) ℚ)).determinant = 0 := by
      rw [determinant_ofMatrix]
      exact Matrix.det_zero ⟨⟨0, by decide⟩⟩
    unfold Broyden.Solve
    simp only [overrideSolver, Broyden.jacobianInUse, sizeFromArgumentJacobian,
      JacobianRef.Jacobian, hdet, if_true]
  refine ⟨by decide, hsolve, ?_⟩
  rw [hsolve]
  intro h
  cases h

/-- C10 (amended): `Broyden::Solve` terminates the process whenever no equation system is
bound, whichever Jacobian is installed, and whenever the length of `x0` differs from the
dimension of the bound system while the finite-difference `BroydenJacobian` on that system
is in use (the default one, or an installed base-class object bound to the system). -/
theorem C10_Solve_exits (self : Broyden) (x0 : List ℚ)
    (solcrit : Option SolutionCriteriumRef) (max_iterations : Int)
    (h : self.m_Equations = none
      ∨ ∃ eqs : BroydenEquations, self.m_Equations = some eqs
          ∧ x0.length ≠ eqs.Dimension
          ∧ (self.m_Jacobian = none
            ∨ ∃ dx, self.m_Jacobian
                = some (JacobianRef.base { m_Equations := some eqs, m_dx := dx }))) :
    self.Solve x0 solcrit max_iterations = Outcome.exit := by
  rcases h with h | ⟨eqs, hEq, hlen, hjac⟩
  · unfold Broyden.Solve
    simp only [h]
  · have hne : eqs.Dimension ≠ x0.length := fun e => hlen e.symm
    have hJ : ∃ dx, Broyden.jacobianInUse self.m_Jacobian eqs
        = JacobianRef.base { m_Equations := some eqs, m_dx := dx } := by
      rcases hjac with h | ⟨dx, h⟩
      · exact ⟨BroydenJacobian.EPS, by rw [h]; rfl⟩
      · exact ⟨dx, by rw [h]; rfl⟩
    obtain ⟨dx, hJ⟩ := hJ
    unfold Broyden.Solve
    simp only [hEq, hJ, JacobianRef.Jacobian, BroydenJacobian.Jacobian, hne, ne_eq,
      not_false_eq_true, if_true]

/-- C10 (amended) at a concrete input: the default Jacobian on the one-dimensional
`shiftSystem` and a start vector of length 2. -/
theorem C10_Solve_exits_witness :
    shiftSolver.Solve [0, 0] none 200 = Outcome.exit :=
  C10_Solve_exits shiftSolver [0, 0] none 200
    (Or.inr ⟨shiftSystem, rfl, by decide, Or.inl rfl⟩)


/-! ## The excluded-volume cross-terms model -/

theorem BroydenEquationsCRSDEV_const {N : ℕ} (M : ThermalModelEVCrossterms N) (c : ℚ)
    (h : ∀ P, M.PressureDiagonalTotal P = c) :
    M.BroydenEquationsCRSDEV = affineEquations (1 : Matrix (Fin 1) (Fin 1) ℚ) ![c] := by
  unfold ThermalModelEVCrossterms.BroydenEquationsCRSDEV affineEquations
  congr 1
  funext x i
  have hi : i = 0 := Subsingleton.elim _ _
  subst hi
  simp [h, Matrix.one_mulVec]

/-- `Broyden::Solve` on an affine system with the finite-difference Jacobian and the default
criterion: the first iterate is the root. -/
theorem Solve_affine_first_iterate {N : ℕ} (A : Matrix (Fin N) (Fin N) ℚ) (b : Fin N → ℚ)
    (hA : A.det ≠ 0) (x0 : List ℚ) (hx0 : x0.length = N)
    (dx : ℚ) (hdx : dx ≠ 0) (tol : ℚ) (htol : 0 < tol)
    (max_iterations : Int) (hlt : 1 < max_iterations) :
    ∃ after : Broyden,
      (Broyden.new (some (affineEquations A b))
        (some (JacobianRef.base { m_Equations := some (affineEquations A b), m_dx := dx }))).Solve
        x0 (some (SolutionCriteriumRef.base { m_RelativeError := tol })) max_iterations
      = Outcome.ret (toVector (A⁻¹.mulVec b), after) := by
  have hunit : IsUnit A.det := isUnit_iff_ne_zero.mpr hA
  have hres : (affineEquations A b).Equations (A⁻¹.mulVec b) = 0 := by
    show A.mulVec (A⁻¹.mulVec b) - b = 0
    rw [Matrix.mulVec_mulVec, Matrix.mul_nonsing_inv A hunit, Matrix.one_mulVec, sub_self]
  have hJ : (Broyden.jacobianInUse
      (Broyden.new (some (affineEquations A b))
        (some (JacobianRef.base
          { m_Equations := some (affineEquations A b), m_dx := dx }))).m_Jacobian
      (affineEquations A b)).Jacobian x0
      = Outcome.ret (MatrixXd.ofMatrix A) :=
    Jacobian_affine A b dx hdx x0 hx0
  have hacc : Broyden.accepted (affineEquations A b)
      (Broyden.criteriumInUse (some (SolutionCriteriumRef.base { m_RelativeError := tol })))
      (Broyden.initialState (Broyden.new (some (affineEquations A b))
        (some (JacobianRef.base { m_Equations := some (affineEquations A b), m_dx := dx })))
        (affineEquations A b) x0 (MatrixXd.ofMatrix A)) = true := by
    unfold Broyden.accepted
    rw [xnew_affine A b hA, hres]
    simp only [Broyden.criteriumInUse, SolutionCriteriumRef.IsSolved]
    exact IsSolved_zero tol htol _ _
  have hsolve := Solve_first_iterate (Broyden.new (some (affineEquations A b))
      (some (JacobianRef.base { m_Equations := some (affineEquations A b), m_dx := dx })))
    (affineEquations A b) x0
    (some (SolutionCriteriumRef.base { m_RelativeError := tol })) max_iterations
    (MatrixXd.ofMatrix A) rfl hJ (by rw [determinant_ofMatrix]; exact hA) rfl hx0 hlt hacc
  rw [xnew_affine A b hA] at hsolve
  exact ⟨_, hsolve⟩


theorem Outcome.bind_ret {α β : Type} (a : α) (f : α → Outcome β) :
    (Outcome.ret a).bind f = f a := rfl

theorem SolveDiagonal_const {N : ℕ} (M : ThermalModelEVCrossterms N) (c : ℚ)
    (h : ∀ P, M.PressureDiagonalTotal P = c) :
    M.SolveDiagonal
      = Outcome.ret { M with m_Pressure := c, m_Ps := fun i => M.PressureDiagonal i c } := by
  obtain ⟨after, hsolve⟩ := Solve_affine_first_iterate (1 : Matrix (Fin 1) (Fin 1) ℚ) ![c]
    (by simp) [0] rfl (1 / 100000000) (by norm_num) (1 / 100000000) (by norm_num)
    Broyden.MAX_ITERS (by decide)
  have hx : (toVector ((1 : Matrix (Fin 1) (Fin 1) ℚ)⁻¹.mulVec ![c])).getD 0 0 = c := by
    rw [inv_one, Matrix.one_mulVec]
    simp [toVector]
  unfold ThermalModelEVCrossterms.SolveDiagonal
  rewrite [BroydenEquationsCRSDEV_const M c h]
  dsimp only
  rewrite [hsolve, Outcome.bind_ret]
  simp only [hx]
theorem VirialCoefficient_fin {N : ℕ} (M : ThermalModelEVCrossterms N) (i j : Fin N) :
    M.VirialCoefficient (i.val : Int) (j.val : Int) = Outcome.ret (M.m_Virial i j) := by
  have hi := i.isLt
  have hj := j.isLt
  have hguard : ¬ ((i.val : Int) < 0 ∨ (i.val : Int) ≥ (N : Int) ∨ (j.val : Int) < 0
      ∨ (j.val : Int) > (N : Int)) := by omega
  unfold ThermalModelEVCrossterms.VirialCoefficient
  simp only [hguard, if_false, Int.toNat_ofNat, hi, hj, and_self, dif_pos, Fin.eta]

theorem BroydenJacobianCRS_eq {N : ℕ} (M : ThermalModelEVCrossterms N) (x : List ℚ)
    (hx : x.length = N) :
    M.BroydenJacobianCRS x
      = Outcome.ret (MatrixXd.ofMatrix (Matrix.of fun i j : Fin N =>
          (if i = j then 1 else 0) + M.m_Virial i j * M.DensityId i (ofVector N x))) := by
  unfold ThermalModelEVCrossterms.BroydenJacobianCRS
  simp only [hx, if_true, VirialCoefficient_fin, Outcome.getD, zero_add]

theorem foldl_max_eq_zero (n : ℕ) (g : ℕ → ℚ) (h : ∀ i, i < n → g i = 0) :
    (List.range n).foldl (fun maxdiff i => max maxdiff (g i)) 0 = 0 := by
  induction n with
  | zero => simp
  | succ n ih =>
    rw [foldl_max_succ, ih (fun i hi => h i (Nat.lt_succ_of_lt hi)), h n (Nat.lt_succ_self n)]
    simp

theorem getD_toVector_zero {N : ℕ} (i : ℕ) : (toVector (0 : Fin N → ℚ)).getD i 0 = 0 := by
  rw [getD_toVector_nat]
  split_ifs <;> rfl

theorem maxAbs_toVector_zero {N : ℕ} (n : ℕ) : maxAbs n (toVector (0 : Fin N → ℚ)) = 0 :=
  foldl_max_eq_zero n _ (fun i _ => by
    show |(toVector (0 : Fin N → ℚ)).getD i 0| = 0
    rw [getD_toVector_zero, abs_zero])

theorem maxRel_toVector_zero {N : ℕ} (n : ℕ) (x : List ℚ) :
    maxRel n (toVector (0 : Fin N → ℚ)) x = some 0 := by
  induction n with
  | zero => rfl
  | succ n ih =>
    rw [maxRel_succ, ih]
    simp only [getD_toVector_zero, if_true, abs_zero, zero_div, max_self]
    split_ifs <;> rfl

theorem SolvePressure_reset {N : ℕ} (M M1 : ThermalModelEVCrossterms N) (relative_error : ℚ)
    (h : ThermalModelEVCrossterms.SolveDiagonal { M with m_Ps := fun _ => 0 } = Outcome.ret M1) :
    M.SolvePressure true relative_error = M1.SolvePressure false relative_error := by
  unfold ThermalModelEVCrossterms.SolvePressure
  simp only [if_true, h, Bool.false_eq_true, if_false, Outcome.bind_ret]

/-- With an all-zero virial matrix, the cross-terms solve started from the ideal-gas
pressures stops at its first iterate, which is the start itself. -/
theorem SolvePressure_zero_virial_seeded {N : ℕ} (M : ThermalModelEVCrossterms N)
    (relative_error : ℚ) (hrel : 0 < relative_error)
    (hV : ∀ i j, M.m_Virial i j = 0)
    (hPs : ∀ i, M.m_Ps i = M.idealGas IdealGasFunctions.Quantity.Pressure i) :
    M.SolvePressure false relative_error
      = Outcome.ret
          { M with
            m_Pressure := ∑ i, M.m_Ps i
            m_LastCalculationSuccessFlag := true
            m_MaxDiff := 0 } := by
  have hdMu : ∀ (i : Fin N) (x : Fin N → ℚ), M.dMu i x = 0 := by
    intro i x
    simp [ThermalModelEVCrossterms.dMu, hV]
  have hmat : (Matrix.of fun i j : Fin N =>
      (if i = j then (1 : ℚ) else 0)
        + M.m_Virial i j * M.DensityId i (ofVector N (toVector M.m_Ps)))
      = (1 : Matrix (Fin N) (Fin N) ℚ) := by
    ext i j
    simp [hV, Matrix.one_apply]
  have hJ : (Broyden.jacobianInUse
      (Broyden.new (some M.BroydenEquationsCRS)
        (some (JacobianRef.derived M.BroydenJacobianCRS))).m_Jacobian
      M.BroydenEquationsCRS).Jacobian (toVector M.m_Ps)
      = Outcome.ret (MatrixXd.ofMatrix (1 : Matrix (Fin N) (Fin N) ℚ)) := by
    show M.BroydenJacobianCRS (toVector M.m_Ps) = _
    rw [BroydenJacobianCRS_eq M _ (length_toVector _), hmat]
  have hf : M.BroydenEquationsCRS.Equations M.m_Ps = 0 := by
    funext i
    show M.m_Ps i - M.Pressure i M.m_Ps = 0
    rw [hPs i]
    simp [ThermalModelEVCrossterms.Pressure, ThermalModelEVCrossterms.idealGas, hdMu]
  have hxnew : Broyden.xnew (Broyden.initialState
      (Broyden.new (some M.BroydenEquationsCRS)
        (some (JacobianRef.derived M.BroydenJacobianCRS)))
      M.BroydenEquationsCRS (toVector M.m_Ps)
      (MatrixXd.ofMatrix (1 : Matrix (Fin N) (Fin N) ℚ))) = M.m_Ps := by
    show ofVector N (toVector M.m_Ps)
      - (inverse ((MatrixXd.ofMatrix (1 : Matrix (Fin N) (Fin N) ℚ)).toMatrix N)).mulVec
        (M.BroydenEquationsCRS.Equations (ofVector N (toVector M.m_Ps))) = M.m_Ps
    rw [ofVector_toVector, hf, Matrix.mulVec_zero, sub_zero]
  have hsolve := Solve_first_iterate
    (Broyden.new (some M.BroydenEquationsCRS)
      (some (JacobianRef.derived M.BroydenJacobianCRS)))
    M.BroydenEquationsCRS (toVector M.m_Ps)
    (some (SolutionCriteriumRef.derived
      (ThermalModelEVCrossterms.BroydenSolutionCriteriumCRS relative_error)))
    Broyden.MAX_ITERS (MatrixXd.ofMatrix (1 : Matrix (Fin N) (Fin N) ℚ)) rfl hJ
    (by rw [determinant_ofMatrix]; simp) rfl (length_toVector _) (by decide)
    (by
      unfold Broyden.accepted
      rw [hxnew, hf]
      simp only [Broyden.criteriumInUse, SolutionCriteriumRef.IsSolved,
        ThermalModelEVCrossterms.BroydenSolutionCriteriumCRS, maxRel_toVector_zero,
        decide_eq_true_eq]
      exact hrel)
  rewrite [hxnew, hf] at hsolve
  unfold ThermalModelEVCrossterms.SolvePressure
  simp only [Bool.false_eq_true, if_false, Outcome.bind_ret, hsolve, ofVector_toVector,
    maxAbs_toVector_zero, Broyden.Iterations, Broyden.MaxIterations, Broyden.MaxDifference]
  rfl

/-- With an all-zero virial matrix `SolvePressure` (with its `SolveDiagonal` seeding) ends
with the ideal-gas pressures at zero shift and reports success. -/
theorem SolvePressure_zero_virial {N : ℕ} (M : ThermalModelEVCrossterms N)
    (relative_error : ℚ) (hrel : 0 < relative_error)
    (hV : ∀ i j, M.m_Virial i j = 0) :
    M.SolvePressure true relative_error
      = Outcome.ret
          { M with
            m_Ps := fun i => M.idealGas IdealGasFunctions.Quantity.Pressure i
            m_Pressure := ∑ i, M.idealGas IdealGasFunctions.Quantity.Pressure i
            m_LastCalculationSuccessFlag := true
            m_MaxDiff := 0 } := by
  have hconst : ∀ P, ThermalModelEVCrossterms.PressureDiagonalTotal
      { M with m_Ps := fun _ => 0 } P
      = ∑ i, M.idealGas IdealGasFunctions.Quantity.Pressure i := by
    intro P
    simp [ThermalModelEVCrossterms.PressureDiagonalTotal,
      ThermalModelEVCrossterms.PressureDiagonal, ThermalModelEVCrossterms.idealGas, hV]
  have hPD : (fun i => ThermalModelEVCrossterms.PressureDiagonal
      { M with m_Ps := fun _ => 0 } i (∑ i, M.idealGas IdealGasFunctions.Quantity.Pressure i))
      = fun i => M.idealGas IdealGasFunctions.Quantity.Pressure i := by
    funext i
    simp [ThermalModelEVCrossterms.PressureDiagonal, ThermalModelEVCrossterms.idealGas, hV]
  have hdiag : ThermalModelEVCrossterms.SolveDiagonal { M with m_Ps := fun _ => 0 }
      = Outcome.ret
          { M with
            m_Ps := fun i => M.idealGas IdealGasFunctions.Quantity.Pressure i
            m_Pressure := ∑ i, M.idealGas IdealGasFunctions.Quantity.Pressure i } := by
    rw [SolveDiagonal_const { M with m_Ps := fun _ => 0 } _ hconst, hPD]
  have hstage := SolvePressure_zero_virial_seeded
    { M with
      m_Ps := fun i => M.idealGas IdealGasFunctions.Quantity.Pressure i
      m_Pressure := ∑ i, M.idealGas IdealGasFunctions.Quantity.Pressure i }
    relative_error hrel hV (fun _ => rfl)
  rw [SolvePressure_reset M _ relative_error hdiag, hstage]

theorem CalculateDensities_of_SolvePressure {N : ℕ} (M model : ThermalModelEVCrossterms N)
    (relative_error : ℚ)
    (h : ThermalModelEVCrossterms.SolvePressure { M with m_FluctuationsCalculated := false }
      true relative_error = Outcome.ret model) :
    M.CalculateDensities relative_error
      = Outcome.ret
          { model with
            m_densities := fun i =>
              ∑ j, (inverse model.densMatrix).mulVec
                (Pi.single i (model.DensityId i model.m_Ps)) j
            m_TotalEntropyDensity :=
              ∑ i, (inverse model.densMatrix).mulVec (fun k => model.EntropyDensityId k) i
            m_Calculated := true } := by
  unfold ThermalModelEVCrossterms.CalculateDensities
  rewrite [h, Outcome.bind_ret]
  rfl

theorem dMu_zero_virial {N : ℕ} (model : ThermalModelEVCrossterms N)
    (hV : ∀ i j, model.m_Virial i j = 0) (i : Fin N) (x : Fin N → ℚ) :
    model.dMu i x = 0 := by
  simp [ThermalModelEVCrossterms.dMu, hV]

theorem CalculateDensities_zero_virial_model {N : ℕ} (M model : ThermalModelEVCrossterms N)
    (relative_error : ℚ)
    (h : ThermalModelEVCrossterms.SolvePressure { M with m_FluctuationsCalculated := false }
      true relative_error = Outcome.ret model)
    (hV : ∀ i j, model.m_Virial i j = 0) :
    M.CalculateDensities relative_error
      = Outcome.ret
          { model with
            m_densities := fun i => model.idealGas IdealGasFunctions.Quantity.ParticleDensity i
            m_TotalEntropyDensity :=
              ∑ i, model.idealGas IdealGasFunctions.Quantity.EntropyDensity i
            m_Calculated := true } := by
  have hdens : model.densMatrix = 1 := by
    ext i j
    simp [ThermalModelEVCrossterms.densMatrix, hV, Matrix.one_apply]
  have hinv : inverse (1 : Matrix (Fin N) (Fin N) ℚ) = 1 := by
    rw [inverse_eq_inv, inv_one]
  have h1 : (fun i => ∑ j, (inverse model.densMatrix).mulVec
      (Pi.single i (model.DensityId i model.m_Ps)) j)
      = fun i => model.idealGas IdealGasFunctions.Quantity.ParticleDensity i := by
    funext i
    rw [hdens, hinv, Matrix.one_mulVec, Finset.sum_pi_single']
    simp [ThermalModelEVCrossterms.DensityId, ThermalModelEVCrossterms.idealGas,
      dMu_zero_virial model hV]
  have h2 : ∑ i, (inverse model.densMatrix).mulVec (fun k => model.EntropyDensityId k) i
      = ∑ i, model.idealGas IdealGasFunctions.Quantity.EntropyDensity i := by
    rw [hdens, hinv, Matrix.one_mulVec]
    simp [ThermalModelEVCrossterms.EntropyDensityId, ThermalModelEVCrossterms.idealGas,
      dMu_zero_virial model hV]
  rw [CalculateDensities_of_SolvePressure M model relative_error h, h1, h2]

/-- With an all-zero virial matrix `CalculateDensities` stores the ideal-gas densities and
the sum of the ideal-gas entropy densities. -/
theorem CalculateDensities_zero_virial {N : ℕ} (M : ThermalModelEVCrossterms N)
    (relative_error : ℚ) (hrel : 0 < relative_error)
    (hV : ∀ i j, M.m_Virial i j = 0) :
    M.CalculateDensities relative_error
      = Outcome.ret
          { M with
            m_FluctuationsCalculated := false
            m_Ps := fun i => M.idealGas IdealGasFunctions.Quantity.Pressure i
            m_Pressure := ∑ i, M.idealGas IdealGasFunctions.Quantity.Pressure i
            m_LastCalculationSuccessFlag := true
            m_MaxDiff := 0
            m_densities := fun i => M.idealGas IdealGasFunctions.Quantity.ParticleDensity i
            m_TotalEntropyDensity := ∑ i, M.idealGas IdealGasFunctions.Quantity.EntropyDensity i
            m_Calculated := true } := by
  have h : ThermalModelEVCrossterms.SolvePressure { M with m_FluctuationsCalculated := false }
      true relative_error
      = Outcome.ret
          { M with
            m_FluctuationsCalculated := false
            m_Ps := fun i => M.idealGas IdealGasFunctions.Quantity.Pressure i
            m_Pressure := ∑ i, M.idealGas IdealGasFunctions.Quantity.Pressure i
            m_LastCalculationSuccessFlag := true
            m_MaxDiff := 0 } :=
    SolvePressure_zero_virial { M with m_FluctuationsCalculated := false } relative_error hrel hV
  rw [CalculateDensities_zero_virial_model M _ relative_error h hV]
  rfl

/-- C5: non-interacting limit.  For any number of species, with an all-zero virial matrix
and strictly positive ideal-gas pressures at zero shift, `SolvePressure` (with its
`SolveDiagonal` seeding) ends with `Ps[i]` equal to the ideal-gas pressure of species `i`,
the total pressure equal to their sum and the success flag true, and `CalculateDensities`
sets `densities[i]` to the ideal-gas density of species `i` and the total entropy density to
the sum of the ideal-gas entropy densities. -/
theorem C5_noninteracting_limit {N : ℕ} (M : ThermalModelEVCrossterms N)
    (relative_error : ℚ) (hrel : 0 < relative_error)
    (hV : ∀ i j, M.m_Virial i j = 0)
    (_hpos : ∀ i, 0 < M.idealGas IdealGasFunctions.Quantity.Pressure i) :
    ∃ M1 M2 : ThermalModelEVCrossterms N,
      M.SolvePressure true relative_error = Outcome.ret M1
      ∧ (∀ i, M1.m_Ps i = M.idealGas IdealGasFunctions.Quantity.Pressure i)
      ∧ M1.m_Pressure = ∑ i, M.idealGas IdealGasFunctions.Quantity.Pressure i
      ∧ M1.m_LastCalculationSuccessFlag = true
      ∧ M.CalculateDensities relative_error = Outcome.ret M2
      ∧ (∀ i, M2.m_Ps i = M.idealGas IdealGasFunctions.Quantity.Pressure i)
      ∧ M2.m_LastCalculationSuccessFlag = true
      ∧ (∀ i, M2.m_densities i = M.idealGas IdealGasFunctions.Quantity.ParticleDensity i)
      ∧ M2.m_TotalEntropyDensity
          = ∑ i, M.idealGas IdealGasFunctions.Quantity.EntropyDensity i := by
  exact ⟨_, _, SolvePressure_zero_virial M relative_error hrel hV, fun _ => rfl, rfl, rfl,
    CalculateDensities_zero_virial M relative_error hrel hV, fun _ => rfl, rfl, fun _ => rfl,
    rfl⟩

/-- C5 at a concrete input: one species with pressure `1 + dMu`, density `1` and entropy
density `3`, zero virial matrix. -/
theorem C5_noninteracting_limit_witness :
    ∃ M1 M2 : ThermalModelEVCrossterms 1,
      freeGas.SolvePressure true Broyden.TOL = Outcome.ret M1
      ∧ (∀ i, M1.m_Ps i = freeGas.idealGas IdealGasFunctions.Quantity.Pressure i)
      ∧ M1.m_Pressure = ∑ i, freeGas.idealGas IdealGasFunctions.Quantity.Pressure i
      ∧ M1.m_LastCalculationSuccessFlag = true
      ∧ freeGas.CalculateDensities Broyden.TOL = Outcome.ret M2
      ∧ (∀ i, M2.m_Ps i = freeGas.idealGas IdealGasFunctions.Quantity.Pressure i)
      ∧ M2.m_LastCalculationSuccessFlag = true
      ∧ (∀ i, M2.m_densities i = freeGas.idealGas IdealGasFunctions.Quantity.ParticleDensity i)
      ∧ M2.m_TotalEntropyDensity
          = ∑ i, freeGas.idealGas IdealGasFunctions.Quantity.EntropyDensity i :=
  C5_noninteracting_limit freeGas Broyden.TOL (by norm_num [Broyden.TOL]) (fun _ _ => rfl)
    (fun _ => by
      simp [ThermalModelEVCrossterms.idealGas, freeGas, affineParticle])

/-- When the Jacobian at `x0` is singular, `Broyden::Solve` returns `x0` and sets
`m_Iterations` to 0. -/
theorem Solve_singular (self : Broyden) (eqs : BroydenEquations)
    (x0 : List ℚ) (solcrit : Option SolutionCriteriumRef) (max_iterations : Int)
    (Jac : MatrixXd)
    (hEq : self.m_Equations = some eqs)
    (hJac : (Broyden.jacobianInUse self.m_Jacobian eqs).Jacobian x0 = Outcome.ret Jac)
    (hdet : Jac.determinant = 0) :
    self.Solve x0 solcrit max_iterations
      = Outcome.ret (x0, { self with m_MaxIterations := max_iterations, m_Iterations := 0 }) := by
  unfold Broyden.Solve
  simp only [hEq, hJac, hdet, if_true]

/-- When the closed-form Jacobian is singular at the stored pressures, `SolvePressure`
(without reseeding) keeps these pressures and sets the success flag. -/
theorem SolvePressure_singular {N : ℕ} (M : ThermalModelEVCrossterms N) (relative_error : ℚ)
    (hdet : (Matrix.of fun i j : Fin N =>
        (if i = j then (1 : ℚ) else 0)
          + M.m_Virial i j * M.DensityId i (ofVector N (toVector M.m_Ps))).det = 0) :
    M.SolvePressure false relative_error
      = Outcome.ret
          { M with
            m_Pressure := ∑ i, M.m_Ps i
            m_LastCalculationSuccessFlag := true
            m_MaxDiff := 0 } := by
  have hJ : (Broyden.jacobianInUse
      (Broyden.new (some M.BroydenEquationsCRS)
        (some (JacobianRef.derived M.BroydenJacobianCRS))).m_Jacobian
      M.BroydenEquationsCRS).Jacobian (toVector M.m_Ps)
      = Outcome.ret (MatrixXd.ofMatrix (Matrix.of fun i j : Fin N =>
          (if i = j then (1 : ℚ) else 0)
            + M.m_Virial i j * M.DensityId i (ofVector N (toVector M.m_Ps)))) :=
    BroydenJacobianCRS_eq M _ (length_toVector _)
  have hsolve := Solve_singular
    (Broyden.new (some M.BroydenEquationsCRS)
      (some (JacobianRef.derived M.BroydenJacobianCRS)))
    M.BroydenEquationsCRS (toVector M.m_Ps)
    (some (SolutionCriteriumRef.derived
      (ThermalModelEVCrossterms.BroydenSolutionCriteriumCRS relative_error)))
    Broyden.MAX_ITERS _ rfl hJ (by rw [determinant_ofMatrix]; exact hdet)
  unfold ThermalModelEVCrossterms.SolvePressure
  simp only [Bool.false_eq_true, if_false, Outcome.bind_ret, hsolve, ofVector_toVector,
    Broyden.Iterations, Broyden.MaxIterations, Broyden.MaxDifference]
  rfl

/-- C4, the code at the failing input: two species with `Virial = [[0, 1], [1, 0]]`.
`SolveDiagonal` seeds `Ps = (1, 1)`, where the Jacobian `[[1, 1], [1, 1]]` is singular;
`Broyden::Solve` returns the seed with `Iterations() = 0`, and `SolvePressure` sets the
success flag although both residuals are `1` and the relative criterion does not hold. -/
theorem C4_singular_seed_flagged_solved :
    ∃ M1 : ThermalModelEVCrossterms 2,
      crossGas.SolvePressure true Broyden.TOL = Outcome.ret M1
      ∧ M1.m_LastCalculationSuccessFlag = true
      ∧ (∀ i, M1.m_Ps i = 1)
      ∧ (∀ i, M1.BroydenEquationsCRS.Equations M1.m_Ps i = 1)
      ∧ ThermalModelEVCrossterms.BroydenSolutionCriteriumCRS Broyden.TOL (toVector M1.m_Ps)
          (toVector (M1.BroydenEquationsCRS.Equations M1.m_Ps)) (toVector M1.m_Ps) = false := by
  have hconst : ∀ P, ThermalModelEVCrossterms.PressureDiagonalTotal
      { crossGas with m_Ps := fun _ => 0 } P = 2 := by
    intro P
    simp [ThermalModelEVCrossterms.PressureDiagonalTotal,
      ThermalModelEVCrossterms.PressureDiagonal, crossGas, affineParticle]
  have hdiag := SolveDiagonal_const { crossGas with m_Ps := fun _ => 0 } 2 hconst
  have hreset := SolvePressure_reset crossGas _ Broyden.TOL hdiag
  have hsing := SolvePressure_singular
    { ({ crossGas with m_Ps := fun _ => 0 } : ThermalModelEVCrossterms 2) with
      m_Pressure := 2
      m_Ps := fun i => ThermalModelEVCrossterms.PressureDiagonal
        { crossGas with m_Ps := fun _ => 0 } i 2 }
    Broyden.TOL (by
      rw [Matrix.det_fin_two]
      simp [ThermalModelEVCrossterms.DensityId, ThermalModelEVCrossterms.PressureDiagonal,
        crossGas, affineParticle])
  have hfinal := hreset.trans hsing
  have hPs : ∀ i : Fin 2, ThermalModelEVCrossterms.PressureDiagonal
      { crossGas with m_Ps := fun _ => 0 } i 2 = 1 := by
    intro i
    simp [ThermalModelEVCrossterms.PressureDiagonal, crossGas, affineParticle]
  refine ⟨_, hfinal, rfl, hPs, ?_, ?_⟩
  · intro i
    fin_cases i <;>
      simp [ThermalModelEVCrossterms.BroydenEquationsCRS, ThermalModelEVCrossterms.Pressure,
        ThermalModelEVCrossterms.dMu, ThermalModelEVCrossterms.PressureDiagonal, crossGas,
        affineParticle, Fin.sum_univ_two]
  · simp [ThermalModelEVCrossterms.BroydenSolutionCriteriumCRS, maxRel, toVector, Broyden.TOL,
      List.range_succ, ThermalModelEVCrossterms.BroydenEquationsCRS,
      ThermalModelEVCrossterms.Pressure, ThermalModelEVCrossterms.dMu,
      ThermalModelEVCrossterms.PressureDiagonal, crossGas, affineParticle, Fin.sum_univ_two]
    norm_num

theorem FillVirial_apply {N : ℕ} (brr : ℚ → ℚ → ℚ) (M : ThermalModelEVCrossterms N)
    (ri : List ℚ) (hlen : ri.length = N) (i j : Fin N) :
    (ThermalModelEVCrossterms.FillVirial brr M ri).m_Virial i j
      = if i = j then brr (ri.getD i.val 0) (ri.getD j.val 0)
        else if brr (ri.getD i.val 0) (ri.getD i.val 0)
            + brr (ri.getD j.val 0) (ri.getD j.val 0) > 0 then
          2 * brr (ri.getD i.val 0) (ri.getD j.val 0) * brr (ri.getD i.val 0) (ri.getD i.val 0)
            / (brr (ri.getD i.val 0) (ri.getD i.val 0)
              + brr (ri.getD j.val 0) (ri.getD j.val 0))
        else brr (ri.getD i.val 0) (ri.getD j.val 0) := by
  unfold ThermalModelEVCrossterms.FillVirial
  simp only [hlen, ne_eq, not_true_eq_false, if_false]

theorem FillVirial_diag {N : ℕ} (brr : ℚ → ℚ → ℚ) (M : ThermalModelEVCrossterms N)
    (ri : List ℚ) (hlen : ri.length = N) (k : Fin N) :
    (ThermalModelEVCrossterms.FillVirial brr M ri).m_Virial k k
      = brr (ri.getD k.val 0) (ri.getD k.val 0) := by
  rw [FillVirial_apply brr M ri hlen, if_pos rfl]

theorem ratio_symmetric (tii tjj tij : ℚ) (hi : 0 < tii) (hj : 0 < tjj) :
    2 * tij * tii / (tii + tjj) / tii = 2 * tij * tjj / (tjj + tii) / tjj
      ∧ 2 * tij * tii / (tii + tjj) / tii = 2 * tij / (tii + tjj) := by
  have h1 : tii ≠ 0 := ne_of_gt hi
  have h2 : tjj ≠ 0 := ne_of_gt hj
  have h3 : tii + tjj ≠ 0 := ne_of_gt (add_pos hi hj)
  have h4 : tjj + tii ≠ 0 := ne_of_gt (add_pos hj hi)
  constructor
  · field_simp
    ring
  · field_simp
    ring

/-- C6: after `FillVirial(ri)` with a radius vector of the right length and a symmetric pair
function `brr`, for every pair `i ≠ j` whose diagonal terms are both positive,
`Virial[i][j]/Virial[i][i] = Virial[j][i]/Virial[j][j]`, both being
`2·brr(ri,rj)/(brr(ri,ri)+brr(rj,rj))`, and every diagonal entry equals `brr(rk,rk)`. -/
theorem C6_FillVirial_ratio_symmetric {N : ℕ} (brr : ℚ → ℚ → ℚ)
    (hsym : ∀ a b, brr a b = brr b a) (M : ThermalModelEVCrossterms N) (ri : List ℚ)
    (hlen : ri.length = N) (i j : Fin N) (hij : i ≠ j)
    (hi : 0 < (ThermalModelEVCrossterms.FillVirial brr M ri).m_Virial i i)
    (hj : 0 < (ThermalModelEVCrossterms.FillVirial brr M ri).m_Virial j j) :
    (ThermalModelEVCrossterms.FillVirial brr M ri).m_Virial i j
        / (ThermalModelEVCrossterms.FillVirial brr M ri).m_Virial i i
      = (ThermalModelEVCrossterms.FillVirial brr M ri).m_Virial j i
        / (ThermalModelEVCrossterms.FillVirial brr M ri).m_Virial j j
    ∧ (ThermalModelEVCrossterms.FillVirial brr M ri).m_Virial i j
        / (ThermalModelEVCrossterms.FillVirial brr M ri).m_Virial i i
      = 2 * brr (ri.getD i.val 0) (ri.getD j.val 0)
        / (brr (ri.getD i.val 0) (ri.getD i.val 0) + brr (ri.getD j.val 0) (ri.getD j.val 0))
    ∧ ∀ k : Fin N, (ThermalModelEVCrossterms.FillVirial brr M ri).m_Virial k k
        = brr (ri.getD k.val 0) (ri.getD k.val 0) := by
  rw [FillVirial_diag brr M ri hlen] at hi hj
  have hsum : brr (ri.getD i.val 0) (ri.getD i.val 0)
      + brr (ri.getD j.val 0) (ri.getD j.val 0) > 0 := add_pos hi hj
  have hsum2 : brr (ri.getD j.val 0) (ri.getD j.val 0)
      + brr (ri.getD i.val 0) (ri.getD i.val 0) > 0 := add_pos hj hi
  have hij2 : j ≠ i := fun h => hij h.symm
  refine ⟨?_, ?_, FillVirial_diag brr M ri hlen⟩
  · rw [FillVirial_diag brr M ri hlen, FillVirial_diag brr M ri hlen,
      FillVirial_apply brr M ri hlen i j, FillVirial_apply brr M ri hlen j i,
      if_neg hij, if_neg hij2, if_pos hsum, if_pos hsum2,
      hsym (ri.getD j.val 0) (ri.getD i.val 0)]
    exact (ratio_symmetric _ _ _ hi hj).1
  · rw [FillVirial_diag brr M ri hlen, FillVirial_apply brr M ri hlen i j,
      if_neg hij, if_pos hsum]
    exact (ratio_symmetric _ _ _ hi hj).2

/-- C6 at a concrete input: radii `1` and `2` with the pair function `(r1 + r2)³`. -/
theorem C6_FillVirial_ratio_symmetric_witness :
    (ThermalModelEVCrossterms.FillVirial cubeOfSum crossGas [1, 2]).m_Virial 0 1
        / (ThermalModelEVCrossterms.FillVirial cubeOfSum crossGas [1, 2]).m_Virial 0 0
      = (ThermalModelEVCrossterms.FillVirial cubeOfSum crossGas [1, 2]).m_Virial 1 0
        / (ThermalModelEVCrossterms.FillVirial cubeOfSum crossGas [1, 2]).m_Virial 1 1
    ∧ (ThermalModelEVCrossterms.FillVirial cubeOfSum crossGas [1, 2]).m_Virial 0 1
        / (ThermalModelEVCrossterms.FillVirial cubeOfSum crossGas [1, 2]).m_Virial 0 0
      = 2 * cubeOfSum ([(1 : ℚ), 2].getD (0 : Fin 2).val 0) ([(1 : ℚ), 2].getD (1 : Fin 2).val 0)
        / (cubeOfSum ([(1 : ℚ), 2].getD (0 : Fin 2).val 0) ([(1 : ℚ), 2].getD (0 : Fin 2).val 0)
          + cubeOfSum ([(1 : ℚ), 2].getD (1 : Fin 2).val 0) ([(1 : ℚ), 2].getD (1 : Fin 2).val 0))
    ∧ ∀ k : Fin 2, (ThermalModelEVCrossterms.FillVirial cubeOfSum crossGas [1, 2]).m_Virial k k
        = cubeOfSum ([(1 : ℚ), 2].getD k.val 0) ([(1 : ℚ), 2].getD k.val 0) :=
  C6_FillVirial_ratio_symmetric cubeOfSum (fun a b => by unfold cubeOfSum; ring) crossGas
    [1, 2] rfl 0 1 (by decide)
    (by rw [FillVirial_diag cubeOfSum crossGas [1, 2] rfl]; norm_num [cubeOfSum])
    (by rw [FillVirial_diag cubeOfSum crossGas [1, 2] rfl]; norm_num [cubeOfSum])

theorem FillVirial_equal_radii {N : ℕ} (brr : ℚ → ℚ → ℚ) (M : ThermalModelEVCrossterms N)
    (ri : List ℚ) (hlen : ri.length = N) (r : ℚ) (hr : ∀ k : Fin N, ri.getD k.val 0 = r)
    (i j : Fin N) :
    (ThermalModelEVCrossterms.FillVirial brr M ri).m_Virial i j = brr r r := by
  rw [FillVirial_apply brr M ri hlen, hr i, hr j]
  split_ifs with h1 h2
  · rfl
  · have h3 : brr r r ≠ 0 := by
      intro h0
      rw [h0] at h2
      simp at h2
    field_simp
    ring
  · rfl

/-- C8: degeneracy check.  For two identical species (same ideal-gas functions, same chemical
potential) with equal radii, `FillVirial` makes all four virial entries equal to
`b = brr(r, r)`, and `(p, p)` is a root of the two-species cross-terms residual system if
and only if `P = 2p` (the total pressure) is a root of the one-species system with virial
coefficient `b` and doubled ideal-gas pressure function, that is `P = 2·P_id(−b·P)`. -/
theorem C8_two_identical_species_double {brr : ℚ → ℚ → ℚ}
    (M2 : ThermalModelEVCrossterms 2) (M1 : ThermalModelEVCrossterms 1) (r p : ℚ)
    (hpart : M2.Particles 1 = M2.Particles 0) (hchem : M2.m_Chem 1 = M2.m_Chem 0)
    (hparams : M1.m_Parameters = M2.m_Parameters) (hwidth : M1.m_UseWidth = M2.m_UseWidth)
    (hchem1 : M1.m_Chem 0 = M2.m_Chem 0)
    (hdouble : ∀ dMu, (M1.Particles 0).Density M2.m_Parameters
        IdealGasFunctions.Quantity.Pressure M2.m_UseWidth (M2.m_Chem 0) dMu
      = 2 * (M2.Particles 0).Density M2.m_Parameters
        IdealGasFunctions.Quantity.Pressure M2.m_UseWidth (M2.m_Chem 0) dMu) :
    (∀ i j, (ThermalModelEVCrossterms.FillVirial brr M2 [r, r]).m_Virial i j = brr r r)
    ∧ (∀ i j, (ThermalModelEVCrossterms.FillVirial brr M1 [r]).m_Virial i j = brr r r)
    ∧ ((ThermalModelEVCrossterms.FillVirial brr M2 [r, r]).BroydenEquationsCRS.Equations
          (fun _ => p) = 0
        ↔ (ThermalModelEVCrossterms.FillVirial brr M1 [r]).BroydenEquationsCRS.Equations
          (fun _ => ∑ _i : Fin 2, p) = 0)
    ∧ ((ThermalModelEVCrossterms.FillVirial brr M1 [r]).BroydenEquationsCRS.Equations
          (fun _ => ∑ _i : Fin 2, p) = 0
        ↔ 2 * p = 2 * (M2.Particles 0).Density M2.m_Parameters
            IdealGasFunctions.Quantity.Pressure M2.m_UseWidth (M2.m_Chem 0)
            (-(brr r r) * (2 * p))) := by
  have hV2 : ∀ i j, (ThermalModelEVCrossterms.FillVirial brr M2 [r, r]).m_Virial i j
      = brr r r := by
    intro i j
    apply FillVirial_equal_radii brr M2 [r, r] rfl r
    intro k
    fin_cases k <;> rfl
  have hV1 : ∀ i j, (ThermalModelEVCrossterms.FillVirial brr M1 [r]).m_Virial i j
      = brr r r := by
    intro i j
    apply FillVirial_equal_radii brr M1 [r] rfl r
    intro k
    fin_cases k
    rfl
  have hkeep2 : ThermalModelEVCrossterms.FillVirial brr M2 [r, r]
      = { M2 with m_Virial := (ThermalModelEVCrossterms.FillVirial brr M2 [r, r]).m_Virial } := by
    unfold ThermalModelEVCrossterms.FillVirial
    simp
  have hkeep1 : ThermalModelEVCrossterms.FillVirial brr M1 [r]
      = { M1 with m_Virial := (ThermalModelEVCrossterms.FillVirial brr M1 [r]).m_Virial } := by
    unfold ThermalModelEVCrossterms.FillVirial
    simp
  have hd2 : ∀ i, (ThermalModelEVCrossterms.FillVirial brr M2 [r, r]).dMu i (fun _ => p)
      = -(brr r r) * (2 * p) := by
    intro i
    simp only [ThermalModelEVCrossterms.dMu, hV2, Fin.sum_univ_two]
    ring
  have hd1 : ∀ i, (ThermalModelEVCrossterms.FillVirial brr M1 [r]).dMu i
      (fun _ => ∑ _i : Fin 2, p) = -(brr r r) * (2 * p) := by
    intro i
    simp only [ThermalModelEVCrossterms.dMu, hV1, Fin.sum_univ_two, Finset.univ_unique,
      Finset.sum_singleton]
    ring
  have hP2 : ∀ i, (ThermalModelEVCrossterms.FillVirial brr M2 [r, r]).Pressure i (fun _ => p)
      = (M2.Particles 0).Density M2.m_Parameters IdealGasFunctions.Quantity.Pressure
          M2.m_UseWidth (M2.m_Chem 0) (-(brr r r) * (2 * p)) := by
    intro i
    unfold ThermalModelEVCrossterms.Pressure
    rw [hd2 i, hkeep2]
    fin_cases i
    · rfl
    · show (M2.Particles 1).Density M2.m_Parameters _ M2.m_UseWidth (M2.m_Chem 1) _ = _
      rw [hpart, hchem]
  have hP1 : ∀ i, (ThermalModelEVCrossterms.FillVirial brr M1 [r]).Pressure i
      (fun _ => ∑ _i : Fin 2, p)
      = 2 * (M2.Particles 0).Density M2.m_Parameters IdealGasFunctions.Quantity.Pressure
          M2.m_UseWidth (M2.m_Chem 0) (-(brr r r) * (2 * p)) := by
    intro i
    unfold ThermalModelEVCrossterms.Pressure
    rw [hd1 i, hkeep1]
    fin_cases i
    show (M1.Particles 0).Density M1.m_Parameters _ M1.m_UseWidth (M1.m_Chem 0) _ = _
    rw [hparams, hwidth, hchem1, hdouble]
  have hsum : ∑ _i : Fin 2, p = 2 * p := by
    rw [Fin.sum_univ_two]
    ring
  have hE2 : ∀ i : Fin 2,
      (ThermalModelEVCrossterms.FillVirial brr M2 [r, r]).BroydenEquationsCRS.Equations
        (fun _ => p) i
      = p - (M2.Particles 0).Density M2.m_Parameters IdealGasFunctions.Quantity.Pressure
          M2.m_UseWidth (M2.m_Chem 0) (-(brr r r) * (2 * p)) := by
    intro i
    show p - (ThermalModelEVCrossterms.FillVirial brr M2 [r, r]).Pressure i (fun _ => p) = _
    rw [hP2 i]
  have hE1 : ∀ i : Fin 1,
      (ThermalModelEVCrossterms.FillVirial brr M1 [r]).BroydenEquationsCRS.Equations
        (fun _ => ∑ _i : Fin 2, p) i
      = 2 * p - 2 * (M2.Particles 0).Density M2.m_Parameters IdealGasFunctions.Quantity.Pressure
          M2.m_UseWidth (M2.m_Chem 0) (-(brr r r) * (2 * p)) := by
    intro i
    show (∑ _i : Fin 2, p) - (ThermalModelEVCrossterms.FillVirial brr M1 [r]).Pressure i
      (fun _ => ∑ _i : Fin 2, p) = _
    rw [hP1 i, hsum]
  have hone : (ThermalModelEVCrossterms.FillVirial brr M1 [r]).BroydenEquationsCRS.Equations
        (fun _ => ∑ _i : Fin 2, p) = 0
      ↔ 2 * p = 2 * (M2.Particles 0).Density M2.m_Parameters
          IdealGasFunctions.Quantity.Pressure M2.m_UseWidth (M2.m_Chem 0)
          (-(brr r r) * (2 * p)) := by
    constructor
    · intro h
      have h0 := (hE1 0).symm.trans (congrFun h (0 : Fin 1))
      exact sub_eq_zero.mp h0
    · intro h
      funext i
      exact (hE1 i).trans (sub_eq_zero.mpr h)
  refine ⟨hV2, hV1, ?_, hone⟩
  rw [hone]
  constructor
  · intro h
    have h0 := (hE2 0).symm.trans (congrFun h (0 : Fin 2))
    have h1 := sub_eq_zero.mp h0
    rw [← h1]
  · intro h
    funext i
    refine (hE2 i).trans (sub_eq_zero.mpr ?_)
    exact mul_left_cancel₀ (two_ne_zero) h

/-- C8 at a concrete input: two copies of `affineParticle` with radius `1` against one
`doubledParticle`, at the partial pressure `p = 1/17`, which is the root. -/
theorem C8_two_identical_species_double_witness :
    (∀ i j, (ThermalModelEVCrossterms.FillVirial cubeOfSum crossGas [1, 1]).m_Virial i j
        = cubeOfSum 1 1)
    ∧ (∀ i j, (ThermalModelEVCrossterms.FillVirial cubeOfSum doubledGas [1]).m_Virial i j
        = cubeOfSum 1 1)
    ∧ ((ThermalModelEVCrossterms.FillVirial cubeOfSum crossGas [1, 1]).BroydenEquationsCRS.Equations
          (fun _ => 1 / 17) = 0
        ↔ (ThermalModelEVCrossterms.FillVirial cubeOfSum doubledGas [1]).BroydenEquationsCRS.Equations
          (fun _ => ∑ _i : Fin 2, (1 / 17 : ℚ)) = 0)
    ∧ ((ThermalModelEVCrossterms.FillVirial cubeOfSum doubledGas [1]).BroydenEquationsCRS.Equations
          (fun _ => ∑ _i : Fin 2, (1 / 17 : ℚ)) = 0
        ↔ 2 * (1 / 17 : ℚ) = 2 * (crossGas.Particles 0).Density crossGas.m_Parameters
            IdealGasFunctions.Quantity.Pressure crossGas.m_UseWidth (crossGas.m_Chem 0)
            (-(cubeOfSum 1 1) * (2 * (1 / 17)))) :=
  C8_two_identical_species_double crossGas doubledGas 1 (1 / 17) rfl rfl rfl rfl rfl
    (fun _ => rfl)

/-! ## The interaction-parameter file -/

theorem printedValue_zero : printedValue 0 = 0 := by
  simp [printedValue, roundSignificant]

theorem printedValue_1234567 : printedValue 1234567 = 1234570 := by
  have hlog : Int.log 10 |(1234567 : ℚ)| = 6 := by
    rw [abs_of_pos (by norm_num)]
    have h1 : (1234567 : ℚ) = ((1234567 : ℕ) : ℚ) := by norm_num
    rw [h1, Int.log_natCast]
    have h2 : Nat.log 10 1234567 = 6 := by
      rw [Nat.log_eq_iff (by norm_num)]
      norm_num
    rw [h2]
    rfl
  have hfloor : ⌊(1234567 : ℚ) / 10⌋ = 123456 := by
    rw [Int.floor_eq_iff]
    norm_num
  have hround : roundHalfEven ((1234567 : ℚ) / 10) = 123457 := by
    unfold roundHalfEven
    rw [hfloor]
    norm_num
  unfold printedValue roundSignificant
  rw [hlog]
  norm_num
  rw [hround]
  norm_num

theorem PdgToId_PdgId {N : ℕ} (M : ThermalModelEVCrossterms N)
    (hdist : ∀ i j, (M.Particles i).PdgId = (M.Particles j).PdgId → i = j) (i : Fin N) :
    M.PdgToId (M.Particles i).PdgId = some i := by
  unfold ThermalModelEVCrossterms.PdgToId
  rw [Fin.find_eq_some_iff]
  exact ⟨rfl, fun j hj => le_of_eq (hdist j i hj).symm⟩

theorem foldl_set_entry {N : ℕ} (g : Fin N → Fin N → ℚ) (keys : List (Fin N × Fin N)) :
    ∀ (W : Fin N → Fin N → ℚ) (a b : Fin N),
      (keys.foldl (fun V k => fun i j => if i = k.1 ∧ j = k.2 then g k.1 k.2 else V i j) W) a b
        = if (a, b) ∈ keys then g a b else W a b := by
  induction keys with
  | nil => intro W a b; simp
  | cons k ks ih =>
    intro W a b
    rw [List.foldl_cons, ih]
    by_cases hmem : (a, b) ∈ ks
    · simp [hmem]
    · by_cases hk : a = k.1 ∧ b = k.2
      · have hkey : (a, b) = k := Prod.ext hk.1 hk.2
        simp [hmem, hk, hkey]
      · have hkey : ¬ (a, b) = k := fun h => hk ⟨congrArg Prod.fst h, congrArg Prod.snd h⟩
        simp [hmem, hk, hkey]

theorem WriteInteractionParameters_eq_map {N : ℕ} (M : ThermalModelEVCrossterms N) :
    M.WriteInteractionParameters
      = ((List.finRange N).flatMap fun i => (List.finRange N).map fun j => (i, j)).map
          (fun k => FileLine.entry (M.Particles k.1).PdgId (M.Particles k.2).PdgId
            (printedValue (M.m_Virial k.1 k.2))) := by
  unfold ThermalModelEVCrossterms.WriteInteractionParameters
  rw [List.map_flatMap]
  simp only [List.map_map]
  rfl

/-- Reading back what was written sets every entry to the value printed for it. -/
theorem read_write_entry {N : ℕ} (M : ThermalModelEVCrossterms N)
    (hdist : ∀ i j, (M.Particles i).PdgId = (M.Particles j).PdgId → i = j)
    (hint : ∀ i, fitsInt (M.Particles i).PdgId) (a b : Fin N) :
    (M.ReadInteractionParameters M.WriteInteractionParameters).m_Virial a b
      = printedValue (M.m_Virial a b) := by
  have hstep : (fun (V : Fin N → Fin N → ℚ) (k : Fin N × Fin N) =>
      M.readLine V (FileLine.entry (M.Particles k.1).PdgId (M.Particles k.2).PdgId
        (printedValue (M.m_Virial k.1 k.2))))
      = fun V k => fun i j =>
          if i = k.1 ∧ j = k.2 then printedValue (M.m_Virial k.1 k.2) else V i j := by
    funext V k
    unfold ThermalModelEVCrossterms.readLine
    simp only [hint, and_self, if_true, PdgToId_PdgId M hdist]
  have hmem : (a, b) ∈ (List.finRange N).flatMap fun i =>
      (List.finRange N).map fun j => (i, j) := by
    rw [List.mem_flatMap]
    exact ⟨a, List.mem_finRange a, List.mem_map.mpr ⟨b, List.mem_finRange b, rfl⟩⟩
  show (M.WriteInteractionParameters.foldl M.readLine (fun _ _ => 0)) a b = _
  rw [WriteInteractionParameters_eq_map, List.foldl_map, hstep,
    foldl_set_entry (fun i j => printedValue (M.m_Virial i j)), if_pos hmem]

/-- C7, the claim as stated fails: a virial coefficient with seven significant digits,
`1234567`, is written as `1.23457e+06` and read back as `1234570`. -/
theorem C7_round_trip_loses_digits :
    (sevenDigitGas.ReadInteractionParameters sevenDigitGas.WriteInteractionParameters).m_Virial
        0 0 = 1234570
      ∧ sevenDigitGas.m_Virial 0 0 = 1234567
      ∧ (sevenDigitGas.ReadInteractionParameters
          sevenDigitGas.WriteInteractionParameters).m_Virial 0 0
        ≠ sevenDigitGas.m_Virial 0 0 := by
  have hread : (sevenDigitGas.ReadInteractionParameters
      sevenDigitGas.WriteInteractionParameters).m_Virial 0 0 = 1234570 := by
    rw [read_write_entry sevenDigitGas (fun i j _ => Subsingleton.elim i j)
      (fun _ => (by decide : fitsInt 211))]
    exact printedValue_1234567
  refine ⟨hread, rfl, ?_⟩
  rw [hread]
  show (1234570 : ℚ) ≠ 1234567
  norm_num

/-- C7 (amended): for a model whose species have pairwise distinct PDG ids that fit the
`int` variables of the reader, `WriteInteractionParameters` followed by
`ReadInteractionParameters` leaves every entry `Virial[i][j]` equal to the value the writer
printed for it, its value before writing rounded to six significant decimal digits; an
entry that this rounding does not change, in particular a zero, is reproduced exactly. -/
theorem C7_round_trip_printed_values {N : ℕ} (M : ThermalModelEVCrossterms N)
    (hdist : ∀ i j, (M.Particles i).PdgId = (M.Particles j).PdgId → i = j)
    (hint : ∀ i, fitsInt (M.Particles i).PdgId) :
    (∀ i j, (M.ReadInteractionParameters M.WriteInteractionParameters).m_Virial i j
        = printedValue (M.m_Virial i j))
    ∧ (∀ i j, printedValue (M.m_Virial i j) = M.m_Virial i j →
        (M.ReadInteractionParameters M.WriteInteractionParameters).m_Virial i j
          = M.m_Virial i j)
    ∧ (∀ i j, M.m_Virial i j = 0 →
        (M.ReadInteractionParameters M.WriteInteractionParameters).m_Virial i j = 0) := by
  refine ⟨read_write_entry M hdist hint, fun i j h => ?_, fun i j h => ?_⟩
  · rw [read_write_entry M hdist hint, h]
  · rw [read_write_entry M hdist hint, h, printedValue_zero]

/-- C7 (amended) at a concrete input: the two-species model with `Virial = [[0, 1], [1, 0]]`
when its species carry the PDG ids of the two charged pions. -/
theorem C7_round_trip_printed_values_witness :
    (∀ i j, (ThermalModelEVCrossterms.ReadInteractionParameters pionGas
          (ThermalModelEVCrossterms.WriteInteractionParameters pionGas)).m_Virial i j
        = printedValue (pionGas.m_Virial i j))
    ∧ (∀ i j, printedValue (pionGas.m_Virial i j) = pionGas.m_Virial i j →
        (ThermalModelEVCrossterms.ReadInteractionParameters pionGas
          (ThermalModelEVCrossterms.WriteInteractionParameters pionGas)).m_Virial i j
          = pionGas.m_Virial i j)
    ∧ (∀ i j, pionGas.m_Virial i j = 0 →
        (ThermalModelEVCrossterms.ReadInteractionParameters pionGas
          (ThermalModelEVCrossterms.WriteInteractionParameters pionGas)).m_Virial i j = 0) :=
  C7_round_trip_printed_values pionGas
    (fun i j => by
      fin_cases i <;> fin_cases j <;> simp [pionGas])
    (fun i => by
      fin_cases i <;> simp [pionGas, fitsInt])

/-! ## The finite-difference Jacobian, the criteria and the rank-one update -/

/-- C11: for every `x` whose length is the dimension of the bound system,
`BroydenJacobian::Jacobian(x)` returns the matrix of size `N` with
`J[i][j] = (f_i(x + h_j·e_j) − f_i(x)) / h_j`, where `h_j = dx·|x_j|` when that product is
nonzero and `h_j = dx` otherwise; every divisor `h_j` is nonzero whenever `dx ≠ 0`. -/
theorem C11_Jacobian_forward_difference (self : BroydenJacobian) (eqs : BroydenEquations)
    (x : List ℚ) (hEq : self.m_Equations = some eqs) (hx : x.length = eqs.Dimension) :
    (∃ J : MatrixXd, self.Jacobian x = Outcome.ret J ∧ J.size = eqs.m_N ∧
      ∀ i j : Fin eqs.m_N,
        J.coeff i.val j.val
          = (eqs.Equations (ofVector eqs.m_N x
                + Pi.single j (BroydenJacobian.h self.m_dx (ofVector eqs.m_N x) j)) i
              - eqs.Equations (ofVector eqs.m_N x) i)
            / BroydenJacobian.h self.m_dx (ofVector eqs.m_N x) j) ∧
    (∀ j : Fin eqs.m_N,
      BroydenJacobian.h self.m_dx (ofVector eqs.m_N x) j
        = if self.m_dx * |x.getD j.val 0| ≠ 0 then self.m_dx * |x.getD j.val 0|
          else self.m_dx) ∧
    (self.m_dx ≠ 0 → ∀ j : Fin eqs.m_N,
      BroydenJacobian.h self.m_dx (ofVector eqs.m_N x) j ≠ 0) := by
  refine ⟨?_, ?_, ?_⟩
  · have hJ : self.Jacobian x = Outcome.ret (MatrixXd.ofMatrix (Matrix.of fun i j =>
        (eqs.Equations (BroydenJacobian.xh self.m_dx (ofVector eqs.m_N x) j) i
            - eqs.Equations (ofVector eqs.m_N x) i)
          / BroydenJacobian.h self.m_dx (ofVector eqs.m_N x) j)) := by
      unfold BroydenJacobian.Jacobian
      simp only [hEq, hx, ne_eq, not_true_eq_false, if_false]
    refine ⟨_, hJ, rfl, ?_⟩
    intro i j
    show (MatrixXd.ofMatrix _).toMatrix eqs.m_N i j = _
    rw [toMatrix_ofMatrix, Matrix.of_apply, xh_eq_add_single]
  · intro j
    show (if self.m_dx * |x.getD j.val 0| = 0 then self.m_dx
        else self.m_dx * |x.getD j.val 0|) = _
    by_cases h : self.m_dx * |x.getD j.val 0| = 0
    · rw [if_pos h, if_neg (not_not.mpr h)]
    · rw [if_neg h, if_pos h]
  · intro hdx j
    exact h_ne_zero self.m_dx hdx _ j

theorem C11_Jacobian_forward_difference_witness :
    ∃ J : MatrixXd,
      BroydenJacobian.Jacobian { m_Equations := some shiftSystem, m_dx := 1 / 8 } [4]
        = Outcome.ret J ∧ J.size = 1 ∧ J.coeff 0 0 = 1 := by
  obtain ⟨⟨J, hJ, hsize, hcoeff⟩, -, -⟩ :=
    C11_Jacobian_forward_difference { m_Equations := some shiftSystem, m_dx := 1 / 8 }
      shiftSystem [4] rfl rfl
  refine ⟨J, hJ, hsize, ?_⟩
  have h := hcoeff (0 : Fin 1) (0 : Fin 1)
  rw [show ((0 : Fin 1).val) = 0 from rfl] at h
  rw [h]
  simp [shiftSystem, affineEquations, BroydenJacobian.h, ofVector, Matrix.mulVec,
    Matrix.dotProduct]

/-- C12: the default criterion depends only on the residual and on the length of `x`: for
`f` at least as long as `x`, `IsSolved(x, f, xdelta)` is true if and only if the maximum of
`0` and the `|f_i|`, `i < |x|`, is below the tolerance, that is, the tolerance is positive
and `|f_i| < tolerance` for every `i`.  The criterion that `Solve` makes when it is given
none has tolerance `1e-10`. -/
theorem C12_default_criterion (crit : BroydenSolutionCriterium) (x f xdelta : List ℚ)
    (_hf : x.length ≤ f.length) :
    (crit.IsSolved x f xdelta = true
      ↔ 0 < crit.m_RelativeError ∧ ∀ i, i < x.length → |f.getD i 0| < crit.m_RelativeError) ∧
    (0 < crit.m_RelativeError →
      (crit.IsSolved x f xdelta = true
        ↔ ∀ i, i < x.length → |f.getD i 0| < crit.m_RelativeError)) ∧
    (∀ x2 xdelta2 : List ℚ, x2.length = x.length →
      crit.IsSolved x2 f xdelta2 = crit.IsSolved x f xdelta) ∧
    Broyden.criteriumInUse none
      = SolutionCriteriumRef.base { m_RelativeError := 1 / 10 ^ 10 } := by
  have hiff : crit.IsSolved x f xdelta = true
      ↔ 0 < crit.m_RelativeError ∧ ∀ i, i < x.length → |f.getD i 0| < crit.m_RelativeError := by
    unfold BroydenSolutionCriterium.IsSolved
    rw [decide_eq_true_iff, maxAbs_lt_iff]
  refine ⟨hiff, ?_, ?_, ?_⟩
  · intro htol
    rw [hiff]
    exact ⟨fun h => h.2, fun h => ⟨htol, h⟩⟩
  · intro x2 xdelta2 hlen
    unfold BroydenSolutionCriterium.IsSolved
    rw [hlen]
  · unfold Broyden.criteriumInUse Broyden.TOL
    norm_num

theorem C12_default_criterion_witness :
    BroydenSolutionCriterium.IsSolved { m_RelativeError := Broyden.TOL } [7, 8] [0, 0] [1, 1]
      = true :=
  ((C12_default_criterion { m_RelativeError := Broyden.TOL } [7, 8] [0, 0] [1, 1]
      (by decide)).2.1 (by unfold Broyden.TOL; norm_num)).mpr
    (fun i hi => by
      have hi2 : i < 2 := hi
      interval_cases i <;> simp [Broyden.TOL])

theorem norm_eq_dotProduct {N : ℕ} (Jinv : Matrix (Fin N) (Fin N) ℚ) (xdelta fdelta : Fin N → ℚ) :
    Broyden.norm Jinv xdelta fdelta = Matrix.dotProduct xdelta (Jinv.mulVec fdelta) := by
  unfold Broyden.norm Matrix.dotProduct Matrix.mulVec Matrix.dotProduct
  refine Finset.sum_congr rfl fun i _ => ?_
  rw [Finset.mul_sum]
  refine Finset.sum_congr rfl fun j _ => ?_
  ring

theorem update_mulVec {N : ℕ} (Jinv : Matrix (Fin N) (Fin N) ℚ) (xdelta fdelta : Fin N → ℚ)
    (hnorm : Broyden.norm Jinv xdelta fdelta ≠ 0) :
    (Broyden.update Jinv xdelta fdelta).mulVec fdelta = xdelta := by
  have hdot := norm_eq_dotProduct Jinv xdelta fdelta
  funext i
  unfold Broyden.update
  simp only [Matrix.add_mulVec, Pi.add_apply, ← Matrix.mulVec_mulVec]
  have hrow : (Matrix.vecMulVec
      (fun i => (xdelta - Jinv.mulVec fdelta) i * (1 / Broyden.norm Jinv xdelta fdelta))
      xdelta).mulVec (Jinv.mulVec fdelta) i
      = (xdelta - Jinv.mulVec fdelta) i * (1 / Broyden.norm Jinv xdelta fdelta)
          * Broyden.norm Jinv xdelta fdelta := by
    rw [hdot]
    simp only [Matrix.mulVec, Matrix.vecMulVec_apply, Matrix.dotProduct, Matrix.of_apply]
    rw [Finset.mul_sum]
    refine Finset.sum_congr rfl fun j _ => ?_
    ring
  rw [hrow]
  simp only [Pi.sub_apply]
  field_simp

/-- C13: the rank-one update of non-Newton mode is
`Jinv + (((xdelta − Jinv·fdelta)/norm) ⊗ xdelta)·Jinv` with `norm = xdelta·(Jinv·fdelta)`;
when `norm ≠ 0` the updated matrix maps `fdelta` to `xdelta`, and in one dimension it is the
secant slope `xdelta/fdelta`. -/
theorem C13_update_secant (eqs : BroydenEquations) (jac : JacobianRef)
    (Jinv : Matrix (Fin eqs.m_N) (Fin eqs.m_N) ℚ) (xcur : List ℚ)
    (xdelta fdelta : Fin eqs.m_N → ℚ)
    (J1 : Matrix (Fin 1) (Fin 1) ℚ) (xdelta1 fdelta1 : Fin 1 → ℚ)
    (hnorm : Broyden.norm Jinv xdelta fdelta ≠ 0)
    (hnorm1 : Broyden.norm J1 xdelta1 fdelta1 ≠ 0) :
    Broyden.nextJinv eqs jac false Jinv xcur xdelta fdelta
      = Outcome.ret (Broyden.update Jinv xdelta fdelta) ∧
    Broyden.norm Jinv xdelta fdelta = Matrix.dotProduct xdelta (Jinv.mulVec fdelta) ∧
    Broyden.update Jinv xdelta fdelta
      = Jinv + Matrix.vecMulVec
          ((Broyden.norm Jinv xdelta fdelta)⁻¹ • (xdelta - Jinv.mulVec fdelta)) xdelta * Jinv ∧
    (Broyden.update Jinv xdelta fdelta).mulVec fdelta = xdelta ∧
    Broyden.update J1 xdelta1 fdelta1 0 0 = xdelta1 0 / fdelta1 0 := by
  refine ⟨rfl, norm_eq_dotProduct Jinv xdelta fdelta, ?_, update_mulVec Jinv xdelta fdelta hnorm,
    ?_⟩
  · have hp : (fun i => (xdelta - Jinv.mulVec fdelta) i
          * (1 / Broyden.norm Jinv xdelta fdelta))
        = (Broyden.norm Jinv xdelta fdelta)⁻¹ • (xdelta - Jinv.mulVec fdelta) := by
      funext i
      simp only [Pi.smul_apply, smul_eq_mul, one_div]
      ring
    show Jinv + Matrix.vecMulVec (fun i => (xdelta - Jinv.mulVec fdelta) i
          * (1 / Broyden.norm Jinv xdelta fdelta)) xdelta * Jinv = _
    rw [hp]
  · have hsec := congrFun (update_mulVec J1 xdelta1 fdelta1 hnorm1) 0
    have hf : fdelta1 0 ≠ 0 := by
      intro h0
      apply hnorm1
      simp [Broyden.norm, h0]
    simp only [Matrix.mulVec, Matrix.dotProduct, Fin.sum_univ_one, Fin.isValue] at hsec
    rw [eq_div_iff hf]
    exact hsec

theorem C13_update_secant_witness :
    (Broyden.update (1 : Matrix (Fin 1) (Fin 1) ℚ) ![2] ![4]).mulVec ![4] = ![2] ∧
    Broyden.update (1 : Matrix (Fin 1) (Fin 1) ℚ) ![2] ![4] 0 0 = (![2] : Fin 1 → ℚ) 0 / (![4] : Fin 1 → ℚ) 0 :=
  have h : Broyden.norm (1 : Matrix (Fin 1) (Fin 1) ℚ) ![2] ![4] ≠ 0 := by
    simp [Broyden.norm]
  ((C13_update_secant shiftSystem sizeFromArgumentJacobian
      (1 : Matrix (Fin 1) (Fin 1) ℚ) [] ![2] ![4] 1 ![2] ![4] h h).2.2.2)

/-! ## The cross-terms equations, their Jacobian and their criterion -/

/-- C14: for every vector `x` of length `N`, `BroydenEquationsCRS::Equations(x)` returns `N`
residuals, component `i` being `x_i − Pressure_i(x)` with `Pressure_i(x)` the ideal-gas
pressure of species `i` at the shift `−Σ_j Virial[i][j]·x_j`; the stored partial pressures
`m_Ps` play no part. -/
theorem C14_Equations_CRS {N : ℕ} (M : ThermalModelEVCrossterms N) (x : List ℚ)
    (_hx : x.length = N) :
    M.BroydenEquationsCRS.Dimension = N ∧
    (toVector (M.BroydenEquationsCRS.Equations (ofVector N x))).length = N ∧
    (∀ i : Fin N,
      (toVector (M.BroydenEquationsCRS.Equations (ofVector N x))).getD i.val 0
        = x.getD i.val 0
          - (M.Particles i).Density M.m_Parameters IdealGasFunctions.Quantity.Pressure
              M.m_UseWidth (M.m_Chem i) (-∑ j : Fin N, M.m_Virial i j * x.getD j.val 0)) ∧
    (∀ i : Fin N, M.Pressure i (ofVector N x)
        = (M.Particles i).Density M.m_Parameters IdealGasFunctions.Quantity.Pressure
              M.m_UseWidth (M.m_Chem i) (M.dMu i (ofVector N x))) ∧
    (∀ i : Fin N, M.dMu i (ofVector N x) = -∑ j : Fin N, M.m_Virial i j * x.getD j.val 0) ∧
    (∀ Ps : Fin N → ℚ,
      ThermalModelEVCrossterms.BroydenEquationsCRS { M with m_Ps := Ps }
        = M.BroydenEquationsCRS) := by
  have hdMu : ∀ i : Fin N,
      M.dMu i (ofVector N x) = -∑ j : Fin N, M.m_Virial i j * x.getD j.val 0 := by
    intro i
    unfold ThermalModelEVCrossterms.dMu ofVector
    rw [← Finset.sum_neg_distrib]
    refine Finset.sum_congr rfl fun j _ => ?_
    ring
  refine ⟨rfl, length_toVector _, ?_, fun i => rfl, hdMu, fun Ps => rfl⟩
  intro i
  rw [getD_toVector, ← hdMu i]
  rfl

theorem C14_Equations_CRS_witness :
    (toVector (crossGas.BroydenEquationsCRS.Equations (ofVector 2 [3, 5]))).getD 0 0 = 7 := by
  have h := (C14_Equations_CRS crossGas [3, 5] rfl).2.2.1 0
  rw [show ((0 : Fin 2).val) = 0 from rfl] at h
  rw [h]
  simp [crossGas, affineParticle, Fin.sum_univ_two]
  norm_num

/-- C15: for every vector `x` of length `N`, `BroydenJacobianCRS::Jacobian(x)` returns the
`N × N` matrix with `J[i][j] = δ_ij + Virial[i][j]·DensityId_i(x)`, where `DensityId_i(x)`
is the ideal-gas density of species `i` at the shift `−Σ_k Virial[i][k]·x_k`. -/
theorem C15_Jacobian_CRS {N : ℕ} (M : ThermalModelEVCrossterms N) (x : List ℚ)
    (hx : x.length = N) :
    (∃ J : MatrixXd, M.BroydenJacobianCRS x = Outcome.ret J ∧ J.size = N ∧
      ∀ i j : Fin N,
        J.coeff i.val j.val
          = (if i = j then 1 else 0) + M.m_Virial i j * M.DensityId i (ofVector N x)) ∧
    (∀ i : Fin N, M.DensityId i (ofVector N x)
        = (M.Particles i).Density M.m_Parameters IdealGasFunctions.Quantity.ParticleDensity
            M.m_UseWidth (M.m_Chem i) (-∑ k : Fin N, M.m_Virial i k * x.getD k.val 0)) := by
  refine ⟨⟨_, BroydenJacobianCRS_eq M x hx, rfl, ?_⟩, ?_⟩
  · intro i j
    show (MatrixXd.ofMatrix _).toMatrix N i j = _
    rw [toMatrix_ofMatrix, Matrix.of_apply]
  · intro i
    unfold ThermalModelEVCrossterms.DensityId ThermalModelEVCrossterms.dMu ofVector
    congr 1
    rw [← Finset.sum_neg_distrib]
    refine Finset.sum_congr rfl fun j _ => ?_
    ring

theorem C15_Jacobian_CRS_witness :
    ∃ J : MatrixXd, crossGas.BroydenJacobianCRS [1, 1] = Outcome.ret J ∧ J.size = 2 ∧
      J.coeff 0 0 = 1 ∧ J.coeff 0 1 = 1 := by
  obtain ⟨⟨J, hJ, hsize, hcoeff⟩, -⟩ := C15_Jacobian_CRS crossGas [1, 1] rfl
  refine ⟨J, hJ, hsize, ?_, ?_⟩
  · have h := hcoeff 0 0
    rw [show ((0 : Fin 2).val) = 0 from rfl] at h
    rw [h]
    simp [crossGas, affineParticle, ThermalModelEVCrossterms.DensityId]
  · have h := hcoeff 0 1
    rw [show ((0 : Fin 2).val) = 0 from rfl, show ((1 : Fin 2).val) = 1 from rfl] at h
    rw [h]
    simp [crossGas, affineParticle, ThermalModelEVCrossterms.DensityId]

/-- C16: the relative criterion of the cross-terms solve is `max_i |f_i|/x_i < tol`: for
every `x` with all components strictly positive and every residual `f` at least as long as
`x`, `BroydenSolutionCriteriumCRS::IsSolved(x, f, xdelta)` is true if and only if
`|f_i| < tol·x_i` for every `i`.  The vector has a component (as the pressures of
`SolvePressure` have) or the tolerance is positive (as the `1e-10` of `SolvePressure`
is). -/
theorem C16_relative_criterion (tol : ℚ) (x f xdelta : List ℚ)
    (hpos : ∀ i, i < x.length → 0 < x.getD i 0)
    (_hf : x.length ≤ f.length)
    (hne : x ≠ [] ∨ 0 < tol) :
    ThermalModelEVCrossterms.BroydenSolutionCriteriumCRS tol x f xdelta = true
      ↔ ∀ i, i < x.length → |f.getD i 0| < tol * x.getD i 0 := by
  rw [BroydenSolutionCriteriumCRS_iff]
  constructor
  · rintro ⟨-, h⟩ i hi
    exact (div_lt_iff₀ (hpos i hi)).mp ((h i hi).2 (ne_of_gt (hpos i hi)))
  · intro h
    have hdiv : ∀ i, i < x.length → |f.getD i 0| / x.getD i 0 < tol :=
      fun i hi => (div_lt_iff₀ (hpos i hi)).mpr (h i hi)
    refine ⟨?_, fun i hi => ⟨fun h0 => absurd h0 (ne_of_gt (hpos i hi)), fun _ => hdiv i hi⟩⟩
    rcases hne with hne | htol
    · have hlen : 0 < x.length := List.length_pos.mpr hne
      exact lt_of_le_of_lt (div_nonneg (abs_nonneg _) (le_of_lt (hpos 0 hlen))) (hdiv 0 hlen)
    · exact htol

theorem C16_relative_criterion_witness :
    ThermalModelEVCrossterms.BroydenSolutionCriteriumCRS (1 / 2) [4, 2] [1, 0] [0, 0] = true :=
  (C16_relative_criterion (1 / 2) [4, 2] [1, 0] [0, 0]
    (fun i hi => by
      have hi2 : i < 2 := hi
      interval_cases i <;> simp)
    (by decide) (Or.inl (by simp))).mpr
    (fun i hi => by
      have hi2 : i < 2 := hi
      interval_cases i <;> norm_num)

/-! ## Recovering the densities from the partial pressures -/

/-- When the closed-form Jacobian at the stored pressures is non-singular and the Newton
step from them lands on an exact root `x1`, the cross-terms solve stops at its first
iterate `x1`. -/
theorem SolvePressure_first_iterate {N : ℕ} (M : ThermalModelEVCrossterms N)
    (relative_error : ℚ) (hrel : 0 < relative_error) (x1 : Fin N → ℚ)
    (hdet : (Matrix.of fun i j : Fin N =>
        (if i = j then (1 : ℚ) else 0) + M.m_Virial i j * M.DensityId i M.m_Ps).det ≠ 0)
    (hstep : (Matrix.of fun i j : Fin N =>
        (if i = j then (1 : ℚ) else 0) + M.m_Virial i j * M.DensityId i M.m_Ps).mulVec
          (M.m_Ps - x1) = M.BroydenEquationsCRS.Equations M.m_Ps)
    (hroot : ∀ i, x1 i - M.Pressure i x1 = 0) :
    M.SolvePressure false relative_error
      = Outcome.ret
          { M with
            m_Ps := x1
            m_Pressure := ∑ i, x1 i
            m_LastCalculationSuccessFlag := true
            m_MaxDiff := 0 } := by
  have hunit : IsUnit (Matrix.of fun i j : Fin N =>
      (if i = j then (1 : ℚ) else 0) + M.m_Virial i j * M.DensityId i M.m_Ps).det :=
    isUnit_iff_ne_zero.mpr hdet
  have hJ : (Broyden.jacobianInUse
      (Broyden.new (some M.BroydenEquationsCRS)
        (some (JacobianRef.derived M.BroydenJacobianCRS))).m_Jacobian
      M.BroydenEquationsCRS).Jacobian (toVector M.m_Ps)
      = Outcome.ret (MatrixXd.ofMatrix (Matrix.of fun i j : Fin N =>
        (if i = j then (1 : ℚ) else 0) + M.m_Virial i j * M.DensityId i M.m_Ps)) := by
    show M.BroydenJacobianCRS (toVector M.m_Ps) = _
    rw [BroydenJacobianCRS_eq M _ (length_toVector _), ofVector_toVector]
  have hf : M.BroydenEquationsCRS.Equations x1 = 0 := by
    funext i
    exact hroot i
  have hxnew : Broyden.xnew (Broyden.initialState
      (Broyden.new (some M.BroydenEquationsCRS)
        (some (JacobianRef.derived M.BroydenJacobianCRS)))
      M.BroydenEquationsCRS (toVector M.m_Ps)
      (MatrixXd.ofMatrix (Matrix.of fun i j : Fin N =>
        (if i = j then (1 : ℚ) else 0) + M.m_Virial i j * M.DensityId i M.m_Ps))) = x1 := by
    show ofVector N (toVector M.m_Ps)
      - (inverse ((MatrixXd.ofMatrix (Matrix.of fun i j : Fin N =>
        (if i = j then (1 : ℚ) else 0) + M.m_Virial i j * M.DensityId i M.m_Ps)).toMatrix
          N)).mulVec
        (M.BroydenEquationsCRS.Equations (ofVector N (toVector M.m_Ps))) = x1
    rw [ofVector_toVector, toMatrix_ofMatrix, inverse_eq_inv, ← hstep, Matrix.mulVec_mulVec,
      Matrix.nonsing_inv_mul _ hunit, Matrix.one_mulVec, sub_sub_cancel]
  have hsolve := Solve_first_iterate
    (Broyden.new (some M.BroydenEquationsCRS)
      (some (JacobianRef.derived M.BroydenJacobianCRS)))
    M.BroydenEquationsCRS (toVector M.m_Ps)
    (some (SolutionCriteriumRef.derived
      (ThermalModelEVCrossterms.BroydenSolutionCriteriumCRS relative_error)))
    Broyden.MAX_ITERS (MatrixXd.ofMatrix (Matrix.of fun i j : Fin N =>
        (if i = j then (1 : ℚ) else 0) + M.m_Virial i j * M.DensityId i M.m_Ps)) rfl hJ
    (by rw [determinant_ofMatrix]; exact hdet) rfl (length_toVector _) (by decide)
    (by
      unfold Broyden.accepted
      rw [hxnew, hf]
      simp only [Broyden.criteriumInUse, SolutionCriteriumRef.IsSolved,
        ThermalModelEVCrossterms.BroydenSolutionCriteriumCRS, maxRel_toVector_zero,
        decide_eq_true_eq]
      exact hrel)
  rewrite [hxnew, hf] at hsolve
  unfold ThermalModelEVCrossterms.SolvePressure
  simp only [Bool.false_eq_true, if_false, Outcome.bind_ret, hsolve, ofVector_toVector,
    maxAbs_toVector_zero, Broyden.Iterations, Broyden.MaxIterations, Broyden.MaxDifference]
  rfl

/-- The densities that `CalculateDensities` recovers column by column solve the system with
the transposed virial matrix. -/
theorem densities_system {N : ℕ} (model : ThermalModelEVCrossterms N)
    (hdet : model.densMatrix.det ≠ 0) (j : Fin N) :
    (∑ k, (inverse model.densMatrix).mulVec
        (Pi.single j (model.DensityId j model.m_Ps)) k)
      + model.DensityId j model.m_Ps * ∑ i, model.m_Virial i j *
          (∑ k, (inverse model.densMatrix).mulVec
            (Pi.single i (model.DensityId i model.m_Ps)) k)
      = model.DensityId j model.m_Ps := by
  have hunit : IsUnit model.densMatrix.det := isUnit_iff_ne_zero.mpr hdet
  have hn : ∀ i, (∑ k, (inverse model.densMatrix).mulVec
      (Pi.single i (model.DensityId i model.m_Ps)) k)
      = model.DensityId i model.m_Ps * ∑ k, model.densMatrix⁻¹ k i := by
    intro i
    rw [inverse_eq_inv, Matrix.mulVec_single, Finset.mul_sum]
    refine Finset.sum_congr rfl fun k _ => ?_
    exact mul_comm _ _
  have hw : ∑ i, (∑ k, model.densMatrix⁻¹ k i) * model.densMatrix i j = 1 := by
    have h1 : Matrix.vecMul (fun _ => (1 : ℚ)) (model.densMatrix⁻¹ * model.densMatrix) j
        = 1 := by
      rw [Matrix.nonsing_inv_mul _ hunit, Matrix.vecMul_one]
    rw [← Matrix.vecMul_vecMul] at h1
    simpa [Matrix.vecMul, Matrix.dotProduct] using h1
  have hexp : ∑ i, (∑ k, model.densMatrix⁻¹ k i) * model.densMatrix i j
      = (∑ i, model.m_Virial i j
          * (model.DensityId i model.m_Ps * ∑ k, model.densMatrix⁻¹ k i))
        + ∑ k, model.densMatrix⁻¹ k j := by
    have : ∀ i, (∑ k, model.densMatrix⁻¹ k i) * model.densMatrix i j
        = model.m_Virial i j * (model.DensityId i model.m_Ps * ∑ k, model.densMatrix⁻¹ k i)
          + if i = j then ∑ k, model.densMatrix⁻¹ k i else 0 := by
      intro i
      show (∑ k, model.densMatrix⁻¹ k i)
          * (model.m_Virial i j * model.DensityId i model.m_Ps + if i = j then 1 else 0) = _
      by_cases hij : i = j
      · simp only [hij, if_true]; ring
      · simp only [hij, if_false]; ring
    simp only [this, Finset.sum_add_distrib, Finset.sum_ite_eq', Finset.mem_univ, if_true]
  rw [hexp] at hw
  simp only [hn]
  linear_combination (model.DensityId j model.m_Ps) * hw

/-- The cross-terms solve of two species with density function `1` and the one cross term
`Virial[0][1] = 1/2`: the partial pressures are `(1/2, 1)`. -/
theorem asymmetricGas_SolvePressure :
    ThermalModelEVCrossterms.SolvePressure
        { asymmetricGas with m_FluctuationsCalculated := false } true Broyden.TOL
      = Outcome.ret
          { asymmetricGas with
            m_FluctuationsCalculated := false
            m_Pressure := ∑ i, (![1 / 2, 1] : Fin 2 → ℚ) i
            m_Ps := ![1 / 2, 1]
            m_LastCalculationSuccessFlag := true
            m_MaxDiff := 0 } := by
  have hrel : (0 : ℚ) < Broyden.TOL := by norm_num [Broyden.TOL]
  have hconst : ∀ P, ThermalModelEVCrossterms.PressureDiagonalTotal
      { asymmetricGas with m_FluctuationsCalculated := false, m_Ps := fun _ => 0 } P = 2 := by
    intro P
    simp [ThermalModelEVCrossterms.PressureDiagonalTotal,
      ThermalModelEVCrossterms.PressureDiagonal, asymmetricGas, affineParticle,
      Fin.sum_univ_two]
    norm_num
  have hdiag := SolveDiagonal_const
    { asymmetricGas with m_FluctuationsCalculated := false, m_Ps := fun _ => 0 } 2 hconst
  have hseed := SolvePressure_reset { asymmetricGas with m_FluctuationsCalculated := false }
    _ Broyden.TOL hdiag
  have hstage := SolvePressure_first_iterate
    { asymmetricGas with
      m_FluctuationsCalculated := false
      m_Pressure := 2
      m_Ps := fun i => ThermalModelEVCrossterms.PressureDiagonal
        { asymmetricGas with m_FluctuationsCalculated := false, m_Ps := fun _ => 0 } i 2 }
    Broyden.TOL hrel ![1 / 2, 1]
    (by
      rw [Matrix.det_fin_two]
      simp [asymmetricGas, affineParticle, ThermalModelEVCrossterms.DensityId])
    (by
      funext i
      fin_cases i
      · simp [Matrix.mulVec, Matrix.dotProduct, Fin.sum_univ_two, asymmetricGas,
          affineParticle, ThermalModelEVCrossterms.DensityId,
          ThermalModelEVCrossterms.BroydenEquationsCRS, ThermalModelEVCrossterms.Pressure,
          ThermalModelEVCrossterms.PressureDiagonal, ThermalModelEVCrossterms.dMu]
        norm_num
      · simp [Matrix.mulVec, Matrix.dotProduct, Fin.sum_univ_two, asymmetricGas,
          affineParticle, ThermalModelEVCrossterms.DensityId,
          ThermalModelEVCrossterms.BroydenEquationsCRS, ThermalModelEVCrossterms.Pressure,
          ThermalModelEVCrossterms.PressureDiagonal, ThermalModelEVCrossterms.dMu])
    (by
      intro i
      fin_cases i
      · simp [Fin.sum_univ_two, asymmetricGas, affineParticle,
          ThermalModelEVCrossterms.Pressure, ThermalModelEVCrossterms.dMu]
        norm_num
      · simp [Fin.sum_univ_two, asymmetricGas, affineParticle,
          ThermalModelEVCrossterms.Pressure, ThermalModelEVCrossterms.dMu])
  exact hseed.trans hstage

theorem asymmetricGas_densMatrix_det :
    (ThermalModelEVCrossterms.densMatrix
      { asymmetricGas with
        m_FluctuationsCalculated := false
        m_Pressure := ∑ i, (![1 / 2, 1] : Fin 2 → ℚ) i
        m_Ps := ![1 / 2, 1]
        m_LastCalculationSuccessFlag := true
        m_MaxDiff := 0 }).det ≠ 0 := by
  rw [Matrix.det_fin_two]
  simp [ThermalModelEVCrossterms.densMatrix, asymmetricGas, affineParticle,
    ThermalModelEVCrossterms.DensityId]

/-- C17, a state where the sentence fails: two species with density function `1` and the one
cross term `Virial[0][1] = 1/2`.  `CalculateDensities` ends with success flag true, system
matrix of determinant 1 and densities `(1, 1/2)`; row 0 of the claimed system
`n_0 + Σ_j Virial[0][j]·DensityId_j·n_j` is `5/4`, not `DensityId_0 = 1`. -/
theorem C17_claimed_system_fails :
    ∃ R : ThermalModelEVCrossterms 2,
      asymmetricGas.CalculateDensities Broyden.TOL = Outcome.ret R ∧
      R.densMatrix.det ≠ 0 ∧
      R.m_LastCalculationSuccessFlag = true ∧
      R.m_densities 0 + ∑ j, R.m_Virial 0 j * R.DensityId j R.m_Ps * R.m_densities j
        ≠ R.DensityId 0 R.m_Ps := by
  have hcalc := CalculateDensities_of_SolvePressure asymmetricGas _ Broyden.TOL
    asymmetricGas_SolvePressure
  refine ⟨_, hcalc, asymmetricGas_densMatrix_det, rfl, ?_⟩
  have h0 := densities_system _ asymmetricGas_densMatrix_det 0
  have h1 := densities_system _ asymmetricGas_densMatrix_det 1
  simp only [Fin.sum_univ_two, asymmetricGas, affineParticle,
    ThermalModelEVCrossterms.DensityId] at h0 h1
  simp only [Fin.sum_univ_two, asymmetricGas, affineParticle,
    ThermalModelEVCrossterms.DensityId]
  norm_num at h0 h1 ⊢
  intro hbad
  linarith

/-- C17, amended: whenever `CalculateDensities` returns and its system matrix is
invertible, the stored density vector `n` solves the system with the transposed virial
matrix, `(I + diag(DensityId)·Virialᵀ)·n = DensityId`, that is
`n_i + DensityId_i·Σ_j Virial[j][i]·n_j = DensityId_i` for every species `i`. -/
theorem C17_densities_transposed_system {N : ℕ} (M R : ThermalModelEVCrossterms N)
    (relative_error : ℚ)
    (h : M.CalculateDensities relative_error = Outcome.ret R)
    (hdet : R.densMatrix.det ≠ 0) (i : Fin N) :
    R.m_densities i + R.DensityId i R.m_Ps * ∑ j, R.m_Virial j i * R.m_densities j
      = R.DensityId i R.m_Ps := by
  cases hsp : ThermalModelEVCrossterms.SolvePressure
      { M with m_FluctuationsCalculated := false } true relative_error with
  | exit =>
    unfold ThermalModelEVCrossterms.CalculateDensities at h
    rewrite [hsp] at h
    cases h
  | undefined =>
    unfold ThermalModelEVCrossterms.CalculateDensities at h
    rewrite [hsp] at h
    cases h
  | ret model =>
    rw [CalculateDensities_of_SolvePressure M model relative_error hsp] at h
    simp only [Outcome.ret.injEq] at h
    subst h
    exact densities_system model hdet i

theorem C17_densities_transposed_system_witness :
    ∃ R : ThermalModelEVCrossterms 2,
      asymmetricGas.CalculateDensities Broyden.TOL = Outcome.ret R ∧
      R.m_Virial 0 1 = 1 / 2 ∧ R.m_Virial 1 0 = 0 ∧
      R.densMatrix.det ≠ 0 ∧
      ∀ i, R.m_densities i + R.DensityId i R.m_Ps * ∑ j, R.m_Virial j i * R.m_densities j
        = R.DensityId i R.m_Ps :=
  ⟨_, CalculateDensities_of_SolvePressure asymmetricGas _ Broyden.TOL
      asymmetricGas_SolvePressure,
    by simp [asymmetricGas], by simp [asymmetricGas], asymmetricGas_densMatrix_det,
    fun i => C17_densities_transposed_system asymmetricGas _ Broyden.TOL
      (CalculateDensities_of_SolvePressure asymmetricGas _ Broyden.TOL
        asymmetricGas_SolvePressure)
      asymmetricGas_densMatrix_det i⟩

/-! ## Returning from `Broyden::Solve` -/

/-- The finite-difference Jacobian bound to `eqs` returns a matrix of the size of the
system on every vector of that length. -/
theorem Jacobian_base_returns (eqs : BroydenEquations) (dx : ℚ) (x : List ℚ)
    (hx : x.length = eqs.m_N) :
    ∃ J, BroydenJacobian.Jacobian { m_Equations := some eqs, m_dx := dx } x = Outcome.ret J
      ∧ J.size = eqs.m_N := by
  refine ⟨MatrixXd.ofMatrix (Matrix.of fun i j =>
      (eqs.Equations (BroydenJacobian.xh dx (ofVector eqs.m_N x) j) i
          - eqs.Equations (ofVector eqs.m_N x) i)
        / BroydenJacobian.h dx (ofVector eqs.m_N x) j), ?_, rfl⟩
  have hdim : eqs.Dimension = x.length := hx.symm
  unfold BroydenJacobian.Jacobian
  simp only [hdim, ne_eq, not_true_eq_false, if_false]

theorem advance_xcur_length (eqs : BroydenEquations) (jac : JacobianRef) (newton : Bool)
    (s s1 : SolveState eqs.m_N) (h : Broyden.advance eqs jac newton s = Outcome.ret s1) :
    s1.xcur.length = eqs.m_N := by
  unfold Broyden.advance at h
  revert h
  cases Broyden.nextJinv eqs jac newton s.Jinv (toVector (Broyden.xnew s))
      (Broyden.xnew s - s.xold) (eqs.Equations (Broyden.xnew s) - s.fold) with
  | exit => intro h; cases h
  | undefined => intro h; cases h
  | ret Jinv =>
    intro h
    simp only [Outcome.ret.injEq] at h
    rw [← h]
    exact length_toVector _

theorem iterate_succ (eqs : BroydenEquations) (jac : JacobianRef) (newton : Bool)
    (k : ℕ) (s s1 : SolveState eqs.m_N) (h : Broyden.advance eqs jac newton s = Outcome.ret s1) :
    Broyden.iterate eqs jac newton (k + 1) s = Broyden.iterate eqs jac newton k s1 := by
  show (match Broyden.advance eqs jac newton s with
    | Outcome.exit => Outcome.exit
    | Outcome.undefined => Outcome.undefined
    | Outcome.ret s1 => Broyden.iterate eqs jac newton k s1) = _
  rw [h]

/-- A state reached after at least one full iteration is the result of `advance` on some
state. -/
theorem iterate_succ_advance (eqs : BroydenEquations) (jac : JacobianRef) (newton : Bool) :
    ∀ (k : ℕ) (s0 s : SolveState eqs.m_N),
      Broyden.iterate eqs jac newton (k + 1) s0 = Outcome.ret s →
      ∃ s1, Broyden.advance eqs jac newton s1 = Outcome.ret s := by
  intro k
  induction k with
  | zero =>
    intro s0 s h
    cases hadv : Broyden.advance eqs jac newton s0 with
    | exit =>
      have h2 : Broyden.iterate eqs jac newton (0 + 1) s0 = Outcome.exit := by
        show (match Broyden.advance eqs jac newton s0 with
          | Outcome.exit => Outcome.exit
          | Outcome.undefined => Outcome.undefined
          | Outcome.ret s1 => Broyden.iterate eqs jac newton 0 s1) = _
        rw [hadv]
      rw [h2] at h
      cases h
    | undefined =>
      have h2 : Broyden.iterate eqs jac newton (0 + 1) s0 = Outcome.undefined := by
        show (match Broyden.advance eqs jac newton s0 with
          | Outcome.exit => Outcome.exit
          | Outcome.undefined => Outcome.undefined
          | Outcome.ret s1 => Broyden.iterate eqs jac newton 0 s1) = _
        rw [hadv]
      rw [h2] at h
      cases h
    | ret s1 =>
      rw [iterate_succ eqs jac newton 0 s0 s1 hadv] at h
      have h3 : s1 = s := by
        have h4 : Outcome.ret s1 = Outcome.ret s := h
        simpa using h4
      exact ⟨s0, by rw [hadv, h3]⟩
  | succ k ih =>
    intro s0 s h
    cases hadv : Broyden.advance eqs jac newton s0 with
    | exit =>
      have h2 : Broyden.iterate eqs jac newton (k + 1 + 1) s0 = Outcome.exit := by
        show (match Broyden.advance eqs jac newton s0 with
          | Outcome.exit => Outcome.exit
          | Outcome.undefined => Outcome.undefined
          | Outcome.ret s1 => Broyden.iterate eqs jac newton (k + 1) s1) = _
        rw [hadv]
      rw [h2] at h
      cases h
    | undefined =>
      have h2 : Broyden.iterate eqs jac newton (k + 1 + 1) s0 = Outcome.undefined := by
        show (match Broyden.advance eqs jac newton s0 with
          | Outcome.exit => Outcome.exit
          | Outcome.undefined => Outcome.undefined
          | Outcome.ret s1 => Broyden.iterate eqs jac newton (k + 1) s1) = _
        rw [hadv]
      rw [h2] at h
      cases h
    | ret s1 =>
      rw [iterate_succ eqs jac newton (k + 1) s0 s1 hadv] at h
      exact ih s1 s h

theorem iterate_xcur_length (eqs : BroydenEquations) (jac : JacobianRef) (newton : Bool)
    (k : ℕ) (s0 s : SolveState eqs.m_N) (h0 : s0.xcur.length = eqs.m_N)
    (h : Broyden.iterate eqs jac newton k s0 = Outcome.ret s) :
    s.xcur.length = eqs.m_N := by
  cases k with
  | zero =>
    have h3 : s0 = s := by
      have h4 : Outcome.ret s0 = Outcome.ret s := h
      simpa using h4
    rw [← h3]
    exact h0
  | succ k =>
    obtain ⟨s1, hs1⟩ := iterate_succ_advance eqs jac newton k s0 s h
    exact advance_xcur_length eqs jac newton s1 s hs1

/-- In Broyden mode, with a Jacobian that returns a matrix of the right size at the start
vector, `Broyden::Solve` returns a vector of the length of the system. -/
theorem Solve_returns (self : Broyden) (eqs : BroydenEquations) (x0 : List ℚ)
    (solcrit : Option SolutionCriteriumRef) (max_iterations : Int) (Jac : MatrixXd)
    (hEq : self.m_Equations = some eqs)
    (hJac : (Broyden.jacobianInUse self.m_Jacobian eqs).Jacobian x0 = Outcome.ret Jac)
    (hsize : Jac.size = eqs.m_N) (hx0 : x0.length = eqs.m_N)
    (hmode : self.m_UseNewton = false) (hmax : 1 ≤ max_iterations) :
    ∃ r, self.Solve x0 solcrit max_iterations = Outcome.ret r ∧ r.1.length = eqs.m_N
      ∧ (Jac.determinant = 0 → r.1 = x0) := by
  by_cases hdet : Jac.determinant = 0
  · refine ⟨(x0, { self with m_MaxIterations := max_iterations, m_Iterations := 0 }), ?_, hx0,
      fun _ => rfl⟩
    unfold Broyden.Solve
    simp only [hEq, hJac, hdet, if_true]
  · have hboth : Jac.size = eqs.m_N ∧ x0.length = eqs.m_N := ⟨hsize, hx0⟩
    obtain ⟨it1, s1, hloop, hcases⟩ := SolveLoop_spec eqs (Broyden.criteriumInUse solcrit)
      (Broyden.jacobianInUse self.m_Jacobian eqs) self.m_UseNewton max_iterations
      (Or.inl hmode) (max_iterations - 1).toNat 1 (Broyden.initialState self eqs x0 Jac)
      hmax rfl
    have hlen : s1.xcur.length = eqs.m_N := by
      rcases hcases with ⟨-, hiter, -⟩ | ⟨j, -, -, ⟨sj, -, -, hx⟩, -⟩
      · exact iterate_xcur_length eqs _ _ _ _ s1 hx0 hiter
      · rw [hx]; exact length_toVector _
    unfold Broyden.initialState at hloop
    refine ⟨(s1.xcur, { self with
        m_MaxIterations := max_iterations
        m_Iterations := it1
        m_MaxDifference := s1.maxdiff }), ?_, hlen, fun h => absurd h hdet⟩
    unfold Broyden.Solve
    simp only [hEq, hJac, hdet, if_false, hboth, and_self, if_true]
    rw [hloop]

/-! ## `SolveDiagonal` -/

/-- C27: `SolveDiagonal` starts the one-dimensional solve of
`P − PressureDiagonalTotal(P) = 0` from `P = 0`; the solver returns a vector, and with `P*`
its component 0 the call stores `m_Pressure = P*` and `Ps[i] = PressureDiagonal(i, P*)`,
where `PressureDiagonal(i, P)` is the ideal-gas pressure of species `i` at the shift
`−Virial[i][i]·P` and `PressureDiagonalTotal` its sum over the species. -/
theorem C27_SolveDiagonal {N : ℕ} (M : ThermalModelEVCrossterms N) :
    ∃ (x : List ℚ × Broyden) (R : ThermalModelEVCrossterms N),
      (Broyden.new (some M.BroydenEquationsCRSDEV)
          (some (JacobianRef.base
            { m_Equations := some M.BroydenEquationsCRSDEV, m_dx := 1 / 10 ^ 8 }))).Solve
          [0] (some (SolutionCriteriumRef.base { m_RelativeError := 1 / 10 ^ 8 }))
          Broyden.MAX_ITERS = Outcome.ret x ∧
      x.1.length = 1 ∧
      M.SolveDiagonal = Outcome.ret R ∧
      R.m_Pressure = x.1.getD 0 0 ∧
      (∀ i, R.m_Ps i = M.PressureDiagonal i (x.1.getD 0 0)) ∧
      M.BroydenEquationsCRSDEV.m_N = 1 ∧
      (∀ v : Fin 1 → ℚ,
        M.BroydenEquationsCRSDEV.Equations v = fun _ => v 0 - M.PressureDiagonalTotal (v 0)) ∧
      (∀ P, M.PressureDiagonalTotal P = ∑ i, M.PressureDiagonal i P) ∧
      (∀ i P, M.PressureDiagonal i P
        = (M.Particles i).Density M.m_Parameters IdealGasFunctions.Quantity.Pressure
            M.m_UseWidth (M.m_Chem i) (-M.m_Virial i i * P)) := by
  obtain ⟨J, hJ, hsize⟩ := Jacobian_base_returns M.BroydenEquationsCRSDEV (1 / 10 ^ 8) [0] rfl
  obtain ⟨r, hsolve, hlen, -⟩ := Solve_returns
    (Broyden.new (some M.BroydenEquationsCRSDEV)
      (some (JacobianRef.base
        { m_Equations := some M.BroydenEquationsCRSDEV, m_dx := 1 / 10 ^ 8 })))
    M.BroydenEquationsCRSDEV [0]
    (some (SolutionCriteriumRef.base { m_RelativeError := 1 / 10 ^ 8 }))
    Broyden.MAX_ITERS J rfl hJ hsize rfl rfl (by decide)
  refine ⟨r, { M with
      m_Pressure := r.1.getD 0 0
      m_Ps := fun i => M.PressureDiagonal i (r.1.getD 0 0) }, hsolve, hlen, ?_, rfl,
    fun i => rfl, rfl, fun v => rfl, fun P => rfl, fun i P => rfl⟩
  have h8 : (1 : ℚ) / 100000000 = 1 / 10 ^ 8 := by norm_num
  unfold ThermalModelEVCrossterms.SolveDiagonal
  simp only [h8]
  rewrite [hsolve, Outcome.bind_ret]
  rfl

/-! ## `CalculateDensities` and `CalculateDensitiesIter` -/

theorem det_densMatrixIter {N : ℕ} (model : ThermalModelEVCrossterms N) :
    model.densMatrixIter.det = model.densMatrix.det := by
  have h1 : model.densMatrix
      = 1 + Matrix.diagonal (fun i => model.DensityId i model.m_Ps)
          * Matrix.of model.m_Virial := by
    ext i j
    simp only [ThermalModelEVCrossterms.densMatrix, Matrix.of_apply, Matrix.add_apply,
      Matrix.diagonal_mul, Matrix.one_apply]
    ring
  have h2 : model.densMatrixIter
      = 1 + Matrix.diagonal (fun i => model.DensityId i model.m_Ps)
          * (Matrix.of model.m_Virial).transpose := by
    ext i j
    simp only [ThermalModelEVCrossterms.densMatrixIter, Matrix.of_apply, Matrix.add_apply,
      Matrix.diagonal_mul, Matrix.one_apply, Matrix.transpose_apply]
    ring
  rw [h2, Matrix.det_one_add_mul_comm, h1, ← Matrix.det_transpose
    (1 + Matrix.diagonal (fun i => model.DensityId i model.m_Ps) * Matrix.of model.m_Virial),
    Matrix.transpose_add, Matrix.transpose_one, Matrix.transpose_mul,
    Matrix.diagonal_transpose]

/-- The column-by-column recovery of `CalculateDensities` gives the solution of the single
system of `CalculateDensitiesIter`. -/
theorem recover_eq {N : ℕ} (model : ThermalModelEVCrossterms N)
    (hdet : model.densMatrix.det ≠ 0) :
    (fun i => ∑ k, (inverse model.densMatrix).mulVec
        (Pi.single i (model.DensityId i model.m_Ps)) k)
      = (inverse model.densMatrixIter).mulVec (fun i => model.DensityId i model.m_Ps) := by
  have hunit : IsUnit model.densMatrixIter.det := by
    rw [det_densMatrixIter]
    exact isUnit_iff_ne_zero.mpr hdet
  have hsys : model.densMatrixIter.mulVec
      (fun i => ∑ k, (inverse model.densMatrix).mulVec
        (Pi.single i (model.DensityId i model.m_Ps)) k)
      = fun i => model.DensityId i model.m_Ps := by
    funext j
    have h := densities_system model hdet j
    have hrow : ∀ i, model.densMatrixIter j i
        * (∑ k, (inverse model.densMatrix).mulVec
          (Pi.single i (model.DensityId i model.m_Ps)) k)
        = model.DensityId j model.m_Ps * (model.m_Virial i j
            * ∑ k, (inverse model.densMatrix).mulVec
              (Pi.single i (model.DensityId i model.m_Ps)) k)
          + if j = i then (∑ k, (inverse model.densMatrix).mulVec
              (Pi.single i (model.DensityId i model.m_Ps)) k) else 0 := by
      intro i
      show (model.m_Virial i j * model.DensityId j model.m_Ps + if j = i then 1 else 0) * _ = _
      by_cases hji : j = i
      · simp only [hji, if_true]; ring
      · simp only [hji, if_false]; ring
    show ∑ i, model.densMatrixIter j i * _ = _
    simp only [hrow, Finset.sum_add_distrib, Finset.sum_ite_eq, Finset.mem_univ, if_true,
      ← Finset.mul_sum]
    linear_combination h
  have h := congrArg (model.densMatrixIter⁻¹.mulVec) hsys
  rw [Matrix.mulVec_mulVec, Matrix.nonsing_inv_mul _ hunit, Matrix.one_mulVec] at h
  rw [inverse_eq_inv model.densMatrixIter]
  exact h

theorem CalculateDensitiesIter_of_SolvePressureIter {N : ℕ}
    (M model : ThermalModelEVCrossterms N)
    (h : M.SolvePressureIter = Outcome.ret model) :
    M.CalculateDensitiesIter
      = Outcome.ret
          { model with
            m_densities :=
              (inverse model.densMatrixIter).mulVec (fun i => model.DensityId i model.m_Ps)
            m_TotalEntropyDensity :=
              ∑ i, (inverse model.densMatrix).mulVec (fun k => model.EntropyDensityId k) i
            m_Calculated := true } := by
  unfold ThermalModelEVCrossterms.CalculateDensitiesIter
  rewrite [h, Outcome.bind_ret]
  rfl

/-- Two models with the same species, parameters, chemical potentials, virial matrix and
partial pressures have the same ideal-gas quantities and matrices. -/
theorem same_pressures {N : ℕ} (model1 model2 : ThermalModelEVCrossterms N)
    (hP : model2.Particles = model1.Particles)
    (hpar : model2.m_Parameters = model1.m_Parameters)
    (hw : model2.m_UseWidth = model1.m_UseWidth)
    (hchem : model2.m_Chem = model1.m_Chem)
    (hV : model2.m_Virial = model1.m_Virial)
    (hPs : model2.m_Ps = model1.m_Ps) :
    (fun i => model2.DensityId i model2.m_Ps) = (fun i => model1.DensityId i model1.m_Ps)
      ∧ model2.densMatrix = model1.densMatrix
      ∧ model2.densMatrixIter = model1.densMatrixIter
      ∧ (fun k => model2.EntropyDensityId k) = (fun k => model1.EntropyDensityId k) := by
  have hd : ∀ i, model2.DensityId i model2.m_Ps = model1.DensityId i model1.m_Ps := by
    intro i
    simp only [ThermalModelEVCrossterms.DensityId, ThermalModelEVCrossterms.dMu, hP, hpar, hw,
      hchem, hV, hPs]
  refine ⟨funext hd, ?_, ?_, ?_⟩
  · ext i j
    simp only [ThermalModelEVCrossterms.densMatrix, Matrix.of_apply, hd, hV]
  · ext i j
    simp only [ThermalModelEVCrossterms.densMatrixIter, Matrix.of_apply, hd, hV]
  · funext k
    simp only [ThermalModelEVCrossterms.EntropyDensityId, ThermalModelEVCrossterms.dMu, hP,
      hpar, hw, hchem, hV, hPs]

/-- C18: when `SolvePressure` and `SolvePressureIter` leave the same partial pressures (for
the same species, parameters, chemical potentials and virial matrix) and the matrix
`M = I + diag(DensityId)·Virial` is invertible, `CalculateDensities` and
`CalculateDensitiesIter` both return; the column-by-column result
`n_i = Σ_j [M⁻¹·(DensityId_i·e_i)]_j` of the first is the solution of the single system
`(I + diag(DensityId)·Virialᵀ)·n = DensityId` that the second solves, and the two total
entropy densities are equal. -/
theorem C18_CalculateDensities_agree {N : ℕ} (M1 M2 model1 model2 : ThermalModelEVCrossterms N)
    (relative_error : ℚ)
    (h1 : ThermalModelEVCrossterms.SolvePressure { M1 with m_FluctuationsCalculated := false }
      true relative_error = Outcome.ret model1)
    (h2 : M2.SolvePressureIter = Outcome.ret model2)
    (hP : model2.Particles = model1.Particles)
    (hpar : model2.m_Parameters = model1.m_Parameters)
    (hw : model2.m_UseWidth = model1.m_UseWidth)
    (hchem : model2.m_Chem = model1.m_Chem)
    (hV : model2.m_Virial = model1.m_Virial)
    (hPs : model2.m_Ps = model1.m_Ps)
    (hdet : model1.densMatrix.det ≠ 0) :
    ∃ R1 R2 : ThermalModelEVCrossterms N,
      M1.CalculateDensities relative_error = Outcome.ret R1 ∧
      M2.CalculateDensitiesIter = Outcome.ret R2 ∧
      model1.densMatrix
        = 1 + Matrix.diagonal (fun i => model1.DensityId i model1.m_Ps)
            * Matrix.of model1.m_Virial ∧
      model2.densMatrixIter
        = 1 + Matrix.diagonal (fun i => model1.DensityId i model1.m_Ps)
            * (Matrix.of model1.m_Virial).transpose ∧
      (∀ i, R1.m_densities i = ∑ j, (model1.densMatrix⁻¹).mulVec
        (Pi.single i (model1.DensityId i model1.m_Ps)) j) ∧
      model2.densMatrixIter.mulVec R2.m_densities
        = (fun i => model1.DensityId i model1.m_Ps) ∧
      R1.m_densities = R2.m_densities ∧
      R1.m_TotalEntropyDensity = R2.m_TotalEntropyDensity := by
  obtain ⟨hd, hm, hmi, he⟩ := same_pressures model1 model2 hP hpar hw hchem hV hPs
  have hunit : IsUnit model1.densMatrixIter.det := by
    rw [det_densMatrixIter]
    exact isUnit_iff_ne_zero.mpr hdet
  refine ⟨_, _, CalculateDensities_of_SolvePressure M1 model1 relative_error h1,
    CalculateDensitiesIter_of_SolvePressureIter M2 model2 h2, ?_, ?_, ?_, ?_, ?_, ?_⟩
  · ext i j
    simp only [ThermalModelEVCrossterms.densMatrix, Matrix.of_apply, Matrix.add_apply,
      Matrix.diagonal_mul, Matrix.one_apply]
    ring
  · rw [hmi]
    ext i j
    simp only [ThermalModelEVCrossterms.densMatrixIter, Matrix.of_apply, Matrix.add_apply,
      Matrix.diagonal_mul, Matrix.one_apply, Matrix.transpose_apply]
    ring
  · intro i
    show (∑ j, (inverse model1.densMatrix).mulVec _ j) = _
    rw [inverse_eq_inv]
  · show model2.densMatrixIter.mulVec ((inverse model2.densMatrixIter).mulVec
      (fun i => model2.DensityId i model2.m_Ps)) = _
    rw [hmi, hd, inverse_eq_inv, Matrix.mulVec_mulVec, Matrix.mul_nonsing_inv _ hunit,
      Matrix.one_mulVec]
  · show (fun i => ∑ k, (inverse model1.densMatrix).mulVec
        (Pi.single i (model1.DensityId i model1.m_Ps)) k)
      = (inverse model2.densMatrixIter).mulVec (fun i => model2.DensityId i model2.m_Ps)
    rw [hmi, hd]
    exact recover_eq model1 hdet
  · show (∑ i, (inverse model1.densMatrix).mulVec (fun k => model1.EntropyDensityId k) i)
      = ∑ i, (inverse model2.densMatrix).mulVec (fun k => model2.EntropyDensityId k) i
    rw [hm, he]

/-! ## `SolvePressureIter` -/

theorem sweepConverged_iff {N : ℕ} (Pstmp Ps : Fin N → ℚ) :
    ThermalModelEVCrossterms.sweepConverged Pstmp Ps = true
      ↔ (∀ i, Pstmp i = 0 → Ps i = 0)
        ∧ ∀ i, |(Pstmp i - Ps i) / Pstmp i| < 1 / 10 ^ 10 := by
  unfold ThermalModelEVCrossterms.sweepConverged
  rw [decide_eq_true_iff, maxAbs_toVector_lt_iff]
  constructor
  · rintro ⟨h1, -, h2⟩
    exact ⟨h1, h2⟩
  · rintro ⟨h1, h2⟩
    exact ⟨h1, by norm_num, h2⟩

/-- A state whose partial pressures are a fixed point of the sweep leaves the loop of
`SolvePressureIter` after one sweep, unchanged. -/
theorem SolvePressureIterLoop_fixed {N : ℕ} (self : ThermalModelEVCrossterms N)
    (remaining iter : ℕ) (h : (fun i => self.Pressure i self.m_Ps) = self.m_Ps) :
    ThermalModelEVCrossterms.SolvePressureIterLoop (remaining + 1) iter self = (iter, self) := by
  have hconv : ThermalModelEVCrossterms.sweepConverged (fun i => self.Pressure i self.m_Ps)
      self.m_Ps = true := by
    rw [h, sweepConverged_iff]
    refine ⟨fun i hi => hi, fun i => ?_⟩
    rw [sub_self, zero_div, abs_zero]
    norm_num
  have hsweep : self.sweep = self := by
    unfold ThermalModelEVCrossterms.sweep
    rw [h]
  rw [ThermalModelEVCrossterms.SolvePressureIterLoop]
  simp only [hconv, if_true, hsweep]

/-- The loop of `SolvePressureIter` entered with `remaining` sweeps to go: it makes `k`
sweeps, `1 ≤ k ≤ remaining` (or none when `remaining = 0`), and either sweep `k` is the
first that passes the test, or `k = remaining` and no sweep passes it. -/
theorem SolvePressureIterLoop_spec {N : ℕ} :
    ∀ (remaining iter : ℕ) (self : ThermalModelEVCrossterms N),
      ∃ k, k ≤ remaining
        ∧ (ThermalModelEVCrossterms.SolvePressureIterLoop remaining iter self).2
            = Nat.iterate ThermalModelEVCrossterms.sweep k self
        ∧ ((∃ j, k = j + 1
              ∧ (ThermalModelEVCrossterms.SolvePressureIterLoop remaining iter self).1
                  = iter + j
              ∧ ThermalModelEVCrossterms.sweepConverged
                  (Nat.iterate ThermalModelEVCrossterms.sweep (j + 1) self).m_Ps
                  (Nat.iterate ThermalModelEVCrossterms.sweep j self).m_Ps = true
              ∧ ∀ s, s < j → ThermalModelEVCrossterms.sweepConverged
                  (Nat.iterate ThermalModelEVCrossterms.sweep (s + 1) self).m_Ps
                  (Nat.iterate ThermalModelEVCrossterms.sweep s self).m_Ps = false)
          ∨ (k = remaining
              ∧ (ThermalModelEVCrossterms.SolvePressureIterLoop remaining iter self).1
                  = iter + remaining
              ∧ ∀ s, s < remaining → ThermalModelEVCrossterms.sweepConverged
                  (Nat.iterate ThermalModelEVCrossterms.sweep (s + 1) self).m_Ps
                  (Nat.iterate ThermalModelEVCrossterms.sweep s self).m_Ps = false)) := by
  intro remaining
  induction remaining with
  | zero =>
    intro iter self
    refine ⟨0, le_refl 0, rfl, Or.inr ⟨rfl, rfl, fun s hs => absurd hs (Nat.not_lt_zero s)⟩⟩
  | succ remaining ih =>
    intro iter self
    cases hconv : ThermalModelEVCrossterms.sweepConverged
        (fun i => self.Pressure i self.m_Ps) self.m_Ps with
    | true =>
      have hloop : ThermalModelEVCrossterms.SolvePressureIterLoop (remaining + 1) iter self
          = (iter, self.sweep) := by
        rw [ThermalModelEVCrossterms.SolvePressureIterLoop]
        simp only [hconv, if_true]
      rw [hloop]
      refine ⟨1, by omega, rfl, Or.inl ⟨0, rfl, rfl, hconv, fun s hs => absurd hs (Nat.not_lt_zero s)⟩⟩
    | false =>
      have hloop : ThermalModelEVCrossterms.SolvePressureIterLoop (remaining + 1) iter self
          = ThermalModelEVCrossterms.SolvePressureIterLoop remaining (iter + 1) self.sweep := by
        rw [ThermalModelEVCrossterms.SolvePressureIterLoop]
        simp only [hconv, Bool.false_eq_true, if_false]
      rw [hloop]
      obtain ⟨k, hk, hstate, hcases⟩ := ih (iter + 1) self.sweep
      have hshift : ∀ s, Nat.iterate ThermalModelEVCrossterms.sweep s self.sweep
          = Nat.iterate ThermalModelEVCrossterms.sweep (s + 1) self :=
        fun s => (Function.iterate_succ_apply ThermalModelEVCrossterms.sweep s self).symm
      have hfirst : ∀ m, (∀ s, s < m → ThermalModelEVCrossterms.sweepConverged
            (Nat.iterate ThermalModelEVCrossterms.sweep (s + 1) self.sweep).m_Ps
            (Nat.iterate ThermalModelEVCrossterms.sweep s self.sweep).m_Ps = false) →
          ∀ s, s < m + 1 → ThermalModelEVCrossterms.sweepConverged
            (Nat.iterate ThermalModelEVCrossterms.sweep (s + 1) self).m_Ps
            (Nat.iterate ThermalModelEVCrossterms.sweep s self).m_Ps = false := by
        intro m hm s hs
        cases s with
        | zero => exact hconv
        | succ s =>
          have := hm s (by omega)
          rwa [hshift, hshift] at this
      refine ⟨k + 1, by omega, by rw [hstate, hshift], ?_⟩
      rcases hcases with ⟨j, hj, hit, hc, hnot⟩ | ⟨hkr, hit, hnot⟩
      · left
        refine ⟨j + 1, by omega, by rw [hit]; omega, ?_, hfirst j hnot⟩
        rwa [hshift, hshift] at hc
      · right
        exact ⟨by omega, by rw [hit]; omega, hfirst remaining hnot⟩

theorem SolveDiagonal_returns {N : ℕ} (M : ThermalModelEVCrossterms N) :
    ∃ R, M.SolveDiagonal = Outcome.ret R := by
  obtain ⟨J, hJ, hsize⟩ := Jacobian_base_returns M.BroydenEquationsCRSDEV (1 / 100000000) [0] rfl
  obtain ⟨r, hsolve, -, -⟩ := Solve_returns
    (Broyden.new (some M.BroydenEquationsCRSDEV)
      (some (JacobianRef.base
        { m_Equations := some M.BroydenEquationsCRSDEV, m_dx := 1 / 100000000 })))
    M.BroydenEquationsCRSDEV [0]
    (some (SolutionCriteriumRef.base { m_RelativeError := 1 / 100000000 }))
    Broyden.MAX_ITERS J rfl hJ hsize rfl rfl (by decide)
  refine ⟨{ M with
      m_Pressure := r.1.getD 0 0
      m_Ps := fun i => M.PressureDiagonal i (r.1.getD 0 0) }, ?_⟩
  unfold ThermalModelEVCrossterms.SolveDiagonal
  dsimp only
  rewrite [hsolve, Outcome.bind_ret]
  rfl

/-- C23: `SolvePressureIter` returns after `k ≤ 1000` sweeps from the state `model` left by
`SolveDiagonal`; every sweep replaces all partial pressures at once by the `Pressure_i` at
the pressures of the sweep before; either sweep `k` is the first whose relative changes
`|(new_i − old_i)/new_i|` are all below `1e-10` (a zero `new_i` passing only with a zero
`old_i`), or `k = 1000` and no sweep passes; the total pressure stored at the end is the sum
of the partial pressures. -/
theorem C23_SolvePressureIter {N : ℕ} (M : ThermalModelEVCrossterms N) :
    ∃ (model R : ThermalModelEVCrossterms N) (k : ℕ),
      ThermalModelEVCrossterms.SolveDiagonal { M with m_Ps := fun _ => 0 } = Outcome.ret model ∧
      M.SolvePressureIter = Outcome.ret R ∧
      k ≤ 1000 ∧
      R.m_Ps = (Nat.iterate ThermalModelEVCrossterms.sweep k model).m_Ps ∧
      (∀ (s : ThermalModelEVCrossterms N) (i : Fin N),
        s.sweep.m_Ps i
          = (s.Particles i).Density s.m_Parameters IdealGasFunctions.Quantity.Pressure
              s.m_UseWidth (s.m_Chem i) (∑ j, -s.m_Virial i j * s.m_Ps j)) ∧
      (∀ new old : Fin N → ℚ,
        ThermalModelEVCrossterms.sweepConverged new old = true
          ↔ (∀ i, new i = 0 → old i = 0) ∧ ∀ i, |(new i - old i) / new i| < 1 / 10 ^ 10) ∧
      ((∃ j, k = j + 1
          ∧ ThermalModelEVCrossterms.sweepConverged
              (Nat.iterate ThermalModelEVCrossterms.sweep (j + 1) model).m_Ps
              (Nat.iterate ThermalModelEVCrossterms.sweep j model).m_Ps = true
          ∧ ∀ s, s < j → ThermalModelEVCrossterms.sweepConverged
              (Nat.iterate ThermalModelEVCrossterms.sweep (s + 1) model).m_Ps
              (Nat.iterate ThermalModelEVCrossterms.sweep s model).m_Ps = false)
        ∨ (k = 1000
          ∧ ∀ s, s < 1000 → ThermalModelEVCrossterms.sweepConverged
              (Nat.iterate ThermalModelEVCrossterms.sweep (s + 1) model).m_Ps
              (Nat.iterate ThermalModelEVCrossterms.sweep s model).m_Ps = false)) ∧
      R.m_Pressure = ∑ i, R.m_Ps i := by
  obtain ⟨model, hdiag⟩ := SolveDiagonal_returns { M with m_Ps := fun _ => 0 }
  obtain ⟨k, hk, hstate, hcases⟩ := SolvePressureIterLoop_spec 1000 0 model
  refine ⟨model,
    { (ThermalModelEVCrossterms.SolvePressureIterLoop 1000 0 model).2 with
      m_Pressure := ∑ i, (ThermalModelEVCrossterms.SolvePressureIterLoop 1000 0 model).2.m_Ps i },
    k, hdiag, ?_, hk, ?_, fun s i => rfl, sweepConverged_iff, ?_, rfl⟩
  · unfold ThermalModelEVCrossterms.SolvePressureIter
    rewrite [hdiag, Outcome.bind_ret]
    rfl
  · show (ThermalModelEVCrossterms.SolvePressureIterLoop 1000 0 model).2.m_Ps = _
    rw [hstate]
  · rcases hcases with ⟨j, hj, -, hc, hnot⟩ | ⟨hkr, -, hnot⟩
    · exact Or.inl ⟨j, hj, hc, hnot⟩
    · exact Or.inr ⟨hkr, hnot⟩

/-- With an all-zero virial matrix `SolvePressureIter` ends with the ideal-gas pressures. -/
theorem SolvePressureIter_zero_virial {N : ℕ} (M : ThermalModelEVCrossterms N)
    (hV : ∀ i j, M.m_Virial i j = 0) :
    M.SolvePressureIter
      = Outcome.ret
          { M with
            m_Ps := fun i => M.idealGas IdealGasFunctions.Quantity.Pressure i
            m_Pressure := ∑ i, M.idealGas IdealGasFunctions.Quantity.Pressure i } := by
  have hconst : ∀ P, ThermalModelEVCrossterms.PressureDiagonalTotal
      { M with m_Ps := fun _ => 0 } P
      = ∑ i, M.idealGas IdealGasFunctions.Quantity.Pressure i := by
    intro P
    simp [ThermalModelEVCrossterms.PressureDiagonalTotal,
      ThermalModelEVCrossterms.PressureDiagonal, ThermalModelEVCrossterms.idealGas, hV]
  have hPD : (fun i => ThermalModelEVCrossterms.PressureDiagonal
      { M with m_Ps := fun _ => 0 } i (∑ i, M.idealGas IdealGasFunctions.Quantity.Pressure i))
      = fun i => M.idealGas IdealGasFunctions.Quantity.Pressure i := by
    funext i
    simp [ThermalModelEVCrossterms.PressureDiagonal, ThermalModelEVCrossterms.idealGas, hV]
  have hdiag : ThermalModelEVCrossterms.SolveDiagonal { M with m_Ps := fun _ => 0 }
      = Outcome.ret
          { M with
            m_Ps := fun i => M.idealGas IdealGasFunctions.Quantity.Pressure i
            m_Pressure := ∑ i, M.idealGas IdealGasFunctions.Quantity.Pressure i } := by
    rw [SolveDiagonal_const { M with m_Ps := fun _ => 0 } _ hconst, hPD]
  have hloop := SolvePressureIterLoop_fixed
    { M with
      m_Ps := fun i => M.idealGas IdealGasFunctions.Quantity.Pressure i
      m_Pressure := ∑ i, M.idealGas IdealGasFunctions.Quantity.Pressure i } 999 0
    (by
      funext i
      simp [ThermalModelEVCrossterms.Pressure, ThermalModelEVCrossterms.idealGas,
        ThermalModelEVCrossterms.dMu, hV])
  unfold ThermalModelEVCrossterms.SolvePressureIter
  rewrite [hdiag, Outcome.bind_ret]
  simp only [hloop]

/-- The fixed-point iteration for two species with density function `1` and the one cross
term `Virial[0][1] = 1/2`: seeded with `(1, 1)`, the first sweep gives `(1/2, 1)`, which
the second sweep leaves unchanged. -/
theorem asymmetricGas_SolvePressureIter :
    ∃ model2 : ThermalModelEVCrossterms 2,
      asymmetricGas.SolvePressureIter = Outcome.ret model2 ∧
      model2.Particles = asymmetricGas.Particles ∧
      model2.m_Parameters = asymmetricGas.m_Parameters ∧
      model2.m_UseWidth = asymmetricGas.m_UseWidth ∧
      model2.m_Chem = asymmetricGas.m_Chem ∧
      model2.m_Virial = asymmetricGas.m_Virial ∧
      model2.m_Ps = ![1 / 2, 1] := by
  have hconst : ∀ P, ThermalModelEVCrossterms.PressureDiagonalTotal
      { asymmetricGas with m_Ps := fun _ => 0 } P = 2 := by
    intro P
    simp [ThermalModelEVCrossterms.PressureDiagonalTotal,
      ThermalModelEVCrossterms.PressureDiagonal, asymmetricGas, affineParticle,
      Fin.sum_univ_two]
    norm_num
  have hdiag := SolveDiagonal_const { asymmetricGas with m_Ps := fun _ => 0 } 2 hconst
  have hseedPs : ∀ i, ThermalModelEVCrossterms.PressureDiagonal
      { asymmetricGas with m_Ps := fun _ => 0 } i 2 = 1 := by
    intro i
    fin_cases i <;>
      simp [ThermalModelEVCrossterms.PressureDiagonal, asymmetricGas, affineParticle]
  have hsweep1 : ∀ i, ThermalModelEVCrossterms.Pressure
      { asymmetricGas with
        m_Pressure := 2
        m_Ps := fun i => ThermalModelEVCrossterms.PressureDiagonal
          { asymmetricGas with m_Ps := fun _ => 0 } i 2 } i
      (fun i => ThermalModelEVCrossterms.PressureDiagonal
          { asymmetricGas with m_Ps := fun _ => 0 } i 2)
      = (![1 / 2, 1] : Fin 2 → ℚ) i := by
    intro i
    simp only [hseedPs]
    fin_cases i
    · simp [Fin.sum_univ_two, asymmetricGas, affineParticle,
        ThermalModelEVCrossterms.Pressure, ThermalModelEVCrossterms.dMu]
      norm_num
    · simp [Fin.sum_univ_two, asymmetricGas, affineParticle,
        ThermalModelEVCrossterms.Pressure, ThermalModelEVCrossterms.dMu]
  have hnot : ThermalModelEVCrossterms.sweepConverged
      (fun i => ThermalModelEVCrossterms.Pressure
        { asymmetricGas with
          m_Pressure := 2
          m_Ps := fun i => ThermalModelEVCrossterms.PressureDiagonal
            { asymmetricGas with m_Ps := fun _ => 0 } i 2 } i
        (fun i => ThermalModelEVCrossterms.PressureDiagonal
            { asymmetricGas with m_Ps := fun _ => 0 } i 2))
      (fun i => ThermalModelEVCrossterms.PressureDiagonal
          { asymmetricGas with m_Ps := fun _ => 0 } i 2) = false := by
    cases hc : ThermalModelEVCrossterms.sweepConverged
      (fun i => ThermalModelEVCrossterms.Pressure
        { asymmetricGas with
          m_Pressure := 2
          m_Ps := fun i => ThermalModelEVCrossterms.PressureDiagonal
            { asymmetricGas with m_Ps := fun _ => 0 } i 2 } i
        (fun i => ThermalModelEVCrossterms.PressureDiagonal
            { asymmetricGas with m_Ps := fun _ => 0 } i 2))
      (fun i => ThermalModelEVCrossterms.PressureDiagonal
          { asymmetricGas with m_Ps := fun _ => 0 } i 2) with
    | false => rfl
    | true =>
      rw [sweepConverged_iff] at hc
      have h0 := hc.2 0
      rw [hsweep1 0, hseedPs 0] at h0
      norm_num at h0
  have hloop1 : ThermalModelEVCrossterms.SolvePressureIterLoop 1000 0
      { asymmetricGas with
        m_Pressure := 2
        m_Ps := fun i => ThermalModelEVCrossterms.PressureDiagonal
          { asymmetricGas with m_Ps := fun _ => 0 } i 2 }
      = ThermalModelEVCrossterms.SolvePressureIterLoop 999 (0 + 1)
          (ThermalModelEVCrossterms.sweep
            { asymmetricGas with
              m_Pressure := 2
              m_Ps := fun i => ThermalModelEVCrossterms.PressureDiagonal
                { asymmetricGas with m_Ps := fun _ => 0 } i 2 }) := by
    rw [ThermalModelEVCrossterms.SolvePressureIterLoop]
    simp only [hnot, Bool.false_eq_true, if_false]
  have hfix : (fun i => ThermalModelEVCrossterms.Pressure
      (ThermalModelEVCrossterms.sweep
        { asymmetricGas with
          m_Pressure := 2
          m_Ps := fun i => ThermalModelEVCrossterms.PressureDiagonal
            { asymmetricGas with m_Ps := fun _ => 0 } i 2 }) i
      (ThermalModelEVCrossterms.sweep
        { asymmetricGas with
          m_Pressure := 2
          m_Ps := fun i => ThermalModelEVCrossterms.PressureDiagonal
            { asymmetricGas with m_Ps := fun _ => 0 } i 2 }).m_Ps)
      = (ThermalModelEVCrossterms.sweep
        { asymmetricGas with
          m_Pressure := 2
          m_Ps := fun i => ThermalModelEVCrossterms.PressureDiagonal
            { asymmetricGas with m_Ps := fun _ => 0 } i 2 }).m_Ps := by
    have hPs : (ThermalModelEVCrossterms.sweep
        { asymmetricGas with
          m_Pressure := 2
          m_Ps := fun i => ThermalModelEVCrossterms.PressureDiagonal
            { asymmetricGas with m_Ps := fun _ => 0 } i 2 }).m_Ps = ![1 / 2, 1] :=
      funext hsweep1
    rw [hPs]
    funext i
    fin_cases i
    · simp [Fin.sum_univ_two, asymmetricGas, affineParticle, ThermalModelEVCrossterms.sweep,
        ThermalModelEVCrossterms.Pressure, ThermalModelEVCrossterms.dMu]
      norm_num
    · simp [Fin.sum_univ_two, asymmetricGas, affineParticle, ThermalModelEVCrossterms.sweep,
        ThermalModelEVCrossterms.Pressure, ThermalModelEVCrossterms.dMu]
  have hloop2 := SolvePressureIterLoop_fixed _ 998 (0 + 1) hfix
  have hres := hloop1.trans hloop2
  unfold ThermalModelEVCrossterms.SolvePressureIter
  rewrite [hdiag, Outcome.bind_ret]
  simp only [hres]
  exact ⟨_, rfl, rfl, rfl, rfl, rfl, rfl, funext hsweep1⟩

theorem C18_CalculateDensities_agree_witness :
    ∃ R1 R2 : ThermalModelEVCrossterms 2,
      asymmetricGas.CalculateDensities Broyden.TOL = Outcome.ret R1 ∧
      ThermalModelEVCrossterms.CalculateDensitiesIter asymmetricGas = Outcome.ret R2 ∧
      asymmetricGas.m_Virial 0 1 = 1 / 2 ∧ asymmetricGas.m_Virial 1 0 = 0 ∧
      R1.m_densities = R2.m_densities ∧
      R1.m_TotalEntropyDensity = R2.m_TotalEntropyDensity := by
  obtain ⟨model2, hiter, hP, hpar, hw, hchem, hV, hPs⟩ := asymmetricGas_SolvePressureIter
  obtain ⟨R1, R2, h1, h2, -, -, -, -, h3, h4⟩ := C18_CalculateDensities_agree asymmetricGas
    asymmetricGas _ model2 Broyden.TOL asymmetricGas_SolvePressure hiter
    hP hpar hw hchem hV hPs asymmetricGas_densMatrix_det
  exact ⟨R1, R2, h1, h2, by simp [asymmetricGas], by simp [asymmetricGas], h3, h4⟩

/-! ## The tables of `ThermalModelPCE.cpp` -/

theorem getD_map_finRange {N : ℕ} {α : Type} (f : Fin N → α) (d : α) (i : Fin N) :
    ((List.finRange N).map f).getD i.val d = f i := by
  rw [List.getD_eq_getElem _ _ (by simp)]
  simp

theorem prepareNucleus_PdgId (part : ThermalParticle) (entry : Int × List Int) :
    (prepareNucleus part entry).PdgId = part.PdgId := by
  unfold prepareNucleus
  split_ifs <;> rfl

theorem foldl_prepareNucleus_PdgId (table : List (Int × List Int)) (part : ThermalParticle) :
    (table.foldl prepareNucleus part).PdgId = part.PdgId := by
  induction table generalizing part with
  | nil => rfl
  | cons e t ih => rw [List.foldl_cons, ih, prepareNucleus_PdgId]

theorem foldl_prepareNucleus_other (table : List (Int × List Int)) (part : ThermalParticle)
    (h : ∀ e ∈ table, part.PdgId ≠ e.1 ∧ part.PdgId ≠ -e.1) :
    table.foldl prepareNucleus part = part := by
  induction table generalizing part with
  | nil => rfl
  | cons e t ih =>
    have he := h e (List.mem_cons_self e t)
    have hstep : prepareNucleus part e = part := by
      unfold prepareNucleus
      rw [if_neg]
      rintro (h1 | h1)
      · exact he.1 h1
      · exact he.2 h1
    rw [List.foldl_cons, hstep]
    exact ih part (fun e1 he1 => h e1 (List.mem_cons_of_mem e he1))

theorem prepareNucleus_match (part : ThermalParticle) (e : Int × List Int)
    (he : part.PdgId = e.1 ∨ part.PdgId = -e.1) :
    prepareNucleus part e
      = { part with
          Decays := [{ mBratio := 1
                       mDaughters := e.2.map fun d => (if part.PdgId < 0 then -1 else 1) * d }] } := by
  unfold prepareNucleus
  rw [if_pos he]

/-- A table entry that names the particle, followed by entries that do not, fixes the decay
list. -/
theorem foldl_prepareNucleus_match (pre post : List (Int × List Int)) (e : Int × List Int)
    (part : ThermalParticle)
    (he : part.PdgId = e.1 ∨ part.PdgId = -e.1)
    (hpost : ∀ e1 ∈ post, part.PdgId ≠ e1.1 ∧ part.PdgId ≠ -e1.1) :
    ((pre ++ e :: post).foldl prepareNucleus part).Decays
      = [{ mBratio := 1
           mDaughters := e.2.map fun d => (if part.PdgId < 0 then -1 else 1) * d }] := by
  have hid := foldl_prepareNucleus_PdgId pre part
  have hstep := prepareNucleus_match (pre.foldl prepareNucleus part) e (by rw [hid]; exact he)
  have hid2 : (prepareNucleus (pre.foldl prepareNucleus part) e).PdgId = part.PdgId := by
    rw [prepareNucleus_PdgId, hid]
  rw [List.foldl_append, List.foldl_cons,
    foldl_prepareNucleus_other post _ (by rw [hid2]; exact hpost), hstep]
  show [({ mBratio := 1
           mDaughters := e.2.map fun d =>
             (if (pre.foldl prepareNucleus part).PdgId < 0 then -1 else 1) * d } :
        ParticleDecayChannel)] = _
  rw [hid]

/-- C22: `PrepareNucleiForPCE` gives every particle whose PDG id or its negative is entry
`k` of the table of 14 codes the single decay channel with branching ratio 1 whose
daughters are the constituents of that entry, in order, each multiplied by the sign of the
particle's PDG id; it changes nothing else of that particle, and it leaves every particle
that is not in the table unchanged. -/
theorem C22_PrepareNucleiForPCE {N : ℕ} (parts : ThermalParticleSystem N) (i : Fin N) :
    nuclpdgs.length = 14 ∧ nuclcontent.length = 14 ∧
    (∀ k, k < 14 →
      ((parts.Particles i).PdgId = nuclpdgs.getD k 0
        ∨ (parts.Particles i).PdgId = -nuclpdgs.getD k 0) →
      ((PrepareNucleiForPCE parts).Particles i).Decays
        = [{ mBratio := 1
             mDaughters := (nuclcontent.getD k []).map fun d =>
               (if (parts.Particles i).PdgId < 0 then -1 else 1) * d }]) ∧
    ((∀ code ∈ nuclpdgs,
        (parts.Particles i).PdgId ≠ code ∧ (parts.Particles i).PdgId ≠ -code) →
      (PrepareNucleiForPCE parts).Particles i = parts.Particles i) ∧
    ((PrepareNucleiForPCE parts).Particles i).PdgId = (parts.Particles i).PdgId ∧
    (PrepareNucleiForPCE parts).FillResonanceDecays = parts.FillResonanceDecays := by
  refine ⟨rfl, rfl, ?_, ?_, foldl_prepareNucleus_PdgId _ _, rfl⟩
  · intro k hk hmatch
    show ((nuclpdgs.zip nuclcontent).foldl prepareNucleus (parts.Particles i)).Decays = _
    have hsplit : nuclpdgs.zip nuclcontent
        = (nuclpdgs.zip nuclcontent).take k
          ++ (nuclpdgs.getD k 0, nuclcontent.getD k []) :: (nuclpdgs.zip nuclcontent).drop (k + 1) := by
      interval_cases k <;> rfl
    have hdec : ∀ k, k < 14 → ∀ e1 ∈ (nuclpdgs.zip nuclcontent).drop (k + 1),
        (nuclpdgs.getD k 0 ≠ e1.1 ∧ nuclpdgs.getD k 0 ≠ -e1.1)
          ∧ (-nuclpdgs.getD k 0 ≠ e1.1 ∧ -nuclpdgs.getD k 0 ≠ -e1.1) := by
      decide
    have hpost : ∀ e1 ∈ (nuclpdgs.zip nuclcontent).drop (k + 1),
        (parts.Particles i).PdgId ≠ e1.1 ∧ (parts.Particles i).PdgId ≠ -e1.1 := by
      intro e1 he1
      rcases hmatch with h | h
      · rw [h]; exact (hdec k hk e1 he1).1
      · rw [h]; exact (hdec k hk e1 he1).2
    rw [hsplit, foldl_prepareNucleus_match _ _ _ _ hmatch hpost]
  · intro hnot
    show (nuclpdgs.zip nuclcontent).foldl prepareNucleus (parts.Particles i) = _
    apply foldl_prepareNucleus_other
    intro e he
    exact hnot e.1 (List.of_mem_zip he).1

/-- C29: each of the 14 entries of the table of `PrepareNucleiForPCE` has a PDG nuclear code
`10LZZZAAAI` whose mass number `A` is the number of listed constituents, whose charge `Z`
is the number of protons (2212) minus the number of Ω⁻ (3334), and whose digit `L` is
`#Λ(3122) + 2·#Ξ⁰(3322) + 3·#Ω⁻(3334)`; the 14 codes are pairwise distinct. -/
theorem C29_nuclear_codes :
    nuclpdgs.length = 14 ∧ nuclcontent.length = 14 ∧ nuclpdgs.Nodup ∧
    ∀ entry ∈ nuclpdgs.zip nuclcontent,
      entry.1 / 100000000 = 10 ∧
      (entry.1 / 10) % 1000 = (entry.2.length : Int) ∧
      (entry.1 / 10000) % 1000
        = (entry.2.count 2212 : Int) - (entry.2.count 3334 : Int) ∧
      (entry.1 / 10000000) % 10
        = (entry.2.count 3122 : Int) + 2 * (entry.2.count 3322 : Int)
          + 3 * (entry.2.count 3334 : Int) := by
  refine ⟨rfl, rfl, by decide, ?_⟩
  decide

/-- C30: `ComputePCEStabilityFlags` returns one flag per species, each `0` or `1`: `1` for
the PDG ids `311` and `−311`, `0` for `310` and `130`; otherwise, for a strongly decaying
species, `1` exactly when `FreezeLongLived` holds, the width is below `WidthCut` and
`|baryon charge| ≤ 1`, and for a species that does not decay strongly, `1` exactly when not
(`SahaEquationForNuclei` and `|baryon charge| > 1`). -/
theorem C30_ComputePCEStabilityFlags {N : ℕ} (TPS : ThermalParticleSystem N)
    (SahaEquationForNuclei FreezeLongLived : Bool) (WidthCut : ℚ) :
    (ComputePCEStabilityFlags TPS SahaEquationForNuclei FreezeLongLived WidthCut).length = N ∧
    ∀ i : Fin N,
      ((ComputePCEStabilityFlags TPS SahaEquationForNuclei FreezeLongLived WidthCut).getD i.val 0
          = 0
        ∨ (ComputePCEStabilityFlags TPS SahaEquationForNuclei FreezeLongLived WidthCut).getD
            i.val 0 = 1) ∧
      ((TPS.Particles i).PdgId = 311 ∨ (TPS.Particles i).PdgId = -311 →
        (ComputePCEStabilityFlags TPS SahaEquationForNuclei FreezeLongLived WidthCut).getD
          i.val 0 = 1) ∧
      ((TPS.Particles i).PdgId = 310 ∨ (TPS.Particles i).PdgId = 130 →
        (ComputePCEStabilityFlags TPS SahaEquationForNuclei FreezeLongLived WidthCut).getD
          i.val 0 = 0) ∧
      (¬ ((TPS.Particles i).PdgId = 311 ∨ (TPS.Particles i).PdgId = -311
          ∨ (TPS.Particles i).PdgId = 310 ∨ (TPS.Particles i).PdgId = 130) →
        ((TPS.Particles i).DecayType = ParticleDecayType.Strong →
          ((ComputePCEStabilityFlags TPS SahaEquationForNuclei FreezeLongLived WidthCut).getD
              i.val 0 = 1
            ↔ FreezeLongLived = true ∧ (TPS.Particles i).ResonanceWidth < WidthCut
              ∧ |(TPS.Particles i).BaryonCharge| ≤ 1)) ∧
        ((TPS.Particles i).DecayType ≠ ParticleDecayType.Strong →
          ((ComputePCEStabilityFlags TPS SahaEquationForNuclei FreezeLongLived WidthCut).getD
              i.val 0 = 1
            ↔ ¬ (SahaEquationForNuclei = true ∧ |(TPS.Particles i).BaryonCharge| > 1)))) := by
  refine ⟨by simp [ComputePCEStabilityFlags], fun i => ?_⟩
  unfold ComputePCEStabilityFlags
  rw [getD_map_finRange]
  unfold frozenFlag
  refine ⟨?_, ?_, ?_, ?_⟩
  · split_ifs <;> simp
  · intro h
    rw [if_pos h]
  · intro h
    have h311 : ¬ ((TPS.Particles i).PdgId = 311 ∨ (TPS.Particles i).PdgId = -311) := by
      rcases h with h | h <;> rw [h] <;> decide
    simp only [h311, h, if_false, if_true]
  · intro h
    have h311 : ¬ ((TPS.Particles i).PdgId = 311 ∨ (TPS.Particles i).PdgId = -311) :=
      fun h1 => h (by tauto)
    have h310 : ¬ ((TPS.Particles i).PdgId = 310 ∨ (TPS.Particles i).PdgId = 130) :=
      fun h1 => h (by tauto)
    simp only [h311, h310, if_false]
    constructor
    · intro hs
      simp only [hs, ne_eq, not_true_eq_false, if_false, true_and]
      split_ifs <;> simp_all
    · intro hs
      simp only [hs, ne_eq, not_false_eq_true, if_true, false_and, and_false, if_false]
      split_ifs <;> simp_all

/-! ## The moment errors of `particlespectra.cpp` -/

/-- C24: with `μ_k` the central moment of order `k` expanded in the raw moments
`m_1 … m_8`, `GetVarianceError` returns `sqrt(μ_4 − μ_2²)/sqrt(nE)`, that is, the square
root of `(μ_4 − μ_2²)/nE` for a square root that commutes with that quotient;
`GetSkewnessError` returns `sqrt((μ_6 − μ_3²)/nE)/μ_2` and `GetKurtosisError` returns
`sqrt((μ_8 − μ_4²)/nE)/μ_2`, the radicands being equal as polynomials in the raw moments;
the value of `GetKurtosisError` is the same expression whatever the intermediate `tmp`
is. -/
theorem C24_moment_errors (sqrt : ℚ → ℚ) (s : ParticleSpectrum) :
    s.varianceRadicand = centralMoment s.means 4 - centralMoment s.means 2 ^ 2 ∧
    s.GetVarianceError sqrt
      = sqrt (centralMoment s.means 4 - centralMoment s.means 2 ^ 2) / sqrt s.nE ∧
    (sqrt ((centralMoment s.means 4 - centralMoment s.means 2 ^ 2) / s.nE)
        = sqrt (centralMoment s.means 4 - centralMoment s.means 2 ^ 2) / sqrt s.nE →
      s.GetVarianceError sqrt
        = sqrt ((centralMoment s.means 4 - centralMoment s.means 2 ^ 2) / s.nE)) ∧
    s.dm32 = (centralMoment s.means 6 - centralMoment s.means 3 ^ 2) / s.nE ∧
    s.GetSkewnessError sqrt
      = sqrt ((centralMoment s.means 6 - centralMoment s.means 3 ^ 2) / s.nE)
        / centralMoment s.means 2 ∧
    s.dm42 = (centralMoment s.means 8 - centralMoment s.means 4 ^ 2) / s.nE ∧
    s.GetKurtosisError sqrt
      = sqrt ((centralMoment s.means 8 - centralMoment s.means 4 ^ 2) / s.nE)
        / centralMoment s.means 2 ∧
    s.GetKurtosisError sqrt = sqrt s.dm42 / s.GetVariance := by
  have hμ2 : centralMoment s.means 2 = s.means 2 - s.means 1 * s.means 1 := by
    simp [centralMoment, Finset.sum_range_succ, Nat.choose]
    ring
  have hvar : s.varianceRadicand = centralMoment s.means 4 - centralMoment s.means 2 ^ 2 := by
    simp [ParticleSpectrum.varianceRadicand, centralMoment, Finset.sum_range_succ, Nat.choose]
    ring
  have h32 : s.dm32 = (centralMoment s.means 6 - centralMoment s.means 3 ^ 2) / s.nE := by
    simp [ParticleSpectrum.dm32, centralMoment, Finset.sum_range_succ, Nat.choose]
    ring
  have h42 : s.dm42 = (centralMoment s.means 8 - centralMoment s.means 4 ^ 2) / s.nE := by
    simp [ParticleSpectrum.dm42, centralMoment, Finset.sum_range_succ, Nat.choose]
    ring
  have hV : s.GetVariance = centralMoment s.means 2 := by
    rw [hμ2]; rfl
  refine ⟨hvar, ?_, ?_, h32, ?_, h42, ?_, rfl⟩
  · unfold ParticleSpectrum.GetVarianceError
    rw [hvar]
  · intro h
    unfold ParticleSpectrum.GetVarianceError
    rw [hvar, h]
  · unfold ParticleSpectrum.GetSkewnessError
    rw [h32, hV]
  · unfold ParticleSpectrum.GetKurtosisError
    rw [h42, hV]

/-! ## `SetStabilityFlags` -/

theorem foldl_set_rows_cols {N : ℕ} (cs : List (ℚ × Fin N)) (k : ℕ) (E : Table) :
    (cs.foldl (fun E Contrs => E.set Contrs.2.val k Contrs.1) E).rows = E.rows
      ∧ (cs.foldl (fun E Contrs => E.set Contrs.2.val k Contrs.1) E).cols = E.cols := by
  induction cs generalizing E with
  | nil => exact ⟨rfl, rfl⟩
  | cons c t ih =>
    rw [List.foldl_cons]
    exact ih (E.set c.2.val k c.1)

theorem foldl_set_other_col {N : ℕ} (cs : List (ℚ × Fin N)) (k k1 r : ℕ) (E : Table)
    (h : k1 ≠ k) :
    (cs.foldl (fun E Contrs => E.set Contrs.2.val k Contrs.1) E).coeff r k1 = E.coeff r k1 := by
  induction cs generalizing E with
  | nil => rfl
  | cons c t ih =>
    rw [List.foldl_cons, ih (E.set c.2.val k c.1)]
    show (if r = c.2.val ∧ k1 = k then c.1 else E.coeff r k1) = _
    rw [if_neg (fun hh => h hh.2)]

theorem foldl_set_untouched {N : ℕ} (cs : List (ℚ × Fin N)) (k r : ℕ) (E : Table)
    (h : ∀ c ∈ cs, c.2.val ≠ r) :
    (cs.foldl (fun E Contrs => E.set Contrs.2.val k Contrs.1) E).coeff r k = E.coeff r k := by
  induction cs generalizing E with
  | nil => rfl
  | cons c t ih =>
    rw [List.foldl_cons, ih (E.set c.2.val k c.1)
      (fun c1 hc1 => h c1 (List.mem_cons_of_mem c hc1))]
    show (if r = c.2.val ∧ k = k then c.1 else E.coeff r k) = _
    rw [if_neg (fun hh => h c (List.mem_cons_self c t) hh.1.symm)]

theorem foldl_set_col {N : ℕ} (cs : List (ℚ × Fin N)) (k r : ℕ) (E : Table) :
    (cs.foldl (fun E Contrs => E.set Contrs.2.val k Contrs.1) E).coeff r k = E.coeff r k
      ∨ ∃ c ∈ cs, c.2.val = r
          ∧ (cs.foldl (fun E Contrs => E.set Contrs.2.val k Contrs.1) E).coeff r k = c.1 := by
  induction cs generalizing E with
  | nil => exact Or.inl rfl
  | cons c t ih =>
    rw [List.foldl_cons]
    rcases ih (E.set c.2.val k c.1) with h | ⟨c1, hc1, hr, hv⟩
    · by_cases hc : r = c.2.val
      · right
        refine ⟨c, List.mem_cons_self c t, hc.symm, ?_⟩
        rw [h]
        show (if r = c.2.val ∧ k = k then c.1 else E.coeff r k) = _
        rw [if_pos ⟨hc, rfl⟩]
      · left
        rw [h]
        show (if r = c.2.val ∧ k = k then c.1 else E.coeff r k) = _
        rw [if_neg (fun hh => hc hh.1)]
    · right
      exact ⟨c1, List.mem_cons_of_mem c hc1, hr, hv⟩

/-- The second loop of `SetStabilityFlags` on the species of the list `l`, entered with the
running index `s0`: when the table is wide enough for the stable species of `l`, the loop
returns; it writes column `s0 + k` for the stable species number `k` of `l` and no other
column. -/
theorem stability_loop {N : ℕ} (H : ThermalParticleSystem N) :
    ∀ (l : List (Fin N)) (s0 : ℕ) (E0 : Table) (m0 : List (Fin N)),
      s0 + (l.filter fun i => (H.Particles i).Stable).length ≤ E0.cols →
      ∃ E1 : Table,
        l.foldl (ThermalModelPCE.stabilityStep H) (Outcome.ret (s0, E0, m0))
          = Outcome.ret (s0 + (l.filter fun i => (H.Particles i).Stable).length, E1,
              m0 ++ l.filter fun i => (H.Particles i).Stable)
        ∧ E1.rows = E0.rows ∧ E1.cols = E0.cols
        ∧ (∀ r c, (c < s0 ∨ s0 + (l.filter fun i => (H.Particles i).Stable).length ≤ c) →
            E1.coeff r c = E0.coeff r c)
        ∧ (∀ k i, (l.filter fun i => (H.Particles i).Stable)[k]? = some i →
            ((∀ c ∈ H.DecayContributionsByFeeddown i, c.2 ≠ i) →
              E1.coeff i.val (s0 + k) = 1)
            ∧ (∀ r, r ≠ i.val →
                (E1.coeff r (s0 + k) = E0.coeff r (s0 + k)
                  ∨ ∃ c ∈ H.DecayContributionsByFeeddown i, c.2.val = r
                      ∧ E1.coeff r (s0 + k) = c.1))) := by
  intro l
  induction l with
  | nil =>
    intro s0 E0 m0 _
    refine ⟨E0, by simp, rfl, rfl, fun r c _ => rfl, ?_⟩
    intro k i hk
    simp at hk
  | cons i t ih =>
    intro s0 E0 m0 hwide
    cases hst : (H.Particles i).Stable with
    | false =>
      have hfilter : ((i :: t).filter fun i => (H.Particles i).Stable)
          = t.filter fun i => (H.Particles i).Stable := by
        rw [List.filter_cons_of_neg (by simp [hst])]
      have hstep : ThermalModelPCE.stabilityStep H (Outcome.ret (s0, E0, m0)) i
          = Outcome.ret (s0, E0, m0) := by
        unfold ThermalModelPCE.stabilityStep
        rw [Outcome.bind_ret]
        simp only [hst, Bool.false_eq_true, if_false]
      rw [hfilter] at hwide ⊢
      rw [List.foldl_cons, hstep]
      exact ih s0 E0 m0 hwide
    | true =>
      have hfilter : ((i :: t).filter fun i => (H.Particles i).Stable)
          = i :: t.filter fun i => (H.Particles i).Stable := by
        rw [List.filter_cons_of_pos (by simp [hst])]
      rw [hfilter] at hwide ⊢
      rw [List.length_cons] at hwide ⊢
      have hlt : ¬ s0 ≥ E0.cols := by omega
      have hstep : ThermalModelPCE.stabilityStep H (Outcome.ret (s0, E0, m0)) i
          = Outcome.ret (s0 + 1,
              (H.DecayContributionsByFeeddown i).foldl
                (fun E Contrs => E.set Contrs.2.val s0 Contrs.1) (E0.set i.val s0 1),
              m0 ++ [i]) := by
        unfold ThermalModelPCE.stabilityStep
        rw [Outcome.bind_ret]
        simp only [hst, if_true, hlt, if_false]
      obtain ⟨hrows, hcols⟩ := foldl_set_rows_cols (H.DecayContributionsByFeeddown i) s0
        (E0.set i.val s0 1)
      obtain ⟨E1, hfold, hr1, hc1, hout, hcol⟩ := ih (s0 + 1)
        ((H.DecayContributionsByFeeddown i).foldl
          (fun E Contrs => E.set Contrs.2.val s0 Contrs.1) (E0.set i.val s0 1))
        (m0 ++ [i]) (by rw [hcols]; show _ ≤ E0.cols; omega)
      have hother : ∀ r c, c ≠ s0 →
          ((H.DecayContributionsByFeeddown i).foldl
            (fun E Contrs => E.set Contrs.2.val s0 Contrs.1) (E0.set i.val s0 1)).coeff r c
          = E0.coeff r c := by
        intro r c hc
        rw [foldl_set_other_col _ s0 c r _ hc]
        show (if r = i.val ∧ c = s0 then 1 else E0.coeff r c) = _
        rw [if_neg (fun hh => hc hh.2)]
      refine ⟨E1, ?_, by rw [hr1, hrows]; rfl, by rw [hc1, hcols]; rfl, ?_, ?_⟩
      · rw [List.foldl_cons, hstep, hfold]
        have h1 : s0 + 1 + (t.filter fun i => (H.Particles i).Stable).length
            = s0 + ((t.filter fun i => (H.Particles i).Stable).length + 1) := by omega
        rw [h1, List.append_assoc, List.singleton_append]
      · intro r c hc
        rw [hout r c (by omega), hother r c (by omega)]
      · intro k j hk
        cases k with
        | zero =>
          have hj : i = j := by simpa using hk
          subst hj
          have hE : ∀ r, E1.coeff r (s0 + 0)
              = ((H.DecayContributionsByFeeddown i).foldl
                  (fun E Contrs => E.set Contrs.2.val s0 Contrs.1) (E0.set i.val s0 1)).coeff
                  r s0 := fun r => hout r s0 (Or.inl (by omega))
          refine ⟨fun hself => ?_, fun r hr => ?_⟩
          · rw [hE, foldl_set_untouched _ s0 i.val _
              (fun c hc hh => hself c hc (Fin.ext hh))]
            show (if i.val = i.val ∧ s0 = s0 then (1 : ℚ) else E0.coeff i.val s0) = 1
            rw [if_pos ⟨rfl, rfl⟩]
          · rw [hE]
            rcases foldl_set_col (H.DecayContributionsByFeeddown i) s0 r (E0.set i.val s0 1)
              with h | h
            · left
              rw [h]
              show (if r = i.val ∧ s0 = s0 then (1 : ℚ) else E0.coeff r s0) = _
              rw [if_neg (fun hh => hr hh.1)]
              rfl
            · right
              exact h
        | succ k =>
          have hk1 : (t.filter fun i => (H.Particles i).Stable)[k]? = some j := by
            simpa using hk
          obtain ⟨hone, hrest⟩ := hcol k j hk1
          have hidx : s0 + 1 + k = s0 + (k + 1) := by omega
          rw [hidx] at hone hrest
          refine ⟨hone, fun r hr => ?_⟩
          rcases hrest r hr with h | h
          · left
            rw [h, hother r _ (by omega)]
          · right
            exact h

theorem foldl_count {α : Type} (p : α → Bool) (l : List α) (c0 : ℕ) :
    l.foldl (fun count i => if p i = true then count + 1 else count) c0
      = c0 + (l.filter p).length := by
  induction l generalizing c0 with
  | nil => simp
  | cons a t ih =>
    rw [List.foldl_cons, ih]
    cases hp : p a with
    | false => simp [hp]
    | true => simp [hp]; omega

theorem countStable_eq {N : ℕ} (flags : List Int) :
    ThermalModelPCE.countStable (N := N) flags
      = ((List.finRange N).filter fun i => decide (flags.getD i.val 0 ≠ 0)).length := by
  have h := foldl_count (fun i : Fin N => decide (flags.getD i.val 0 ≠ 0)) (List.finRange N) 0
  rw [Nat.zero_add] at h
  rw [← h]
  unfold ThermalModelPCE.countStable
  congr 1
  funext count i
  by_cases hf : flags.getD i.val 0 ≠ 0
  · simp [hf]
  · simp [hf]

/-- `SetStabilityFlags` with at least one flag per species returns; the table has one row
per flag and one column per stable species, `m_StableMapTo` lists the species with nonzero
flag in increasing order, and column `k` holds what the stable species number `k` wrote. -/
theorem SetStabilityFlags_spec {N : ℕ} (self : ThermalModelPCE N) (flags : List Int)
    (hlen : N ≤ flags.length) :
    ∃ E1 : Table,
      self.SetStabilityFlags flags
        = Outcome.ret
            { self with
              m_StabilityFlags := flags
              m_StableComponentsNumber :=
                ((List.finRange N).filter fun i => decide (flags.getD i.val 0 ≠ 0)).length
              m_StableMapTo := (List.finRange N).filter fun i => decide (flags.getD i.val 0 ≠ 0)
              m_EffectiveCharges := E1
              m_ChemicalFreezeoutSet := false
              m_IsCalculated := false }
      ∧ E1.rows = flags.length
      ∧ E1.cols = ((List.finRange N).filter fun i => decide (flags.getD i.val 0 ≠ 0)).length
      ∧ (∀ r c,
          ((List.finRange N).filter fun i => decide (flags.getD i.val 0 ≠ 0)).length ≤ c →
          E1.coeff r c = 0)
      ∧ (∀ k i,
          ((List.finRange N).filter fun i => decide (flags.getD i.val 0 ≠ 0))[k]? = some i →
          ((∀ c ∈ (self.helperList flags).DecayContributionsByFeeddown i, c.2 ≠ i) →
            E1.coeff i.val k = 1)
          ∧ (∀ r, r ≠ i.val → E1.coeff r k ≠ 0 →
              ∃ c ∈ (self.helperList flags).DecayContributionsByFeeddown i, c.2.val = r
                ∧ E1.coeff r k = c.1)) := by
  obtain ⟨E1, hfold, hrows, hcols, hout, hcol⟩ := stability_loop (self.helperList flags)
    (List.finRange N) 0
    (Table.zero flags.length
      ((List.finRange N).filter fun i => decide (flags.getD i.val 0 ≠ 0)).length) []
    (by
      show 0 + ((List.finRange N).filter fun i => decide (flags.getD i.val 0 ≠ 0)).length ≤
        ((List.finRange N).filter fun i => decide (flags.getD i.val 0 ≠ 0)).length
      omega)
  have hfold2 : (List.finRange N).foldl (ThermalModelPCE.stabilityStep (self.helperList flags))
      (Outcome.ret (0, Table.zero flags.length
        ((List.finRange N).filter fun i => decide (flags.getD i.val 0 ≠ 0)).length, []))
      = Outcome.ret (((List.finRange N).filter fun i => decide (flags.getD i.val 0 ≠ 0)).length,
          E1, (List.finRange N).filter fun i => decide (flags.getD i.val 0 ≠ 0)) := by
    rw [hfold]
    simp only [Nat.zero_add, List.nil_append]
    rfl
  refine ⟨E1, ?_, hrows, hcols, ?_, ?_⟩
  · unfold ThermalModelPCE.SetStabilityFlags
    rw [if_neg (by omega), countStable_eq, hfold2, Outcome.bind_ret]
  · intro r c hc
    rw [hout r c (Or.inr (by
      show 0 + ((List.finRange N).filter fun i => decide (flags.getD i.val 0 ≠ 0)).length ≤ c
      omega))]
    rfl
  · intro k i hk
    obtain ⟨hone, hrest⟩ := hcol k i hk
    rw [Nat.zero_add] at hone hrest
    refine ⟨hone, fun r hr hne => ?_⟩
    rcases hrest r hr with h | h
    · exact absurd h hne
    · exact h

theorem toVector_ofVector {N : ℕ} (x : List ℚ) (hx : x.length = N) :
    toVector (ofVector N x) = x := by
  apply List.ext_getElem
  · rw [length_toVector, hx]
  · intro i h1 h2
    have hi : i < N := by rw [length_toVector] at h1; exact h1
    have h3 := getD_toVector (ofVector N x) ⟨i, hi⟩
    rw [List.getD_eq_getElem _ _ h1] at h3
    rw [h3]
    show x.getD i 0 = x[i]
    rw [List.getD_eq_getElem _ _ h2]

theorem getD_map_range (n : ℕ) (f : ℕ → ℚ) (k : ℕ) (hk : k < n) :
    ((List.range n).map f).getD k 0 = f k := by
  rw [List.getD_eq_getElem _ _ (by simp [hk])]
  simp

/-- The loop of `CalculatePCE` that fills `PCEParams`, on the species of the list `l`,
entered with the running index `s0`: when the table has a row per species and is wide
enough, and `PCEParams` is long enough, the loop returns; it writes entry `s0 + k` for the
species number `k` of `l` with nonzero flag and no other entry. -/
theorem seed_loop {N : ℕ} (P : ThermalModelPCE N) (T : ℚ)
    (hrows : P.m_EffectiveCharges.rows = N) :
    ∀ (l : List (Fin N)) (s0 : ℕ) (L0 : List ℚ),
      s0 + (l.filter fun i => decide (P.m_StabilityFlags.getD i.val 0 ≠ 0)).length
        ≤ P.m_EffectiveCharges.cols →
      s0 + (l.filter fun i => decide (P.m_StabilityFlags.getD i.val 0 ≠ 0)).length
        ≤ L0.length →
      ∃ L1 : List ℚ,
        l.foldl (fun acc i => P.seedStep T acc i.val) (Outcome.ret (s0, L0))
          = Outcome.ret
              (s0 + (l.filter fun i => decide (P.m_StabilityFlags.getD i.val 0 ≠ 0)).length, L1)
        ∧ L1.length = L0.length
        ∧ (∀ k i, (l.filter fun i => decide (P.m_StabilityFlags.getD i.val 0 ≠ 0))[k]? = some i →
            L1[s0 + k]? = some (P.m_ChemCurrent i * T / P.m_ParametersCurrent.T
              + (P.m_model.TPS.Particles i).Mass * (1 - T / P.m_ParametersCurrent.T)))
        ∧ (∀ c, c < s0 → L1[c]? = L0[c]?) := by
  intro l
  induction l with
  | nil =>
    intro s0 L0 _ _
    refine ⟨L0, by simp, rfl, ?_, fun c _ => rfl⟩
    intro k i hk
    simp at hk
  | cons i t ih =>
    intro s0 L0 hwide hlong
    by_cases hf : P.m_StabilityFlags.getD i.val 0 ≠ 0
    · have hfilter : ((i :: t).filter fun i => decide (P.m_StabilityFlags.getD i.val 0 ≠ 0))
          = i :: t.filter fun i => decide (P.m_StabilityFlags.getD i.val 0 ≠ 0) := by
        rw [List.filter_cons_of_pos (by simpa using hf)]
      rw [hfilter] at hwide hlong ⊢
      rw [List.length_cons] at hwide hlong ⊢
      have hN : ¬ P.m_EffectiveCharges.rows = 0 := by
        rw [hrows]
        exact Nat.pos_iff_ne_zero.mp i.pos
      have hlt : ¬ s0 ≥ P.m_EffectiveCharges.cols := by omega
      have hin : i.val < N ∧ s0 < L0.length := ⟨i.isLt, by omega⟩
      have hstep : P.seedStep T (Outcome.ret (s0, L0)) i.val
          = Outcome.ret (s0 + 1,
              L0.set s0 (P.m_ChemCurrent i * T / P.m_ParametersCurrent.T
                + (P.m_model.TPS.Particles i).Mass * (1 - T / P.m_ParametersCurrent.T))) := by
        unfold ThermalModelPCE.seedStep
        rw [Outcome.bind_ret]
        simp only [hf, ne_eq, not_false_eq_true, if_true, hN, if_false, hlt, hin, and_self,
          dif_pos, Fin.eta]
      obtain ⟨L1, hfold, hl1, hcol, hlow⟩ := ih (s0 + 1)
        (L0.set s0 (P.m_ChemCurrent i * T / P.m_ParametersCurrent.T
          + (P.m_model.TPS.Particles i).Mass * (1 - T / P.m_ParametersCurrent.T)))
        (by omega) (by rw [List.length_set]; omega)
      refine ⟨L1, ?_, by rw [hl1, List.length_set], ?_, ?_⟩
      · rw [List.foldl_cons, hstep, hfold]
        have h1 : s0 + 1
            + (t.filter fun i => decide (P.m_StabilityFlags.getD i.val 0 ≠ 0)).length
            = s0 + ((t.filter fun i => decide (P.m_StabilityFlags.getD i.val 0 ≠ 0)).length
                + 1) := by omega
        rw [h1]
      · intro k j hk
        cases k with
        | zero =>
          have hj : i = j := by simpa using hk
          subst hj
          rw [Nat.add_zero, hlow s0 (by omega), List.getElem?_set_self (by omega)]
        | succ k =>
          have hk1 : (t.filter fun i => decide (P.m_StabilityFlags.getD i.val 0 ≠ 0))[k]?
              = some j := by simpa using hk
          have := hcol k j hk1
          have hidx : s0 + 1 + k = s0 + (k + 1) := by omega
          rw [hidx] at this
          exact this
      · intro c hc
        rw [hlow c (by omega), List.getElem?_set_ne (by omega)]
    · have hfilter : ((i :: t).filter fun i => decide (P.m_StabilityFlags.getD i.val 0 ≠ 0))
          = t.filter fun i => decide (P.m_StabilityFlags.getD i.val 0 ≠ 0) := by
        rw [List.filter_cons_of_neg (by simpa using hf)]
      have hstep : P.seedStep T (Outcome.ret (s0, L0)) i.val = Outcome.ret (s0, L0) := by
        unfold ThermalModelPCE.seedStep
        rw [Outcome.bind_ret]
        simp only [hf, if_false]
      rw [hfilter] at hwide hlong ⊢
      rw [List.foldl_cons, hstep]
      exact ih s0 L0 hwide hlong

/-- For a controller whose table has a row per species and a column per stable species,
the number of stable species being the number of nonzero flags, the loop of `CalculatePCE`
that fills `PCEParams` returns with `stab_index` at that number and with the seeds of the
stable species in their order. -/
theorem seed_spec {N : ℕ} (P : ThermalModelPCE N) (T : ℚ)
    (hflags : P.m_StabilityFlags.length = N)
    (hrows : P.m_EffectiveCharges.rows = N)
    (hcols : P.m_EffectiveCharges.cols = P.m_StableComponentsNumber)
    (hS : P.m_StableComponentsNumber
      = ((List.finRange N).filter fun i =>
          decide (P.m_StabilityFlags.getD i.val 0 ≠ 0)).length) :
    P.seed T
      = Outcome.ret (P.m_StableComponentsNumber,
          ((List.finRange N).filter fun i =>
              decide (P.m_StabilityFlags.getD i.val 0 ≠ 0)).map fun i =>
            P.m_ChemCurrent i * T / P.m_ParametersCurrent.T
              + (P.m_model.TPS.Particles i).Mass * (1 - T / P.m_ParametersCurrent.T)) := by
  obtain ⟨L1, hfold, hl1, hcol, -⟩ := seed_loop P T hrows (List.finRange N) 0
    (List.replicate P.m_StableComponentsNumber 0)
    (by rw [hcols, hS]; omega) (by rw [List.length_replicate, hS]; omega)
  have hL1 : L1 = ((List.finRange N).filter fun i =>
      decide (P.m_StabilityFlags.getD i.val 0 ≠ 0)).map fun i =>
        P.m_ChemCurrent i * T / P.m_ParametersCurrent.T
          + (P.m_model.TPS.Particles i).Mass * (1 - T / P.m_ParametersCurrent.T) := by
    apply List.ext_getElem?
    intro k
    rw [List.getElem?_map]
    cases hk : ((List.finRange N).filter fun i =>
        decide (P.m_StabilityFlags.getD i.val 0 ≠ 0))[k]? with
    | none =>
      have hlen := List.getElem?_eq_none_iff.mp hk
      rw [List.getElem?_eq_none_iff.mpr (by
        rw [hl1, List.length_replicate, hS]; exact hlen)]
      rfl
    | some i =>
      have := hcol k i hk
      rw [Nat.zero_add] at this
      rw [this]
      rfl
  unfold ThermalModelPCE.seed
  rw [hflags, ← List.map_coe_finRange, List.foldl_map, hfold, Nat.zero_add, ← hS, hL1]

/-- For a controller whose table has a row per species and a column per stable species,
`CalculatePCE(T)` returns: the solver is started at the seeds of the stable species followed
by the volume guess; it returns a vector `x` of length `S + 1`, and the call leaves the
state of the last evaluation of the equations, with the current chemical potentials of the
model, the last component of `x` as volume and the calculated flag set. -/
theorem CalculatePCE_spec {N : ℕ} (P : ThermalModelPCE N) (T : ℚ)
    (hflags : P.m_StabilityFlags.length = N)
    (hrows : P.m_EffectiveCharges.rows = N)
    (hcols : P.m_EffectiveCharges.cols = P.m_StableComponentsNumber)
    (hS : P.m_StableComponentsNumber
      = ((List.finRange N).filter fun i =>
          decide (P.m_StabilityFlags.getD i.val 0 ≠ 0)).length)
    (start : ThermalModelPCE N)
    (hstart : start = { P with
      m_ParametersCurrent :=
        { P.m_ParametersCurrent with
          V := P.m_ParametersCurrent.V * (P.m_ParametersCurrent.T / T) ^ 3
          T := T } })
    (x0 : List ℚ)
    (hx0 : x0 = (((List.finRange N).filter fun i =>
        decide (P.m_StabilityFlags.getD i.val 0 ≠ 0)).map fun i =>
          P.m_ChemCurrent i * T / P.m_ParametersCurrent.T
            + (P.m_model.TPS.Particles i).Mass * (1 - T / P.m_ParametersCurrent.T))
        ++ [P.m_ParametersCurrent.V * (P.m_ParametersCurrent.T / T) ^ 3]) :
    ∃ (Jac : MatrixXd) (x : List ℚ × Broyden),
      BroydenJacobian.Jacobian
          { m_Equations := some start.BroydenEquationsPCE, m_dx := BroydenJacobian.EPS } x0
        = Outcome.ret Jac ∧
      Jac.size = P.m_StableComponentsNumber + 1 ∧
      x0.length = P.m_StableComponentsNumber + 1 ∧
      (Broyden.new (some start.BroydenEquationsPCE) none).Solve x0 none Broyden.MAX_ITERS
        = Outcome.ret x ∧
      x.1.length = P.m_StableComponentsNumber + 1 ∧
      (Jac.determinant = 0 → x.1 = x0) ∧
      P.CalculatePCE T
        = Outcome.ret
            { start.afterEquations
                (ThermalModelPCE.lastEquationsArgument start.BroydenEquationsPCE x0 x.1) with
              m_ChemCurrent :=
                (start.afterEquations
                  (ThermalModelPCE.lastEquationsArgument start.BroydenEquationsPCE x0
                    x.1)).m_model.ChemicalPotentials
              m_ParametersCurrent :=
                { (start.afterEquations
                    (ThermalModelPCE.lastEquationsArgument start.BroydenEquationsPCE x0
                      x.1)).m_ParametersCurrent with
                  V := x.1.getD (x.1.length - 1) 0 }
              m_IsCalculated := true } := by
  have hx0len : x0.length = start.BroydenEquationsPCE.m_N := by
    rw [hx0, hstart]
    show _ = P.m_StableComponentsNumber + 1
    rw [List.length_append, List.length_map, ← hS]
    rfl
  obtain ⟨Jac, hJ, hsize⟩ := Jacobian_base_returns start.BroydenEquationsPCE
    BroydenJacobian.EPS x0 hx0len
  obtain ⟨x, hsolve, hxlen, hsing⟩ := Solve_returns
    (Broyden.new (some start.BroydenEquationsPCE) none) start.BroydenEquationsPCE x0 none
    Broyden.MAX_ITERS Jac rfl hJ hsize hx0len rfl (by decide)
  have hN : start.BroydenEquationsPCE.m_N = P.m_StableComponentsNumber + 1 := by
    rw [hstart]; rfl
  refine ⟨Jac, x, hJ, hsize.trans hN, hx0len.trans hN, hsolve, hxlen.trans hN, hsing, ?_⟩
  have hseed := seed_spec
    { P with
      m_ParametersCurrent :=
        { P.m_ParametersCurrent with
          V := P.m_ParametersCurrent.V * (P.m_ParametersCurrent.T / T) ^ 3 } }
    T hflags hrows hcols hS
  unfold ThermalModelPCE.CalculatePCE
  dsimp only
  rewrite [hseed, Outcome.bind_ret]
  dsimp only
  rw [hstart, hx0] at hsolve
  rewrite [hsolve, Outcome.bind_ret]
  rw [hstart, hx0]

/-- C21, the order is not enforced: `SetStabilityFlags` clears both flags and
`SetChemicalFreezeout` sets the freeze-out flag and clears the calculated flag, but
`CalculatePCE` sets the calculated flag without looking at the freeze-out flag.  The calls
`SetChemicalFreezeout`, `SetStabilityFlags`, `CalculatePCE` in this order reach a state in
which `m_IsCalculated` is true and `m_ChemicalFreezeoutSet` is false. -/
theorem C21_calculated_without_freezeout :
    (∀ (P R : ThermalModelPCE 2) (flags : List Int),
      P.SetStabilityFlags flags = Outcome.ret R →
      R.m_ChemicalFreezeoutSet = false ∧ R.m_IsCalculated = false) ∧
    (∀ (P : ThermalModelPCE 2) (params : ThermalModelParameters) (ChemInit : Fin 2 → ℚ),
      (P.SetChemicalFreezeout params ChemInit).m_ChemicalFreezeoutSet = true
        ∧ (P.SetChemicalFreezeout params ChemInit).m_IsCalculated = false) ∧
    ∃ P2 P3 : ThermalModelPCE 2,
      (examplePCE.SetChemicalFreezeout exampleParameters (fun _ => 0)).SetStabilityFlags [1, 0]
        = Outcome.ret P2 ∧
      P2.CalculatePCE (1 / 10) = Outcome.ret P3 ∧
      P3.m_IsCalculated = true ∧
      P3.m_ChemicalFreezeoutSet = false := by
  refine ⟨?_, fun P params ChemInit => ⟨rfl, rfl⟩, ?_⟩
  · intro P R flags h
    unfold ThermalModelPCE.SetStabilityFlags at h
    by_cases hlen : flags.length < 2
    · rw [if_pos hlen] at h
      cases h
    · rw [if_neg hlen] at h
      revert h
      cases (List.finRange 2).foldl (ThermalModelPCE.stabilityStep (P.helperList flags))
          (Outcome.ret (0, Table.zero flags.length
            (ThermalModelPCE.countStable (N := 2) flags), [])) with
      | exit => intro h; cases h
      | undefined => intro h; cases h
      | ret st =>
        intro h
        rw [Outcome.bind_ret] at h
        simp only [Outcome.ret.injEq] at h
        rw [← h]
        exact ⟨rfl, rfl⟩
  · obtain ⟨E1, hret, hrows, hcols, -, -⟩ := SetStabilityFlags_spec
      (examplePCE.SetChemicalFreezeout exampleParameters (fun _ => 0)) [1, 0] (by decide)
    obtain ⟨Jac, x, -, -, -, -, -, -, hcalc⟩ := CalculatePCE_spec
      { examplePCE.SetChemicalFreezeout exampleParameters (fun _ => 0) with
        m_StabilityFlags := [1, 0]
        m_StableComponentsNumber :=
          ((List.finRange 2).filter fun i =>
            decide (([1, 0] : List Int).getD i.val 0 ≠ 0)).length
        m_StableMapTo := (List.finRange 2).filter fun i =>
          decide (([1, 0] : List Int).getD i.val 0 ≠ 0)
        m_EffectiveCharges := E1
        m_ChemicalFreezeoutSet := false
        m_IsCalculated := false }
      (1 / 10) rfl hrows hcols rfl _ rfl _ rfl
    exact ⟨_, _, hret, hcalc, rfl, rfl⟩

/-! ## `BroydenEquationsPCE::Equations` -/

/-- C28: for every `x` of length `S + 1`, a table with a row per species and `S` columns,
a reference vector `StableDensitiesInit` with an entry for each of the `S` stable
components, and nonzero divisors `StableDensitiesInit[k]·V_init` and `s_init·V_init`,
`BroydenEquationsPCE::Equations(x)` returns `S + 1` residuals: for each stable component
`k < S`, `(Σ_i EffectiveCharges[i][k]·n_i)·V / (StableDensitiesInit[k]·V_init) − 1`, and as
last residual `s·V / (s_init·V_init) − 1`, where `V` is the last component of `x` and `n_i`
and `s` are the densities and the entropy density that the model computes at the chemical
potentials `μ_i = Σ_k EffectiveCharges[i][k]·x_k` and the current parameters with volume
`V`; a residual is zero exactly when the quantity times the volume equals its reference
value times the reference volume. -/
theorem C28_EquationsPCE {N : ℕ} (P : ThermalModelPCE N) (x : List ℚ)
    (hx : x.length = P.m_StableComponentsNumber + 1)
    (hrows : P.m_EffectiveCharges.rows = N)
    (hcols : P.m_EffectiveCharges.cols = P.m_StableComponentsNumber)
    (href : P.m_StableComponentsNumber ≤ P.m_StableDensitiesInit.length)
    (hdens : ∀ k, k < P.m_StableComponentsNumber →
      P.m_StableDensitiesInit.getD k 0 * P.m_ParametersInit.V ≠ 0)
    (hentropy : P.m_EntropyDensityInit * P.m_ParametersInit.V ≠ 0) :
    (P.EquationsPCE x).length = P.m_StableComponentsNumber + 1 ∧
    P.BroydenEquationsPCE.m_N = P.m_StableComponentsNumber + 1 ∧
    P.BroydenEquationsPCE.Equations (ofVector (P.m_StableComponentsNumber + 1) x)
      = ofVector (P.m_StableComponentsNumber + 1) (P.EquationsPCE x) ∧
    (∀ k (hk : k < P.m_StableComponentsNumber),
      (P.EquationsPCE x).getD k 0
        = ((∑ i : Fin N, P.m_EffectiveCharges.coeff i.val k
              * (P.m_model.calculate
                  { P.m_ParametersCurrent with V := x.getD P.m_StableComponentsNumber 0 }
                  (fun i => ∑ k in Finset.range P.m_StableComponentsNumber,
                    P.m_EffectiveCharges.coeff i.val k * x.getD k 0)).Densities i)
            * x.getD P.m_StableComponentsNumber 0)
          / (P.m_StableDensitiesInit.get ⟨k, lt_of_lt_of_le hk href⟩ * P.m_ParametersInit.V)
            - 1) ∧
    (P.EquationsPCE x).getD P.m_StableComponentsNumber 0
      = ((P.m_model.calculate
            { P.m_ParametersCurrent with V := x.getD P.m_StableComponentsNumber 0 }
            (fun i => ∑ k in Finset.range P.m_StableComponentsNumber,
              P.m_EffectiveCharges.coeff i.val k * x.getD k 0)).EntropyDensity
          * x.getD P.m_StableComponentsNumber 0)
        / (P.m_EntropyDensityInit * P.m_ParametersInit.V) - 1 ∧
    (∀ k (hk : k < P.m_StableComponentsNumber),
      (P.EquationsPCE x).getD k 0 = 0 ↔
        (∑ i : Fin N, P.m_EffectiveCharges.coeff i.val k
            * (P.m_model.calculate
                { P.m_ParametersCurrent with V := x.getD P.m_StableComponentsNumber 0 }
                (fun i => ∑ k in Finset.range P.m_StableComponentsNumber,
                  P.m_EffectiveCharges.coeff i.val k * x.getD k 0)).Densities i)
          * x.getD P.m_StableComponentsNumber 0
          = P.m_StableDensitiesInit.get ⟨k, lt_of_lt_of_le hk href⟩ * P.m_ParametersInit.V) ∧
    ((P.EquationsPCE x).getD P.m_StableComponentsNumber 0 = 0 ↔
      (P.m_model.calculate
          { P.m_ParametersCurrent with V := x.getD P.m_StableComponentsNumber 0 }
          (fun i => ∑ k in Finset.range P.m_StableComponentsNumber,
            P.m_EffectiveCharges.coeff i.val k * x.getD k 0)).EntropyDensity
        * x.getD P.m_StableComponentsNumber 0
        = P.m_EntropyDensityInit * P.m_ParametersInit.V) := by
  have hlast : x.length - 1 = P.m_StableComponentsNumber := by omega
  have hchem : P.Chem x = fun i => ∑ k in Finset.range P.m_StableComponentsNumber,
      P.m_EffectiveCharges.coeff i.val k * x.getD k 0 := by
    funext i
    unfold ThermalModelPCE.Chem
    rw [if_pos (by rw [hrows]; exact i.isLt), hcols]
  have hmodel : (P.afterEquations x).m_model.m_Results
      = P.m_model.calculate
          { P.m_ParametersCurrent with V := x.getD P.m_StableComponentsNumber 0 }
          (fun i => ∑ k in Finset.range P.m_StableComponentsNumber,
            P.m_EffectiveCharges.coeff i.val k * x.getD k 0) := by
    show P.m_model.calculate { P.m_ParametersCurrent with V := x.getD (x.length - 1) 0 }
      (P.Chem x) = _
    rw [hchem, hlast]
  have hget : ∀ k (hk : k < P.m_StableComponentsNumber),
      P.m_StableDensitiesInit.getD k 0
        = P.m_StableDensitiesInit.get ⟨k, lt_of_lt_of_le hk href⟩ := by
    intro k hk
    rw [List.getD_eq_getElem _ _ (lt_of_lt_of_le hk href)]
    rfl
  have hdensity : ∀ k (hk : k < P.m_StableComponentsNumber),
      (P.EquationsPCE x).getD k 0
        = ((∑ i : Fin N, P.m_EffectiveCharges.coeff i.val k
              * (P.m_model.calculate
                  { P.m_ParametersCurrent with V := x.getD P.m_StableComponentsNumber 0 }
                  (fun i => ∑ k in Finset.range P.m_StableComponentsNumber,
                    P.m_EffectiveCharges.coeff i.val k * x.getD k 0)).Densities i)
            * x.getD P.m_StableComponentsNumber 0)
          / (P.m_StableDensitiesInit.get ⟨k, lt_of_lt_of_le hk href⟩ * P.m_ParametersInit.V)
            - 1 := by
    intro k hk
    rw [← hget k hk]
    unfold ThermalModelPCE.EquationsPCE
    rw [getD_map_range _ _ k (by omega), if_neg (by omega), if_pos hk, hlast]
    unfold ThermalModelPCE.totdens ThermalModelBase.Densities
    rw [hmodel]
    congr 3
    refine Finset.sum_congr rfl fun i _ => ?_
    rw [if_pos (by rw [hrows]; exact i.isLt)]
  have hlastres : (P.EquationsPCE x).getD P.m_StableComponentsNumber 0
      = ((P.m_model.calculate
            { P.m_ParametersCurrent with V := x.getD P.m_StableComponentsNumber 0 }
            (fun i => ∑ k in Finset.range P.m_StableComponentsNumber,
              P.m_EffectiveCharges.coeff i.val k * x.getD k 0)).EntropyDensity
          * x.getD P.m_StableComponentsNumber 0)
        / (P.m_EntropyDensityInit * P.m_ParametersInit.V) - 1 := by
    unfold ThermalModelPCE.EquationsPCE
    rw [getD_map_range _ _ _ (by omega), if_pos hlast.symm, hlast]
    unfold ThermalModelBase.CalculateEntropyDensity
    rw [hmodel]
  refine ⟨by unfold ThermalModelPCE.EquationsPCE; simp [hx], rfl, ?_, hdensity, hlastres, ?_, ?_⟩
  · show ofVector (P.m_StableComponentsNumber + 1)
      (P.EquationsPCE (toVector (ofVector (P.m_StableComponentsNumber + 1) x))) = _
    rw [toVector_ofVector x hx]
  · intro k hk
    have hd := hdens k hk
    rw [hget k hk] at hd
    rw [hdensity k hk, sub_eq_zero, div_eq_one_iff_eq hd]
  · rw [hlastres, sub_eq_zero, div_eq_one_iff_eq hentropy]

theorem C28_EquationsPCE_witness :
    exampleFrozen.m_StableDensitiesInit = [3 / 2]
    ∧ exampleFrozen.m_EntropyDensityInit = 3
    ∧ exampleFrozen.m_ParametersInit.V = 1
    ∧ (exampleFrozen.EquationsPCE [1, 2]).length = 2
    ∧ (exampleFrozen.EquationsPCE [1, 2]).getD 0 0 = 8 / 3
    ∧ (exampleFrozen.EquationsPCE [1, 2]).getD 1 0 = 1 := by
  have hS : exampleFrozen.m_StableComponentsNumber = 1 := rfl
  have hSDI : exampleFrozen.m_StableDensitiesInit = [3 / 2] := by
    simp [exampleFrozen, ThermalModelPCE.SetChemicalFreezeout, ThermalModelPCE.totdens,
      ThermalModelBase.Densities, ThermalModelBase.CalculateDensities,
      ThermalModelBase.SetParameters, ThermalModelBase.SetChemicalPotentials,
      examplePCE, exampleModel, exampleParameters, Fin.sum_univ_two, List.range_succ]
    norm_num
  have hs : exampleFrozen.m_EntropyDensityInit = 3 := rfl
  have hV : exampleFrozen.m_ParametersInit.V = 1 := rfl
  obtain ⟨hlen, -, -, hdensity, hlast, -, -⟩ :=
    C28_EquationsPCE exampleFrozen [1, 2] rfl rfl rfl
      (by rw [hSDI]; exact le_refl 1)
      (fun k hk => by
        have hk0 : k = 0 := by rw [hS] at hk; omega
        rw [hk0, hSDI, hV]
        norm_num)
      (by rw [hs, hV]; norm_num)
  refine ⟨hSDI, hs, hV, hlen, ?_, ?_⟩
  · rw [hdensity 0 (by decide)]
    simp [exampleFrozen, ThermalModelPCE.SetChemicalFreezeout, ThermalModelPCE.totdens,
      ThermalModelBase.Densities, ThermalModelBase.CalculateDensities,
      ThermalModelBase.SetParameters, ThermalModelBase.SetChemicalPotentials,
      examplePCE, exampleModel, exampleParameters, Fin.sum_univ_two, Finset.sum_range_one]
    norm_num
  · refine hlast.trans ?_
    simp [exampleFrozen, ThermalModelPCE.SetChemicalFreezeout,
      ThermalModelBase.EntropyDensity, ThermalModelBase.CalculateDensities,
      ThermalModelBase.SetParameters, ThermalModelBase.SetChemicalPotentials,
      examplePCE, exampleModel, exampleParameters]
    norm_num

/-! ## The state that `CalculatePCE` leaves -/

theorem lastEquationsArgument_eq (eqs : BroydenEquations) (x0 returned : List ℚ)
    (Jac : MatrixXd)
    (hJ : BroydenJacobian.Jacobian
      { m_Equations := some eqs, m_dx := BroydenJacobian.EPS } x0 = Outcome.ret Jac) :
    (Jac.determinant ≠ 0 →
      ThermalModelPCE.lastEquationsArgument eqs x0 returned = returned) ∧
    (Jac.determinant = 0 → ∀ h : 0 < eqs.m_N,
      ThermalModelPCE.lastEquationsArgument eqs x0 returned
        = toVector (BroydenJacobian.xh BroydenJacobian.EPS (ofVector eqs.m_N x0)
            ⟨eqs.m_N - 1, Nat.sub_lt h Nat.one_pos⟩)) := by
  constructor
  · intro hdet
    unfold ThermalModelPCE.lastEquationsArgument
    rw [hJ]
    simp only [Outcome.getD, hdet, if_false]
  · intro hdet h
    unfold ThermalModelPCE.lastEquationsArgument
    rw [hJ]
    simp only [Outcome.getD, hdet, if_true, h, dif_pos]

theorem Chem_eq {N : ℕ} (P : ThermalModelPCE N) (x : List ℚ)
    (hrows : P.m_EffectiveCharges.rows = N)
    (hcols : P.m_EffectiveCharges.cols = P.m_StableComponentsNumber) :
    P.Chem x = fun i => ∑ k in Finset.range P.m_StableComponentsNumber,
      P.m_EffectiveCharges.coeff i.val k * x.getD k 0 := by
  funext i
  unfold ThermalModelPCE.Chem
  rw [if_pos (by rw [hrows]; exact i.isLt), hcols]

/-- The last perturbed point of the finite-difference Jacobian, as a vector: the start
vector with the step added to its last component. -/
theorem getD_xh_last (S : ℕ) (x0 : List ℚ) (k : ℕ) :
    (toVector (BroydenJacobian.xh BroydenJacobian.EPS (ofVector (S + 1) x0)
        (Fin.last S))).getD k 0
      = if k < S then x0.getD k 0
        else if k = S then
          x0.getD S 0 + BroydenJacobian.h BroydenJacobian.EPS (ofVector (S + 1) x0) (Fin.last S)
        else 0 := by
  rw [getD_toVector_nat]
  by_cases hk : k < S
  · rw [dif_pos (by omega), if_pos hk]
    unfold BroydenJacobian.xh
    rw [if_pos (by
      intro hh
      have := congrArg Fin.val hh
      simp at this
      omega)]
    rfl
  · rw [if_neg hk]
    by_cases hk2 : k = S
    · subst hk2
      rw [dif_pos (by omega), if_pos rfl]
      unfold BroydenJacobian.xh
      rw [if_neg (by
        intro hh
        exact hh (Fin.ext rfl))]
      rfl
    · rw [dif_neg (by omega), if_neg hk2]

/-- The state after `CalculatePCE(T)` for a controller whose table has a row per species and
a column per stable species: the stored volume and chemical potentials are those of the
returned vector; the model is left evaluated at the returned vector when the Jacobian at
the start is non-singular, and at the start with the finite-difference step added to the
volume when it is singular. -/
theorem CalculatePCE_state {N : ℕ} (P : ThermalModelPCE N) (T : ℚ)
    (hflags : P.m_StabilityFlags.length = N)
    (hrows : P.m_EffectiveCharges.rows = N)
    (hcols : P.m_EffectiveCharges.cols = P.m_StableComponentsNumber)
    (hS : P.m_StableComponentsNumber
      = ((List.finRange N).filter fun i =>
          decide (P.m_StabilityFlags.getD i.val 0 ≠ 0)).length)
    (start : ThermalModelPCE N)
    (hstart : start = { P with
      m_ParametersCurrent :=
        { P.m_ParametersCurrent with
          V := P.m_ParametersCurrent.V * (P.m_ParametersCurrent.T / T) ^ 3
          T := T } })
    (x0 : List ℚ)
    (hx0 : x0 = (((List.finRange N).filter fun i =>
        decide (P.m_StabilityFlags.getD i.val 0 ≠ 0)).map fun i =>
          P.m_ChemCurrent i * T / P.m_ParametersCurrent.T
            + (P.m_model.TPS.Particles i).Mass * (1 - T / P.m_ParametersCurrent.T))
        ++ [P.m_ParametersCurrent.V * (P.m_ParametersCurrent.T / T) ^ 3]) :
    ∃ (Jac : MatrixXd) (x : List ℚ × Broyden) (R : ThermalModelPCE N),
      BroydenJacobian.Jacobian
          { m_Equations := some start.BroydenEquationsPCE, m_dx := BroydenJacobian.EPS } x0
        = Outcome.ret Jac ∧
      Jac.size = P.m_StableComponentsNumber + 1 ∧
      x0.length = P.m_StableComponentsNumber + 1 ∧
      (Broyden.new (some start.BroydenEquationsPCE) none).Solve x0 none Broyden.MAX_ITERS
        = Outcome.ret x ∧
      x.1.length = P.m_StableComponentsNumber + 1 ∧
      (Jac.determinant = 0 → x.1 = x0) ∧
      P.CalculatePCE T = Outcome.ret R ∧
      R.m_ParametersCurrent
        = { P.m_ParametersCurrent with V := x.1.getD P.m_StableComponentsNumber 0, T := T } ∧
      (∀ i, R.m_ChemCurrent i
        = ∑ k in Finset.range P.m_StableComponentsNumber,
            P.m_EffectiveCharges.coeff i.val k * x.1.getD k 0) ∧
      R.m_model.m_Chem = R.m_ChemCurrent ∧
      R.m_model.m_Results = P.m_model.calculate R.m_model.m_Parameters R.m_model.m_Chem ∧
      (Jac.determinant ≠ 0 → R.m_model.m_Parameters = R.m_ParametersCurrent) ∧
      (Jac.determinant = 0 →
        R.m_model.m_Parameters
          = { R.m_ParametersCurrent with
              V := x.1.getD P.m_StableComponentsNumber 0
                + BroydenJacobian.h BroydenJacobian.EPS
                    (ofVector (P.m_StableComponentsNumber + 1) x.1)
                    (Fin.last P.m_StableComponentsNumber) }) ∧
      R.m_IsCalculated = true ∧
      R.m_ChemicalFreezeoutSet = P.m_ChemicalFreezeoutSet ∧
      R.m_StabilityFlags = P.m_StabilityFlags ∧
      R.m_StableComponentsNumber = P.m_StableComponentsNumber ∧
      R.m_EffectiveCharges = P.m_EffectiveCharges ∧
      R.m_StableDensitiesInit = P.m_StableDensitiesInit ∧
      R.m_EntropyDensityInit = P.m_EntropyDensityInit := by
  obtain ⟨Jac, x, hJ, hsize, hx0len, hsolve, hxlen, hsing, hcalc⟩ :=
    CalculatePCE_spec P T hflags hrows hcols hS start hstart x0 hx0
  have hlast : x.1.length - 1 = P.m_StableComponentsNumber := by omega
  have hrows' : start.m_EffectiveCharges.rows = N := by rw [hstart]; exact hrows
  have hcols' : start.m_EffectiveCharges.cols = start.m_StableComponentsNumber := by
    rw [hstart]; exact hcols
  have hSs : start.m_StableComponentsNumber = P.m_StableComponentsNumber := by rw [hstart]
  have hEs : start.m_EffectiveCharges = P.m_EffectiveCharges := by rw [hstart]
  have hms : start.m_model.calculate = P.m_model.calculate := by rw [hstart]
  have hpc : start.m_ParametersCurrent
      = { P.m_ParametersCurrent with
          V := P.m_ParametersCurrent.V * (P.m_ParametersCurrent.T / T) ^ 3, T := T } := by
    rw [hstart]
  obtain ⟨hns, hsg⟩ := lastEquationsArgument_eq start.BroydenEquationsPCE x0 x.1 Jac hJ
  refine ⟨Jac, x, _, hJ, hsize, hx0len, hsolve, hxlen, hsing, hcalc, ?_, ?_, rfl, ?_, ?_, ?_,
    rfl, ?_, ?_, ?_, ?_, ?_, ?_⟩
  · show ({ ({ start.m_ParametersCurrent with
        V := (ThermalModelPCE.lastEquationsArgument start.BroydenEquationsPCE x0 x.1).getD
          ((ThermalModelPCE.lastEquationsArgument start.BroydenEquationsPCE x0 x.1).length - 1)
          0 } : ThermalModelParameters) with
        V := x.1.getD (x.1.length - 1) 0 } : ThermalModelParameters) = _
    rw [hpc, hlast]
  · intro i
    show (start.Chem (ThermalModelPCE.lastEquationsArgument start.BroydenEquationsPCE x0 x.1)) i
      = _
    rw [Chem_eq start _ hrows' hcols', hSs, hEs]
    by_cases hdet : Jac.determinant = 0
    · have hm : 0 < start.BroydenEquationsPCE.m_N := Nat.succ_pos _
      rw [hsg hdet hm, hsing hdet]
      refine Finset.sum_congr rfl fun k hk => ?_
      have hk2 : k < P.m_StableComponentsNumber := Finset.mem_range.mp hk
      have hidx : (⟨start.BroydenEquationsPCE.m_N - 1, Nat.sub_lt hm Nat.one_pos⟩ :
          Fin start.BroydenEquationsPCE.m_N) = Fin.last start.m_StableComponentsNumber :=
        Fin.ext (by show start.m_StableComponentsNumber + 1 - 1 = _; simp)
      rw [hidx]
      have := getD_xh_last start.m_StableComponentsNumber x0 k
      rw [if_pos (by rw [hSs]; exact hk2)] at this
      rw [← this]
      rfl
    · rw [hns hdet]
  · subst hstart
    rfl
  · intro hdet
    show ({ start.m_ParametersCurrent with
        V := (ThermalModelPCE.lastEquationsArgument start.BroydenEquationsPCE x0 x.1).getD
          ((ThermalModelPCE.lastEquationsArgument start.BroydenEquationsPCE x0 x.1).length - 1)
          0 } : ThermalModelParameters)
      = ({ ({ start.m_ParametersCurrent with
        V := (ThermalModelPCE.lastEquationsArgument start.BroydenEquationsPCE x0 x.1).getD
          ((ThermalModelPCE.lastEquationsArgument start.BroydenEquationsPCE x0 x.1).length - 1)
          0 } : ThermalModelParameters) with
        V := x.1.getD (x.1.length - 1) 0 } : ThermalModelParameters)
    rw [hns hdet]
  · intro hdet
    have hm : 0 < start.BroydenEquationsPCE.m_N := Nat.succ_pos _
    have hidx : (⟨start.BroydenEquationsPCE.m_N - 1, Nat.sub_lt hm Nat.one_pos⟩ :
        Fin start.BroydenEquationsPCE.m_N) = Fin.last start.m_StableComponentsNumber :=
      Fin.ext (by show start.m_StableComponentsNumber + 1 - 1 = _; simp)
    have hlen2 : (toVector (BroydenJacobian.xh BroydenJacobian.EPS
        (ofVector (start.m_StableComponentsNumber + 1) x0)
        (Fin.last start.m_StableComponentsNumber))).length - 1
        = start.m_StableComponentsNumber := by
      rw [length_toVector]; simp
    have hval := getD_xh_last start.m_StableComponentsNumber x0 start.m_StableComponentsNumber
    rw [if_neg (lt_irrefl _), if_pos rfl] at hval
    show ({ start.m_ParametersCurrent with
        V := (ThermalModelPCE.lastEquationsArgument start.BroydenEquationsPCE x0 x.1).getD
          ((ThermalModelPCE.lastEquationsArgument start.BroydenEquationsPCE x0 x.1).length - 1)
          0 } : ThermalModelParameters) = _
    rw [hsg hdet hm, hidx]
    show ({ start.m_ParametersCurrent with
        V := (toVector (BroydenJacobian.xh BroydenJacobian.EPS
            (ofVector (start.m_StableComponentsNumber + 1) x0)
            (Fin.last start.m_StableComponentsNumber))).getD
          ((toVector (BroydenJacobian.xh BroydenJacobian.EPS
            (ofVector (start.m_StableComponentsNumber + 1) x0)
            (Fin.last start.m_StableComponentsNumber))).length - 1) 0 } :
        ThermalModelParameters) = _
    rw [hlen2, hval, hsing hdet, hpc]
    subst hstart
    rfl
  · subst hstart; rfl
  · subst hstart; rfl
  · subst hstart; rfl
  · subst hstart; rfl
  · subst hstart; rfl
  · subst hstart; rfl

theorem Jacobian_base_eq (eqs : BroydenEquations) (dx : ℚ) (x : List ℚ)
    (hx : x.length = eqs.m_N) :
    BroydenJacobian.Jacobian { m_Equations := some eqs, m_dx := dx } x
      = Outcome.ret (MatrixXd.ofMatrix (Matrix.of fun i j =>
          (eqs.Equations (BroydenJacobian.xh dx (ofVector eqs.m_N x) j) i
              - eqs.Equations (ofVector eqs.m_N x) i)
            / BroydenJacobian.h dx (ofVector eqs.m_N x) j)) := by
  have hdim : eqs.Dimension = x.length := hx.symm
  unfold BroydenJacobian.Jacobian
  simp only [hdim, ne_eq, not_true_eq_false, if_false]

/-- A system that takes the same values at the start vector and at its perturbations has a
singular finite-difference Jacobian. -/
theorem Jacobian_det_zero (eqs : BroydenEquations) (dx : ℚ) (x : List ℚ)
    (hx : x.length = eqs.m_N) (hpos : 0 < eqs.m_N)
    (hconst : ∀ j, eqs.Equations (BroydenJacobian.xh dx (ofVector eqs.m_N x) j)
      = eqs.Equations (ofVector eqs.m_N x)) :
    ∃ Jac, BroydenJacobian.Jacobian { m_Equations := some eqs, m_dx := dx } x = Outcome.ret Jac
      ∧ Jac.determinant = 0 := by
  refine ⟨_, Jacobian_base_eq eqs dx x hx, ?_⟩
  rw [determinant_ofMatrix]
  have hzero : (Matrix.of fun i j =>
      (eqs.Equations (BroydenJacobian.xh dx (ofVector eqs.m_N x) j) i
          - eqs.Equations (ofVector eqs.m_N x) i)
        / BroydenJacobian.h dx (ofVector eqs.m_N x) j) = 0 := by
    ext i j
    rw [Matrix.of_apply, hconst j, sub_self, zero_div]
    rfl
  rw [hzero]
  exact Matrix.det_zero ⟨⟨0, hpos⟩⟩

theorem h_pos (dx : ℚ) (hdx : 0 < dx) {N : ℕ} (x : Fin N → ℚ) (j : Fin N) :
    0 < BroydenJacobian.h dx x j := by
  unfold BroydenJacobian.h
  split_ifs with h
  · exact hdx
  · exact lt_of_le_of_ne (mul_nonneg (le_of_lt hdx) (abs_nonneg _)) (Ne.symm h)

/-- The residual of the controller of `inverseVolumeModel` is zero at every nonzero
volume. -/
theorem inverseVolume_residual (v : Fin inverseVolumeStart.BroydenEquationsPCE.m_N → ℚ)
    (hv : ∀ k, v k ≠ 0) :
    inverseVolumeStart.BroydenEquationsPCE.Equations v = fun _ => 0 := by
  funext i
  have hi : i.val = 0 := by
    have h1 : i.val < 1 := i.isLt
    omega
  have hlen : (toVector v).length = 1 := length_toVector v
  have hget : (toVector v).getD 0 0 = v i := by
    rw [← hi]
    exact getD_toVector v i
  show (ThermalModelPCE.EquationsPCE _ (toVector v)).getD i.val 0 = 0
  rw [hi]
  unfold ThermalModelPCE.EquationsPCE
  rw [hlen]
  have hrange : List.range 1 = [0] := rfl
  rw [hrange, List.map_cons, List.map_nil, List.getD_cons_zero, if_pos rfl]
  show ((1 / (toVector v).getD ((toVector v).length - 1) 0)
      * (toVector v).getD ((toVector v).length - 1) 0) / ((1 / 1) * 1) - 1 = 0
  rw [hlen, hget]
  have := hv i
  field_simp

/-- `CalculatePCE` at the freeze-out temperature on the controller of `inverseVolumeModel`:
the Jacobian at the seed is singular, the solver returns the seed `[1]`, and the model is
left evaluated at the volume `1 + 1e-6` of the finite-difference step. -/
theorem inverseVolume_CalculatePCE :
    ∃ (x : List ℚ × Broyden) (R : ThermalModelPCE 1),
      (Broyden.new (some inverseVolumeStart.BroydenEquationsPCE) none).Solve [1] none
        Broyden.MAX_ITERS = Outcome.ret x ∧
      x.1 = [1] ∧
      inverseVolumeFrozen.CalculatePCE (3 / 20) = Outcome.ret R ∧
      R.m_ParametersCurrent.V = 1 ∧
      (∀ i, R.m_ChemCurrent i = 0) ∧
      R.m_model.m_Parameters.V = 1 + 1 / 1000000 ∧
      R.m_model.m_Results.EntropyDensity = 1 / (1 + 1 / 1000000) ∧
      R.m_EntropyDensityInit = 1 := by
  have hx0 : (((List.finRange 1).filter fun i =>
        decide (inverseVolumeFrozen.m_StabilityFlags.getD i.val 0 ≠ 0)).map fun i =>
          inverseVolumeFrozen.m_ChemCurrent i * (3 / 20)
              / inverseVolumeFrozen.m_ParametersCurrent.T
            + (inverseVolumeFrozen.m_model.TPS.Particles i).Mass
              * (1 - (3 / 20) / inverseVolumeFrozen.m_ParametersCurrent.T))
        ++ [inverseVolumeFrozen.m_ParametersCurrent.V
            * (inverseVolumeFrozen.m_ParametersCurrent.T / (3 / 20)) ^ 3] = [1] := by
    have hfilter : ((List.finRange 1).filter fun i =>
        decide (inverseVolumeFrozen.m_StabilityFlags.getD i.val 0 ≠ 0)) = [] := by decide
    rw [hfilter]
    simp [inverseVolumeFrozen, ThermalModelPCE.SetChemicalFreezeout, exampleParameters]
  obtain ⟨Jac, x, R, hJ, -, -, hsolve, hxlen, hsing, hcalc, hpc, hchem, -, hres, -, hpert, -, -,
      -, -, -, -, hinit⟩ :=
    CalculatePCE_state inverseVolumeFrozen (3 / 20) rfl rfl rfl rfl inverseVolumeStart rfl [1]
      hx0.symm
  have hone : ∀ k : Fin inverseVolumeStart.BroydenEquationsPCE.m_N,
      ofVector inverseVolumeStart.BroydenEquationsPCE.m_N [1] k = 1 := by
    intro k
    have h1 : k.val < 1 := k.isLt
    have hk : k.val = 0 := by omega
    show ([1] : List ℚ).getD k.val 0 = 1
    rw [hk]
    rfl
  obtain ⟨Jac2, hJ2, hdet2⟩ := Jacobian_det_zero inverseVolumeStart.BroydenEquationsPCE
    BroydenJacobian.EPS [1]
    (show ([1] : List ℚ).length = 1 from rfl) (Nat.succ_pos _)
    (by
      intro j
      have ha := inverseVolume_residual (ofVector _ [1]) (fun k => by rw [hone]; norm_num)
      have hb := inverseVolume_residual
        (BroydenJacobian.xh BroydenJacobian.EPS
          (ofVector inverseVolumeStart.BroydenEquationsPCE.m_N [1]) j)
        (fun k => by
          have hp := h_pos BroydenJacobian.EPS (by norm_num [BroydenJacobian.EPS])
            (ofVector inverseVolumeStart.BroydenEquationsPCE.m_N [1]) k
          unfold BroydenJacobian.xh
          split_ifs
          · rw [hone]; norm_num
          · rw [hone]
            intro h0
            linarith)
      rw [ha, hb])
  have hJJ : Jac = Jac2 := by
    rw [hJ] at hJ2
    simpa using hJ2
  have hdet : Jac.determinant = 0 := by rw [hJJ]; exact hdet2
  have hx : x.1 = [1] := hsing hdet
  have hh : BroydenJacobian.h BroydenJacobian.EPS
      (ofVector (inverseVolumeFrozen.m_StableComponentsNumber + 1) [1])
      (Fin.last inverseVolumeFrozen.m_StableComponentsNumber) = 1 / 1000000 := by
    show (if BroydenJacobian.EPS * |([1] : List ℚ).getD 0 0| = 0 then BroydenJacobian.EPS
      else BroydenJacobian.EPS * |([1] : List ℚ).getD 0 0|) = _
    simp [BroydenJacobian.EPS]
  have hV : R.m_model.m_Parameters.V = 1 + 1 / 1000000 := by
    rw [hpert hdet, hx, hh]
    rfl
  refine ⟨x, R, hsolve, hx, hcalc, ?_, ?_, hV, ?_, ?_⟩
  · rw [hpc, hx]
    rfl
  · intro i
    rw [hchem i]
    rfl
  · rw [hres]
    show 1 / R.m_model.m_Parameters.V = _
    rw [hV]
  · rw [hinit]
    simp [inverseVolumeFrozen, ThermalModelPCE.SetChemicalFreezeout,
      ThermalModelBase.EntropyDensity,
      ThermalModelBase.CalculateDensities, ThermalModelBase.SetChemicalPotentials,
      ThermalModelBase.SetParameters, inverseVolumePCE, inverseVolumeModel, exampleParameters]

/-- C25, amended: after `CalculatePCE(T)` returns, `m_ParametersCurrent.V` is the last
component of the returned vector `x` and every current chemical potential `m_ChemCurrent[i]`
is `Σ_k EffectiveCharges[i][k]·x_k`.  When the Jacobian at the start vector is non-singular
the model was last evaluated at `x`; when it is singular, `x` is the start vector and the
model was last evaluated at the finite-difference perturbation of its volume component,
which leaves the chemical potentials unchanged. -/
theorem C25_current_state {N : ℕ} (P : ThermalModelPCE N) (T : ℚ)
    (hflags : P.m_StabilityFlags.length = N)
    (hrows : P.m_EffectiveCharges.rows = N)
    (hcols : P.m_EffectiveCharges.cols = P.m_StableComponentsNumber)
    (hS : P.m_StableComponentsNumber
      = ((List.finRange N).filter fun i =>
          decide (P.m_StabilityFlags.getD i.val 0 ≠ 0)).length)
    (start : ThermalModelPCE N)
    (hstart : start = { P with
      m_ParametersCurrent :=
        { P.m_ParametersCurrent with
          V := P.m_ParametersCurrent.V * (P.m_ParametersCurrent.T / T) ^ 3
          T := T } })
    (x0 : List ℚ)
    (hx0 : x0 = (((List.finRange N).filter fun i =>
        decide (P.m_StabilityFlags.getD i.val 0 ≠ 0)).map fun i =>
          P.m_ChemCurrent i * T / P.m_ParametersCurrent.T
            + (P.m_model.TPS.Particles i).Mass * (1 - T / P.m_ParametersCurrent.T))
        ++ [P.m_ParametersCurrent.V * (P.m_ParametersCurrent.T / T) ^ 3]) :
    ∃ (Jac : MatrixXd) (x : List ℚ × Broyden) (R : ThermalModelPCE N),
      BroydenJacobian.Jacobian
          { m_Equations := some start.BroydenEquationsPCE, m_dx := BroydenJacobian.EPS } x0
        = Outcome.ret Jac ∧
      (Broyden.new (some start.BroydenEquationsPCE) none).Solve x0 none Broyden.MAX_ITERS
        = Outcome.ret x ∧
      x.1.length = P.m_StableComponentsNumber + 1 ∧
      P.CalculatePCE T = Outcome.ret R ∧
      R.m_ParametersCurrent.V = x.1.getD P.m_StableComponentsNumber 0 ∧
      (∀ i, R.m_ChemCurrent i
        = ∑ k in Finset.range P.m_StableComponentsNumber,
            P.m_EffectiveCharges.coeff i.val k * x.1.getD k 0) ∧
      R.m_model.m_Chem = R.m_ChemCurrent ∧
      R.m_model.m_Results = P.m_model.calculate R.m_model.m_Parameters R.m_model.m_Chem ∧
      (Jac.determinant ≠ 0 → R.m_model.m_Parameters = R.m_ParametersCurrent) ∧
      (Jac.determinant = 0 →
        x.1 = x0 ∧
        R.m_model.m_Parameters.V
          = x.1.getD P.m_StableComponentsNumber 0
            + BroydenJacobian.h BroydenJacobian.EPS
                (ofVector (P.m_StableComponentsNumber + 1) x.1)
                (Fin.last P.m_StableComponentsNumber) ∧
        BroydenJacobian.h BroydenJacobian.EPS
            (ofVector (P.m_StableComponentsNumber + 1) x.1)
            (Fin.last P.m_StableComponentsNumber) ≠ 0) := by
  obtain ⟨Jac, x, R, hJ, -, -, hsolve, hxlen, hsing, hcalc, hpc, hchem, hmc, hres, hns, hpert,
      -⟩ := CalculatePCE_state P T hflags hrows hcols hS start hstart x0 hx0
  refine ⟨Jac, x, R, hJ, hsolve, hxlen, hcalc, by rw [hpc], hchem, hmc, hres, hns, ?_⟩
  intro hdet
  refine ⟨hsing hdet, by rw [hpert hdet], ?_⟩
  exact h_ne_zero _ (by norm_num [BroydenJacobian.EPS]) _ _

theorem C25_current_state_witness :
    ∃ (x : List ℚ × Broyden) (R : ThermalModelPCE 2),
      exampleFrozen.CalculatePCE (1 / 10) = Outcome.ret R ∧
      R.m_ParametersCurrent.V = x.1.getD 1 0 ∧
      (∀ i, R.m_ChemCurrent i
        = ∑ k in Finset.range 1, exampleFrozen.m_EffectiveCharges.coeff i.val k * x.1.getD k 0) := by
  obtain ⟨Jac, x, R, -, -, -, hcalc, hV, hchem, -⟩ :=
    C25_current_state exampleFrozen (1 / 10) rfl rfl rfl rfl _ rfl _ rfl
  exact ⟨x, R, hcalc, hV, hchem⟩

/-- C25, a state where the parenthesis fails: for a model whose entropy density is the
inverse of the volume, the Jacobian at the start vector of `CalculatePCE` is singular;
`Solve` returns the start vector `[1]`, which becomes the stored volume, while the model is
left with the volume `1 + 1e-6` of the last finite-difference perturbation. -/
theorem C25_model_left_at_perturbation :
    ∃ (x : List ℚ × Broyden) (R : ThermalModelPCE 1),
      (Broyden.new (some inverseVolumeStart.BroydenEquationsPCE) none).Solve [1] none
        Broyden.MAX_ITERS = Outcome.ret x ∧
      inverseVolumeFrozen.CalculatePCE (3 / 20) = Outcome.ret R ∧
      R.m_ParametersCurrent.V = x.1.getD 0 0 ∧
      R.m_model.m_Parameters.V ≠ x.1.getD 0 0 := by
  obtain ⟨x, R, hsolve, hx, hcalc, hV, -, hmV, -, -⟩ := inverseVolume_CalculatePCE
  refine ⟨x, R, hsolve, hcalc, ?_, ?_⟩
  · rw [hV, hx]; rfl
  · rw [hmV, hx]
    show (1 : ℚ) + 1 / 1000000 ≠ 1
    norm_num

/-! ## The identity limit of `CalculatePCE` -/

/-- C9, a state where the sentence fails: for a model whose entropy density is the inverse
of the volume (reference entropy density 1, no stable component), `CalculatePCE` at the
freeze-out temperature ends with the volume of the freeze-out, but the Jacobian at the
seed is singular and the model is left with the entropy density `1/(1 + 1e-6)` of the last
finite-difference perturbation. -/
theorem C9_singular_seed_perturbed_entropy :
    ∃ R : ThermalModelPCE 1,
      inverseVolumeFrozen.CalculatePCE exampleParameters.T = Outcome.ret R ∧
      inverseVolumeFrozen.m_EntropyDensityInit ≠ 0 ∧
      inverseVolumeFrozen.m_StableComponentsNumber = 0 ∧
      R.m_ParametersCurrent.V = exampleParameters.V ∧
      R.m_model.EntropyDensity ≠ inverseVolumeFrozen.m_EntropyDensityInit := by
  obtain ⟨x, R, -, -, hcalc, hV, -, -, hs, hinit⟩ := inverseVolume_CalculatePCE
  have hinit2 : inverseVolumeFrozen.m_EntropyDensityInit = 1 := by
    simp [inverseVolumeFrozen, ThermalModelPCE.SetChemicalFreezeout,
      ThermalModelBase.EntropyDensity,
      ThermalModelBase.CalculateDensities, ThermalModelBase.SetChemicalPotentials,
      ThermalModelBase.SetParameters, inverseVolumePCE, inverseVolumeModel, exampleParameters]
  refine ⟨R, hcalc, ?_, rfl, hV, ?_⟩
  · rw [hinit2]; norm_num
  · show R.m_model.m_Results.EntropyDensity ≠ _
    rw [hs, hinit2]
    norm_num

theorem getD_append_length (l : List ℚ) (a : ℚ) : (l ++ [a]).getD l.length 0 = a := by
  rw [List.getD_eq_getElem?_getD, List.getElem?_append_right (le_refl _)]
  simp

theorem getD_append_lt (l : List ℚ) (a : ℚ) (k : ℕ) (hk : k < l.length) :
    (l ++ [a]).getD k 0 = l.getD k 0 := by
  rw [List.getD_eq_getElem?_getD, List.getD_eq_getElem?_getD, List.getElem?_append_left hk]

/-- C9, amended: after `SetChemicalFreezeout(params, ChemInit)` with nonzero temperature and
volume, nonzero reference densities and entropy density, and `ChemInit` reproduced by the
effective charges, `CalculatePCE(T)` with `T = params.T` seeds the solver with (`ChemInit` at
the stable species, `params.V`), every residual is 0 at that seed, the solver returns the
seed, and the call ends with stored volume `params.V` and chemical potentials `ChemInit`.
When the finite-difference Jacobian at the seed is non-singular, the model is left at
`params`, with stable-component densities and entropy density equal to their freeze-out
values; when it is singular, the model is left at the last perturbed point of the finite
differences, the volume `params.V + 1e-6·|params.V|`, and its densities and entropy density
are those computed at that volume. -/
theorem C9_identity_limit {N : ℕ} (P0 F : ThermalModelPCE N) (params : ThermalModelParameters)
    (ChemInit : Fin N → ℚ)
    (hF : F = P0.SetChemicalFreezeout params ChemInit)
    (hflags : P0.m_StabilityFlags.length = N)
    (hrows : P0.m_EffectiveCharges.rows = N)
    (hcols : P0.m_EffectiveCharges.cols = P0.m_StableComponentsNumber)
    (hS : P0.m_StableComponentsNumber
      = ((List.finRange N).filter fun i =>
          decide (P0.m_StabilityFlags.getD i.val 0 ≠ 0)).length)
    (hmap : P0.m_StableMapTo
      = (List.finRange N).filter fun i => decide (P0.m_StabilityFlags.getD i.val 0 ≠ 0))
    (hT : params.T ≠ 0) (hV : params.V ≠ 0)
    (hdens : ∀ k, k < P0.m_StableComponentsNumber → F.m_StableDensitiesInit.getD k 0 ≠ 0)
    (hentropy : F.m_EntropyDensityInit ≠ 0)
    (hrep : ∀ i, ChemInit i
      = ∑ k in Finset.range P0.m_StableComponentsNumber,
          P0.m_EffectiveCharges.coeff i.val k * (P0.m_StableMapTo.map ChemInit).getD k 0) :
    ∃ (Jac : MatrixXd) (x : List ℚ × Broyden) (R : ThermalModelPCE N),
      F.seed params.T
        = Outcome.ret (P0.m_StableComponentsNumber, P0.m_StableMapTo.map ChemInit) ∧
      F.EquationsPCE (P0.m_StableMapTo.map ChemInit ++ [params.V])
        = List.replicate (P0.m_StableComponentsNumber + 1) 0 ∧
      BroydenJacobian.Jacobian
          { m_Equations := some F.BroydenEquationsPCE, m_dx := BroydenJacobian.EPS }
          (P0.m_StableMapTo.map ChemInit ++ [params.V])
        = Outcome.ret Jac ∧
      (Broyden.new (some F.BroydenEquationsPCE) none).Solve
          (P0.m_StableMapTo.map ChemInit ++ [params.V]) none Broyden.MAX_ITERS
        = Outcome.ret x ∧
      x.1 = P0.m_StableMapTo.map ChemInit ++ [params.V] ∧
      F.CalculatePCE params.T = Outcome.ret R ∧
      R.m_ParametersCurrent.V = params.V ∧
      R.m_ChemCurrent = ChemInit ∧
      R.m_model.m_Chem = ChemInit ∧
      (Jac.determinant ≠ 0 →
        R.m_model.m_Parameters = params ∧
        (∀ k, k < P0.m_StableComponentsNumber →
          R.totdens R.m_model k = F.m_StableDensitiesInit.getD k 0) ∧
        R.m_model.EntropyDensity = F.m_EntropyDensityInit) ∧
      (Jac.determinant = 0 →
        R.m_model.m_Parameters
          = { params with V := params.V + 1 / 1000000 * |params.V| } ∧
        R.m_model.m_Results
          = P0.m_model.calculate { params with V := params.V + 1 / 1000000 * |params.V| }
              ChemInit) := by
  -- the members of the state after `SetChemicalFreezeout`
  have hFflags : F.m_StabilityFlags = P0.m_StabilityFlags := by rw [hF]; rfl
  have hFS : F.m_StableComponentsNumber = P0.m_StableComponentsNumber := by rw [hF]; rfl
  have hFE : F.m_EffectiveCharges = P0.m_EffectiveCharges := by rw [hF]; rfl
  have hFpc : F.m_ParametersCurrent = params := by rw [hF]; rfl
  have hFpi : F.m_ParametersInit = params := by rw [hF]; rfl
  have hFchem : F.m_ChemCurrent = ChemInit := by rw [hF]; rfl
  have hFcalc : F.m_model.calculate = P0.m_model.calculate := by rw [hF]; rfl
  have hFres : F.m_model.m_Results = P0.m_model.calculate params ChemInit := by rw [hF]; rfl
  have hFsdi : ∀ k, k < P0.m_StableComponentsNumber →
      F.m_StableDensitiesInit.getD k 0
        = ∑ i : Fin N, if i.val < P0.m_EffectiveCharges.rows then
            P0.m_EffectiveCharges.coeff i.val k * (P0.m_model.calculate params ChemInit).Densities i
          else 0 := by
    intro k hk
    rw [hF]
    show ((List.range P0.m_StableComponentsNumber).map _).getD k 0 = _
    rw [getD_map_range _ _ k hk]
    rfl
  have hFs : F.m_EntropyDensityInit = (P0.m_model.calculate params ChemInit).EntropyDensity := by
    rw [hF]; rfl
  have hlenmap : (P0.m_StableMapTo.map ChemInit).length = P0.m_StableComponentsNumber := by
    rw [List.length_map, hmap, ← hS]
  have hseedlen : (P0.m_StableMapTo.map ChemInit ++ [params.V]).length
      = P0.m_StableComponentsNumber + 1 := by
    rw [List.length_append, hlenmap]; rfl
  have hone : params.T / params.T = 1 := div_self hT
  -- the start state and the start vector
  have hpar : ({ F.m_ParametersCurrent with
      V := F.m_ParametersCurrent.V * (F.m_ParametersCurrent.T / params.T) ^ 3
      T := params.T } : ThermalModelParameters) = params := by
    rw [hFpc, hone, one_pow, mul_one]
  have hstart : F = { F with
      m_ParametersCurrent :=
        { F.m_ParametersCurrent with
          V := F.m_ParametersCurrent.V * (F.m_ParametersCurrent.T / params.T) ^ 3
          T := params.T } } := by
    rw [hpar]
    nth_rewrite 1 [← hFpc]
    rfl
  have hx0 : P0.m_StableMapTo.map ChemInit ++ [params.V]
      = (((List.finRange N).filter fun i =>
          decide (F.m_StabilityFlags.getD i.val 0 ≠ 0)).map fun i =>
            F.m_ChemCurrent i * params.T / F.m_ParametersCurrent.T
              + (F.m_model.TPS.Particles i).Mass * (1 - params.T / F.m_ParametersCurrent.T))
          ++ [F.m_ParametersCurrent.V * (F.m_ParametersCurrent.T / params.T) ^ 3] := by
    rw [hFflags, hFpc, hFchem, hone, one_pow, mul_one, hmap]
    congr 2
    funext i
    rw [mul_div_assoc, hone, mul_one, sub_self, mul_zero, add_zero]
  have hFrows : F.m_EffectiveCharges.rows = N := by rw [hFE]; exact hrows
  have hFcols : F.m_EffectiveCharges.cols = F.m_StableComponentsNumber := by
    rw [hFE, hFS]; exact hcols
  have hFS2 : F.m_StableComponentsNumber
      = ((List.finRange N).filter fun i =>
          decide (F.m_StabilityFlags.getD i.val 0 ≠ 0)).length := by
    rw [hFS, hFflags]; exact hS
  obtain ⟨Jac, x, R, hJ, hsize, -, hsolve, hxlen, hsingx, hcalc, hpc, hchem, hmc, hres, hnsing,
      hsingular, -, -, -, -, hRE, -, -⟩ :=
    CalculatePCE_state F params.T (by rw [hFflags]; exact hflags) hFrows hFcols hFS2 F hstart
      (P0.m_StableMapTo.map ChemInit ++ [params.V]) hx0
  -- the model evaluated at the seed is the model of the freeze-out
  have hchemseed : F.Chem (P0.m_StableMapTo.map ChemInit ++ [params.V]) = ChemInit := by
    rw [Chem_eq F _ hFrows hFcols, hFS, hFE]
    funext i
    rw [hrep i]
    refine Finset.sum_congr rfl fun k hk => ?_
    rw [getD_append_lt _ _ k (by rw [hlenmap]; exact Finset.mem_range.mp hk)]
  have hVseed : (P0.m_StableMapTo.map ChemInit ++ [params.V]).getD
      ((P0.m_StableMapTo.map ChemInit ++ [params.V]).length - 1) 0 = params.V := by
    rw [hseedlen, Nat.add_sub_cancel, ← hlenmap, getD_append_length]
  have hafter : (F.afterEquations (P0.m_StableMapTo.map ChemInit ++ [params.V])).m_model.m_Results
      = P0.m_model.calculate params ChemInit := by
    show F.m_model.calculate
      { F.m_ParametersCurrent with
        V := (P0.m_StableMapTo.map ChemInit ++ [params.V]).getD
          ((P0.m_StableMapTo.map ChemInit ++ [params.V]).length - 1) 0 }
      (F.Chem (P0.m_StableMapTo.map ChemInit ++ [params.V])) = _
    rw [hchemseed, hVseed, hFpc, hFcalc]
  have hzero : F.EquationsPCE (P0.m_StableMapTo.map ChemInit ++ [params.V])
      = List.replicate (P0.m_StableComponentsNumber + 1) 0 := by
    rw [List.eq_replicate_iff]
    refine ⟨by unfold ThermalModelPCE.EquationsPCE; rw [List.length_map, List.length_range,
      hseedlen], ?_⟩
    intro b hb
    unfold ThermalModelPCE.EquationsPCE at hb
    rw [List.mem_map] at hb
    obtain ⟨k, hk, hbk⟩ := hb
    rw [List.mem_range, hseedlen] at hk
    rw [← hbk, hVseed, hseedlen, Nat.add_sub_cancel, hFS, hFpi]
    by_cases hkS : k = P0.m_StableComponentsNumber
    · rw [if_pos hkS]
      unfold ThermalModelBase.CalculateEntropyDensity
      rw [hafter, ← hFs, div_self (mul_ne_zero hentropy hV), sub_self]
    · have hk2 : k < P0.m_StableComponentsNumber := by omega
      rw [if_neg hkS, if_pos hk2]
      unfold ThermalModelPCE.totdens ThermalModelBase.Densities
      rw [hafter, hFE, ← hFsdi k hk2, div_self (mul_ne_zero (hdens k hk2) hV), sub_self]
  -- the solver stops at its first iterate, the seed
  have hEq0 : F.BroydenEquationsPCE.Equations
      (ofVector F.BroydenEquationsPCE.m_N (P0.m_StableMapTo.map ChemInit ++ [params.V]))
      = 0 := by
    show ofVector (F.m_StableComponentsNumber + 1)
      (F.EquationsPCE (toVector (ofVector (F.m_StableComponentsNumber + 1)
        (P0.m_StableMapTo.map ChemInit ++ [params.V])))) = 0
    rw [toVector_ofVector _ (by rw [hseedlen, hFS]), hzero]
    funext i
    show (List.replicate (P0.m_StableComponentsNumber + 1) (0 : ℚ)).getD i.val 0 = 0
    rw [List.getD_eq_getElem?_getD]
    cases h : (List.replicate (P0.m_StableComponentsNumber + 1) (0 : ℚ))[i.val]? with
    | none => rfl
    | some a =>
      have := List.getElem?_mem h
      rw [List.mem_replicate] at this
      rw [this.2]
      rfl
  have hxnew : Broyden.xnew (Broyden.initialState
      (Broyden.new (some F.BroydenEquationsPCE) none) F.BroydenEquationsPCE
      (P0.m_StableMapTo.map ChemInit ++ [params.V]) Jac)
      = ofVector F.BroydenEquationsPCE.m_N (P0.m_StableMapTo.map ChemInit ++ [params.V]) := by
    show ofVector F.BroydenEquationsPCE.m_N (P0.m_StableMapTo.map ChemInit ++ [params.V])
      - (inverse (Jac.toMatrix F.BroydenEquationsPCE.m_N)).mulVec
        (F.BroydenEquationsPCE.Equations
          (ofVector F.BroydenEquationsPCE.m_N (P0.m_StableMapTo.map ChemInit ++ [params.V])))
      = _
    rw [hEq0, Matrix.mulVec_zero, sub_zero]
  have hx : x.1 = P0.m_StableMapTo.map ChemInit ++ [params.V] := by
    by_cases hdet : Jac.determinant = 0
    · exact hsingx hdet
    · have hfirst := Solve_first_iterate (Broyden.new (some F.BroydenEquationsPCE) none)
        F.BroydenEquationsPCE (P0.m_StableMapTo.map ChemInit ++ [params.V]) none Broyden.MAX_ITERS
        Jac rfl hJ hdet hsize (by rw [hseedlen, ← hFS]; rfl) (by decide)
        (by
          unfold Broyden.accepted
          rw [hxnew, hEq0]
          simp only [Broyden.criteriumInUse, SolutionCriteriumRef.IsSolved]
          exact IsSolved_zero Broyden.TOL (by norm_num [Broyden.TOL]) _ _)
      rw [hxnew] at hfirst
      have hx : x.1 = P0.m_StableMapTo.map ChemInit ++ [params.V] := by
        rw [hsolve] at hfirst
        simp only [Outcome.ret.injEq] at hfirst
        rw [hfirst]
        exact toVector_ofVector _ (by rw [hseedlen, ← hFS])
      exact hx
  -- the state at the end
  have hRV : R.m_ParametersCurrent = params := by
    rw [hpc, hx, hFS, ← hlenmap, getD_append_length, hFpc]
  have hRchem : R.m_ChemCurrent = ChemInit := by
    funext i
    rw [hchem i, hx, hFS, hFE, hrep i]
    refine Finset.sum_congr rfl fun k hk => ?_
    rw [getD_append_lt _ _ k (by rw [hlenmap]; exact Finset.mem_range.mp hk)]
  have hRmchem : R.m_model.m_Chem = ChemInit := by rw [hmc, hRchem]
  have hseed := seed_spec F params.T (by rw [hFflags]; exact hflags) hFrows hFcols hFS2
  refine ⟨Jac, x, R, ?_, hzero, hJ, hsolve, hx, hcalc, by rw [hRV], hRchem, hRmchem, ?_, ?_⟩
  · rw [hseed, hFS, hFflags, hFpc, hFchem, hmap]
    congr 2
    apply List.map_congr_left
    intro i _
    rw [mul_div_assoc, hone, mul_one, sub_self, mul_zero, add_zero]
  · intro hdet
    have hRres : R.m_model.m_Results = P0.m_model.calculate params ChemInit := by
      rw [hres, hnsing hdet, hRV, hmc, hRchem, hFcalc]
    refine ⟨by rw [hnsing hdet, hRV], ?_, ?_⟩
    · intro k hk
      rw [hFsdi k hk]
      unfold ThermalModelPCE.totdens ThermalModelBase.Densities
      rw [hRres, hRE, hFE]
    · show R.m_model.m_Results.EntropyDensity = _
      rw [hRres, hFs]
  · intro hdet
    have hxV : x.1.getD F.m_StableComponentsNumber 0 = params.V := by
      rw [hx, hFS, ← hlenmap, getD_append_length]
    have hh : BroydenJacobian.h BroydenJacobian.EPS
        (ofVector (F.m_StableComponentsNumber + 1) x.1) (Fin.last F.m_StableComponentsNumber)
        = 1 / 1000000 * |params.V| := by
      unfold BroydenJacobian.h
      have hlastx : ofVector (F.m_StableComponentsNumber + 1) x.1
          (Fin.last F.m_StableComponentsNumber) = params.V := hxV
      rw [hlastx, if_neg]
      · rfl
      · exact mul_ne_zero (by norm_num [BroydenJacobian.EPS]) (abs_ne_zero.mpr hV)
    have hpm : R.m_model.m_Parameters
        = { params with V := params.V + 1 / 1000000 * |params.V| } := by
      rw [hsingular hdet, hRV, hxV, hh]
    exact ⟨hpm, by rw [hres, hpm, hRmchem, hFcalc]⟩

/-- The residuals of the controller `exampleFrozen` at the chemical potential `v 0` of the
stable species and the volume `v 1`. -/
theorem example_residual (v : Fin exampleFrozen.BroydenEquationsPCE.m_N → ℚ)
    (i : Fin exampleFrozen.BroydenEquationsPCE.m_N) :
    exampleFrozen.BroydenEquationsPCE.Equations v i
      = if i.val = 0 then
          ((3 / 2 + 5 / 4 * (toVector v).getD 0 0) * (toVector v).getD 1 0) / (3 / 2) - 1
        else (toVector v).getD 1 0 - 1 := by
  have hlen : (toVector v).length = 2 := length_toVector v
  have hi : i.val = 0 ∨ i.val = 1 := by
    have h1 : i.val < 2 := i.isLt
    omega
  show (ThermalModelPCE.EquationsPCE _ (toVector v)).getD i.val 0 = _
  unfold ThermalModelPCE.EquationsPCE
  rw [hlen]
  have hrange : List.range 2 = [0, 1] := rfl
  rw [hrange]
  rcases hi with h | h
  · rw [h]
    simp [ThermalModelPCE.afterEquations, exampleFrozen, ThermalModelPCE.SetChemicalFreezeout,
      ThermalModelPCE.totdens, ThermalModelPCE.Chem, ThermalModelBase.Densities,
      ThermalModelBase.CalculateDensities, ThermalModelBase.SetParameters,
      ThermalModelBase.SetChemicalPotentials, ThermalModelBase.EntropyDensity,
      examplePCE, exampleModel, exampleParameters, hlen, Fin.sum_univ_two,
      Finset.sum_range_one]
    ring
  · rw [h]
    simp [ThermalModelPCE.afterEquations, exampleFrozen, ThermalModelPCE.SetChemicalFreezeout,
      ThermalModelBase.CalculateEntropyDensity,
      ThermalModelBase.CalculateDensities, ThermalModelBase.SetParameters,
      ThermalModelBase.SetChemicalPotentials, ThermalModelBase.EntropyDensity,
      examplePCE, exampleModel, exampleParameters, hlen]

theorem C9_identity_limit_witness :
    ∃ (Jac : MatrixXd) (x : List ℚ × Broyden) (R : ThermalModelPCE 2),
      exampleFrozen.CalculatePCE exampleParameters.T = Outcome.ret R ∧
      x.1 = [0, 1] ∧
      R.m_ParametersCurrent.V = 1 ∧
      Jac.determinant ≠ 0 ∧
      R.m_model.m_Parameters = exampleParameters ∧
      R.m_model.EntropyDensity = exampleFrozen.m_EntropyDensityInit := by
  obtain ⟨Jac, x, R, -, -, hJ, -, hx, hcalc, hV, -, -, hnsing, -⟩ :=
    C9_identity_limit examplePCE exampleFrozen exampleParameters (fun _ => 0) rfl rfl rfl rfl
      (by decide) (by decide)
      (by norm_num [exampleParameters]) (by norm_num [exampleParameters])
      (by
        intro k hk
        have hk0 : k = 0 := by
          have : k < 1 := hk
          omega
        rw [hk0]
        simp [exampleFrozen, ThermalModelPCE.SetChemicalFreezeout, ThermalModelPCE.totdens,
          ThermalModelBase.Densities, ThermalModelBase.CalculateDensities,
          ThermalModelBase.SetParameters, ThermalModelBase.SetChemicalPotentials, examplePCE,
          exampleModel, Fin.sum_univ_two]
        norm_num)
      (by
        simp [exampleFrozen, ThermalModelPCE.SetChemicalFreezeout,
          ThermalModelBase.EntropyDensity, ThermalModelBase.CalculateDensities,
          ThermalModelBase.SetParameters, ThermalModelBase.SetChemicalPotentials, examplePCE,
          exampleModel])
      (by
        intro i
        simp [examplePCE])
  have hdet : Jac.determinant ≠ 0 := by
    have hseed : List.map (fun _ => (0 : ℚ)) examplePCE.m_StableMapTo
        ++ [exampleParameters.V] = [0, 1] := rfl
    rw [hseed, Jacobian_base_eq _ _ _ (show ([0, 1] : List ℚ).length = 2 from rfl)] at hJ
    simp only [Outcome.ret.injEq] at hJ
    rw [← hJ, determinant_ofMatrix]
    have hsum : ∀ M : Matrix (Fin exampleFrozen.BroydenEquationsPCE.m_N)
        (Fin exampleFrozen.BroydenEquationsPCE.m_N) ℚ,
        M.det = M ⟨0, Nat.succ_pos _⟩ ⟨0, Nat.succ_pos _⟩
            * M ⟨1, Nat.lt_succ_self _⟩ ⟨1, Nat.lt_succ_self _⟩
          - M ⟨0, Nat.succ_pos _⟩ ⟨1, Nat.lt_succ_self _⟩
            * M ⟨1, Nat.lt_succ_self _⟩ ⟨0, Nat.succ_pos _⟩ :=
      fun M => Matrix.det_fin_two M
    rw [hsum]
    simp only [Matrix.of_apply, example_residual, getD_toVector_nat]
    simp [ BroydenJacobian.xh, BroydenJacobian.h, BroydenJacobian.EPS,
      ofVector, BroydenEquations.Dimension, ThermalModelPCE.BroydenEquationsPCE,
      exampleFrozen, ThermalModelPCE.SetChemicalFreezeout, examplePCE]
    norm_num
  refine ⟨Jac, x, R, hcalc, hx, ?_, hdet, (hnsing hdet).1, (hnsing hdet).2.2⟩
  rw [hV]
  rfl

/-! ## The relative criterion at negative pressures -/

/-- C38: for every tolerance `> 0`, every `x` all of whose components are strictly negative
and every residual vector `f` at least as long as `x`,
`BroydenSolutionCriteriumCRS::IsSolved(x, f, xdelta)` returns true: each quotient
`|f_i|/x_i` is at most `0`, so that `maxdiff` stays `0`. -/
theorem C38_negative_pressures_pass (tol : ℚ) (x f xdelta : List ℚ)
    (htol : 0 < tol) (hneg : ∀ i, i < x.length → x.getD i 0 < 0)
    (_hf : x.length ≤ f.length) :
    ThermalModelEVCrossterms.BroydenSolutionCriteriumCRS tol x f xdelta = true := by
  rw [BroydenSolutionCriteriumCRS_iff]
  refine ⟨htol, fun i hi => ⟨fun h0 => absurd h0 (ne_of_lt (hneg i hi)),
    fun _ => lt_of_le_of_lt ?_ htol⟩⟩
  exact div_nonpos_of_nonneg_of_nonpos (abs_nonneg _) (le_of_lt (hneg i hi))

theorem C38_negative_pressures_pass_witness :
    ThermalModelEVCrossterms.BroydenSolutionCriteriumCRS (1 / 10 ^ 10) [-1, -2] [1000, 5] [0, 0]
      = true :=
  C38_negative_pressures_pass (1 / 10 ^ 10) [-1, -2] [1000, 5] [0, 0] (by norm_num)
    (fun i hi => by
      have hi2 : i < 2 := hi
      interval_cases i <;> simp)
    (by decide)

/-! ## `VirialCoefficient` -/

/-- C39, the guard of the column index is off by one: `VirialCoefficient(i, j)` returns
`Virial[i][j]` for `0 ≤ i, j < N` and `0` for `i < 0`, `i ≥ N`, `j < 0` and `j > N`, but
the test `j > m_Virial.size()` lets `j = N` through, so that for every row `0 ≤ i < N` the
call `VirialCoefficient(i, N)` reads `m_Virial[i][N]`, one place after the end of the row
(for two species: `VirialCoefficient(0, 2)`). -/
theorem C39_VirialCoefficient_reads_past_row :
    crossGas.VirialCoefficient 0 2 = Outcome.undefined ∧
    (∀ (N : ℕ) (M : ThermalModelEVCrossterms N) (i : Fin N),
      M.VirialCoefficient (i.val : Int) (N : Int) = Outcome.undefined) ∧
    (∀ (N : ℕ) (M : ThermalModelEVCrossterms N) (i j : Fin N),
      M.VirialCoefficient (i.val : Int) (j.val : Int) = Outcome.ret (M.m_Virial i j)) ∧
    (∀ (N : ℕ) (M : ThermalModelEVCrossterms N) (i j : Int),
      i < 0 ∨ (N : Int) ≤ i ∨ j < 0 ∨ (N : Int) < j →
      M.VirialCoefficient i j = Outcome.ret 0) := by
  have hpast : ∀ (N : ℕ) (M : ThermalModelEVCrossterms N) (i : Fin N),
      M.VirialCoefficient (i.val : Int) (N : Int) = Outcome.undefined := by
    intro N M i
    unfold ThermalModelEVCrossterms.VirialCoefficient
    have hi : (i.val : Int) < N := by exact_mod_cast i.isLt
    have hi0 : (0 : Int) ≤ i.val := Int.natCast_nonneg _
    have hN0 : (0 : Int) ≤ N := Int.natCast_nonneg _
    rw [if_neg (by omega), dif_neg]
    rintro ⟨-, h2⟩
    rw [Int.toNat_natCast] at h2
    exact lt_irrefl _ h2
  refine ⟨hpast 2 crossGas 0, hpast, ?_, ?_⟩
  · intro N M i j
    unfold ThermalModelEVCrossterms.VirialCoefficient
    have hi : (i.val : Int) < N := by exact_mod_cast i.isLt
    have hj : (j.val : Int) < N := by exact_mod_cast j.isLt
    have hi0 : (0 : Int) ≤ i.val := Int.natCast_nonneg _
    have hj0 : (0 : Int) ≤ j.val := Int.natCast_nonneg _
    rw [if_neg (by omega), dif_pos ⟨by rw [Int.toNat_natCast]; exact i.isLt,
      by rw [Int.toNat_natCast]; exact j.isLt⟩]
    simp
  · intro N M i j h
    unfold ThermalModelEVCrossterms.VirialCoefficient
    rw [if_pos]
    omega

/-! ## `SetRadius` -/

/-- C40: for every radius `rad`, after `SetRadius(rad)` the stored radius is `rad` and every
entry of the `N × N` virial matrix, diagonal or not, is `brr(rad, rad)`, which is the
uncorrected term `brr(ri[i], ri[j])` of `FillVirial` for the radii `ri` all equal to
`rad`. -/
theorem C40_SetRadius_uniform {N : ℕ} (brr : ℚ → ℚ → ℚ) (M : ThermalModelEVCrossterms N)
    (rad : ℚ) :
    (ThermalModelEVCrossterms.SetRadius brr M rad).m_RHad = rad ∧
    ∀ i j : Fin N,
      (ThermalModelEVCrossterms.SetRadius brr M rad).m_Virial i j = brr rad rad ∧
      brr ((List.replicate N rad).getD i.val 0) ((List.replicate N rad).getD j.val 0)
        = brr rad rad := by
  have hget : ∀ k : Fin N, (List.replicate N rad).getD k.val 0 = rad := by
    intro k
    simp [List.getD_eq_getElem?_getD, List.getElem?_replicate, k.isLt]
  refine ⟨?_, fun i j => ⟨?_, by rw [hget i, hget j]⟩⟩
  · unfold ThermalModelEVCrossterms.SetRadius ThermalModelEVCrossterms.FillVirial
    simp
  · unfold ThermalModelEVCrossterms.SetRadius
    exact FillVirial_equal_radii brr _ _ (List.length_replicate _ _) rad hget i j

/-! ## The update of the inverse as a Sherman–Morrison inverse -/

theorem vecMulVec_mulVec_eq {N : ℕ} (w v z : Fin N → ℚ) :
    (Matrix.vecMulVec w v).mulVec z = Matrix.dotProduct v z • w := by
  funext i
  simp only [Matrix.mulVec, Matrix.dotProduct, Matrix.vecMulVec_apply, Pi.smul_apply,
    smul_eq_mul, Finset.sum_mul]
  refine Finset.sum_congr rfl fun j _ => ?_
  ring

theorem eq_one_of_mulVec {N : ℕ} (A : Matrix (Fin N) (Fin N) ℚ)
    (h : ∀ y, A.mulVec y = y) : A = 1 := by
  ext i j
  have hj := congrFun (h (Pi.single j 1)) i
  rw [Matrix.mulVec_single_one] at hj
  rw [Matrix.one_apply]
  simp only [Matrix.transpose_apply] at hj
  rw [hj, Pi.single_apply]

theorem directUpdate_mul_update {N : ℕ} (J : Matrix (Fin N) (Fin N) ℚ)
    (xdelta fdelta : Fin N → ℚ) (hJ : J.det ≠ 0)
    (hxx : Matrix.dotProduct xdelta xdelta ≠ 0)
    (hnorm : Matrix.dotProduct xdelta ((inverse J).mulVec fdelta) ≠ 0) :
    directUpdate J xdelta fdelta * Broyden.update (inverse J) xdelta fdelta = 1 := by
  have hunit : IsUnit J.det := isUnit_iff_ne_zero.mpr hJ
  have hJJ : J * inverse J = 1 := by
    rw [inverse_eq_inv]
    exact Matrix.mul_nonsing_inv J hunit
  have hback : ∀ y, J.mulVec ((inverse J).mulVec y) = y := by
    intro y
    rw [Matrix.mulVec_mulVec, hJJ, Matrix.one_mulVec]
  have hn : Broyden.norm (inverse J) xdelta fdelta ≠ 0 := by
    rw [norm_eq_dotProduct]
    exact hnorm
  apply eq_one_of_mulVec
  intro y
  rw [← Matrix.mulVec_mulVec]
  have hp : (fun i => (xdelta - (inverse J).mulVec fdelta) i
        * (1 / Broyden.norm (inverse J) xdelta fdelta))
      = (Broyden.norm (inverse J) xdelta fdelta)⁻¹ • (xdelta - (inverse J).mulVec fdelta) := by
    funext i
    simp only [Pi.smul_apply, smul_eq_mul, one_div]
    ring
  have hU : (Broyden.update (inverse J) xdelta fdelta).mulVec y
      = (inverse J).mulVec y
        + (Matrix.dotProduct xdelta ((inverse J).mulVec y)
            * (Broyden.norm (inverse J) xdelta fdelta)⁻¹)
          • (xdelta - (inverse J).mulVec fdelta) := by
    unfold Broyden.update
    dsimp only
    rw [hp, Matrix.add_mulVec, ← Matrix.mulVec_mulVec, vecMulVec_mulVec_eq, smul_smul]
  have hD : ∀ z, (directUpdate J xdelta fdelta).mulVec z
      = J.mulVec z
        + ((Matrix.dotProduct xdelta xdelta)⁻¹ * Matrix.dotProduct xdelta z)
          • (fdelta - J.mulVec xdelta) := by
    intro z
    unfold directUpdate
    rw [Matrix.add_mulVec, Matrix.smul_mulVec_assoc, vecMulVec_mulVec_eq, smul_smul]
  rw [hU, hD]
  rw [norm_eq_dotProduct] at hn ⊢
  rw [Matrix.mulVec_add, Matrix.mulVec_smul, Matrix.mulVec_sub, hback, hback,
    Matrix.dotProduct_add, Matrix.dotProduct_smul, Matrix.dotProduct_sub]
  funext i
  simp only [Pi.add_apply, Pi.smul_apply, Pi.sub_apply, smul_eq_mul]
  field_simp
  ring

/-- C36: for every invertible `J` with `Jinv = J⁻¹` and every step with
`xdelta·xdelta ≠ 0` and `norm = xdelta·(Jinv·fdelta) ≠ 0`, the matrix that the rank-one
update of `Broyden::Solve` computes from `Jinv` is the inverse of Broyden's direct update
`J + ((fdelta − J·xdelta) ⊗ xdelta)/(xdelta·xdelta)` of `J`. -/
theorem C36_update_is_inverse_of_direct_update {N : ℕ} (J : Matrix (Fin N) (Fin N) ℚ)
    (xdelta fdelta : Fin N → ℚ) (hJ : J.det ≠ 0)
    (hxx : Matrix.dotProduct xdelta xdelta ≠ 0)
    (hnorm : Matrix.dotProduct xdelta ((inverse J).mulVec fdelta) ≠ 0) :
    Broyden.norm (inverse J) xdelta fdelta
      = Matrix.dotProduct xdelta ((inverse J).mulVec fdelta) ∧
    directUpdate J xdelta fdelta * Broyden.update (inverse J) xdelta fdelta = 1 ∧
    Broyden.update (inverse J) xdelta fdelta * directUpdate J xdelta fdelta = 1 ∧
    Broyden.update (inverse J) xdelta fdelta = inverse (directUpdate J xdelta fdelta) := by
  have h := directUpdate_mul_update J xdelta fdelta hJ hxx hnorm
  refine ⟨norm_eq_dotProduct _ _ _, h, ?_, ?_⟩
  · exact Matrix.mul_eq_one_comm.mp h
  · rw [inverse_eq_inv (directUpdate J xdelta fdelta)]
    exact (Matrix.inv_eq_right_inv h).symm

theorem C36_update_is_inverse_of_direct_update_witness :
    Broyden.update (inverse (1 : Matrix (Fin 1) (Fin 1) ℚ)) ![2] ![4]
      = inverse (directUpdate (1 : Matrix (Fin 1) (Fin 1) ℚ) ![2] ![4]) :=
  (C36_update_is_inverse_of_direct_update (1 : Matrix (Fin 1) (Fin 1) ℚ) ![2] ![4]
    (by simp)
    (by simp [Matrix.dotProduct])
    (by
      rw [inverse_eq_inv, inv_one, Matrix.one_mulVec]
      simp [Matrix.dotProduct])).2.2.2

/-! ## The divisor of the rank-one update -/

/-- A line that does not name the entry `(i, j)` leaves it as it is. -/
theorem readLine_other_entry {N : ℕ} (M : ThermalModelEVCrossterms N)
    (V : Fin N → Fin N → ℚ) (line : FileLine) (i j : Fin N)
    (h : ∀ p1 p2 b, line = FileLine.entry p1 p2 b →
      ¬ (fitsInt p1 ∧ fitsInt p2 ∧ M.PdgToId p1 = some i ∧ M.PdgToId p2 = some j)) :
    M.readLine V line i j = V i j := by
  cases line with
  | other => rfl
  | entry p1 p2 b =>
    have hne := h p1 p2 b rfl
    unfold ThermalModelEVCrossterms.readLine
    by_cases hfit : fitsInt p1 ∧ fitsInt p2
    · simp only [hfit, and_self, if_true]
      cases h1 : M.PdgToId p1 with
      | none => rfl
      | some ind1 =>
        cases h2 : M.PdgToId p2 with
        | none => rfl
        | some ind2 =>
          show (if i = ind1 ∧ j = ind2 then b else V i j) = V i j
          rw [if_neg]
          rintro ⟨rfl, rfl⟩
          exact hne ⟨hfit.1, hfit.2, h1, h2⟩
    · simp only [hfit, if_false]

/-- A line that names the entry `(i, j)` sets it to its coefficient. -/
theorem readLine_named_entry {N : ℕ} (M : ThermalModelEVCrossterms N)
    (V : Fin N → Fin N → ℚ) (p1 p2 : Int) (b : ℚ) (i j : Fin N)
    (hp1 : fitsInt p1) (hp2 : fitsInt p2)
    (h1 : M.PdgToId p1 = some i) (h2 : M.PdgToId p2 = some j) :
    M.readLine V (FileLine.entry p1 p2 b) i j = b := by
  unfold ThermalModelEVCrossterms.readLine
  simp only [hp1, hp2, and_self, if_true, h1, h2]

theorem foldl_readLine_other_entry {N : ℕ} (M : ThermalModelEVCrossterms N)
    (file : List FileLine) (i j : Fin N) :
    ∀ V : Fin N → Fin N → ℚ,
      (∀ p1 p2 b, FileLine.entry p1 p2 b ∈ file →
        ¬ (fitsInt p1 ∧ fitsInt p2 ∧ M.PdgToId p1 = some i ∧ M.PdgToId p2 = some j)) →
      file.foldl M.readLine V i j = V i j := by
  induction file with
  | nil => intro V _; rfl
  | cons line rest ih =>
    intro V h
    rw [List.foldl_cons, ih]
    · exact readLine_other_entry M V line i j fun p1 p2 b hl =>
        h p1 p2 b (by rw [hl]; exact List.mem_cons_self _ _)
    · intro p1 p2 b hmem
      exact h p1 p2 b (List.mem_cons_of_mem _ hmem)

theorem beforeHash_append (a c : List Char) (ha : '#' ∉ a) :
    beforeHash (a ++ '#' :: c) = a := by
  unfold beforeHash
  induction a with
  | nil => simp
  | cons x xs ih =>
    have hx : x ≠ '#' := fun hx => ha (by rw [hx]; exact List.mem_cons_self _ _)
    have hxs : '#' ∉ xs := fun hm => ha (List.mem_cons_of_mem _ hm)
    rw [List.cons_append, List.takeWhile_cons_of_pos (by simpa using hx), ih hxs]

/-- C31: `ReadInteractionParameters` rebuilds the `N × N` matrix from the lines of the file
alone (a file that can be opened, with lines that fit the buffer of 2000 characters).  The
result does not depend on the matrix before the call; every entry `(i, j)` that
no line names (a line names `(i, j)` when it parses as `pdgid1 pdgid2 coefficient` and
`PdgToId` finds `pdgid1` at `i` and `pdgid2` at `j`) is `0`; an entry holds the coefficient
of the last line that names it; a line with an unknown PDG id and a line that does not
parse change nothing; and what a line does is decided by its text before the first `#`. -/
theorem C31_ReadInteractionParameters {N : ℕ} (M : ThermalModelEVCrossterms N)
    (file : List FileLine) :
    (∀ V : Fin N → Fin N → ℚ,
      (ThermalModelEVCrossterms.ReadInteractionParameters { M with m_Virial := V } file).m_Virial
        = (M.ReadInteractionParameters file).m_Virial) ∧
    (∀ i j : Fin N,
      (∀ p1 p2 b, FileLine.entry p1 p2 b ∈ file →
        ¬ (fitsInt p1 ∧ fitsInt p2 ∧ M.PdgToId p1 = some i ∧ M.PdgToId p2 = some j)) →
      (M.ReadInteractionParameters file).m_Virial i j = 0) ∧
    (∀ (pre post : List FileLine) (p1 p2 : Int) (b : ℚ) (i j : Fin N),
      file = pre ++ FileLine.entry p1 p2 b :: post →
      fitsInt p1 → fitsInt p2 → M.PdgToId p1 = some i → M.PdgToId p2 = some j →
      (∀ q1 q2 c, FileLine.entry q1 q2 c ∈ post →
        ¬ (fitsInt q1 ∧ fitsInt q2 ∧ M.PdgToId q1 = some i ∧ M.PdgToId q2 = some j)) →
      (M.ReadInteractionParameters file).m_Virial i j = b) ∧
    (∀ (V : Fin N → Fin N → ℚ) (p1 p2 : Int) (b : ℚ),
      M.PdgToId p1 = none ∨ M.PdgToId p2 = none →
      M.readLine V (FileLine.entry p1 p2 b) = V) ∧
    (∀ V : Fin N → Fin N → ℚ, M.readLine V FileLine.other = V) ∧
    (∀ (extract : List Char → Option (Int × Int × ℚ)) (a c1 c2 : List Char),
      '#' ∉ a → parseLine extract (a ++ '#' :: c1) = parseLine extract (a ++ '#' :: c2)) := by
  refine ⟨fun V => rfl, ?_, ?_, ?_, fun V => rfl, ?_⟩
  · intro i j h
    exact foldl_readLine_other_entry M file i j _ h
  · intro pre post p1 p2 b i j hfile hp1 hp2 h1 h2 hpost
    show file.foldl M.readLine (fun _ _ => 0) i j = b
    rw [hfile, List.foldl_append, List.foldl_cons,
      foldl_readLine_other_entry M post i j _ hpost]
    exact readLine_named_entry M _ p1 p2 b i j hp1 hp2 h1 h2
  · intro V p1 p2 b h
    unfold ThermalModelEVCrossterms.readLine
    by_cases hfit : fitsInt p1 ∧ fitsInt p2
    · simp only [hfit, and_self, if_true]
      rcases h with h | h
      · rw [h]
      · rw [h]
        cases M.PdgToId p1 <;> rfl
    · simp only [hfit, if_false]
  · intro extract a c1 c2 ha
    unfold parseLine
    rw [beforeHash_append a c1 ha, beforeHash_append a c2 ha]
    simp

/-! ## `CalculateChargeFluctuations` -/

/-- The entries of the vector that `CalculateChargeFluctuations` returns. -/
theorem CalculateChargeFluctuations_spec {N : ℕ} (M : ThermalModelEVCrossterms N)
    (GeVtoifm : ℚ) (fresh : ℕ → ℕ → ℚ) (chgs : List ℚ) (order : Int)
    (hlen : chgs.length = N) (horder : 0 ≤ order) :
    ∃ ret : List ℚ,
      M.CalculateChargeFluctuations GeVtoifm fresh chgs order = Outcome.ret ret ∧
      (ret.length : Int) = order + 1 ∧
      ret.getD 0 0
        = (∑ i : Fin N, chgs.getD i.val 0 * M.m_densities i)
          / (M.m_Parameters.T * GeVtoifm) ^ 3 ∧
      (2 ≤ order → ret.getD 1 0
        = ThermalModelEVCrossterms.CalculateChargeFluctuations.chi2 M GeVtoifm fresh chgs) ∧
      (3 ≤ order → ret.getD 2 0
        = ThermalModelEVCrossterms.CalculateChargeFluctuations.chi3 M GeVtoifm fresh chgs) ∧
      (4 ≤ order → ret.getD 3 0
        = ThermalModelEVCrossterms.CalculateChargeFluctuations.chi4 M GeVtoifm fresh chgs) ∧
      (∀ k : ℕ, 1 ≤ k → (order ≤ (k : Int) ∨ 4 ≤ k) → ret.getD k 0 = 0) := by
  obtain ⟨n, rfl⟩ := Int.eq_ofNat_of_zero_le horder
  have h1 : ¬ ((n : Int) + 1 < 0) := by omega
  have h2 : ¬ ((n : Int) + 1 = 0 ∨ chgs.length < N) := by omega
  have htn : ((n : Int) + 1).toNat = n + 1 := by omega
  unfold ThermalModelEVCrossterms.CalculateChargeFluctuations
  simp only [h1, h2, if_false, htn]
  by_cases c2 : (n : Int) < 2
  · simp only [c2, if_true]
    refine ⟨_, rfl, ?_, ?_, ?_, ?_, ?_, ?_⟩
    · simp
    · simp [List.getD_eq_getElem?_getD, List.getElem?_set,
        ThermalModelEVCrossterms.CalculateChargeFluctuations.chi1]
    · intro h; omega
    · intro h; omega
    · intro h; omega
    · intro k hk _
      have hk0 : ¬ (0 = k) := by omega
      simp [List.getD_eq_getElem?_getD, List.getElem?_set, hk0, List.getElem?_replicate]
      split_ifs <;> rfl
  · simp only [c2, if_false]
    by_cases c3 : (n : Int) < 3
    · simp only [c3, if_true]
      have hn : n = 2 := by omega
      refine ⟨_, rfl, ?_, ?_, ?_, ?_, ?_, ?_⟩
      · simp
      · simp [List.getD_eq_getElem?_getD, List.getElem?_set,
          ThermalModelEVCrossterms.CalculateChargeFluctuations.chi1]
      · intro _
        have : 1 < n + 1 := by omega
        simp [List.getD_eq_getElem?_getD, List.getElem?_set, this]
      · intro h; omega
      · intro h; omega
      · intro k hk hk2
        have hk0 : ¬ (0 = k) := by omega
        have hk1 : ¬ (1 = k) := by omega
        simp [List.getD_eq_getElem?_getD, List.getElem?_set, hk0, hk1,
          List.getElem?_replicate]
        split_ifs <;> rfl
    · simp only [c3, if_false]
      by_cases c4 : (n : Int) < 4
      · simp only [c4, if_true]
        have hn : n = 3 := by omega
        refine ⟨_, rfl, ?_, ?_, ?_, ?_, ?_, ?_⟩
        · simp
        · simp [List.getD_eq_getElem?_getD, List.getElem?_set,
            ThermalModelEVCrossterms.CalculateChargeFluctuations.chi1]
        · intro _
          have : 1 < n + 1 := by omega
          simp [List.getD_eq_getElem?_getD, List.getElem?_set, this]
        · intro _
          have : 2 < n + 1 := by omega
          simp [List.getD_eq_getElem?_getD, List.getElem?_set, this]
        · intro h; omega
        · intro k hk hk2
          have hk0 : ¬ (0 = k) := by omega
          have hk1 : ¬ (1 = k) := by omega
          have hk3 : ¬ (2 = k) := by omega
          simp [List.getD_eq_getElem?_getD, List.getElem?_set, hk0, hk1, hk3,
            List.getElem?_replicate]
          split_ifs <;> rfl
      · simp only [c4, if_false]
        have hn : 4 ≤ n := by omega
        refine ⟨_, rfl, ?_, ?_, ?_, ?_, ?_, ?_⟩
        · simp
        · simp [List.getD_eq_getElem?_getD, List.getElem?_set,
            ThermalModelEVCrossterms.CalculateChargeFluctuations.chi1]
        · intro _
          have : 1 < n + 1 := by omega
          simp [List.getD_eq_getElem?_getD, List.getElem?_set, this]
        · intro _
          have : 2 < n + 1 := by omega
          simp [List.getD_eq_getElem?_getD, List.getElem?_set, this]
        · intro _
          have : 3 < n + 1 := by omega
          simp [List.getD_eq_getElem?_getD, List.getElem?_set, this]
        · intro k hk hk2
          have hk4 : 4 ≤ k := by omega
          have hk0 : ¬ (0 = k) := by omega
          have hk1 : ¬ (1 = k) := by omega
          have hk3 : ¬ (2 = k) := by omega
          have hk5 : ¬ (3 = k) := by omega
          simp [List.getD_eq_getElem?_getD, List.getElem?_set, hk0, hk1, hk3, hk5,
            List.getElem?_replicate]
          split_ifs <;> rfl

/-- C32: for every charge vector `chgs` of length `N` and every `order ≥ 0`,
`CalculateChargeFluctuations(chgs, order)` returns a vector of length `order + 1` whose
entry 0 is `chi1 = Σ_i chgs[i]·densities[i] / (T·GeVtoifm)³`; entry `k − 1` holds the value
`chi_k` computed by the block of order `k` for `2 ≤ k ≤ min(order, 4)`, and every other
entry (every index `k ≥ 1` with `k ≥ order` or `k ≥ 4`) is `0`. -/
theorem C32_CalculateChargeFluctuations {N : ℕ} (M : ThermalModelEVCrossterms N)
    (GeVtoifm : ℚ) (fresh : ℕ → ℕ → ℚ) (chgs : List ℚ) (order : Int)
    (hlen : chgs.length = N) (horder : 0 ≤ order) :
    ∃ ret : List ℚ,
      M.CalculateChargeFluctuations GeVtoifm fresh chgs order = Outcome.ret ret ∧
      (ret.length : Int) = order + 1 ∧
      ret.getD 0 0
        = (∑ i : Fin N, chgs.getD i.val 0 * M.m_densities i)
          / (M.m_Parameters.T * GeVtoifm) ^ 3 ∧
      (2 ≤ order → ret.getD 1 0
        = ThermalModelEVCrossterms.CalculateChargeFluctuations.chi2 M GeVtoifm fresh chgs) ∧
      (3 ≤ order → ret.getD 2 0
        = ThermalModelEVCrossterms.CalculateChargeFluctuations.chi3 M GeVtoifm fresh chgs) ∧
      (4 ≤ order → ret.getD 3 0
        = ThermalModelEVCrossterms.CalculateChargeFluctuations.chi4 M GeVtoifm fresh chgs) ∧
      (∀ k : ℕ, 1 ≤ k → (order ≤ (k : Int) ∨ 4 ≤ k) → ret.getD k 0 = 0) :=
  CalculateChargeFluctuations_spec M GeVtoifm fresh chgs order hlen horder

theorem C32_CalculateChargeFluctuations_witness :
    ∃ ret : List ℚ,
      fluctGas.CalculateChargeFluctuations 1 (fun _ _ => 0) [1] 1 = Outcome.ret ret ∧
      (ret.length : Int) = 1 + 1 ∧ ret.getD 1 0 = 0 := by
  obtain ⟨ret, h, hl, -, -, -, -, hz⟩ :=
    C32_CalculateChargeFluctuations fluctGas 1 (fun _ _ => 0) [1] 1 rfl (by decide)
  exact ⟨ret, h, hl, hz 1 (le_refl 1) (Or.inl (le_refl _))⟩

/-! ## The linear systems of `CalculateChargeFluctuations` -/

theorem solve_eq_inv {n : Type} [Fintype n] [DecidableEq n] (M : Matrix n n ℚ) (b : n → ℚ) :
    solve M b = M⁻¹.mulVec b := by
  unfold solve
  rw [Matrix.inv_def, Ring.inverse_eq_inv']

theorem solve_of_mul_eq_one {n : Type} [Fintype n] [DecidableEq n] (M Minv : Matrix n n ℚ)
    (h : M * Minv = 1) (b : n → ℚ) : solve M b = Minv.mulVec b := by
  rw [solve_eq_inv, Matrix.inv_eq_right_inv h]

theorem solve_smul {n : Type} [Fintype n] [DecidableEq n] (M : Matrix n n ℚ) (c : ℚ)
    (b : n → ℚ) : solve M (c • b) = c • solve M b := by
  unfold solve
  rw [Matrix.mulVec_smul]

/-- The value of `chi2` for the gas `fluctGas` with unit charge when the storage of
`densMatrix` holds `g` everywhere. -/
theorem fluctGas_chi2 (g : ℚ) (hg : 1 + g ≠ 0) :
    ThermalModelEVCrossterms.CalculateChargeFluctuations.chi2 fluctGas 1 (fun _ _ => g) [1]
      = 1 / (1 + g) := by
  have hinv : ThermalModelEVCrossterms.CalculateChargeFluctuations.densMatrix fluctGas 1
        (fun _ _ => g)
      * (Matrix.of fun (r c : Fin 1 ⊕ Fin 1) =>
          match r, c with
          | Sum.inl _, Sum.inl _ => (1 + g)⁻¹
          | Sum.inl _, Sum.inr _ => (1 + g)⁻¹
          | Sum.inr _, Sum.inl _ => -g * (1 + g)⁻¹
          | Sum.inr _, Sum.inr _ => (1 + g)⁻¹) = 1 := by
    have h0 : ∀ k : Fin 1, k = 0 := fun k => Subsingleton.elim _ _
    ext r c
    rcases r with i | i <;> rcases c with j | j <;> rw [h0 i, h0 j]
    · simp [Matrix.mul_apply, Fintype.sum_sum_type, Matrix.one_apply,
        ThermalModelEVCrossterms.CalculateChargeFluctuations.densMatrix,
        ThermalModelEVCrossterms.CalculateChargeFluctuations.DensitiesId,
        ThermalModelEVCrossterms.CalculateChargeFluctuations.chiid, fluctGas]
      field_simp
    · simp [Matrix.mul_apply, Fintype.sum_sum_type, Matrix.one_apply,
        ThermalModelEVCrossterms.CalculateChargeFluctuations.densMatrix,
        ThermalModelEVCrossterms.CalculateChargeFluctuations.DensitiesId,
        ThermalModelEVCrossterms.CalculateChargeFluctuations.chiid, fluctGas]
    · simp [Matrix.mul_apply, Fintype.sum_sum_type, Matrix.one_apply,
        ThermalModelEVCrossterms.CalculateChargeFluctuations.densMatrix,
        ThermalModelEVCrossterms.CalculateChargeFluctuations.DensitiesId,
        ThermalModelEVCrossterms.CalculateChargeFluctuations.chiid, fluctGas]
    · simp [Matrix.mul_apply, Fintype.sum_sum_type, Matrix.one_apply,
        ThermalModelEVCrossterms.CalculateChargeFluctuations.densMatrix,
        ThermalModelEVCrossterms.CalculateChargeFluctuations.DensitiesId,
        ThermalModelEVCrossterms.CalculateChargeFluctuations.chiid, fluctGas]
      field_simp
      ring
  unfold ThermalModelEVCrossterms.CalculateChargeFluctuations.chi2
    ThermalModelEVCrossterms.CalculateChargeFluctuations.solVector2
  rw [solve_of_mul_eq_one _ _ hinv]
  simp [Matrix.mulVec, Matrix.dotProduct, Fintype.sum_sum_type,
    ThermalModelEVCrossterms.CalculateChargeFluctuations.xVector2, fluctGas]

/-- C33, the lower-left block is never assigned: no statement of
`CalculateChargeFluctuations` writes an entry of a row `NN + i` and a column `j < NN` of
`densMatrix`, so the decomposition reads what the storage held, and for `order ≥ 2` the
result depends on it.  For one species without interaction, susceptibilities `1`, `T = 1`
and unit charge, the call with `order = 2` returns `chi2 = 1` when the storage held `0` and
`chi2 = 1/2` when it held `1`. -/
theorem C33_unassigned_block_decides_result :
    (∀ (N : ℕ) (M : ThermalModelEVCrossterms N) (GeVtoifm : ℚ) (fresh : ℕ → ℕ → ℚ)
        (i j : Fin N),
      ThermalModelEVCrossterms.CalculateChargeFluctuations.densMatrix M GeVtoifm fresh
          (Sum.inr i) (Sum.inl j) = fresh (N + i.val) j.val) ∧
    fluctGas.CalculateChargeFluctuations 1 (fun _ _ => 0) [1] 2 = Outcome.ret [1, 1, 0] ∧
    fluctGas.CalculateChargeFluctuations 1 (fun _ _ => 1) [1] 2
      = Outcome.ret [1, 1 / 2, 0] := by
  have hchi1 : ThermalModelEVCrossterms.CalculateChargeFluctuations.chi1 fluctGas 1 [1]
      = 1 := by
    simp [ThermalModelEVCrossterms.CalculateChargeFluctuations.chi1, fluctGas]
  refine ⟨fun N M G fresh i j => rfl, ?_, ?_⟩
  · have h := fluctGas_chi2 0 (by norm_num)
    unfold ThermalModelEVCrossterms.CalculateChargeFluctuations
    simp only [hchi1, h]
    norm_num
    rfl
  · have h := fluctGas_chi2 1 (by norm_num)
    unfold ThermalModelEVCrossterms.CalculateChargeFluctuations
    simp only [hchi1, h]
    norm_num
    rfl

/-! ## The fluctuations without interaction -/

theorem MuStar_zero_virial {N : ℕ} (M : ThermalModelEVCrossterms N)
    (hV : ∀ i j, M.m_Virial i j = 0) (i : Fin N) :
    ThermalModelEVCrossterms.CalculateChargeFluctuations.MuStar M i = M.m_Chem i := by
  unfold ThermalModelEVCrossterms.CalculateChargeFluctuations.MuStar
    ThermalModelEVCrossterms.MuShift
  split_ifs <;> simp [hV]

theorem chiid_zero_virial {N : ℕ} (M : ThermalModelEVCrossterms N)
    (hV : ∀ i j, M.m_Virial i j = 0) (n : ℕ) (i : Fin N) :
    ThermalModelEVCrossterms.CalculateChargeFluctuations.chiid M n i
      = (M.Particles i).chi n M.m_Parameters M.m_UseWidth (M.m_Chem i) 0 := by
  unfold ThermalModelEVCrossterms.CalculateChargeFluctuations.chiid
  rw [MuStar_zero_virial M hV]

theorem densMatrix_zero_virial {N : ℕ} (M : ThermalModelEVCrossterms N) (GeVtoifm : ℚ)
    (fresh : ℕ → ℕ → ℚ) (hV : ∀ i j, M.m_Virial i j = 0)
    (hfresh : ∀ i j : Fin N, fresh (N + i.val) j.val = 0) :
    ThermalModelEVCrossterms.CalculateChargeFluctuations.densMatrix M GeVtoifm fresh
      = Matrix.fromBlocks 1
          (-Matrix.diagonal fun i =>
            ThermalModelEVCrossterms.CalculateChargeFluctuations.chiid M 2 i * GeVtoifm ^ 3
              * M.m_Parameters.T * M.m_Parameters.T)
          0 1 := by
  ext r c
  rcases r with i | i <;> rcases c with j | j
  · simp [ThermalModelEVCrossterms.CalculateChargeFluctuations.densMatrix, hV,
      Matrix.one_apply]
  · by_cases hij : i = j
    · simp [ThermalModelEVCrossterms.CalculateChargeFluctuations.densMatrix, hV, hij]
    · simp [ThermalModelEVCrossterms.CalculateChargeFluctuations.densMatrix, hV, hij]
  · simp [ThermalModelEVCrossterms.CalculateChargeFluctuations.densMatrix, hfresh]
  · simp [ThermalModelEVCrossterms.CalculateChargeFluctuations.densMatrix, hV,
      Matrix.one_apply]

theorem solve_zero_virial {N : ℕ} (M : ThermalModelEVCrossterms N) (GeVtoifm : ℚ)
    (fresh : ℕ → ℕ → ℚ) (hV : ∀ i j, M.m_Virial i j = 0)
    (hfresh : ∀ i j : Fin N, fresh (N + i.val) j.val = 0) (x : Fin N ⊕ Fin N → ℚ) :
    solve (ThermalModelEVCrossterms.CalculateChargeFluctuations.densMatrix M GeVtoifm fresh) x
      = Sum.elim
          (fun i => x (Sum.inl i)
            + ThermalModelEVCrossterms.CalculateChargeFluctuations.chiid M 2 i * GeVtoifm ^ 3
              * M.m_Parameters.T * M.m_Parameters.T * x (Sum.inr i))
          (fun i => x (Sum.inr i)) := by
  rw [densMatrix_zero_virial M GeVtoifm fresh hV hfresh]
  have hinv : Matrix.fromBlocks (1 : Matrix (Fin N) (Fin N) ℚ)
        (-Matrix.diagonal fun i =>
          ThermalModelEVCrossterms.CalculateChargeFluctuations.chiid M 2 i * GeVtoifm ^ 3
            * M.m_Parameters.T * M.m_Parameters.T)
        0 (1 : Matrix (Fin N) (Fin N) ℚ)
      * Matrix.fromBlocks (1 : Matrix (Fin N) (Fin N) ℚ)
        (Matrix.diagonal fun i =>
          ThermalModelEVCrossterms.CalculateChargeFluctuations.chiid M 2 i * GeVtoifm ^ 3
            * M.m_Parameters.T * M.m_Parameters.T)
        0 (1 : Matrix (Fin N) (Fin N) ℚ) = 1 := by
    rw [Matrix.fromBlocks_multiply]
    simp [Matrix.fromBlocks_one]
  rw [solve_of_mul_eq_one _ _ hinv, Matrix.fromBlocks_mulVec]
  funext r
  rcases r with i | i
  · simp [Matrix.mulVec_diagonal]
  · simp

theorem xVector3_zero_virial {N : ℕ} (M : ThermalModelEVCrossterms N) (GeVtoifm : ℚ)
    (hV : ∀ i j, M.m_Virial i j = 0) (dni dmus : Fin N → ℚ) :
    ThermalModelEVCrossterms.CalculateChargeFluctuations.xVector3 M GeVtoifm dni dmus
      = Sum.elim
          (fun i => ThermalModelEVCrossterms.CalculateChargeFluctuations.chiid M 3 i
            * GeVtoifm ^ 3 * M.m_Parameters.T * dmus i * dmus i)
          (fun _ => 0) := by
  funext r
  rcases r with i | i
  · simp [ThermalModelEVCrossterms.CalculateChargeFluctuations.xVector3, hV]
  · simp [ThermalModelEVCrossterms.CalculateChargeFluctuations.xVector3, hV]

theorem xVector4_zero_virial {N : ℕ} (M : ThermalModelEVCrossterms N) (GeVtoifm : ℚ)
    (hV : ∀ i j, M.m_Virial i j = 0) (dni dmus d2ni d2mus : Fin N → ℚ) :
    ThermalModelEVCrossterms.CalculateChargeFluctuations.xVector4 M GeVtoifm dni dmus d2ni d2mus
      = Sum.elim
          (fun i => ThermalModelEVCrossterms.CalculateChargeFluctuations.chiid M 3 i
              * GeVtoifm ^ 3 * M.m_Parameters.T * d2mus i * 3 * dmus i
            + ThermalModelEVCrossterms.CalculateChargeFluctuations.chiid M 4 i
              * GeVtoifm ^ 3 * dmus i * dmus i * dmus i)
          (fun _ => 0) := by
  funext r
  rcases r with i | i
  · simp [ThermalModelEVCrossterms.CalculateChargeFluctuations.xVector4, hV]
  · simp [ThermalModelEVCrossterms.CalculateChargeFluctuations.xVector4, hV]

/-- The three susceptibilities of order 2, 3 and 4 for a zero virial matrix and a zero
lower-left block. -/
theorem chi_zero_virial {N : ℕ} (M : ThermalModelEVCrossterms N) (GeVtoifm : ℚ)
    (fresh : ℕ → ℕ → ℚ) (chgs : List ℚ) (hV : ∀ i j, M.m_Virial i j = 0)
    (hfresh : ∀ i j : Fin N, fresh (N + i.val) j.val = 0)
    (hT : M.m_Parameters.T ≠ 0) (hG : GeVtoifm ≠ 0) :
    ThermalModelEVCrossterms.CalculateChargeFluctuations.chi2 M GeVtoifm fresh chgs
      = ∑ i : Fin N, chgs.getD i.val 0 ^ 2
          * (M.Particles i).chi 2 M.m_Parameters M.m_UseWidth (M.m_Chem i) 0 ∧
    ThermalModelEVCrossterms.CalculateChargeFluctuations.chi3 M GeVtoifm fresh chgs
      = ∑ i : Fin N, chgs.getD i.val 0 ^ 3
          * (M.Particles i).chi 3 M.m_Parameters M.m_UseWidth (M.m_Chem i) 0 ∧
    ThermalModelEVCrossterms.CalculateChargeFluctuations.chi4 M GeVtoifm fresh chgs
      = ∑ i : Fin N, chgs.getD i.val 0 ^ 4
          * (M.Particles i).chi 4 M.m_Parameters M.m_UseWidth (M.m_Chem i) 0 := by
  have h2 : ThermalModelEVCrossterms.CalculateChargeFluctuations.solVector2 M GeVtoifm fresh
      chgs = Sum.elim
        (fun i => ThermalModelEVCrossterms.CalculateChargeFluctuations.chiid M 2 i
          * GeVtoifm ^ 3 * M.m_Parameters.T * M.m_Parameters.T * chgs.getD i.val 0)
        (fun i => chgs.getD i.val 0) := by
    unfold ThermalModelEVCrossterms.CalculateChargeFluctuations.solVector2
    rw [solve_zero_virial M GeVtoifm fresh hV hfresh]
    funext r
    rcases r with i | i <;>
      simp [ThermalModelEVCrossterms.CalculateChargeFluctuations.xVector2]
  have h3 : ThermalModelEVCrossterms.CalculateChargeFluctuations.solVector3 M GeVtoifm fresh
      chgs = Sum.elim
        (fun i => ThermalModelEVCrossterms.CalculateChargeFluctuations.chiid M 3 i
          * GeVtoifm ^ 3 * M.m_Parameters.T * chgs.getD i.val 0 * chgs.getD i.val 0)
        (fun _ => 0) := by
    unfold ThermalModelEVCrossterms.CalculateChargeFluctuations.solVector3
    rw [solve_zero_virial M GeVtoifm fresh hV hfresh, xVector3_zero_virial M GeVtoifm hV, h2]
    funext r
    rcases r with i | i <;> simp
  have h4 : ThermalModelEVCrossterms.CalculateChargeFluctuations.solVector4 M GeVtoifm fresh
      chgs = Sum.elim
        (fun i => ThermalModelEVCrossterms.CalculateChargeFluctuations.chiid M 4 i
          * GeVtoifm ^ 3 * chgs.getD i.val 0 * chgs.getD i.val 0 * chgs.getD i.val 0)
        (fun _ => 0) := by
    unfold ThermalModelEVCrossterms.CalculateChargeFluctuations.solVector4
    rw [solve_zero_virial M GeVtoifm fresh hV hfresh, xVector4_zero_virial M GeVtoifm hV,
      h2, h3]
    funext r
    rcases r with i | i <;> simp
  refine ⟨?_, ?_, ?_⟩
  · unfold ThermalModelEVCrossterms.CalculateChargeFluctuations.chi2
    rw [h2, Finset.sum_div]
    refine Finset.sum_congr rfl fun i _ => ?_
    simp only [Sum.elim_inl]
    rw [chiid_zero_virial M hV]
    field_simp
    ring
  · unfold ThermalModelEVCrossterms.CalculateChargeFluctuations.chi3
    rw [h3, Finset.sum_div]
    refine Finset.sum_congr rfl fun i _ => ?_
    simp only [Sum.elim_inl]
    rw [chiid_zero_virial M hV]
    field_simp
    ring
  · unfold ThermalModelEVCrossterms.CalculateChargeFluctuations.chi4
    rw [h4, Finset.sum_div]
    refine Finset.sum_congr rfl fun i _ => ?_
    simp only [Sum.elim_inl]
    rw [chiid_zero_virial M hV]
    field_simp
    ring

/-- C35: when the virial matrix is zero and the unassigned lower-left block of the matrix
holds zeros, `CalculateChargeFluctuations(q, 4)` returns `chi_n = Σ_i q_iⁿ·chi_id(n, i)`
for `n = 2, 3, 4`, where `chi_id(n, i)` is `chi(n, …)` of species `i` at its chemical
potential `m_Chem[i]` (the shift `MuShift(i)` is `0`), for every charge vector `q` of
length `N` and every `T > 0`; the constant `GeVtoifm` is not zero. -/
theorem C35_noninteracting_fluctuations {N : ℕ} (M : ThermalModelEVCrossterms N)
    (GeVtoifm : ℚ) (fresh : ℕ → ℕ → ℚ) (chgs : List ℚ)
    (hlen : chgs.length = N) (hV : ∀ i j, M.m_Virial i j = 0)
    (hfresh : ∀ i j : Fin N, fresh (N + i.val) j.val = 0)
    (hT : 0 < M.m_Parameters.T) (hG : GeVtoifm ≠ 0) :
    ∃ ret : List ℚ,
      M.CalculateChargeFluctuations GeVtoifm fresh chgs 4 = Outcome.ret ret ∧
      (∀ i : Fin N, M.MuShift (i.val : Int) = 0) ∧
      ret.getD 1 0
        = ∑ i : Fin N, chgs.getD i.val 0 ^ 2
            * (M.Particles i).chi 2 M.m_Parameters M.m_UseWidth (M.m_Chem i) 0 ∧
      ret.getD 2 0
        = ∑ i : Fin N, chgs.getD i.val 0 ^ 3
            * (M.Particles i).chi 3 M.m_Parameters M.m_UseWidth (M.m_Chem i) 0 ∧
      ret.getD 3 0
        = ∑ i : Fin N, chgs.getD i.val 0 ^ 4
            * (M.Particles i).chi 4 M.m_Parameters M.m_UseWidth (M.m_Chem i) 0 := by
  obtain ⟨ret, hret, -, -, e2, e3, e4, -⟩ :=
    CalculateChargeFluctuations_spec M GeVtoifm fresh chgs 4 hlen (by decide)
  obtain ⟨c2, c3, c4⟩ := chi_zero_virial M GeVtoifm fresh chgs hV hfresh (ne_of_gt hT) hG
  refine ⟨ret, hret, ?_, ?_, ?_, ?_⟩
  · intro i
    unfold ThermalModelEVCrossterms.MuShift
    split_ifs <;> simp [hV]
  · rw [e2 (by decide), c2]
  · rw [e3 (by decide), c3]
  · rw [e4 (by decide), c4]

theorem C35_noninteracting_fluctuations_witness :
    ∃ ret : List ℚ,
      fluctGas.CalculateChargeFluctuations 1 (fun _ _ => 0) [2] 4 = Outcome.ret ret ∧
      ret.getD 1 0 = 4 ∧ ret.getD 2 0 = 8 ∧ ret.getD 3 0 = 16 := by
  obtain ⟨ret, hret, -, e2, e3, e4⟩ :=
    C35_noninteracting_fluctuations fluctGas 1 (fun _ _ => 0) [2] rfl (fun _ _ => rfl)
      (fun _ _ => rfl) (by norm_num [fluctGas]) one_ne_zero
  refine ⟨ret, hret, ?_, ?_, ?_⟩
  · rw [e2]
    simp [fluctGas]
    norm_num
  · rw [e3]
    simp [fluctGas]
    norm_num
  · rw [e4]
    simp [fluctGas]
    norm_num

/-! ## Homogeneity of the susceptibilities -/

theorem getD_map_mul (lam : ℚ) (chgs : List ℚ) (k : ℕ) :
    (chgs.map fun q => lam * q).getD k 0 = lam * chgs.getD k 0 := by
  simp only [List.getD_eq_getElem?_getD, List.getElem?_map]
  cases chgs[k]? <;> simp

theorem xVector2_smul {N : ℕ} (lam : ℚ) (chgs : List ℚ) :
    (ThermalModelEVCrossterms.CalculateChargeFluctuations.xVector2
        (chgs.map fun q => lam * q) : Fin N ⊕ Fin N → ℚ)
      = lam • ThermalModelEVCrossterms.CalculateChargeFluctuations.xVector2 chgs := by
  funext r
  rcases r with i | i
  · simp [ThermalModelEVCrossterms.CalculateChargeFluctuations.xVector2]
  · simp only [ThermalModelEVCrossterms.CalculateChargeFluctuations.xVector2, Pi.smul_apply,
      smul_eq_mul, getD_map_mul]

theorem sum_virial_smul {N : ℕ} (M : ThermalModelEVCrossterms N) (c : ℚ) (v : Fin N → ℚ)
    (i : Fin N) :
    ∑ j, M.m_Virial j i * (c * v j) = c * ∑ j, M.m_Virial j i * v j := by
  rw [Finset.mul_sum]
  exact Finset.sum_congr rfl fun j _ => by ring

theorem xVector3_smul {N : ℕ} (M : ThermalModelEVCrossterms N) (GeVtoifm c : ℚ)
    (dni dmus : Fin N → ℚ) :
    ThermalModelEVCrossterms.CalculateChargeFluctuations.xVector3 M GeVtoifm
        (c • dni) (c • dmus)
      = c ^ 2 • ThermalModelEVCrossterms.CalculateChargeFluctuations.xVector3 M GeVtoifm
          dni dmus := by
  funext r
  rcases r with i | i
  · simp only [ThermalModelEVCrossterms.CalculateChargeFluctuations.xVector3, Pi.smul_apply,
      smul_eq_mul, sum_virial_smul]
    ring
  · simp only [ThermalModelEVCrossterms.CalculateChargeFluctuations.xVector3, Pi.smul_apply,
      smul_eq_mul]
    rw [Finset.mul_sum]
    exact Finset.sum_congr rfl fun j _ => by ring

theorem dnis_smul {N : ℕ} (M : ThermalModelEVCrossterms N) (GeVtoifm c : ℚ)
    (dmus : Fin N → ℚ) (i : Fin N) :
    ThermalModelEVCrossterms.CalculateChargeFluctuations.dnis M GeVtoifm (c • dmus) i
      = c * ThermalModelEVCrossterms.CalculateChargeFluctuations.dnis M GeVtoifm dmus i := by
  simp only [ThermalModelEVCrossterms.CalculateChargeFluctuations.dnis, Pi.smul_apply,
    smul_eq_mul]
  ring

theorem d2nis_smul {N : ℕ} (M : ThermalModelEVCrossterms N) (GeVtoifm c : ℚ)
    (dmus d2mus : Fin N → ℚ) (i : Fin N) :
    ThermalModelEVCrossterms.CalculateChargeFluctuations.d2nis M GeVtoifm (c • dmus)
        (c ^ 2 • d2mus) i
      = c ^ 2 * ThermalModelEVCrossterms.CalculateChargeFluctuations.d2nis M GeVtoifm dmus
          d2mus i := by
  simp only [ThermalModelEVCrossterms.CalculateChargeFluctuations.d2nis, Pi.smul_apply,
    smul_eq_mul]
  ring

theorem xVector4_smul {N : ℕ} (M : ThermalModelEVCrossterms N) (GeVtoifm c : ℚ)
    (dni dmus d2ni d2mus : Fin N → ℚ) :
    ThermalModelEVCrossterms.CalculateChargeFluctuations.xVector4 M GeVtoifm
        (c • dni) (c • dmus) (c ^ 2 • d2ni) (c ^ 2 • d2mus)
      = c ^ 3 • ThermalModelEVCrossterms.CalculateChargeFluctuations.xVector4 M GeVtoifm
          dni dmus d2ni d2mus := by
  funext r
  rcases r with i | i
  · simp only [ThermalModelEVCrossterms.CalculateChargeFluctuations.xVector4, dnis_smul,
      d2nis_smul, Pi.smul_apply, smul_eq_mul, sum_virial_smul]
    ring
  · simp only [ThermalModelEVCrossterms.CalculateChargeFluctuations.xVector4, dnis_smul,
      d2nis_smul, Pi.smul_apply, smul_eq_mul]
    rw [zero_add, zero_add, mul_add, Finset.mul_sum, Finset.mul_sum]
    congr 1
    · exact Finset.sum_congr rfl fun j _ => by ring
    · exact Finset.sum_congr rfl fun j _ => by ring

theorem solVector2_smul {N : ℕ} (M : ThermalModelEVCrossterms N) (GeVtoifm : ℚ)
    (fresh : ℕ → ℕ → ℚ) (chgs : List ℚ) (lam : ℚ) :
    ThermalModelEVCrossterms.CalculateChargeFluctuations.solVector2 M GeVtoifm fresh
        (chgs.map fun q => lam * q)
      = lam • ThermalModelEVCrossterms.CalculateChargeFluctuations.solVector2 M GeVtoifm
          fresh chgs := by
  unfold ThermalModelEVCrossterms.CalculateChargeFluctuations.solVector2
  rw [xVector2_smul, solve_smul]

theorem solVector3_smul {N : ℕ} (M : ThermalModelEVCrossterms N) (GeVtoifm : ℚ)
    (fresh : ℕ → ℕ → ℚ) (chgs : List ℚ) (lam : ℚ) :
    ThermalModelEVCrossterms.CalculateChargeFluctuations.solVector3 M GeVtoifm fresh
        (chgs.map fun q => lam * q)
      = lam ^ 2 • ThermalModelEVCrossterms.CalculateChargeFluctuations.solVector3 M GeVtoifm
          fresh chgs := by
  unfold ThermalModelEVCrossterms.CalculateChargeFluctuations.solVector3
  rw [solVector2_smul]
  show solve _ (ThermalModelEVCrossterms.CalculateChargeFluctuations.xVector3 M GeVtoifm
    (lam • fun i => ThermalModelEVCrossterms.CalculateChargeFluctuations.solVector2 M
      GeVtoifm fresh chgs (Sum.inl i))
    (lam • fun i => ThermalModelEVCrossterms.CalculateChargeFluctuations.solVector2 M
      GeVtoifm fresh chgs (Sum.inr i))) = _
  rw [xVector3_smul, solve_smul]

theorem solVector4_smul {N : ℕ} (M : ThermalModelEVCrossterms N) (GeVtoifm : ℚ)
    (fresh : ℕ → ℕ → ℚ) (chgs : List ℚ) (lam : ℚ) :
    ThermalModelEVCrossterms.CalculateChargeFluctuations.solVector4 M GeVtoifm fresh
        (chgs.map fun q => lam * q)
      = lam ^ 3 • ThermalModelEVCrossterms.CalculateChargeFluctuations.solVector4 M GeVtoifm
          fresh chgs := by
  unfold ThermalModelEVCrossterms.CalculateChargeFluctuations.solVector4
  rw [solVector2_smul, solVector3_smul]
  show solve _ (ThermalModelEVCrossterms.CalculateChargeFluctuations.xVector4 M GeVtoifm
    (lam • fun i => ThermalModelEVCrossterms.CalculateChargeFluctuations.solVector2 M
      GeVtoifm fresh chgs (Sum.inl i))
    (lam • fun i => ThermalModelEVCrossterms.CalculateChargeFluctuations.solVector2 M
      GeVtoifm fresh chgs (Sum.inr i))
    (lam ^ 2 • fun i => ThermalModelEVCrossterms.CalculateChargeFluctuations.solVector3 M
      GeVtoifm fresh chgs (Sum.inl i))
    (lam ^ 2 • fun i => ThermalModelEVCrossterms.CalculateChargeFluctuations.solVector3 M
      GeVtoifm fresh chgs (Sum.inr i))) = _
  rw [xVector4_smul, solve_smul]

theorem sum_charge_smul {N : ℕ} (chgs : List ℚ) (lam c D : ℚ) (s : Fin N → ℚ) :
    (∑ i : Fin N, (chgs.map fun q => lam * q).getD i.val 0 * (c * s i)) / D
      = lam * c * ((∑ i : Fin N, chgs.getD i.val 0 * s i) / D) := by
  rw [← mul_div_assoc, Finset.mul_sum]
  congr 1
  refine Finset.sum_congr rfl fun i _ => ?_
  rw [getD_map_mul]
  ring

/-- The four susceptibilities are homogeneous in the charge vector. -/
theorem chi_smul {N : ℕ} (M : ThermalModelEVCrossterms N) (GeVtoifm : ℚ)
    (fresh : ℕ → ℕ → ℚ) (chgs : List ℚ) (lam : ℚ) :
    ThermalModelEVCrossterms.CalculateChargeFluctuations.chi1 M GeVtoifm
        (chgs.map fun q => lam * q)
      = lam ^ 1 * ThermalModelEVCrossterms.CalculateChargeFluctuations.chi1 M GeVtoifm chgs ∧
    ThermalModelEVCrossterms.CalculateChargeFluctuations.chi2 M GeVtoifm fresh
        (chgs.map fun q => lam * q)
      = lam ^ 2 * ThermalModelEVCrossterms.CalculateChargeFluctuations.chi2 M GeVtoifm fresh
          chgs ∧
    ThermalModelEVCrossterms.CalculateChargeFluctuations.chi3 M GeVtoifm fresh
        (chgs.map fun q => lam * q)
      = lam ^ 3 * ThermalModelEVCrossterms.CalculateChargeFluctuations.chi3 M GeVtoifm fresh
          chgs ∧
    ThermalModelEVCrossterms.CalculateChargeFluctuations.chi4 M GeVtoifm fresh
        (chgs.map fun q => lam * q)
      = lam ^ 4 * ThermalModelEVCrossterms.CalculateChargeFluctuations.chi4 M GeVtoifm fresh
          chgs := by
  refine ⟨?_, ?_, ?_, ?_⟩
  · unfold ThermalModelEVCrossterms.CalculateChargeFluctuations.chi1
    have h := sum_charge_smul chgs lam 1 ((M.m_Parameters.T * GeVtoifm) ^ 3) M.m_densities
    simp only [one_mul, mul_one] at h
    rw [h, pow_one]
  · unfold ThermalModelEVCrossterms.CalculateChargeFluctuations.chi2
    rw [solVector2_smul]
    simp only [Pi.smul_apply, smul_eq_mul]
    rw [sum_charge_smul]
    ring
  · unfold ThermalModelEVCrossterms.CalculateChargeFluctuations.chi3
    rw [solVector3_smul]
    simp only [Pi.smul_apply, smul_eq_mul]
    rw [sum_charge_smul]
    ring
  · unfold ThermalModelEVCrossterms.CalculateChargeFluctuations.chi4
    rw [solVector4_smul]
    simp only [Pi.smul_apply, smul_eq_mul]
    rw [sum_charge_smul]
    ring

/-- C34: for a fixed model state and fixed content of the matrix of size `2N`, taken to be
invertible, for every charge vector `q` of length `N`, every scalar `λ` and every
`order ≥ 0`, the entries returned by `CalculateChargeFluctuations` satisfy
`chi_n(λ·q) = λⁿ·chi_n(q)` for `n = 1, 2, 3, 4` (entry `n − 1` of the two vectors). -/
theorem C34_homogeneity {N : ℕ} (M : ThermalModelEVCrossterms N) (GeVtoifm : ℚ)
    (fresh : ℕ → ℕ → ℚ) (chgs : List ℚ) (lam : ℚ) (order : Int)
    (hlen : chgs.length = N) (horder : 0 ≤ order)
    (_hdet : (ThermalModelEVCrossterms.CalculateChargeFluctuations.densMatrix M GeVtoifm
      fresh).det ≠ 0) :
    ∃ r rl : List ℚ,
      M.CalculateChargeFluctuations GeVtoifm fresh chgs order = Outcome.ret r ∧
      M.CalculateChargeFluctuations GeVtoifm fresh (chgs.map fun q => lam * q) order
        = Outcome.ret rl ∧
      ∀ n : ℕ, 1 ≤ n → n ≤ 4 → rl.getD (n - 1) 0 = lam ^ n * r.getD (n - 1) 0 := by
  obtain ⟨r, hr, -, e1, e2, e3, e4, ez⟩ :=
    CalculateChargeFluctuations_spec M GeVtoifm fresh chgs order hlen horder
  obtain ⟨rl, hrl, -, f1, f2, f3, f4, fz⟩ :=
    CalculateChargeFluctuations_spec M GeVtoifm fresh (chgs.map fun q => lam * q) order
      (by rw [List.length_map]; exact hlen) horder
  obtain ⟨c1, c2, c3, c4⟩ := chi_smul M GeVtoifm fresh chgs lam
  refine ⟨r, rl, hr, hrl, ?_⟩
  intro n hn1 hn4
  interval_cases n
  · show rl.getD 0 0 = lam ^ 1 * r.getD 0 0
    rw [f1, e1]
    exact c1
  · show rl.getD 1 0 = lam ^ 2 * r.getD 1 0
    by_cases h : 2 ≤ order
    · rw [f2 h, e2 h, c2]
    · rw [fz 1 (le_refl 1) (Or.inl (by omega)), ez 1 (le_refl 1) (Or.inl (by omega)),
        mul_zero]
  · show rl.getD 2 0 = lam ^ 3 * r.getD 2 0
    by_cases h : 3 ≤ order
    · rw [f3 h, e3 h, c3]
    · rw [fz 2 (by decide) (Or.inl (by omega)), ez 2 (by decide) (Or.inl (by omega)),
        mul_zero]
  · show rl.getD 3 0 = lam ^ 4 * r.getD 3 0
    by_cases h : 4 ≤ order
    · rw [f4 h, e4 h, c4]
    · rw [fz 3 (by decide) (Or.inl (by omega)), ez 3 (by decide) (Or.inl (by omega)),
        mul_zero]

theorem C34_homogeneity_witness :
    ∃ r rl : List ℚ,
      fluctGas.CalculateChargeFluctuations 1 (fun _ _ => 0) [1] 4 = Outcome.ret r ∧
      fluctGas.CalculateChargeFluctuations 1 (fun _ _ => 0) ([1].map fun q => 2 * q) 4
        = Outcome.ret rl ∧
      rl.getD 3 0 = 2 ^ 4 * r.getD 3 0 := by
  obtain ⟨r, rl, hr, hrl, h⟩ :=
    C34_homogeneity fluctGas 1 (fun _ _ => 0) [1] 2 4 rfl (by decide)
      (by
        rw [densMatrix_zero_virial fluctGas 1 _ (fun _ _ => rfl) (fun _ _ => rfl),
          Matrix.det_fromBlocks_zero₂₁]
        simp)
  exact ⟨r, rl, hr, hrl, h 4 (by decide) (le_refl 4)⟩

/-! ## Newton mode of `Broyden::Solve` -/

theorem newtonSequence_succ (eqs : BroydenEquations) (jac : JacobianRef)
    (x0 : Fin eqs.m_N → ℚ) (k : ℕ) (J : MatrixXd)
    (hJ : jac.Jacobian (toVector (newtonSequence eqs jac x0 k)) = Outcome.ret J) :
    newtonSequence eqs jac x0 (k + 1)
      = newtonSequence eqs jac x0 k
        - (inverse (J.toMatrix eqs.m_N)).mulVec (eqs.Equations (newtonSequence eqs jac x0 k)) := by
  show newtonSequence eqs jac x0 k
      - (inverse (((jac.Jacobian (toVector (newtonSequence eqs jac x0 k))).getD
            { size := 0, coeff := fun _ _ => 0 }).toMatrix eqs.m_N)).mulVec
          (eqs.Equations (newtonSequence eqs jac x0 k)) = _
  rw [hJ]
  rfl

theorem toMatrix_det_ne_zero (J : MatrixXd) (N : ℕ) (hsize : J.size = N)
    (hdet : J.determinant ≠ 0) : (J.toMatrix N).det ≠ 0 := by
  subst hsize
  exact hdet

/-- The loop of `Broyden::Solve` in Newton mode, entered at the term `x_k` of Newton's
sequence with none of `x_1 … x_k` accepted, ends at a term `x_m` of the sequence: either
the iteration bound is used up, or `x_m` is the first term after `x_k` that the criterion
accepts.  The Jacobian is assumed non-singular at the terms where the loop evaluates it:
`x_0`, and each `x_k` within the bound such that none of `x_1 … x_k` is accepted. -/
theorem SolveLoop_newton (eqs : BroydenEquations) (crit : SolutionCriteriumRef)
    (jac : JacobianRef) (max_iterations : Int) (x0 : Fin eqs.m_N → ℚ)
    (hns : ∀ k : ℕ, (k : Int) < max_iterations →
      (∀ j, 0 < j → j ≤ k → newtonAccepted eqs crit jac x0 j = false) →
      ∃ J, jac.Jacobian (toVector (newtonSequence eqs jac x0 k)) = Outcome.ret J
        ∧ J.size = eqs.m_N ∧ J.determinant ≠ 0) :
    ∀ (n k : ℕ) (s : SolveState eqs.m_N),
      (max_iterations - ((k : Int) + 1)).toNat = n → (k : Int) + 1 ≤ max_iterations →
      (∀ j, 0 < j → j ≤ k → newtonAccepted eqs crit jac x0 j = false) →
      s.xold = newtonSequence eqs jac x0 k →
      s.fold = eqs.Equations (newtonSequence eqs jac x0 k) →
      (∀ J, jac.Jacobian (toVector (newtonSequence eqs jac x0 k)) = Outcome.ret J →
        s.Jinv = inverse (J.toMatrix eqs.m_N)) →
      s.xcur = toVector (newtonSequence eqs jac x0 k) →
      s.finite = true →
      ∃ (m : ℕ) (it1 : Int) (s1 : SolveState eqs.m_N),
        Broyden.SolveLoop eqs crit jac true max_iterations ((k : Int) + 1) s
            = Outcome.ret (it1, s1)
        ∧ s1.xcur = toVector (newtonSequence eqs jac x0 m)
        ∧ s1.finite = true
        ∧ k ≤ m
        ∧ (∀ j, k < j → j < m → newtonAccepted eqs crit jac x0 j = false)
        ∧ ((it1 = max_iterations ∧ (m : Int) + 1 = max_iterations
              ∧ (k < m → newtonAccepted eqs crit jac x0 m = false))
          ∨ (it1 < max_iterations ∧ (m : Int) = it1 ∧ k < m
              ∧ newtonAccepted eqs crit jac x0 m = true)) := by
  intro n
  induction n with
  | zero =>
    intro k s hn hle _ _ _ _ hxcur hfin
    have hge : ¬ ((k : Int) + 1 < max_iterations) := by
      intro hlt
      have : 0 < (max_iterations - ((k : Int) + 1)).toNat := by
        rw [Int.lt_toNat]
        simpa using hlt
      omega
    refine ⟨k, (k : Int) + 1, s, SolveLoop_done eqs crit jac true max_iterations _ s hge,
      hxcur, hfin, le_refl k, fun j h1 h2 => absurd (lt_trans h1 h2) (lt_irrefl k), ?_⟩
    left
    have heq : (k : Int) + 1 = max_iterations := le_antisymm hle (not_lt.mp hge)
    exact ⟨heq, heq, fun h => absurd h (lt_irrefl k)⟩
  | succ n ih =>
    intro k s hn hle hprev hxold hfold hJinv hxcur hfin
    have hlt : (k : Int) + 1 < max_iterations := by
      by_contra hge
      have : (max_iterations - ((k : Int) + 1)).toNat = 0 := by
        rw [Int.toNat_eq_zero]
        linarith [not_lt.mp hge]
      omega
    have hk : (k : Int) < max_iterations := by linarith
    obtain ⟨J, hJ, -, -⟩ := hns k hk hprev
    have hx : s.xold - s.Jinv.mulVec s.fold = newtonSequence eqs jac x0 (k + 1) := by
      rw [newtonSequence_succ eqs jac x0 k J hJ, hxold, hfold, hJinv J hJ]
    have hk1 : ((k + 1 : ℕ) : Int) = (k : Int) + 1 := by push_cast; rfl
    have hacc : newtonAccepted eqs crit jac x0 (k + 1)
        = crit.IsSolved (toVector (s.xold - s.Jinv.mulVec s.fold))
            (toVector (eqs.Equations (s.xold - s.Jinv.mulVec s.fold)))
            (toVector (s.xold - s.Jinv.mulVec s.fold - s.xold)) := by
      rw [hx, hxold]
      rfl
    cases hb : newtonAccepted eqs crit jac x0 (k + 1) with
    | true =>
      have hs := hacc.symm.trans hb
      refine ⟨k + 1, (k : Int) + 1, _,
        SolveLoop_break eqs crit jac true max_iterations _ s hlt hs, ?_, hfin,
        Nat.le_succ k, fun j h1 h2 => by omega, ?_⟩
      · show toVector (s.xold - s.Jinv.mulVec s.fold) = _
        rw [hx]
      · right
        exact ⟨hlt, hk1, Nat.lt_succ_self k, hb⟩
    | false =>
      have hs := hacc.symm.trans hb
      have hk1lt : ((k + 1 : ℕ) : Int) < max_iterations := by rw [hk1]; exact hlt
      have hprev1 : ∀ j, 0 < j → j ≤ k + 1 →
          newtonAccepted eqs crit jac x0 j = false := by
        intro j h1 h2
        by_cases hj : j = k + 1
        · rw [hj]; exact hb
        · exact hprev j h1 (by omega)
      obtain ⟨J1, hJ1, hsize1, hdet1⟩ := hns (k + 1) hk1lt hprev1
      have hcont := SolveLoop_continue eqs crit jac true max_iterations _ s hlt hs
      have hnext : Broyden.nextJinv eqs jac true s.Jinv
          (toVector (s.xold - s.Jinv.mulVec s.fold))
          (s.xold - s.Jinv.mulVec s.fold - s.xold)
          (eqs.Equations (s.xold - s.Jinv.mulVec s.fold) - s.fold)
            = Outcome.ret (inverse (J1.toMatrix eqs.m_N)) := by
        rw [hx]
        simp only [Broyden.nextJinv, Bool.not_true, Bool.false_eq_true, if_false, hJ1, hsize1,
          if_true]
      have hnf : Broyden.nextFinite jac true s.Jinv
          (toVector (s.xold - s.Jinv.mulVec s.fold))
          (s.xold - s.Jinv.mulVec s.fold - s.xold)
          (eqs.Equations (s.xold - s.Jinv.mulVec s.fold) - s.fold) = true := by
        rw [hx]
        simp only [Broyden.nextFinite, Bool.not_true, Bool.false_eq_true, if_false, hJ1]
        exact decide_eq_true hdet1
      rw [hnext] at hcont
      have hn1 : (max_iterations - (((k + 1 : ℕ) : Int) + 1)).toNat = n := by
        omega
      obtain ⟨m, it1, s1, hloop, hm, hfin1, hkm, hnot, hcases⟩ := ih (k + 1)
        { xcur := toVector (s.xold - s.Jinv.mulVec s.fold)
          xold := s.xold - s.Jinv.mulVec s.fold
          fold := eqs.Equations (s.xold - s.Jinv.mulVec s.fold)
          Jinv := inverse (J1.toMatrix eqs.m_N)
          maxdiff := maxAbs (toVector (s.xold - s.Jinv.mulVec s.fold)).length
            (toVector (eqs.Equations (s.xold - s.Jinv.mulVec s.fold)))
          finite := s.finite
            && Broyden.nextFinite jac true s.Jinv
                (toVector (s.xold - s.Jinv.mulVec s.fold))
                (s.xold - s.Jinv.mulVec s.fold - s.xold)
                (eqs.Equations (s.xold - s.Jinv.mulVec s.fold) - s.fold) }
        hn1 (by omega) hprev1 hx (by rw [← hx])
        (fun J2 hJ2 => by
          have h3 : Outcome.ret J1 = Outcome.ret J2 := hJ1.symm.trans hJ2
          simp only [Outcome.ret.injEq] at h3
          rw [h3])
        (by rw [← hx]) (by rw [hfin, hnf]; rfl)
      rw [hk1] at hloop
      refine ⟨m, it1, s1, hcont.trans hloop, hm, hfin1, by omega, ?_, ?_⟩
      · intro j h1 h2
        by_cases hj : j = k + 1
        · rw [hj]; exact hb
        · exact hnot j (by omega) h2
      · rcases hcases with ⟨h1, h2, h3⟩ | ⟨h1, h2, h3, h4⟩
        · left
          refine ⟨h1, h2, fun _ => ?_⟩
          by_cases hmk : m = k + 1
          · rw [hmk]; exact hb
          · exact h3 (by omega)
        · right
          exact ⟨h1, h2, by omega, h4⟩

/-- C26: let `x_{k+1} = x_k − J(x_k)⁻¹·f(x_k)` be Newton's sequence from the start vector
`x_0`, with `J(x_k)` the matrix that the installed Jacobian provider returns at `x_k`, and
assume that the provider returns a non-singular matrix of the right size at every point
where `Broyden::Solve` evaluates it: at `x_0`, and at each `x_k` within the iteration
bound such that the criterion accepts none of `x_1 … x_k`.  With `m_UseNewton` set,
`Broyden::Solve` returns a term `x_m` of that sequence, namely the first one (`m ≥ 1`)
that the criterion accepts, with `m_Iterations = m`, or, when none of
`x_1 … x_{max_iterations − 1}` is accepted, the term `x_{max_iterations − 1}` with
`m_Iterations = max_iterations`, and no inverse that it has computed on the way is that of
a singular matrix; each of these terms satisfies the Newton equation
`J(x_k)·(x_k − x_{k+1}) = f(x_k)`; with `m_UseNewton` not set, the call with
`max_iterations = 2` returns the first Newton iterate `x_1`. -/
theorem C26_newton_steps (self : Broyden) (eqs : BroydenEquations) (x0 : List ℚ)
    (solcrit : Option SolutionCriteriumRef) (max_iterations : Int)
    (hEq : self.m_Equations = some eqs) (hx0 : x0.length = eqs.m_N)
    (hmax : 1 ≤ max_iterations)
    (hns : ∀ k : ℕ, (k : Int) < max_iterations →
      (∀ j, 0 < j → j ≤ k →
        newtonAccepted eqs (Broyden.criteriumInUse solcrit)
          (Broyden.jacobianInUse self.m_Jacobian eqs) (ofVector eqs.m_N x0) j = false) →
      ∃ J, (Broyden.jacobianInUse self.m_Jacobian eqs).Jacobian
          (toVector (newtonSequence eqs (Broyden.jacobianInUse self.m_Jacobian eqs)
            (ofVector eqs.m_N x0) k)) = Outcome.ret J
        ∧ J.size = eqs.m_N ∧ J.determinant ≠ 0) :
    (self.m_UseNewton = true →
      ∃ (m : ℕ) (after : Broyden),
        self.Solve x0 solcrit max_iterations
          = Outcome.ret (toVector (newtonSequence eqs
              (Broyden.jacobianInUse self.m_Jacobian eqs) (ofVector eqs.m_N x0) m), after)
        ∧ (∀ j, 0 < j → j < m →
            newtonAccepted eqs (Broyden.criteriumInUse solcrit)
              (Broyden.jacobianInUse self.m_Jacobian eqs) (ofVector eqs.m_N x0) j = false)
        ∧ ((after.m_Iterations = max_iterations ∧ (m : Int) + 1 = max_iterations
              ∧ (0 < m → newtonAccepted eqs (Broyden.criteriumInUse solcrit)
                  (Broyden.jacobianInUse self.m_Jacobian eqs) (ofVector eqs.m_N x0) m = false))
          ∨ (after.m_Iterations < max_iterations ∧ (m : Int) = after.m_Iterations ∧ 0 < m
              ∧ newtonAccepted eqs (Broyden.criteriumInUse solcrit)
                  (Broyden.jacobianInUse self.m_Jacobian eqs) (ofVector eqs.m_N x0) m = true))
        ∧ ∃ (it1 : Int) (s1 : SolveState eqs.m_N),
            Broyden.SolveLoop eqs (Broyden.criteriumInUse solcrit)
                (Broyden.jacobianInUse self.m_Jacobian eqs) true max_iterations 1
                (Broyden.initialState self eqs x0
                  (((Broyden.jacobianInUse self.m_Jacobian eqs).Jacobian x0).getD
                    { size := 0, coeff := fun _ _ => 0 }))
              = Outcome.ret (it1, s1)
            ∧ s1.finite = true)
    ∧ (∀ k : ℕ, (k : Int) < max_iterations →
        (∀ j, 0 < j → j ≤ k →
          newtonAccepted eqs (Broyden.criteriumInUse solcrit)
            (Broyden.jacobianInUse self.m_Jacobian eqs) (ofVector eqs.m_N x0) j = false) →
        ∀ J,
        (Broyden.jacobianInUse self.m_Jacobian eqs).Jacobian
          (toVector (newtonSequence eqs (Broyden.jacobianInUse self.m_Jacobian eqs)
            (ofVector eqs.m_N x0) k)) = Outcome.ret J →
        (J.toMatrix eqs.m_N).mulVec
            (newtonSequence eqs (Broyden.jacobianInUse self.m_Jacobian eqs)
                (ofVector eqs.m_N x0) k
              - newtonSequence eqs (Broyden.jacobianInUse self.m_Jacobian eqs)
                (ofVector eqs.m_N x0) (k + 1))
          = eqs.Equations (newtonSequence eqs (Broyden.jacobianInUse self.m_Jacobian eqs)
              (ofVector eqs.m_N x0) k))
    ∧ (self.m_UseNewton = false →
        ∃ after : Broyden,
          self.Solve x0 solcrit 2
            = Outcome.ret (toVector (newtonSequence eqs
                (Broyden.jacobianInUse self.m_Jacobian eqs) (ofVector eqs.m_N x0) 1), after)) := by
  have h0lt : ((0 : ℕ) : Int) < max_iterations := by
    have : ((0 : ℕ) : Int) = 0 := rfl
    omega
  obtain ⟨J0, hJ0, hsize0, hdet0⟩ := hns 0 h0lt (fun j h1 h2 => by omega)
  have hJ0x : (Broyden.jacobianInUse self.m_Jacobian eqs).Jacobian x0 = Outcome.ret J0 := by
    have h1 : toVector (newtonSequence eqs (Broyden.jacobianInUse self.m_Jacobian eqs)
        (ofVector eqs.m_N x0) 0) = x0 := toVector_ofVector x0 hx0
    rw [h1] at hJ0
    exact hJ0
  have hboth : J0.size = eqs.m_N ∧ x0.length = eqs.m_N := ⟨hsize0, hx0⟩
  have hx1 : Broyden.xnew (Broyden.initialState self eqs x0 J0)
      = newtonSequence eqs (Broyden.jacobianInUse self.m_Jacobian eqs)
          (ofVector eqs.m_N x0) 1 := by
    rw [newtonSequence_succ eqs _ _ 0 J0 hJ0]
    rfl
  refine ⟨fun hmode => ?_, ?_, fun hmode => ?_⟩
  · obtain ⟨m, it1, s1, hloop, hm, hfin1, -, hnot, hcases⟩ :=
      SolveLoop_newton eqs (Broyden.criteriumInUse solcrit)
        (Broyden.jacobianInUse self.m_Jacobian eqs) max_iterations (ofVector eqs.m_N x0) hns
        (max_iterations - (((0 : ℕ) : Int) + 1)).toNat 0
        (Broyden.initialState self eqs x0 J0) rfl
        (by have : ((0 : ℕ) : Int) = 0 := rfl
            omega)
        (fun j h1 h2 => by omega)
        rfl rfl
        (fun J hJ => by
          have h3 : Outcome.ret J0 = Outcome.ret J := hJ0.symm.trans hJ
          simp only [Outcome.ret.injEq] at h3
          rw [← h3]
          rfl)
        (toVector_ofVector x0 hx0).symm rfl
    have h01 : ((0 : ℕ) : Int) + 1 = 1 := rfl
    rw [h01] at hloop
    refine ⟨m, { self with
        m_MaxIterations := max_iterations
        m_Iterations := it1
        m_MaxDifference := s1.maxdiff }, ?_, hnot, hcases, it1, s1, ?_, hfin1⟩
    · have hloop2 := hloop
      unfold Broyden.initialState at hloop2
      unfold Broyden.Solve
      simp only [hEq, hJ0x, hdet0, if_false, hboth, and_self, if_true]
      rw [hmode, hloop2]
      simp only [hm]
    · rw [hJ0x]
      exact hloop
  · intro k hk hprev J hJ
    obtain ⟨J1, hJ1, hsize1, hdet1⟩ := hns k hk hprev
    have h3 : Outcome.ret J1 = Outcome.ret J := hJ1.symm.trans hJ
    simp only [Outcome.ret.injEq] at h3
    subst h3
    have hunit : IsUnit (J1.toMatrix eqs.m_N).det :=
      isUnit_iff_ne_zero.mpr (toMatrix_det_ne_zero J1 eqs.m_N hsize1 hdet1)
    rw [newtonSequence_succ eqs _ _ k J1 hJ, sub_sub_cancel, Matrix.mulVec_mulVec,
      inverse_eq_inv, Matrix.mul_nonsing_inv _ hunit, Matrix.one_mulVec]
  · rw [← hx1]
    cases hacc : Broyden.accepted eqs (Broyden.criteriumInUse solcrit)
        (Broyden.initialState self eqs x0 J0) with
    | true =>
      exact ⟨_, Solve_first_iterate self eqs x0 solcrit 2 J0 hEq hJ0x hdet0 hsize0 hx0
        (by decide) hacc⟩
    | false =>
      have hcont := SolveLoop_continue eqs (Broyden.criteriumInUse solcrit)
        (Broyden.jacobianInUse self.m_Jacobian eqs) false 2 1
        (Broyden.initialState self eqs x0 J0) (by decide) hacc
      have hnext : ∀ (Jinv : Matrix (Fin eqs.m_N) (Fin eqs.m_N) ℚ) (xc : List ℚ)
          (xd fd : Fin eqs.m_N → ℚ),
          Broyden.nextJinv eqs (Broyden.jacobianInUse self.m_Jacobian eqs) false Jinv xc xd fd
            = Outcome.ret (Broyden.update Jinv xd fd) := fun _ _ _ _ => rfl
      rw [hnext] at hcont
      simp only at hcont
      rw [SolveLoop_done eqs _ _ false 2 (1 + 1) _ (by decide)] at hcont
      unfold Broyden.initialState at hcont
      refine ⟨{ self with
          m_MaxIterations := 2
          m_Iterations := 1 + 1
          m_MaxDifference :=
            maxAbs (toVector (Broyden.xnew (Broyden.initialState self eqs x0 J0))).length
              (toVector (eqs.Equations
                (Broyden.xnew (Broyden.initialState self eqs x0 J0)))) }, ?_⟩
      unfold Broyden.Solve
      simp only [hEq, hJ0x, hdet0, if_false, hboth, and_self, if_true]
      rw [hmode, hcont]
      rfl

theorem inverse_fin_one_mulVec (M : Matrix (Fin 1) (Fin 1) ℚ) (w : Fin 1 → ℚ) :
    (inverse M).mulVec w = fun _ => (M 0 0)⁻¹ * w 0 := by
  funext i
  simp [inverse, Matrix.det_fin_one, Matrix.adjugate_fin_one, Matrix.mulVec,
    Matrix.dotProduct, Matrix.one_apply, Subsingleton.elim i 0]

theorem squareJacobian_at (v : Fin 1 → ℚ) :
    squareJacobian.Jacobian (toVector v)
      = Outcome.ret (MatrixXd.ofMatrix (Matrix.of fun (_ _ : Fin 1) => 2 * v 0)) := by
  show Outcome.ret (MatrixXd.ofMatrix
    (Matrix.of fun (_ _ : Fin 1) => 2 * (toVector v).getD 0 0)) = _
  have h : (toVector v).getD 0 0 = v 0 := getD_toVector v (0 : Fin 1)
  rw [h]

/-- Newton's sequence of `squareSystem` started at `1` is `x_k = (1/2)^k`. -/
theorem square_newtonSequence (k : ℕ) :
    newtonSequence squareSystem squareJacobian (ofVector 1 [1]) k
      = fun _ => (1 / 2 : ℚ) ^ k := by
  induction k with
  | zero =>
    funext (i : Fin 1)
    have hi : i = 0 := Subsingleton.elim _ _
    subst hi
    rfl
  | succ k ih =>
    rw [newtonSequence_succ squareSystem squareJacobian _ k _ (squareJacobian_at _), ih]
    show (fun _ : Fin 1 => (1 / 2 : ℚ) ^ k)
      - (inverse ((MatrixXd.ofMatrix (Matrix.of fun (_ _ : Fin 1) => 2 * (1 / 2 : ℚ) ^ k)).toMatrix
          1)).mulVec (fun _ : Fin 1 => (1 / 2 : ℚ) ^ k * (1 / 2 : ℚ) ^ k) = _
    rw [toMatrix_ofMatrix, inverse_fin_one_mulVec]
    funext i
    have hne : (2 : ℚ) ^ k ≠ 0 := pow_ne_zero k (by norm_num)
    simp only [Pi.sub_apply, Matrix.of_apply, pow_succ, one_div, inv_pow]
    field_simp
    ring

theorem C26_newton_steps_witness :
    newtonSolver.m_UseNewton = true
    ∧ toVector (newtonSequence squareSystem squareJacobian (ofVector 1 [1]) 2) = [1 / 4]
    ∧ ∃ after : Broyden,
        newtonSolver.Solve [1]
            (some (SolutionCriteriumRef.base { m_RelativeError := 1 / 10 })) 3
          = Outcome.ret ([1 / 4], after)
        ∧ after.m_Iterations = 2 := by
  have hx2 : toVector (newtonSequence squareSystem squareJacobian (ofVector 1 [1]) 2)
      = [1 / 4] := by
    rw [square_newtonSequence]
    simp [toVector]
    norm_num
  have hacc : ∀ j : ℕ, newtonAccepted squareSystem
      (Broyden.criteriumInUse (some (SolutionCriteriumRef.base { m_RelativeError := 1 / 10 })))
      squareJacobian (ofVector 1 [1]) j
        = decide ((1 / 2 : ℚ) ^ j * (1 / 2 : ℚ) ^ j < 1 / 10) := by
    intro j
    unfold newtonAccepted
    rw [square_newtonSequence]
    show decide (maxAbs 1 [(1 / 2 : ℚ) ^ j * (1 / 2 : ℚ) ^ j] < 1 / 10) = _
    have hp : (0 : ℚ) ≤ (1 / 2 : ℚ) ^ j * (1 / 2 : ℚ) ^ j := by positivity
    have hmax : maxAbs 1 [(1 / 2 : ℚ) ^ j * (1 / 2 : ℚ) ^ j]
        = (1 / 2 : ℚ) ^ j * (1 / 2 : ℚ) ^ j := by
      show max 0 |(1 / 2 : ℚ) ^ j * (1 / 2 : ℚ) ^ j| = _
      rw [abs_of_nonneg hp, max_eq_right hp]
    rw [hmax]
  have hns : ∀ k : ℕ, (k : Int) < 3 →
      (∀ j, 0 < j → j ≤ k →
        newtonAccepted squareSystem
          (Broyden.criteriumInUse
            (some (SolutionCriteriumRef.base { m_RelativeError := 1 / 10 })))
          (Broyden.jacobianInUse newtonSolver.m_Jacobian squareSystem)
          (ofVector squareSystem.m_N [1]) j = false) →
      ∃ J, (Broyden.jacobianInUse newtonSolver.m_Jacobian squareSystem).Jacobian
          (toVector (newtonSequence squareSystem
            (Broyden.jacobianInUse newtonSolver.m_Jacobian squareSystem)
            (ofVector squareSystem.m_N [1]) k)) = Outcome.ret J
        ∧ J.size = squareSystem.m_N ∧ J.determinant ≠ 0 := by
    intro k _ _
    refine ⟨_, squareJacobian_at _, rfl, ?_⟩
    rw [determinant_ofMatrix, Matrix.det_fin_one, Matrix.of_apply]
    have h1 : newtonSequence squareSystem
        (Broyden.jacobianInUse newtonSolver.m_Jacobian squareSystem)
        (ofVector squareSystem.m_N [1]) k = fun _ => (1 / 2 : ℚ) ^ k :=
      square_newtonSequence k
    rw [h1]
    positivity
  obtain ⟨m, after, hsolve, hnot, hcases, -⟩ :=
    (C26_newton_steps newtonSolver squareSystem [1]
      (some (SolutionCriteriumRef.base { m_RelativeError := 1 / 10 })) 3 rfl rfl (by decide)
      hns).1 rfl
  have h1 : newtonAccepted squareSystem
      (Broyden.criteriumInUse (some (SolutionCriteriumRef.base { m_RelativeError := 1 / 10 })))
      squareJacobian (ofVector 1 [1]) 1 = false := by
    rw [hacc]; norm_num
  have h2 : newtonAccepted squareSystem
      (Broyden.criteriumInUse (some (SolutionCriteriumRef.base { m_RelativeError := 1 / 10 })))
      squareJacobian (ofVector 1 [1]) 2 = true := by
    rw [hacc]; norm_num
  have hm : m = 2 := by
    rcases hcases with ⟨-, hm1, hf⟩ | ⟨-, -, hpos, ht⟩
    · omega
    · have hle : m ≤ 2 := by
        by_contra hgt
        have := hnot 2 (by decide) (by omega)
        exact absurd (h2.symm.trans this) (by decide)
      have hne : m ≠ 1 := by
        intro h
        rw [h] at ht
        exact absurd (h1.symm.trans ht) (by decide)
      omega
  subst hm
  refine ⟨rfl, hx2, after, ?_, ?_⟩
  · have hx2b : toVector (newtonSequence squareSystem
        (Broyden.jacobianInUse newtonSolver.m_Jacobian squareSystem)
        (ofVector squareSystem.m_N [1]) 2) = [1 / 4] := hx2
    rw [← hx2b]
    exact hsolve
  · rcases hcases with ⟨-, hm1, hf⟩ | ⟨-, hit, -, -⟩
    · exact absurd (h2.symm.trans (hf (by decide))) (by decide)
    · exact hit.symm

theorem squareSystem_const (v : Fin squareSystem.m_N → ℚ) :
    v = fun _ => v ⟨0, Nat.one_pos⟩ := by
  funext (i : Fin 1)
  have hi : i = 0 := Subsingleton.elim _ _
  subst hi
  rfl

theorem squareSystem_mulVec (M : Matrix (Fin squareSystem.m_N) (Fin squareSystem.m_N) ℚ)
    (w : Fin squareSystem.m_N → ℚ) :
    M.mulVec w = fun _ => M ⟨0, Nat.one_pos⟩ ⟨0, Nat.one_pos⟩ * w ⟨0, Nat.one_pos⟩ := by
  have h : ∀ (M : Matrix (Fin 1) (Fin 1) ℚ) (w : Fin 1 → ℚ),
      M.mulVec w = fun _ => M 0 0 * w 0 := by
    intro M w
    funext i
    simp [Matrix.mulVec, Matrix.dotProduct, Subsingleton.elim i 0]
  exact h M w

theorem squareSystem_update (J : Matrix (Fin squareSystem.m_N) (Fin squareSystem.m_N) ℚ)
    (xd fd : Fin squareSystem.m_N → ℚ) :
    Broyden.update J xd fd ⟨0, Nat.one_pos⟩ ⟨0, Nat.one_pos⟩
      = J ⟨0, Nat.one_pos⟩ ⟨0, Nat.one_pos⟩
        + (xd ⟨0, Nat.one_pos⟩ - J ⟨0, Nat.one_pos⟩ ⟨0, Nat.one_pos⟩ * fd ⟨0, Nat.one_pos⟩)
          * (1 / (xd ⟨0, Nat.one_pos⟩ * J ⟨0, Nat.one_pos⟩ ⟨0, Nat.one_pos⟩
              * fd ⟨0, Nat.one_pos⟩))
          * xd ⟨0, Nat.one_pos⟩ * J ⟨0, Nat.one_pos⟩ ⟨0, Nat.one_pos⟩ := by
  have h : ∀ (J : Matrix (Fin 1) (Fin 1) ℚ) (xd fd : Fin 1 → ℚ),
      Broyden.update J xd fd 0 0
        = J 0 0 + (xd 0 - J 0 0 * fd 0) * (1 / (xd 0 * J 0 0 * fd 0)) * xd 0 * J 0 0 := by
    intro J xd fd
    simp [Broyden.update, Broyden.norm, Matrix.mul_apply, Matrix.vecMulVec_apply,
      Matrix.mulVec, Matrix.dotProduct]
  exact h J xd fd

theorem squareSystem_toVector (v : Fin squareSystem.m_N → ℚ) :
    toVector v = [v ⟨0, Nat.one_pos⟩] := by
  have h : ∀ v : Fin 1 → ℚ, toVector v = [v 0] := by
    intro v
    simp [toVector]
  exact h v

theorem squareSystem_criterium (tol : ℚ) (x f xd : Fin squareSystem.m_N → ℚ) :
    (Broyden.criteriumInUse
      (some (SolutionCriteriumRef.base { m_RelativeError := tol }))).IsSolved
      (toVector x) (toVector f) (toVector xd)
      = decide (|f ⟨0, Nat.one_pos⟩| < tol) := by
  rw [squareSystem_toVector f, squareSystem_toVector x]
  show decide (maxAbs 1 [f ⟨0, Nat.one_pos⟩] < tol) = _
  have hmax : maxAbs 1 [f ⟨0, Nat.one_pos⟩] = |f ⟨0, Nat.one_pos⟩| := by
    show max 0 |f ⟨0, Nat.one_pos⟩| = _
    exact max_eq_right (abs_nonneg _)
  rw [hmax]

/-- The first two iterations of the Broyden-mode solve of `f(x) = x²` from `1`. -/
theorem square_broyden_xnew :
    ∃ (s1 : SolveState squareSystem.m_N),
      Broyden.accepted squareSystem
        (Broyden.criteriumInUse (some (SolutionCriteriumRef.base { m_RelativeError := 1 / 10 })))
        (Broyden.initialState { newtonSolver with m_UseNewton := false } squareSystem [1]
          (MatrixXd.ofMatrix (Matrix.of fun (_ _ : Fin 1) => (2 : ℚ)))) = false
      ∧ Broyden.advance squareSystem (Broyden.jacobianInUse (some squareJacobian) squareSystem)
        false (Broyden.initialState { newtonSolver with m_UseNewton := false } squareSystem [1]
          (MatrixXd.ofMatrix (Matrix.of fun (_ _ : Fin 1) => (2 : ℚ)))) = Outcome.ret s1
      ∧ Broyden.accepted squareSystem
        (Broyden.criteriumInUse (some (SolutionCriteriumRef.base { m_RelativeError := 1 / 10 })))
        s1 = false
      ∧ toVector (Broyden.xnew s1) = [1 / 3] := by
  have hJinv : inverse ((MatrixXd.ofMatrix
      (Matrix.of fun (_ _ : Fin 1) => (2 : ℚ))).toMatrix squareSystem.m_N)
        ⟨0, Nat.one_pos⟩ ⟨0, Nat.one_pos⟩ = 1 / 2 := by
    show inverse ((MatrixXd.ofMatrix
      (Matrix.of fun (_ _ : Fin 1) => (2 : ℚ))).toMatrix 1) 0 0 = 1 / 2
    rw [toMatrix_ofMatrix]
    simp [inverse, Matrix.det_fin_one, Matrix.adjugate_fin_one]
  have hx0 : ofVector squareSystem.m_N ([1] : List ℚ) ⟨0, Nat.one_pos⟩ = 1 := rfl
  have hf : ∀ v : Fin squareSystem.m_N → ℚ, squareSystem.Equations v ⟨0, Nat.one_pos⟩
      = v ⟨0, Nat.one_pos⟩ * v ⟨0, Nat.one_pos⟩ := fun _ => rfl
  have hx1 : Broyden.xnew (Broyden.initialState { newtonSolver with m_UseNewton := false }
      squareSystem [1] (MatrixXd.ofMatrix (Matrix.of fun (_ _ : Fin 1) => (2 : ℚ))))
      ⟨0, Nat.one_pos⟩ = 1 / 2 := by
    simp only [Broyden.xnew, Broyden.initialState, Pi.sub_apply, squareSystem_mulVec, hJinv,
      hf, hx0]
    norm_num
  refine ⟨_, ?_, rfl, ?_, ?_⟩
  · unfold Broyden.accepted
    rw [squareSystem_criterium, hf, hx1, decide_eq_false_iff_not,
      abs_of_pos (by norm_num : (0 : ℚ) < 1 / 2 * (1 / 2))]
    norm_num
  · unfold Broyden.accepted
    rw [squareSystem_criterium, hf]
    simp only [Broyden.xnew, Pi.sub_apply, squareSystem_mulVec, squareSystem_update, hf]
    simp only [Broyden.xnew] at hx1
    simp only [hx1, Broyden.initialState, hJinv, hx0, hf]
    norm_num
    rw [abs_of_pos (by norm_num)]
    norm_num
  · rw [squareSystem_toVector]
    simp only [Broyden.xnew, Pi.sub_apply, squareSystem_mulVec, squareSystem_update, hf]
    simp only [Broyden.xnew] at hx1
    simp only [hx1, Broyden.initialState, hJinv, hx0, hf]
    norm_num

theorem advance_xcur (eqs : BroydenEquations) (jac : JacobianRef) (newton : Bool)
    (s s1 : SolveState eqs.m_N) (h : Broyden.advance eqs jac newton s = Outcome.ret s1) :
    s1.xcur = toVector (Broyden.xnew s) := by
  unfold Broyden.advance at h
  revert h
  cases Broyden.nextJinv eqs jac newton s.Jinv (toVector (Broyden.xnew s))
      (Broyden.xnew s - s.xold) (eqs.Equations (Broyden.xnew s) - s.fold) with
  | exit => intro h; cases h
  | undefined => intro h; cases h
  | ret Jinv =>
    intro h
    simp only [Outcome.ret.injEq] at h
    rw [← h]

/-- In Broyden mode the second iterate is in general not a Newton iterate: for
`f(x) = x²` started at `1` with the exact derivative as Jacobian and the tolerance `1/10`,
the call with `max_iterations = 3` returns the second iterate `1/3` of the rank-one
updates, whereas the first two terms after the start of Newton's sequence are `1/2` and
`1/4`. -/
theorem square_broyden_second_iterate :
    ∃ after : Broyden,
      Broyden.Solve { newtonSolver with m_UseNewton := false } [1]
          (some (SolutionCriteriumRef.base { m_RelativeError := 1 / 10 })) 3
        = Outcome.ret ([1 / 3], after)
      ∧ toVector (newtonSequence squareSystem squareJacobian (ofVector 1 [1]) 1) = [1 / 2]
      ∧ toVector (newtonSequence squareSystem squareJacobian (ofVector 1 [1]) 2) = [1 / 4] := by
  have hJ : (Broyden.jacobianInUse (some squareJacobian) squareSystem).Jacobian [1]
      = Outcome.ret (MatrixXd.ofMatrix (Matrix.of fun (_ _ : Fin 1) => (2 : ℚ))) := by
    show Outcome.ret (MatrixXd.ofMatrix
      (Matrix.of fun (_ _ : Fin 1) => 2 * ([1] : List ℚ).getD 0 0)) = _
    have h : (2 : ℚ) * ([1] : List ℚ).getD 0 0 = 2 := by norm_num
    rw [h]
  have hdet : (MatrixXd.ofMatrix (Matrix.of fun (_ _ : Fin 1) => (2 : ℚ))).determinant ≠ 0 := by
    rw [determinant_ofMatrix, Matrix.det_fin_one, Matrix.of_apply]
    norm_num
  obtain ⟨s1, hacc0, hadv0, hacc1, hx2⟩ := square_broyden_xnew
  obtain ⟨s2, hadv1⟩ := advance_returns squareSystem
    (Broyden.jacobianInUse (some squareJacobian) squareSystem) false (Or.inl rfl) s1
  have hloop : Broyden.SolveLoop squareSystem
      (Broyden.criteriumInUse (some (SolutionCriteriumRef.base { m_RelativeError := 1 / 10 })))
      (Broyden.jacobianInUse (some squareJacobian) squareSystem) false 3 1
      (Broyden.initialState { newtonSolver with m_UseNewton := false } squareSystem [1]
        (MatrixXd.ofMatrix (Matrix.of fun (_ _ : Fin 1) => (2 : ℚ))))
      = Outcome.ret (1 + 1 + 1, s2) := by
    rw [SolveLoop_advance squareSystem _ _ false 3 1 _ s1 (by decide) hacc0 hadv0,
      SolveLoop_advance squareSystem _ _ false 3 (1 + 1) s1 s2 (by decide) hacc1 hadv1,
      SolveLoop_done squareSystem _ _ false 3 (1 + 1 + 1) s2 (by decide)]
  have hboth : (MatrixXd.ofMatrix (Matrix.of fun (_ _ : Fin 1) => (2 : ℚ))).size
      = squareSystem.m_N ∧ ([1] : List ℚ).length = squareSystem.m_N := ⟨rfl, rfl⟩
  unfold Broyden.initialState at hloop
  refine ⟨{ newtonSolver with
      m_UseNewton := false
      m_MaxIterations := 3
      m_Iterations := 1 + 1 + 1
      m_MaxDifference := s2.maxdiff }, ?_, ?_, ?_⟩
  · unfold Broyden.Solve
    simp only [newtonSolver, hJ, hdet, if_false, hboth, and_self, if_true]
    simp only [newtonSolver] at hloop
    rw [hloop, ← hx2, ← advance_xcur squareSystem _ false s1 s2 hadv1]
  · rw [square_newtonSequence]
    simp [toVector]
  · rw [square_newtonSequence]
    simp [toVector]
    norm_num

end thermalfist
